import Mathlib

/-!
The CVT builder of ttfautohint (`lib/tacvt.c`).

A shallow embedding of `TA_sfnt_compute_global_hints` and `TA_table_build_cvt`.

The two C functions work on a font face, on the glyph-style map
`globals->glyph_styles`, on the `glyf_Data` record and on a freshly allocated
byte buffer.  Everything the functions read from outside `tacvt.c` (the
character lookup, the glyph loader, the charmap selection, the style and
script class tables, the allocator) is a field of `Env`; the functions
themselves are translated statement by statement.

Conventions.

* `FT_Pos` values (`widths[j].org`, `blues[j].ref.org`, ...) are `Int`.
* `FT_UInt` counters are `Nat`.  The counts added up by the first loop are
  lengths of fixed-size arrays of the metrics record and there are fewer
  than 128 styles (a style index shares a byte with `TA_DIGIT`), so the
  32-bit sums of `buf_len` do not wrap.
* A `for (i = 0; i < n; i++)` loop with body `step` is the function
  `loop n` with `loop 0 = start` and `loop (k + 1) = step (loop k) k`:
  `loop k` is the state in front of iteration `k`.
* The buffer is the sequence of bytes stored through `*(bufp++)`, in order,
  starting at `buf[0]`, together with the length handed to `malloc`.
-/

namespace TTFAutohint

/-! ## Error codes -/

/-- The values of `FT_Error` that `tacvt.c` names, and all others. -/
inductive FT_Error where
  | FT_Err_Ok
  | FT_Err_Out_Of_Memory
  | TA_Err_Missing_Glyph
  | TA_Err_Missing_Unicode_CMap
  | TA_Err_Missing_Symbol_CMap
  | TA_Err_Hinter_Overflow
  | other (code : Nat)
  deriving DecidableEq, Repr

open FT_Error

/-! ## Macros declared outside `tacvt.c` -/

/-- The 16-bit cell that the two bytes `HIGH(x)`, `LOW(x)` encode: `x`
reduced modulo `2^16` (two's complement for a negative `x`). -/
def cell16 (x : Int) : Nat := (x % 65536).toNat

/-- Modelled from the spec: the macro `HIGH(x)`, `(FT_Byte)(((x) & 0xFF00) >> 8)`,
is declared in a header that is not part of the sources at hand; the CVT is
an array of big-endian 16-bit cells. -/
def HIGH (x : Int) : Nat := cell16 x / 256

/-- Modelled from the spec: the macro `LOW(x)`, `((x) & 0x00FF)`, is declared
in a header that is not part of the sources at hand. -/
def LOW (x : Int) : Nat := cell16 x % 256

/-! ## Data model -/

/-- A `TA_WidthRec`; only `org` is read by the CVT builder. -/
structure TA_WidthRec where
  org : Int

/-- A `TA_LatinBlueRec`. -/
structure TA_LatinBlueRec where
  ref : TA_WidthRec
  shoot : TA_WidthRec
  flags : Nat

/-- A `TA_LatinAxisRec`: the arrays `widths` and `blues` are indexed below
`width_count` and `blue_count + 2`. -/
structure TA_LatinAxisRec where
  width_count : Nat
  widths : Nat → TA_WidthRec
  blue_count : Nat
  blues : Nat → TA_LatinBlueRec

/-- The record `font->loader->hints.metrics` points to after a glyph has been
loaded.  `style_class` is the index of the style whose class the metrics
carry, so `metrics->style_class == &ta_none_dflt_style_class` reads
`style_class = TA_STYLE_NONE_DFLT`. -/
structure TA_LatinMetricsRec where
  style_class : Nat
  haxis : TA_LatinAxisRec
  vaxis : TA_LatinAxisRec

/-- The fields of `glyf_Data` that `TA_table_build_cvt` assigns. -/
structure glyf_Data where
  num_used_styles : Nat
  style_ids : Nat → Nat
  cvt_offsets : Nat → Nat
  cvt_horz_width_sizes : Nat → Nat
  cvt_vert_width_sizes : Nat → Nat
  cvt_blue_zone_sizes : Nat → Nat
  cvt_blue_adjustment_offsets : Nat → Nat

/-- What `tacvt.c` reads from its surroundings. -/
structure Env where
  /-- number of styles -/
  TA_STYLE_MAX : Nat
  /-- index of the style `none_dflt` -/
  TA_STYLE_NONE_DFLT : Nat
  /-- number of cells of the fixed runtime area -/
  cvtl_max_runtime : Nat
  /-- the bit `TA_LATIN_BLUE_ADJUSTMENT` of `blues[j].flags` -/
  TA_LATIN_BLUE_ADJUSTMENT : Nat
  /-- the flag `TA_DIGIT` of a `glyph_styles` byte -/
  TA_DIGIT : Nat
  /-- the mask `TA_STYLE_UNASSIGNED` of the style bits of a `glyph_styles` byte -/
  TA_STYLE_UNASSIGNED : Nat
  /-- `FT_Select_Charmap(face, FT_ENCODING_UNICODE)` returns an error -/
  unicode_charmap_fails : Bool
  /-- `FT_Select_Charmap(face, FT_ENCODING_MS_SYMBOL)` returns an error -/
  ms_symbol_charmap_fails : Bool
  /-- `font->symbol` -/
  symbol : Bool
  /-- `font->fallback_style` -/
  fallback_style : Nat
  /-- `ta_script_classes[ta_style_classes[style]->script]->standard_char1` -/
  standard_char1 : Nat → Nat
  /-- likewise `standard_char2` -/
  standard_char2 : Nat → Nat
  /-- likewise `standard_char3` -/
  standard_char3 : Nat → Nat
  /-- `ta_get_char_index`: style and character to glyph index -/
  ta_get_char_index : Nat → Nat → Nat
  /-- `ta_loader_load_glyph` on the current glyph-style map and a glyph
  index: the error it returns and the metrics it leaves in the loader -/
  ta_loader_load_glyph : List Nat → Nat → FT_Error × TA_LatinMetricsRec
  /-- `sfnt->face->units_per_EM` -/
  units_per_EM : Nat
  /-- `globals->glyph_styles` on entry; `glyph_count` is its length -/
  glyph_styles : List Nat
  /-- `malloc` returns `NULL` -/
  malloc_fails : Bool
  /-- `glyf_Data` on entry -/
  data : glyf_Data

/-- Assignment `a[i] = v` to an array indexed by style. -/
def store (a : Nat → Nat) (i v : Nat) : Nat → Nat :=
  fun k => if k = i then v else a k

/-! ## `TA_sfnt_compute_global_hints` -/

/-- Lines 31-42: the charmap selection.  `none` when the function goes on. -/
def select_charmap (env : Env) : Option FT_Error :=
  if env.unicode_charmap_fails then
    if env.symbol then
      if env.ms_symbol_charmap_fails then some TA_Err_Missing_Symbol_CMap
      else none
    else some TA_Err_Missing_Unicode_CMap
  else none

/-- Lines 64-85: the calls of `ta_get_char_index`.  The first component lists
the characters that were looked up, in call order; the second is
`glyph_index` after the last call. -/
def lookup_standard_char (env : Env) (style_idx : Nat) : List Nat × Nat :=
  let c1 := env.standard_char1 style_idx
  let g1 := env.ta_get_char_index style_idx c1
  if g1 = 0 then
    let c2 := env.standard_char2 style_idx
    if c2 ≠ 0 then
      let g2 := env.ta_get_char_index style_idx c2
      if g2 = 0 then
        let c3 := env.standard_char3 style_idx
        if c3 ≠ 0 then ([c1, c2, c3], env.ta_get_char_index style_idx c3)
        else ([c1, c2], g2)
      else ([c1, c2], g2)
    else ([c1], g1)
  else ([c1], g1)

/-- Lines 112-116: the least `i` with `gstyles[i] == style_idx`, and
`glyph_count` when there is none. -/
def find_style : List Nat → Nat → Nat
  | [], _ => 0
  | g :: gs, style_idx => if g = style_idx then 0 else find_style gs style_idx + 1

/-- Lines 44-123: the glyph that is handed to the loader, or the error
returned before the label `Symbol`.  A glyph index returned by the character
lookup is a glyph of the face, so `gstyles[glyph_index]` is a read inside
the map; an index outside compares unequal. -/
def select_glyph (env : Env) (gstyles : List Nat) (style_idx : Nat) :
    Except FT_Error Nat :=
  let glyph_index := (lookup_standard_char env style_idx).2
  if glyph_index = 0 then
    if env.symbol ∧ env.fallback_style ≠ env.TA_STYLE_NONE_DFLT
        ∧ env.fallback_style = style_idx then
      .ok glyph_index
    else .error TA_Err_Missing_Glyph
  else if gstyles[glyph_index]? ≠ some style_idx then
    let i := find_style gstyles style_idx
    if i = gstyles.length then .error TA_Err_Missing_Glyph
    else .ok i
  else .ok glyph_index

/-- The function `TA_sfnt_compute_global_hints(sfnt, font, style_idx)` on the
glyph-style map `gstyles`: the error it returns, or on `FT_Err_Ok` the
metrics the loader has left in `font->loader->hints.metrics`. -/
def TA_sfnt_compute_global_hints (env : Env) (gstyles : List Nat) (style_idx : Nat) :
    Except FT_Error TA_LatinMetricsRec :=
  match select_charmap env with
  | some e => .error e
  | none =>
    match select_glyph env gstyles style_idx with
    | .error e => .error e
    | .ok glyph_index =>
      let r := env.ta_loader_load_glyph gstyles glyph_index
      if r.1 = FT_Err_Ok then .ok r.2 else .error r.1

/-! ## `TA_table_build_cvt`, first loop -/

/-- The variables the first loop changes. -/
structure FirstLoop where
  gstyles : List Nat
  num_used_styles : Nat
  style_ids : Nat → Nat
  hwidth_count : Nat
  vwidth_count : Nat
  blue_count : Nat

/-- The C expression `g & ~m` on an unsigned value: the bits of `m` are
cleared in `g`. -/
def clear_bits (g m : Nat) : Nat := g - (g &&& m)

/-- Lines 183-187 for one glyph-style byte `g` (`gstyles` is an array of
`FT_Byte`, so the stored value is reduced modulo 256). -/
def strip_style (env : Env) (i g : Nat) : Nat :=
  if clear_bits g env.TA_DIGIT = i then
    (clear_bits g env.TA_STYLE_UNASSIGNED ||| env.fallback_style) % 256
  else g

/-- Lines 169-210: one iteration of the first loop. -/
def first_loop_step (env : Env) (st : FirstLoop) (i : Nat) : Except FT_Error FirstLoop :=
  match TA_sfnt_compute_global_hints env st.gstyles i with
  | .error e =>
    if e = TA_Err_Missing_Glyph then
      .ok { st with
        style_ids := store st.style_ids i 0xFFFF
        gstyles := st.gstyles.map (strip_style env i) }
    else .error e
  | .ok metrics =>
    let st1 := { st with
      style_ids := store st.style_ids i st.num_used_styles
      num_used_styles := st.num_used_styles + 1 }
    if i = env.TA_STYLE_NONE_DFLT then .ok st1
    else
      .ok { st1 with
        hwidth_count := st1.hwidth_count + metrics.haxis.width_count
        vwidth_count := st1.vwidth_count + metrics.vaxis.width_count
        blue_count := st1.blue_count + (metrics.vaxis.blue_count + 2) }

/-- Lines 161-165: the state in front of the first loop. -/
def first_loop_start (env : Env) : FirstLoop :=
  { gstyles := env.glyph_styles
    num_used_styles := 0
    style_ids := env.data.style_ids
    hwidth_count := 0
    vwidth_count := 0
    blue_count := 0 }

/-- Lines 167-211: the state in front of iteration `n` of the first loop, or
the error an earlier iteration has returned. -/
def first_loop (env : Env) : Nat → Except FT_Error FirstLoop
  | 0 => .ok (first_loop_start env)
  | n + 1 =>
    match first_loop env n with
    | .error e => .error e
    | .ok st => first_loop_step env st n

/-- The result of the call of `TA_sfnt_compute_global_hints` in iteration `i`
of the first loop (`none` when the loop has returned before). -/
def first_loop_hints (env : Env) (i : Nat) : Option (Except FT_Error TA_LatinMetricsRec) :=
  match first_loop env i with
  | .error _ => none
  | .ok st => some (TA_sfnt_compute_global_hints env st.gstyles i)

/-! ## `TA_table_build_cvt`, second loop -/

/-- The variables the second loop changes; `bytes` holds `buf[0]`, ...,
`bufp[-1]`, so `bufp - buf` is its length. -/
structure SecondLoop where
  bytes : List Nat
  cvt_offsets : Nat → Nat
  cvt_horz_width_sizes : Nat → Nat
  cvt_vert_width_sizes : Nat → Nat
  cvt_blue_zone_sizes : Nat → Nat
  cvt_blue_adjustment_offsets : Nat → Nat

/-- Line 258: `default_width`. -/
def default_width (env : Env) : Nat := 50 * env.units_per_EM / 2048

/-- The loop shared by lines 301-307, 321-327 and 331-337: for `j < n`, jump
to `Err` when the value `org j` is greater than `0xFFFF`, and store its two
bytes otherwise; `none` is the jump to `Err`. -/
def put_cells (org : Nat → Int) : Nat → List Nat → Option (List Nat)
  | 0, bytes => some bytes
  | j + 1, bytes =>
    match put_cells org j bytes with
    | none => none
    | some b =>
      if org j > 0xFFFF then none
      else some (b ++ [HIGH (org j), LOW (org j)])

/-- Lines 301-307 and 321-327: the loop over `widths[j].org`, `j < n`. -/
def put_widths (axis : TA_LatinAxisRec) (n : Nat) (bytes : List Nat) : Option (List Nat) :=
  put_cells (fun j => (axis.widths j).org) n bytes

/-- Lines 331-337: the loop over `blues[j].ref.org`, `j < n`. -/
def put_refs (axis : TA_LatinAxisRec) (n : Nat) (bytes : List Nat) : Option (List Nat) :=
  put_cells (fun j => (axis.blues j).ref.org) n bytes

/-- Lines 339-348: the loop over `blues[j].shoot`, `j < n`; the second
component is `cvt_blue_adjustment_offsets[i]`. -/
def put_shoots (env : Env) (axis : TA_LatinAxisRec) :
    Nat → List Nat × Nat → Option (List Nat × Nat)
  | 0, s => some s
  | j + 1, s =>
    match put_shoots env axis j s with
    | none => none
    | some (b, adj) =>
      if (axis.blues j).shoot.org > 0xFFFF then none
      else
        some (b ++ [HIGH (axis.blues j).shoot.org, LOW (axis.blues j).shoot.org],
              if (axis.blues j).flags &&& env.TA_LATIN_BLUE_ADJUSTMENT ≠ 0 then j else adj)

/-- Lines 270-287: `hwidth_count`, `vwidth_count` and `blue_count` of the
second loop. -/
def block_counts (env : Env) (metrics : TA_LatinMetricsRec) : Nat × Nat × Nat :=
  if metrics.style_class = env.TA_STYLE_NONE_DFLT then (0, 0, 0)
  else (metrics.haxis.width_count, metrics.vaxis.width_count, metrics.vaxis.blue_count + 2)

/-- Lines 289-299 and 309-319: the two bytes of a standard-width cell. -/
def standard_width_bytes (env : Env) (axis : TA_LatinAxisRec) (count : Nat) : List Nat :=
  if count > 0 then [HIGH (axis.widths 0).org, LOW (axis.widths 0).org]
  else [HIGH (default_width env), LOW (default_width env)]

/-- Lines 289-352: the block of one style is appended and its sizes are
recorded. -/
def write_block (env : Env) (metrics : TA_LatinMetricsRec) (st : SecondLoop) (i : Nat) :
    Except FT_Error SecondLoop :=
  let hwidth_count := (block_counts env metrics).1
  let vwidth_count := (block_counts env metrics).2.1
  let blue_count := (block_counts env metrics).2.2
  match put_widths metrics.haxis hwidth_count
      (st.bytes ++ standard_width_bytes env metrics.haxis hwidth_count) with
  | none => .error TA_Err_Hinter_Overflow
  | some b1 =>
    match put_widths metrics.vaxis vwidth_count
        (b1 ++ standard_width_bytes env metrics.vaxis vwidth_count) with
    | none => .error TA_Err_Hinter_Overflow
    | some b2 =>
      match put_refs metrics.vaxis blue_count b2 with
      | none => .error TA_Err_Hinter_Overflow
      | some b3 =>
        match put_shoots env metrics.vaxis blue_count (b3, 0xFFFF) with
        | none => .error TA_Err_Hinter_Overflow
        | some (b4, adj) =>
          .ok { st with
            bytes := b4
            cvt_blue_adjustment_offsets := store st.cvt_blue_adjustment_offsets i adj
            cvt_horz_width_sizes := store st.cvt_horz_width_sizes i hwidth_count
            cvt_vert_width_sizes := store st.cvt_vert_width_sizes i vwidth_count
            cvt_blue_zone_sizes := store st.cvt_blue_zone_sizes i blue_count }

/-- Lines 258-352: one iteration of the second loop.  `gstyles` is the
glyph-style map the first loop has left, `cvt_offset` the byte offset of the
end of the runtime area. -/
def second_loop_step (env : Env) (gstyles : List Nat) (cvt_offset : Nat)
    (st : SecondLoop) (i : Nat) : Except FT_Error SecondLoop :=
  let st1 := { st with
    cvt_offsets := store st.cvt_offsets i ((st.bytes.length - cvt_offset) >>> 1) }
  match TA_sfnt_compute_global_hints env gstyles i with
  | .error e => if e = TA_Err_Missing_Glyph then .ok st1 else .error e
  | .ok metrics => write_block env metrics st1 i

/-- Lines 256-353: the state in front of iteration `n` of the second loop,
or the error an earlier iteration has returned. -/
def second_loop (env : Env) (gstyles : List Nat) (cvt_offset : Nat) (start : SecondLoop) :
    Nat → Except FT_Error SecondLoop
  | 0 => .ok start
  | n + 1 =>
    match second_loop env gstyles cvt_offset start n with
    | .error e => .error e
    | .ok st => second_loop_step env gstyles cvt_offset st n

/-! ## `TA_table_build_cvt` -/

/-- What a successful call hands back: the buffer `*cvt` (the bytes stored
through `bufp`, and the allocated length `len`), `*cvt_len`, and the state of
`glyf_Data` and of the glyph-style map. -/
structure CvtTable where
  cvt : List Nat
  len : Nat
  cvt_len : Nat
  data : glyf_Data
  glyph_styles : List Nat

/-- Lines 218-225: `buf_len`. -/
def buf_len (env : Env) (st : FirstLoop) : Nat :=
  (env.cvtl_max_runtime
    + st.num_used_styles
    + 2 * st.num_used_styles
    + 2 * st.num_used_styles
    + st.hwidth_count
    + st.vwidth_count
    + 2 * st.blue_count) <<< 1

/-- Lines 248-253: the number of zero bytes of the runtime area, which is
`cvt_offset`. -/
def runtime_bytes (env : Env) (st : FirstLoop) : Nat :=
  (env.cvtl_max_runtime + st.num_used_styles + 2 * st.num_used_styles) * 2

/-- Lines 238-253: the state in front of the second loop. -/
def second_loop_start (env : Env) (st : FirstLoop) : SecondLoop :=
  { bytes := List.replicate (runtime_bytes env st) 0
    cvt_offsets := env.data.cvt_offsets
    cvt_horz_width_sizes := env.data.cvt_horz_width_sizes
    cvt_vert_width_sizes := env.data.cvt_vert_width_sizes
    cvt_blue_zone_sizes := env.data.cvt_blue_zone_sizes
    cvt_blue_adjustment_offsets := env.data.cvt_blue_adjustment_offsets }

/-- The function `TA_table_build_cvt(cvt, cvt_len, sfnt, font)`: the error it
returns, or on `FT_Err_Ok` what it has assigned.  Lines 233-236 zero the last
three bytes of the allocated buffer before anything is stored through
`bufp`; these stores are not part of the byte sequence `cvt`. -/
def TA_table_build_cvt (env : Env) : Except FT_Error CvtTable :=
  match first_loop env env.TA_STYLE_MAX with
  | .error e => .error e
  | .ok st1 =>
    if st1.num_used_styles = 0 ∧ env.symbol = false then .error TA_Err_Missing_Glyph
    else if env.malloc_fails then .error FT_Err_Out_Of_Memory
    else
      match second_loop env st1.gstyles (runtime_bytes env st1)
          (second_loop_start env st1) env.TA_STYLE_MAX with
      | .error e => .error e
      | .ok st2 =>
        .ok { cvt := st2.bytes
              len := (buf_len env st1 + 3) / 4 * 4
              cvt_len := buf_len env st1
              data :=
                { num_used_styles := st1.num_used_styles
                  style_ids := st1.style_ids
                  cvt_offsets := st2.cvt_offsets
                  cvt_horz_width_sizes := st2.cvt_horz_width_sizes
                  cvt_vert_width_sizes := st2.cvt_vert_width_sizes
                  cvt_blue_zone_sizes := st2.cvt_blue_zone_sizes
                  cvt_blue_adjustment_offsets := st2.cvt_blue_adjustment_offsets }
              glyph_styles := st1.gstyles }

/-- The output parameter `*cvt` after the call: `none` when it has not been
assigned. -/
def cvt_assigned (r : Except FT_Error CvtTable) : Option (List Nat) :=
  match r with
  | .error _ => none
  | .ok t => some t.cvt

/-- The output parameter `*cvt_len` after the call: `none` when it has not
been assigned. -/
def cvt_len_assigned (r : Except FT_Error CvtTable) : Option Nat :=
  match r with
  | .error _ => none
  | .ok t => some t.cvt_len

/-! ## Reading the table back -/

/-- The bytes of a sequence of cells: `HIGH`, `LOW` of each value in turn. -/
def encode : List Int → List Nat
  | [] => []
  | x :: xs => HIGH x :: LOW x :: encode xs

/-- Big-endian decoding of a byte sequence into 16-bit cells. -/
def decode16 : List Nat → List Nat
  | hi :: lo :: rest => (hi * 256 + lo) :: decode16 rest
  | _ => []

/-- The values `widths[0].org`, ..., `widths[n-1].org` of an axis. -/
def widths_org (axis : TA_LatinAxisRec) (n : Nat) : List Int :=
  (List.range n).map (fun j => (axis.widths j).org)

/-- The values `blues[0].ref.org`, ..., `blues[n-1].ref.org` of an axis. -/
def refs_org (axis : TA_LatinAxisRec) (n : Nat) : List Int :=
  (List.range n).map (fun j => (axis.blues j).ref.org)

/-- The values `blues[0].shoot.org`, ..., `blues[n-1].shoot.org` of an axis. -/
def shoots_org (axis : TA_LatinAxisRec) (n : Nat) : List Int :=
  (List.range n).map (fun j => (axis.blues j).shoot.org)

/-- The value of the standard-width cell of an axis with `count` widths. -/
def standard_width (env : Env) (axis : TA_LatinAxisRec) (count : Nat) : Int :=
  if count > 0 then (axis.widths 0).org else (default_width env : Int)

/-- The result of the call of `TA_sfnt_compute_global_hints` in iteration `i`
of the second loop, which runs on the glyph-style map the first loop has
left (`none` when the first loop has returned). -/
def second_loop_hints (env : Env) (i : Nat) : Option (Except FT_Error TA_LatinMetricsRec) :=
  match first_loop env env.TA_STYLE_MAX with
  | .error _ => none
  | .ok st => some (TA_sfnt_compute_global_hints env st.gstyles i)

/-- Style `i` is used: the first loop's call for `i` returned `FT_Err_Ok`. -/
def style_used (env : Env) (i : Nat) : Bool :=
  match first_loop_hints env i with
  | some (.ok _) => true
  | _ => false

/-- The first loop's call for style `i` returned `TA_Err_Missing_Glyph`. -/
def style_missing (env : Env) (i : Nat) : Bool :=
  match first_loop_hints env i with
  | some (.error e) => decide (e = TA_Err_Missing_Glyph)
  | _ => false

/-- The metrics the first loop's call for style `i` has loaded, when it
returned `FT_Err_Ok`. -/
def first_loop_metrics (env : Env) (i : Nat) : Option TA_LatinMetricsRec :=
  match first_loop_hints env i with
  | some (.ok m) => some m
  | _ => none

/-- The number of horizontal widths the first loop adds for style `i`:
`haxis->width_count` of a used style other than `none_dflt`. -/
def counted_hwidths (env : Env) (i : Nat) : Nat :=
  match first_loop_metrics env i with
  | some m => if i = env.TA_STYLE_NONE_DFLT then 0 else m.haxis.width_count
  | none => 0

/-- The number of vertical widths the first loop adds for style `i`. -/
def counted_vwidths (env : Env) (i : Nat) : Nat :=
  match first_loop_metrics env i with
  | some m => if i = env.TA_STYLE_NONE_DFLT then 0 else m.vaxis.width_count
  | none => 0

/-- The number of blue zones the first loop adds for style `i`:
`vaxis->blue_count + 2` of a used style other than `none_dflt`. -/
def counted_blues (env : Env) (i : Nat) : Nat :=
  match first_loop_metrics env i with
  | some m => if i = env.TA_STYLE_NONE_DFLT then 0 else m.vaxis.blue_count + 2
  | none => 0

/-- The sum of `f 0`, ..., `f (n - 1)`. -/
def sum_below (f : Nat → Nat) : Nat → Nat
  | 0 => 0
  | n + 1 => sum_below f n + f n

/-- The number of used styles below `n`. -/
def used_below (env : Env) (n : Nat) : Nat :=
  sum_below (fun i => if style_used env i then 1 else 0) n

/-- The values the second loop compares with `0xFFFF` for a style with
metrics `m`. -/
def checked_cells (env : Env) (m : TA_LatinMetricsRec) : List Int :=
  widths_org m.haxis (block_counts env m).1
    ++ widths_org m.vaxis (block_counts env m).2.1
    ++ refs_org m.vaxis (block_counts env m).2.2
    ++ shoots_org m.vaxis (block_counts env m).2.2

/-- The values of the cells of the block of a style with metrics `m`, in
the order the second loop stores them. -/
def block_cells (env : Env) (m : TA_LatinMetricsRec) : List Int :=
  standard_width env m.haxis (block_counts env m).1
    :: widths_org m.haxis (block_counts env m).1
    ++ standard_width env m.vaxis (block_counts env m).2.1
    :: widths_org m.vaxis (block_counts env m).2.1
    ++ refs_org m.vaxis (block_counts env m).2.2
    ++ shoots_org m.vaxis (block_counts env m).2.2

/-- The value lines 329 and 346-347 leave in `cvt_blue_adjustment_offsets[i]`
after `n` blue zones, starting from `adj`. -/
def blue_adjustment (env : Env) (axis : TA_LatinAxisRec) : Nat → Nat → Nat
  | 0, adj => adj
  | j + 1, adj =>
    if (axis.blues j).flags &&& env.TA_LATIN_BLUE_ADJUSTMENT ≠ 0 then j
    else blue_adjustment env axis j adj

/-- The invariant of the first loop in front of iteration `n`. -/
structure FirstLoopInv (env : Env) (n : Nat) (st : FirstLoop) : Prop where
  settled : ∀ i, i < n → style_used env i = true ∨ style_missing env i = true
  used : st.num_used_styles = used_below env n
  ids_missing : ∀ i, i < n → style_missing env i = true → st.style_ids i = 0xFFFF
  ids_used : ∀ i, i < n → style_used env i = true → st.style_ids i = used_below env i
  hwidths : st.hwidth_count = sum_below (counted_hwidths env) n
  vwidths : st.vwidth_count = sum_below (counted_vwidths env) n
  blues : st.blue_count = sum_below (counted_blues env) n

/-- What `write_block` does when no value is greater than `0xFFFF`. -/
def block_written (env : Env) (m : TA_LatinMetricsRec) (st : SecondLoop) (i : Nat) : SecondLoop :=
  { st with
    bytes := st.bytes ++ encode (block_cells env m)
    cvt_blue_adjustment_offsets :=
      store st.cvt_blue_adjustment_offsets i
        (blue_adjustment env m.vaxis (block_counts env m).2.2 0xFFFF)
    cvt_horz_width_sizes := store st.cvt_horz_width_sizes i (block_counts env m).1
    cvt_vert_width_sizes := store st.cvt_vert_width_sizes i (block_counts env m).2.1
    cvt_blue_zone_sizes := store st.cvt_blue_zone_sizes i (block_counts env m).2.2 }

/-- The bytes the second loop appends in iteration `i` when it runs on the
glyph-style map `gstyles`: the block of the style when the call returns
`FT_Err_Ok`, nothing when it returns `TA_Err_Missing_Glyph`. -/
def block_bytes (env : Env) (gstyles : List Nat) (i : Nat) : List Nat :=
  match TA_sfnt_compute_global_hints env gstyles i with
  | .ok m => encode (block_cells env m)
  | .error _ => []

/-- The bytes the iterations below `n` of the second loop append. -/
def blocks_below (env : Env) (gstyles : List Nat) : Nat → List Nat
  | 0 => []
  | n + 1 => blocks_below env gstyles n ++ block_bytes env gstyles n

/-- The invariant of the second loop in front of iteration `n`. -/
structure SecondLoopInv (env : Env) (gstyles : List Nat) (cvt_offset : Nat)
    (start : SecondLoop) (n : Nat) (st : SecondLoop) : Prop where
  settled : ∀ i, i < n →
    TA_sfnt_compute_global_hints env gstyles i = .error TA_Err_Missing_Glyph
    ∨ ∃ m, TA_sfnt_compute_global_hints env gstyles i = .ok m
        ∧ ∀ x ∈ checked_cells env m, x ≤ 0xFFFF
  bytes : st.bytes = start.bytes ++ blocks_below env gstyles n
  offsets : ∀ i, i < n →
    st.cvt_offsets i = ((start.bytes ++ blocks_below env gstyles i).length - cvt_offset) >>> 1
  hsizes : ∀ i m, i < n → TA_sfnt_compute_global_hints env gstyles i = .ok m →
    st.cvt_horz_width_sizes i = (block_counts env m).1
  vsizes : ∀ i m, i < n → TA_sfnt_compute_global_hints env gstyles i = .ok m →
    st.cvt_vert_width_sizes i = (block_counts env m).2.1
  bsizes : ∀ i m, i < n → TA_sfnt_compute_global_hints env gstyles i = .ok m →
    st.cvt_blue_zone_sizes i = (block_counts env m).2.2
  adjust : ∀ i m, i < n → TA_sfnt_compute_global_hints env gstyles i = .ok m →
    st.cvt_blue_adjustment_offsets i
      = blue_adjustment env m.vaxis (block_counts env m).2.2 0xFFFF

/-! ## Sample fonts -/

/-- A `glyf_Data` record with all fields zero. -/
def zero_data : glyf_Data :=
  { num_used_styles := 0
    style_ids := fun _ => 0
    cvt_offsets := fun _ => 0
    cvt_horz_width_sizes := fun _ => 0
    cvt_vert_width_sizes := fun _ => 0
    cvt_blue_zone_sizes := fun _ => 0
    cvt_blue_adjustment_offsets := fun _ => 0 }

/-- Horizontal axis of the sample latin metrics: two widths, no blue zones. -/
def sample_haxis : TA_LatinAxisRec :=
  { width_count := 2
    widths := fun j => ⟨if j = 0 then 100 else 120⟩
    blue_count := 0
    blues := fun _ => ⟨⟨0⟩, ⟨0⟩, 0⟩ }

/-- Vertical axis of the sample latin metrics: one width, two blue zones (the
second one flagged as x-height) and the two artificial zones, the last of
which is a descender with a negative coordinate. -/
def sample_vaxis : TA_LatinAxisRec :=
  { width_count := 1
    widths := fun _ => ⟨90⟩
    blue_count := 2
    blues := fun j =>
      if j = 0 then ⟨⟨0⟩, ⟨-10⟩, 0⟩
      else if j = 1 then ⟨⟨500⟩, ⟨510⟩, 1⟩
      else if j = 2 then ⟨⟨700⟩, ⟨700⟩, 0⟩
      else ⟨⟨-200⟩, ⟨-200⟩, 0⟩ }

/-- An axis without widths and blue zones. -/
def empty_axis : TA_LatinAxisRec :=
  { width_count := 0
    widths := fun _ => ⟨0⟩
    blue_count := 0
    blues := fun _ => ⟨⟨0⟩, ⟨0⟩, 0⟩ }

/-- A loader for a font with three styles (0: latin, 1: a second script,
2: `none_dflt`): it succeeds and leaves the metrics of the style of the
loaded glyph, which are `latin` for style 0 and empty otherwise. -/
def sample_loader (latin : TA_LatinMetricsRec) (gstyles : List Nat) (glyph_index : Nat) :
    FT_Error × TA_LatinMetricsRec :=
  if gstyles.getD glyph_index 0 % 128 = 0 then (FT_Err_Ok, latin)
  else (FT_Err_Ok, ⟨gstyles.getD glyph_index 0 % 128, empty_axis, empty_axis⟩)

/-- A latin font: glyph 1 is `o`, glyph 2 the digit zero, glyph 3 a letter of
a second script whose standard characters the font lacks; uncovered glyphs
fall back to `none_dflt`. -/
def latin_font : Env :=
  { TA_STYLE_MAX := 3
    TA_STYLE_NONE_DFLT := 2
    cvtl_max_runtime := 4
    TA_LATIN_BLUE_ADJUSTMENT := 1
    TA_DIGIT := 0x80
    TA_STYLE_UNASSIGNED := 0x7F
    unicode_charmap_fails := false
    ms_symbol_charmap_fails := false
    symbol := false
    fallback_style := 2
    standard_char1 := fun s => if s = 2 then 0 else 111
    standard_char2 := fun s => if s = 2 then 0 else 79
    standard_char3 := fun s => if s = 2 then 0 else 48
    ta_get_char_index := fun s c =>
      if s = 0 ∧ c = 111 then 1 else if s = 0 ∧ c = 48 then 2 else 0
    ta_loader_load_glyph := sample_loader ⟨0, sample_haxis, sample_vaxis⟩
    units_per_EM := 2048
    glyph_styles := [2, 0, 0x80, 1]
    malloc_fails := false
    data := zero_data }

/-- The table a successful call hands back. -/
def built_table (env : Env) : Option CvtTable :=
  match TA_table_build_cvt env with
  | .ok t => some t
  | .error _ => none

/-- A symbol font: no standard character of any style has a glyph, the
fallback style is `none_dflt`. -/
def symbol_font : Env :=
  { latin_font with
    symbol := true
    ta_get_char_index := fun _ _ => 0
    glyph_styles := [2, 2, 1] }

/-- A latin font without `o`, `O` and the digit zero, hinted with the latin
fallback script (style 0): glyph 0 is uncovered and carries the fallback
style, glyph 1 is a latin letter, glyph 2 a latin digit, glyph 3 a letter of
the second script. -/
def fallback_font : Env :=
  { latin_font with
    fallback_style := 0
    ta_get_char_index := fun _ _ => 0
    glyph_styles := [0, 0, 0x80, 1] }

/-- The glyph-style map in front of iteration `n` of the first loop. -/
def gstyles_before (env : Env) (n : Nat) : Option (List Nat) :=
  match first_loop env n with
  | .ok st => some st.gstyles
  | .error _ => none

/-- The 16-bit cell number `k` of a byte sequence, read big-endian. -/
def cell_at (bytes : List Nat) (k : Nat) : Option Nat :=
  (decode16 (bytes.drop (2 * k))).head?

/-- The second loop stores a block for style `i`: its call returns
`FT_Err_Ok`. -/
def style_written (env : Env) (i : Nat) : Bool :=
  match second_loop_hints env i with
  | some (.ok _) => true
  | _ => false

/-- The cells of a block in the words of the specification: "horizontal
standard width, then `hwidth_count-1` additional widths; vertical standard
width, then `vwidth_count-1` additional widths; `blue_count` reference
coordinates; `blue_count` shoot coordinates". -/
def spec_block_cells (env : Env) (m : TA_LatinMetricsRec) : List Int :=
  standard_width env m.haxis (block_counts env m).1
    :: (widths_org m.haxis (block_counts env m).1).drop 1
    ++ standard_width env m.vaxis (block_counts env m).2.1
    :: (widths_org m.vaxis (block_counts env m).2.1).drop 1
    ++ refs_org m.vaxis (block_counts env m).2.2
    ++ shoots_org m.vaxis (block_counts env m).2.2

/-- The widths and blues of style `i` as the metrics count them, for a used
style. -/
def widths_and_blues (env : Env) (i : Nat) : Nat :=
  match first_loop_metrics env i with
  | some m => m.haxis.width_count + m.vaxis.width_count + m.vaxis.blue_count
  | none => 0

/-- The length of the table in the words of the specification: "the sum of
computed widths and blues per style times 2 plus runtime scratch", the
runtime scratch being the fixed runtime area. -/
def spec_cvt_len (env : Env) : Nat :=
  2 * sum_below (widths_and_blues env) env.TA_STYLE_MAX + 2 * env.cvtl_max_runtime

/-- A font with four styles (0: latin, the fallback style; 1 and 2: two
more scripts; 3: `none_dflt`).  Of the latin standard characters it has the
digit zero only (glyph 1, flagged `TA_DIGIT`), and no glyph carries the
plain latin style on entry.  Glyph 2 is the standard character of style 1,
glyph 3 a letter of style 2, whose standard characters the font lacks. -/
def late_fallback_font : Env :=
  { latin_font with
    TA_STYLE_MAX := 4
    TA_STYLE_NONE_DFLT := 3
    fallback_style := 0
    standard_char1 := fun s => if s = 0 then 111 else if s = 1 then 1086 else if s = 2 then 959 else 0
    standard_char2 := fun s => if s = 0 then 79 else if s = 1 then 1054 else if s = 2 then 927 else 0
    standard_char3 := fun s => if s = 0 then 48 else 0
    ta_get_char_index := fun s c =>
      if s = 0 ∧ c = 48 then 1 else if s = 1 ∧ c = 1086 then 2 else 0
    glyph_styles := [1, 0x80, 1, 2] }

/-- Horizontal axis whose standard width does not fit 16 bits. -/
def wide_haxis : TA_LatinAxisRec :=
  { sample_haxis with widths := fun j => ⟨if j = 0 then 70000 else 120⟩ }

/-- The latin font with a standard width of 70000 units. -/
def wide_font : Env :=
  { latin_font with ta_loader_load_glyph := sample_loader ⟨0, wide_haxis, sample_vaxis⟩ }

/-- A symbol font hinted with the latin fallback script (style 0): no
standard character has a glyph, glyph 0 carries the fallback style, the
metrics the loader derives have no widths, and the em has 1000 units. -/
def symbol_fallback_font : Env :=
  { latin_font with
    symbol := true
    fallback_style := 0
    ta_get_char_index := fun _ _ => 0
    ta_loader_load_glyph := sample_loader ⟨0, empty_axis, empty_axis⟩
    units_per_EM := 1000
    glyph_styles := [0, 0, 0] }

/-- The state in front of iteration `n` of the first loop, for a run that
gets there. -/
def state_before (env : Env) (n : Nat) : FirstLoop :=
  match first_loop env n with
  | .ok st => st
  | .error _ => first_loop_start env

/-- The table a call hands back, for a call that succeeds. -/
def the_table (env : Env) : CvtTable :=
  match TA_table_build_cvt env with
  | .ok t => t
  | .error _ =>
    { cvt := [], len := 0, cvt_len := 0, data := env.data, glyph_styles := env.glyph_styles }

/-- The latin font in a face without Unicode charmap. -/
def no_charmap_font : Env :=
  { latin_font with unicode_charmap_fails := true }

/-! ## The font program (`src/tafpgm.c`) -/

/-- The function numbers `bci_...` that occur in `tafpgm.c`, in the order in which
the functions are defined there. -/
inductive Fn where
  | bci_round
  | bci_compute_stem_width
  | bci_loop
  | bci_cvt_rescale
  | bci_blue_round
  | bci_get_point_extrema
  | bci_create_segment
  | bci_create_segments
  | bci_align_segment
  | bci_align_segments
  | bci_scale_contour
  | bci_scale_glyph
  | bci_shift_contour
  | bci_shift_subglyph
  | bci_ip_outer_align_point
  | bci_ip_on_align_points
  | bci_ip_between_align_point
  | bci_ip_between_align_points
  | bci_action_ip_before
  | bci_action_ip_after
  | bci_action_ip_on
  | bci_action_ip_between
  | bci_action_adjust_bound
  | bci_action_stem_bound
  | bci_action_link
  | bci_action_anchor
  | bci_action_blue_anchor
  | bci_action_adjust
  | bci_action_stem
  | bci_action_blue
  | bci_action_serif
  | bci_action_serif_lower_bound
  | bci_action_serif_upper_bound
  | bci_action_serif_lower_upper_bound
  | bci_action_serif_anchor
  | bci_action_serif_anchor_lower_bound
  | bci_action_serif_anchor_upper_bound
  | bci_action_serif_anchor_lower_upper_bound
  | bci_action_serif_link1
  | bci_action_serif_link1_lower_bound
  | bci_action_serif_link1_upper_bound
  | bci_action_serif_link1_lower_upper_bound
  | bci_action_serif_link2
  | bci_action_serif_link2_lower_bound
  | bci_action_serif_link2_upper_bound
  | bci_action_serif_link2_lower_upper_bound
  | bci_handle_action
  | bci_hint_glyph
  deriving DecidableEq

/-- The storage area indices `sal_...` that occur in `tafpgm.c`. The names
`sal_u_off`, `sal_d_off`, `sal_org_len` and `sal_edge2`, which `tafpgm.c` defines
as `sal_temp1`, `sal_temp2`, `sal_temp3` and `sal_temp3`, are written as these. -/
inductive Sal where
  | sal_is_extra_light
  | sal_func
  | sal_limit
  | sal_i
  | sal_scale
  | sal_0x10000
  | sal_point_min
  | sal_point_max
  | sal_j
  | sal_k
  | sal_num_segments
  | sal_segment_offset
  | sal_temp3
  | sal_temp1
  | sal_temp2
  | sal_anchor
  deriving DecidableEq

/-- One element of an `unsigned char` array of `tafpgm.c`: an instruction of the
TrueType instruction set, a function number, a storage area index, or a
number. -/
inductive Byte where
  | PUSHB_1
  | FDEF
  | DUP
  | ABS
  | ADD
  | FLOOR
  | SWAP
  | LT
  | IF
  | NEG
  | EIF
  | ENDF
  | MINDEX
  | AND
  | RS
  | OR
  | POP
  | ELSE
  | ROLL
  | RCVT
  | SUB
  | CALL
  | WS
  | LTEQ
  | PUSHB_3
  | JMPR
  | MUL
  | DIV
  | WCVTP
  | PUSHB_2
  | CINDEX
  | MD_orig
  | GT
  | SZPS
  | LOOPCALL
  | GC_orig
  | SZP2
  | GC_cur
  | SHPIX
  | PUSHB_6
  | SVTCA_y
  | PUSHB_7
  | ALIGNRP
  | NEQ
  | IUP_y
  | SHC_rp1
  | MDAP_noround
  | SLOOP
  | MD_cur
  | SZP1
  | SZP0
  | PUSHB_4
  | MDAP_round
  | MIAP_noround
  | EQ
  | PUSHW_1
  | bci (f : Fn)
  | sal (s : Sal)
  | num (k : Nat)

/-- A byte as a pair of numbers: the place of its kind in the list above, and the
number it carries, if it carries one. -/
def Byte.code : Byte → Nat × Nat
  | .PUSHB_1 => (0, 0)
  | .FDEF => (1, 0)
  | .DUP => (2, 0)
  | .ABS => (3, 0)
  | .ADD => (4, 0)
  | .FLOOR => (5, 0)
  | .SWAP => (6, 0)
  | .LT => (7, 0)
  | .IF => (8, 0)
  | .NEG => (9, 0)
  | .EIF => (10, 0)
  | .ENDF => (11, 0)
  | .MINDEX => (12, 0)
  | .AND => (13, 0)
  | .RS => (14, 0)
  | .OR => (15, 0)
  | .POP => (16, 0)
  | .ELSE => (17, 0)
  | .ROLL => (18, 0)
  | .RCVT => (19, 0)
  | .SUB => (20, 0)
  | .CALL => (21, 0)
  | .WS => (22, 0)
  | .LTEQ => (23, 0)
  | .PUSHB_3 => (24, 0)
  | .JMPR => (25, 0)
  | .MUL => (26, 0)
  | .DIV => (27, 0)
  | .WCVTP => (28, 0)
  | .PUSHB_2 => (29, 0)
  | .CINDEX => (30, 0)
  | .MD_orig => (31, 0)
  | .GT => (32, 0)
  | .SZPS => (33, 0)
  | .LOOPCALL => (34, 0)
  | .GC_orig => (35, 0)
  | .SZP2 => (36, 0)
  | .GC_cur => (37, 0)
  | .SHPIX => (38, 0)
  | .PUSHB_6 => (39, 0)
  | .SVTCA_y => (40, 0)
  | .PUSHB_7 => (41, 0)
  | .ALIGNRP => (42, 0)
  | .NEQ => (43, 0)
  | .IUP_y => (44, 0)
  | .SHC_rp1 => (45, 0)
  | .MDAP_noround => (46, 0)
  | .SLOOP => (47, 0)
  | .MD_cur => (48, 0)
  | .SZP1 => (49, 0)
  | .SZP0 => (50, 0)
  | .PUSHB_4 => (51, 0)
  | .MDAP_round => (52, 0)
  | .MIAP_noround => (53, 0)
  | .EQ => (54, 0)
  | .PUSHW_1 => (55, 0)
  | .bci f => (56, f.toCtorIdx)
  | .sal s => (57, s.toCtorIdx)
  | .num k => (58, k)

/-- The byte of a pair of numbers. -/
def Byte.decode : Nat × Nat → Byte
  | (0, _) => .PUSHB_1
  | (1, _) => .FDEF
  | (2, _) => .DUP
  | (3, _) => .ABS
  | (4, _) => .ADD
  | (5, _) => .FLOOR
  | (6, _) => .SWAP
  | (7, _) => .LT
  | (8, _) => .IF
  | (9, _) => .NEG
  | (10, _) => .EIF
  | (11, _) => .ENDF
  | (12, _) => .MINDEX
  | (13, _) => .AND
  | (14, _) => .RS
  | (15, _) => .OR
  | (16, _) => .POP
  | (17, _) => .ELSE
  | (18, _) => .ROLL
  | (19, _) => .RCVT
  | (20, _) => .SUB
  | (21, _) => .CALL
  | (22, _) => .WS
  | (23, _) => .LTEQ
  | (24, _) => .PUSHB_3
  | (25, _) => .JMPR
  | (26, _) => .MUL
  | (27, _) => .DIV
  | (28, _) => .WCVTP
  | (29, _) => .PUSHB_2
  | (30, _) => .CINDEX
  | (31, _) => .MD_orig
  | (32, _) => .GT
  | (33, _) => .SZPS
  | (34, _) => .LOOPCALL
  | (35, _) => .GC_orig
  | (36, _) => .SZP2
  | (37, _) => .GC_cur
  | (38, _) => .SHPIX
  | (39, _) => .PUSHB_6
  | (40, _) => .SVTCA_y
  | (41, _) => .PUSHB_7
  | (42, _) => .ALIGNRP
  | (43, _) => .NEQ
  | (44, _) => .IUP_y
  | (45, _) => .SHC_rp1
  | (46, _) => .MDAP_noround
  | (47, _) => .SLOOP
  | (48, _) => .MD_cur
  | (49, _) => .SZP1
  | (50, _) => .SZP0
  | (51, _) => .PUSHB_4
  | (52, _) => .MDAP_round
  | (53, _) => .MIAP_noround
  | (54, _) => .EQ
  | (55, _) => .PUSHW_1
  | (56, j) => .bci (Fn.ofNat j)
  | (57, j) => .sal (Sal.ofNat j)
  | (_, k) => .num k

/-- Equality of bytes is decided on their pairs of numbers. -/
instance : DecidableEq Byte := fun a b =>
  have h : ∀ c : Byte, Byte.decode c.code = c := fun c => by
    cases c with
    | bci f => cases f <;> rfl
    | sal s => cases s <;> rfl
    | num k => rfl
    | _ => rfl
  decidable_of_iff (a.code = b.code)
    ⟨fun e => by rw [← h a, ← h b, e], fun e => by rw [e]⟩

/-- The names of the arrays `FPGM(...)`, in the order of their definitions. -/
inductive FpgmArray where
  | bci_round
  | bci_compute_stem_width_a
  | bci_compute_stem_width_b
  | bci_compute_stem_width_c
  | bci_loop
  | bci_cvt_rescale
  | bci_blue_round_a
  | bci_blue_round_b
  | bci_get_point_extrema
  | bci_create_segment
  | bci_create_segments
  | bci_align_segment
  | bci_align_segments
  | bci_scale_contour
  | bci_scale_glyph
  | bci_shift_contour
  | bci_shift_subglyph
  | bci_ip_outer_align_point
  | bci_ip_on_align_points
  | bci_ip_between_align_point
  | bci_ip_between_align_points
  | bci_action_ip_before
  | bci_action_ip_after
  | bci_action_ip_on
  | bci_action_ip_between
  | bci_action_adjust_bound
  | bci_action_stem_bound
  | bci_action_link
  | bci_action_anchor
  | bci_action_blue_anchor
  | bci_action_adjust
  | bci_action_stem
  | bci_action_blue
  | bci_action_serif
  | bci_action_serif_lower_bound
  | bci_action_serif_upper_bound
  | bci_action_serif_lower_upper_bound
  | bci_action_serif_anchor
  | bci_action_serif_anchor_lower_bound
  | bci_action_serif_anchor_upper_bound
  | bci_action_serif_anchor_lower_upper_bound
  | bci_action_serif_link1
  | bci_action_serif_link1_lower_bound
  | bci_action_serif_link1_upper_bound
  | bci_action_serif_link1_lower_upper_bound
  | bci_action_serif_link2
  | bci_action_serif_link2_lower_bound
  | bci_action_serif_link2_upper_bound
  | bci_action_serif_link2_lower_upper_bound
  | bci_handle_action
  | bci_hint_glyph
  deriving DecidableEq

section Arrays

open Byte Fn Sal


/-- Lines 37-59. -/
def fpgm_bci_round : List Byte :=
  [PUSHB_1, bci bci_round, FDEF, DUP, ABS, PUSHB_1, num 32, ADD, FLOOR, SWAP, PUSHB_1, num 0,
   Byte.LT, IF, NEG, EIF, ENDF]

/-- Lines 118-175. -/
def fpgm_bci_compute_stem_width_a : List Byte :=
  [PUSHB_1, bci bci_compute_stem_width, FDEF, DUP, ABS, DUP, PUSHB_1, num 192, Byte.LT, PUSHB_1,
   num 4, MINDEX, AND, PUSHB_1, sal sal_is_extra_light, RS, OR, IF, POP, SWAP, POP, ELSE, ROLL,
   IF, DUP, PUSHB_1, num 80, Byte.LT, IF, POP, PUSHB_1, num 64, EIF, ELSE, DUP, PUSHB_1, num 56, Byte.LT,
   IF, POP, PUSHB_1, num 56, EIF, EIF, DUP, PUSHB_1]

/-- Lines 179-192. -/
def fpgm_bci_compute_stem_width_b : List Byte :=
  [RCVT, SUB, ABS, PUSHB_1, num 40, Byte.LT, IF, POP, PUSHB_1]

/-- Lines 196-278. -/
def fpgm_bci_compute_stem_width_c : List Byte :=
  [RCVT, DUP, PUSHB_1, num 48, Byte.LT, IF, POP, PUSHB_1, num 48, EIF, ELSE, DUP, PUSHB_1, num 192,
   Byte.LT, IF, DUP, FLOOR, DUP, ROLL, ROLL, SUB, DUP, PUSHB_1, num 10, Byte.LT, IF, ADD, ELSE, DUP,
   PUSHB_1, num 32, Byte.LT, IF, POP, PUSHB_1, num 10, ADD, ELSE, DUP, PUSHB_1, num 54, Byte.LT, IF, POP,
   PUSHB_1, num 54, ADD, ELSE, ADD, EIF, EIF, EIF, ELSE, PUSHB_1, bci bci_round, CALL, EIF, EIF,
   SWAP, PUSHB_1, num 0, Byte.LT, IF, NEG, EIF, EIF, EIF, ENDF]

/-- Lines 296-344. -/
def fpgm_bci_loop : List Byte :=
  [PUSHB_1, bci bci_loop, FDEF, PUSHB_1, sal sal_func, SWAP, WS, PUSHB_1, sal sal_limit, SWAP,
   WS, PUSHB_1, sal sal_i, SWAP, WS, PUSHB_1, sal sal_i, RS, PUSHB_1, sal sal_limit, RS, LTEQ,
   IF, PUSHB_1, sal sal_func, RS, CALL, PUSHB_3, sal sal_i, num 1, sal sal_i, RS, ADD, WS,
   PUSHB_1, num 22, NEG, JMPR, EIF, ENDF]

/-- Lines 356-380. -/
def fpgm_bci_cvt_rescale : List Byte :=
  [PUSHB_1, bci bci_cvt_rescale, FDEF, PUSHB_1, sal sal_i, RS, DUP, RCVT, PUSHB_1,
   sal sal_scale, RS, MUL, PUSHB_1, sal sal_0x10000, RS, DIV, WCVTP, ENDF]

/-- Lines 392-412. -/
def fpgm_bci_blue_round_a : List Byte :=
  [PUSHB_1, bci bci_blue_round, FDEF, PUSHB_1, sal sal_i, RS, DUP, RCVT, DUP, PUSHB_1,
   bci bci_round, CALL, SWAP, PUSHB_2]

/-- Lines 416-472. -/
def fpgm_bci_blue_round_b : List Byte :=
  [num 4, CINDEX, ADD, DUP, RCVT, ROLL, SWAP, SUB, DUP, ABS, DUP, PUSHB_1, num 32, Byte.LT, IF, POP,
   PUSHB_1, num 0, ELSE, PUSHB_1, num 48, Byte.LT, IF, PUSHB_1, num 32, ELSE, PUSHB_1, num 64, EIF,
   EIF, SWAP, PUSHB_1, num 0, Byte.LT, IF, NEG, EIF, PUSHB_1, num 3, CINDEX, SWAP, SUB, WCVTP, WCVTP,
   ENDF]

/-- Lines 487-535. -/
def fpgm_bci_get_point_extrema : List Byte :=
  [PUSHB_1, bci bci_get_point_extrema, FDEF, PUSHB_1, num 1, ADD, DUP, DUP, PUSHB_1,
   sal sal_point_min, RS, MD_orig, PUSHB_1, num 0, Byte.LT, IF, DUP, PUSHB_1, sal sal_point_min,
   SWAP, WS, EIF, PUSHB_1, sal sal_point_max, RS, MD_orig, PUSHB_1, num 0, GT, IF, DUP, PUSHB_1,
   sal sal_point_max, SWAP, WS, EIF, ENDF]

/-- Lines 563-737. -/
def fpgm_bci_create_segment : List Byte :=
  [PUSHB_1, bci bci_create_segment, FDEF, PUSHB_1, sal sal_i, RS, PUSHB_1, num 2, CINDEX, WS,
   PUSHB_3, sal sal_i, num 1, sal sal_i, RS, ADD, WS, PUSHB_2, sal sal_point_min, num 2, CINDEX,
   WS, PUSHB_2, sal sal_point_max, num 2, CINDEX, WS, PUSHB_1, num 1, SZPS, SWAP, DUP, PUSHB_1,
   num 3, CINDEX, Byte.LT, IF, PUSHB_1, sal sal_i, RS, PUSHB_1, num 4, CINDEX, WS, ROLL, ROLL, DUP,
   ROLL, SWAP, SUB, PUSHB_1, bci bci_get_point_extrema, LOOPCALL, POP, SWAP, PUSHB_1, num 1,
   SUB, DUP, ROLL, SWAP, SUB, PUSHB_1, bci bci_get_point_extrema, LOOPCALL, POP, ELSE, PUSHB_1,
   sal sal_i, RS, PUSHB_1, num 2, CINDEX, WS, PUSHB_1, num 2, CINDEX, SUB, PUSHB_1,
   bci bci_get_point_extrema, LOOPCALL, POP, EIF, PUSHB_1, sal sal_point_min, RS, GC_orig,
   PUSHB_1, sal sal_point_max, RS, GC_orig, ADD, PUSHB_1, num 128, DIV, PUSHB_1, sal sal_scale,
   RS, MUL, PUSHB_1, sal sal_0x10000, RS, DIV, DUP, PUSHB_2, sal sal_j, num 0, SZP2, RS, DUP,
   GC_cur, ROLL, SWAP, SUB, SHPIX, PUSHB_1, sal sal_k, RS, DUP, GC_cur, ROLL, SWAP, SUB, SHPIX,
   PUSHB_6, sal sal_k, num 1, sal sal_k, sal sal_j, num 1, sal sal_j, RS, ADD, WS, RS, ADD, WS,
   ENDF]

/-- Lines 770-814. -/
def fpgm_bci_create_segments : List Byte :=
  [PUSHB_1, bci bci_create_segments, FDEF, SVTCA_y, PUSHB_1, sal sal_num_segments, SWAP, WS,
   PUSHB_7, sal sal_segment_offset, sal sal_segment_offset, sal sal_num_segments, sal sal_k,
   num 0, sal sal_j, sal sal_num_segments, RS, WS, WS, RS, DUP, ADD, ADD, PUSHB_1, num 1, SUB,
   PUSHB_2, bci bci_create_segment, bci bci_loop, CALL, ENDF]

/-- Lines 826-877. -/
def fpgm_bci_align_segment : List Byte :=
  [PUSHB_1, bci bci_align_segment, FDEF, DUP, ADD, PUSHB_1, sal sal_segment_offset, ADD, DUP,
   RS, SWAP, PUSHB_1, num 1, ADD, RS, PUSHB_1, num 2, CINDEX, PUSHB_1, num 2, CINDEX, LTEQ, IF,
   SWAP, DUP, ALIGNRP, PUSHB_1, num 1, ADD, SWAP, PUSHB_1, num 18, NEG, JMPR, ELSE, POP, POP,
   EIF, ENDF]

/-- Lines 896-912. -/
def fpgm_bci_align_segments : List Byte :=
  [PUSHB_1, bci bci_align_segments, FDEF, PUSHB_1, bci bci_align_segment, CALL, PUSHB_1,
   bci bci_align_segment, LOOPCALL, ENDF]

/-- Lines 929-978. -/
def fpgm_bci_scale_contour : List Byte :=
  [PUSHB_1, bci bci_scale_contour, FDEF, DUP, DUP, GC_orig, DUP, PUSHB_1, sal sal_scale, RS,
   MUL, PUSHB_1, sal sal_0x10000, RS, DIV, SWAP, SUB, SHPIX, SWAP, DUP, ROLL, NEQ, IF, DUP,
   GC_orig, DUP, PUSHB_1, sal sal_scale, RS, MUL, PUSHB_1, sal sal_0x10000, RS, DIV, SWAP, SUB,
   SHPIX, ELSE, POP, EIF, ENDF]

/-- Lines 1003-1023. -/
def fpgm_bci_scale_glyph : List Byte :=
  [PUSHB_1, bci bci_scale_glyph, FDEF, SVTCA_y, PUSHB_1, num 1, SZPS, PUSHB_1,
   bci bci_scale_contour, LOOPCALL, IUP_y, ENDF]

/-- Lines 1038-1053. -/
def fpgm_bci_shift_contour : List Byte :=
  [PUSHB_1, bci bci_shift_contour, FDEF, DUP, SHC_rp1, PUSHB_1, num 1, ADD, ENDF]

/-- Lines 1085-1154. -/
def fpgm_bci_shift_subglyph : List Byte :=
  [PUSHB_1, bci bci_shift_subglyph, FDEF, SVTCA_y, PUSHB_1, num 0, RCVT, MUL, PUSHB_1,
   sal sal_0x10000, RS, DIV, PUSHB_1, bci bci_round, CALL, PUSHB_1, sal sal_scale, RS, PUSHB_1,
   sal sal_0x10000, RS, SUB, MUL, PUSHB_1, sal sal_0x10000, RS, DIV, PUSHB_1, bci bci_round,
   CALL, PUSHB_1, num 0, SZPS, PUSHB_2, num 0, num 0, MDAP_noround, SWAP, PUSHB_1, num 0,
   GC_orig, PUSHB_1, num 0, GC_cur, SUB, ADD, SHPIX, PUSHB_2, bci bci_shift_contour, num 1,
   SZP2, LOOPCALL, ENDF]

/-- Lines 1171-1199. -/
def fpgm_bci_ip_outer_align_point : List Byte :=
  [PUSHB_1, bci bci_ip_outer_align_point, FDEF, DUP, ALIGNRP, DUP, GC_orig, PUSHB_1,
   sal sal_scale, RS, MUL, PUSHB_1, sal sal_0x10000, RS, DIV, PUSHB_1, sal sal_i, RS, SUB,
   SHPIX, ENDF]

/-- Lines 1215-1228. -/
def fpgm_bci_ip_on_align_points : List Byte :=
  [PUSHB_1, bci bci_ip_on_align_points, FDEF, MDAP_noround, SLOOP, ALIGNRP, ENDF]

/-- Lines 1245-1277. -/
def fpgm_bci_ip_between_align_point : List Byte :=
  [PUSHB_1, bci bci_ip_between_align_point, FDEF, DUP, ALIGNRP, DUP, GC_orig, PUSHB_1,
   sal sal_scale, RS, MUL, PUSHB_1, sal sal_0x10000, RS, DIV, PUSHB_1, sal sal_i, RS, SUB,
   PUSHB_1, sal sal_j, RS, MUL, SHPIX, ENDF]

/-- Lines 1299-1351. -/
def fpgm_bci_ip_between_align_points : List Byte :=
  [PUSHB_1, bci bci_ip_between_align_points, FDEF, PUSHB_2, num 2, num 0, SZPS, CINDEX, DUP,
   MDAP_noround, PUSHB_1, sal sal_num_segments, RS, ADD, DUP, GC_cur, PUSHB_1, sal sal_i, SWAP,
   WS, PUSHB_1, num 2, CINDEX, PUSHB_1, sal sal_num_segments, RS, ADD, MD_cur, ROLL, ROLL,
   MD_cur, SWAP, DIV, PUSHB_1, sal sal_j, SWAP, WS, PUSHB_3, bci bci_ip_between_align_point,
   num 1, num 1, SZP2, SZP1, LOOPCALL, ENDF]

/-- Lines 1371-1408. -/
def fpgm_bci_action_ip_before : List Byte :=
  [PUSHB_1, bci bci_action_ip_before, FDEF, PUSHB_1, num 0, SZP2, DUP, PUSHB_1,
   sal sal_num_segments, RS, ADD, GC_cur, PUSHB_1, sal sal_i, SWAP, WS, PUSHB_3, num 0, num 1,
   num 1, SZP2, SZP1, SZP0, MDAP_noround, PUSHB_1, bci bci_ip_outer_align_point, LOOPCALL, ENDF]


/-- Lines 1428-1465. -/
def fpgm_bci_action_ip_after : List Byte :=
  [PUSHB_1, bci bci_action_ip_after, FDEF, PUSHB_1, num 0, SZP2, DUP, PUSHB_1,
   sal sal_num_segments, RS, ADD, GC_cur, PUSHB_1, sal sal_i, SWAP, WS, PUSHB_3, num 0, num 1,
   num 1, SZP2, SZP1, SZP0, MDAP_noround, PUSHB_1, bci bci_ip_outer_align_point, LOOPCALL, ENDF]

/-- Lines 1498-1516. -/
def fpgm_bci_action_ip_on : List Byte :=
  [PUSHB_1, bci bci_action_ip_on, FDEF, PUSHB_2, num 0, num 1, SZP1, SZP0, PUSHB_1,
   bci bci_ip_on_align_points, LOOPCALL, ENDF]

/-- Lines 1551-1563. -/
def fpgm_bci_action_ip_between : List Byte :=
  [PUSHB_1, bci bci_action_ip_between, FDEF, PUSHB_1, bci bci_ip_between_align_points, LOOPCALL,
   ENDF]

/-- Lines 1581-1645. -/
def fpgm_bci_action_adjust_bound : List Byte :=
  [PUSHB_1, bci bci_action_adjust_bound, FDEF, PUSHB_1, num 0, SZPS, PUSHB_1, num 4, CINDEX,
   PUSHB_1, sal sal_num_segments, RS, ADD, PUSHB_1, num 4, CINDEX, PUSHB_1,
   sal sal_num_segments, RS, ADD, MD_cur, PUSHB_1, bci bci_compute_stem_width, CALL, NEG, ROLL,
   MDAP_noround, SWAP, DUP, DUP, ALIGNRP, ROLL, SHPIX, SWAP, DUP, MDAP_noround, GC_cur, PUSHB_1,
   num 2, CINDEX, GC_cur, GT, IF, DUP, ALIGNRP, EIF, MDAP_noround, PUSHB_2,
   bci bci_align_segments, num 1, SZP1, CALL, ENDF]

/-- Lines 1718-2003. -/
def fpgm_bci_action_stem_bound : List Byte :=
  [PUSHB_1, bci bci_action_stem_bound, FDEF, PUSHB_1, num 0, SZPS, PUSHB_1, num 4, CINDEX,
   PUSHB_1, sal sal_num_segments, RS, ADD, PUSHB_1, num 4, CINDEX, DUP, MDAP_noround, PUSHB_1,
   sal sal_num_segments, RS, ADD, MD_cur, DUP, PUSHB_1, sal sal_temp3, SWAP, WS, PUSHB_1,
   bci bci_compute_stem_width, CALL, DUP, PUSHB_1, num 96, Byte.LT, IF, DUP, PUSHB_1, num 64, LTEQ,
   IF, PUSHB_4, sal sal_temp1, num 32, sal sal_temp2, num 32, ELSE, PUSHB_4, sal sal_temp1,
   num 38, sal sal_temp2, num 26, EIF, WS, WS, SWAP, DUP, PUSHB_1, sal sal_num_segments, RS,
   ADD, PUSHB_1, sal sal_anchor, RS, DUP, PUSHB_1, sal sal_num_segments, RS, ADD, ROLL, SWAP,
   MD_cur, SWAP, GC_cur, ADD, PUSHB_1, sal sal_temp3, RS, PUSHB_1, num 128, DIV, ADD, DUP,
   PUSHB_1, bci bci_round, CALL, DUP, ROLL, ROLL, SUB, DUP, PUSHB_1, sal sal_temp1, RS, ADD,
   ABS, SWAP, PUSHB_1, sal sal_temp2, RS, SUB, ABS, Byte.LT, IF, PUSHB_1, sal sal_temp1, RS, SUB,
   ELSE, PUSHB_1, sal sal_temp2, RS, ADD, EIF, PUSHB_1, num 3, CINDEX, PUSHB_1, num 128, DIV,
   SUB, SWAP, DUP, DUP, PUSHB_1, num 4, MINDEX, SWAP, GC_cur, SUB, SHPIX, ELSE, SWAP, PUSHB_1,
   sal sal_anchor, RS, GC_cur, PUSHB_1, num 2, CINDEX, PUSHB_1, sal sal_num_segments, RS, ADD,
   PUSHB_1, sal sal_anchor, RS, PUSHB_1, sal sal_num_segments, RS, ADD, MD_cur, ADD, DUP,
   PUSHB_1, sal sal_temp3, RS, PUSHB_1, num 128, DIV, ADD, SWAP, DUP, PUSHB_1, bci bci_round,
   CALL, SWAP, PUSHB_1, sal sal_temp3, RS, ADD, PUSHB_1, bci bci_round, CALL, PUSHB_1, num 5,
   CINDEX, SUB, PUSHB_1, num 5, CINDEX, PUSHB_1, num 128, DIV, PUSHB_1, num 4, MINDEX, SUB, DUP,
   PUSHB_1, num 4, CINDEX, ADD, ABS, SWAP, PUSHB_1, num 3, CINDEX, ADD, ABS, Byte.LT, IF, POP, ELSE,
   SWAP, POP, EIF, SWAP, DUP, DUP, PUSHB_1, num 4, MINDEX, SWAP, GC_cur, SUB, SHPIX, EIF, ROLL,
   DUP, DUP, ALIGNRP, PUSHB_1, sal sal_temp3, SWAP, WS, ROLL, SHPIX, SWAP, DUP, MDAP_noround,
   GC_cur, PUSHB_1, num 2, CINDEX, GC_cur, GT, IF, DUP, ALIGNRP, EIF, MDAP_noround, PUSHB_2,
   bci bci_align_segments, num 1, SZP1, CALL, PUSHB_1, sal sal_temp3, RS, MDAP_noround, PUSHB_1,
   bci bci_align_segments, CALL, ENDF]

/-- Lines 2018-2067. -/
def fpgm_bci_action_link : List Byte :=
  [PUSHB_1, bci bci_action_link, FDEF, PUSHB_1, num 0, SZPS, PUSHB_1, num 4, CINDEX, PUSHB_1,
   sal sal_num_segments, RS, ADD, PUSHB_1, num 4, MINDEX, DUP, MDAP_noround, PUSHB_1,
   sal sal_num_segments, RS, ADD, MD_cur, PUSHB_1, bci bci_compute_stem_width, CALL, SWAP, DUP,
   ALIGNRP, DUP, MDAP_noround, SWAP, SHPIX, PUSHB_2, bci bci_align_segments, num 1, SZP1, CALL,
   ENDF]

/-- Lines 2122-2293. -/
def fpgm_bci_action_anchor : List Byte :=
  [PUSHB_1, bci bci_action_anchor, FDEF, PUSHB_2, sal sal_anchor, num 4, CINDEX, WS, PUSHB_1,
   num 0, SZPS, PUSHB_1, num 4, CINDEX, PUSHB_1, sal sal_num_segments, RS, ADD, PUSHB_1, num 4,
   CINDEX, DUP, MDAP_noround, PUSHB_1, sal sal_num_segments, RS, ADD, MD_cur, DUP, PUSHB_1,
   sal sal_temp3, SWAP, WS, PUSHB_1, bci bci_compute_stem_width, CALL, DUP, PUSHB_1, num 96, Byte.LT,
   IF, DUP, PUSHB_1, num 64, LTEQ, IF, PUSHB_4, sal sal_temp1, num 32, sal sal_temp2, num 32,
   ELSE, PUSHB_4, sal sal_temp1, num 38, sal sal_temp2, num 26, EIF, WS, WS, SWAP, DUP, PUSHB_1,
   sal sal_num_segments, RS, ADD, GC_cur, PUSHB_1, sal sal_temp3, RS, PUSHB_1, num 128, DIV,
   ADD, DUP, PUSHB_1, bci bci_round, CALL, DUP, ROLL, ROLL, SUB, DUP, PUSHB_1, sal sal_temp1,
   RS, ADD, ABS, SWAP, PUSHB_1, sal sal_temp2, RS, SUB, ABS, Byte.LT, IF, PUSHB_1, sal sal_temp1, RS,
   SUB, ELSE, PUSHB_1, sal sal_temp2, RS, ADD, EIF, PUSHB_1, num 3, CINDEX, PUSHB_1, num 128,
   DIV, SUB, PUSHB_1, num 2, CINDEX, GC_cur, SUB, SHPIX, SWAP, DUP, ALIGNRP, SWAP, SHPIX, ELSE,
   POP, DUP, PUSHB_1, sal sal_num_segments, RS, ADD, MDAP_noround, DUP, ALIGNRP, MDAP_round,
   POP, EIF, PUSHB_2, bci bci_align_segments, num 1, SZP1, CALL, ENDF]

/-- Lines 2310-2337. -/
def fpgm_bci_action_blue_anchor : List Byte :=
  [PUSHB_1, bci bci_action_blue_anchor, FDEF, PUSHB_1, sal sal_anchor, SWAP, WS, PUSHB_1, num 0,
   SZP0, MIAP_noround, PUSHB_2, bci bci_align_segments, num 1, SZP1, CALL, ENDF]

/-- Lines 2353-2403. -/
def fpgm_bci_action_adjust : List Byte :=
  [PUSHB_1, bci bci_action_adjust, FDEF, PUSHB_1, num 0, SZPS, PUSHB_1, num 4, CINDEX, PUSHB_1,
   sal sal_num_segments, RS, ADD, PUSHB_1, num 4, CINDEX, PUSHB_1, sal sal_num_segments, RS,
   ADD, MD_cur, PUSHB_1, bci bci_compute_stem_width, CALL, NEG, ROLL, MDAP_noround, SWAP, DUP,
   DUP, ALIGNRP, ROLL, SHPIX, MDAP_noround, PUSHB_2, bci bci_align_segments, num 1, SZP1, CALL,
   ENDF]

/-- Lines 2474-2740. -/
def fpgm_bci_action_stem : List Byte :=
  [PUSHB_1, bci bci_action_stem, FDEF, PUSHB_1, num 0, SZPS, PUSHB_1, num 4, CINDEX, PUSHB_1,
   sal sal_num_segments, RS, ADD, PUSHB_1, num 4, CINDEX, DUP, MDAP_noround, PUSHB_1,
   sal sal_num_segments, RS, ADD, MD_cur, DUP, PUSHB_1, sal sal_temp3, SWAP, WS, PUSHB_1,
   bci bci_compute_stem_width, CALL, DUP, PUSHB_1, num 96, Byte.LT, IF, DUP, PUSHB_1, num 64, LTEQ,
   IF, PUSHB_4, sal sal_temp1, num 32, sal sal_temp2, num 32, ELSE, PUSHB_4, sal sal_temp1,
   num 38, sal sal_temp2, num 26, EIF, WS, WS, SWAP, DUP, PUSHB_1, sal sal_num_segments, RS,
   ADD, PUSHB_1, sal sal_anchor, RS, DUP, PUSHB_1, sal sal_num_segments, RS, ADD, ROLL, SWAP,
   MD_cur, SWAP, GC_cur, ADD, PUSHB_1, sal sal_temp3, RS, PUSHB_1, num 128, DIV, ADD, DUP,
   PUSHB_1, bci bci_round, CALL, DUP, ROLL, ROLL, SUB, DUP, PUSHB_1, sal sal_temp1, RS, ADD,
   ABS, SWAP, PUSHB_1, sal sal_temp2, RS, SUB, ABS, Byte.LT, IF, PUSHB_1, sal sal_temp1, RS, SUB,
   ELSE, PUSHB_1, sal sal_temp2, RS, ADD, EIF, PUSHB_1, num 3, CINDEX, PUSHB_1, num 128, DIV,
   SUB, SWAP, DUP, PUSHB_1, num 3, MINDEX, SWAP, GC_cur, SUB, SHPIX, ELSE, SWAP, PUSHB_1,
   sal sal_anchor, RS, GC_cur, PUSHB_1, num 2, CINDEX, PUSHB_1, sal sal_num_segments, RS, ADD,
   PUSHB_1, sal sal_anchor, RS, PUSHB_1, sal sal_num_segments, RS, ADD, MD_cur, ADD, DUP,
   PUSHB_1, sal sal_temp3, RS, PUSHB_1, num 128, DIV, ADD, SWAP, DUP, PUSHB_1, bci bci_round,
   CALL, SWAP, PUSHB_1, sal sal_temp3, RS, ADD, PUSHB_1, bci bci_round, CALL, PUSHB_1, num 5,
   CINDEX, SUB, PUSHB_1, num 5, CINDEX, PUSHB_1, num 128, DIV, PUSHB_1, num 4, MINDEX, SUB, DUP,
   PUSHB_1, num 4, CINDEX, ADD, ABS, SWAP, PUSHB_1, num 3, CINDEX, ADD, ABS, Byte.LT, IF, POP, ELSE,
   SWAP, POP, EIF, SWAP, DUP, PUSHB_1, num 3, MINDEX, SWAP, GC_cur, SUB, SHPIX, EIF, SWAP, DUP,
   DUP, ALIGNRP, PUSHB_1, sal sal_temp3, SWAP, WS, SWAP, SHPIX, PUSHB_2, bci bci_align_segments,
   num 1, SZP1, CALL, PUSHB_1, sal sal_temp3, RS, MDAP_noround, PUSHB_1, bci bci_align_segments,
   CALL, ENDF]

/-- Lines 2753-2774. -/
def fpgm_bci_action_blue : List Byte :=
  [PUSHB_1, bci bci_action_blue, FDEF, PUSHB_1, num 0, SZP0, MIAP_noround, PUSHB_2,
   bci bci_align_segments, num 1, SZP1, CALL, ENDF]

/-- Lines 2787-2831. -/
def fpgm_bci_action_serif : List Byte :=
  [PUSHB_1, bci bci_action_serif, FDEF, PUSHB_1, num 0, SZPS, DUP, DUP, PUSHB_1, num 4, MINDEX,
   PUSHB_1, num 2, CINDEX, PUSHB_1, sal sal_num_segments, RS, ADD, SWAP, DUP, MDAP_noround,
   PUSHB_1, sal sal_num_segments, RS, ADD, MD_cur, SWAP, ALIGNRP, SHPIX, MDAP_noround, PUSHB_2,
   bci bci_align_segments, num 1, SZP1, CALL, ENDF]

/-- Lines 2846-2904. -/
def fpgm_bci_action_serif_lower_bound : List Byte :=
  [PUSHB_1, bci bci_action_serif_lower_bound, FDEF, PUSHB_1, num 0, SZPS, DUP, DUP, PUSHB_1,
   num 4, MINDEX, PUSHB_1, num 2, CINDEX, PUSHB_1, sal sal_num_segments, RS, ADD, SWAP, DUP,
   MDAP_noround, PUSHB_1, sal sal_num_segments, RS, ADD, MD_cur, SWAP, ALIGNRP, SHPIX, SWAP,
   DUP, MDAP_noround, GC_cur, PUSHB_1, num 2, CINDEX, GC_cur, GT, IF, DUP, ALIGNRP, EIF,
   MDAP_noround, PUSHB_2, bci bci_align_segments, num 1, SZP1, CALL, ENDF]

/-- Lines 2919-2977. -/
def fpgm_bci_action_serif_upper_bound : List Byte :=
  [PUSHB_1, bci bci_action_serif_upper_bound, FDEF, PUSHB_1, num 0, SZPS, DUP, DUP, PUSHB_1,
   num 4, MINDEX, PUSHB_1, num 2, CINDEX, PUSHB_1, sal sal_num_segments, RS, ADD, SWAP, DUP,
   MDAP_noround, PUSHB_1, sal sal_num_segments, RS, ADD, MD_cur, SWAP, ALIGNRP, SHPIX, SWAP,
   DUP, MDAP_noround, GC_cur, PUSHB_1, num 2, CINDEX, GC_cur, Byte.LT, IF, DUP, ALIGNRP, EIF,
   MDAP_noround, PUSHB_2, bci bci_align_segments, num 1, SZP1, CALL, ENDF]


/-- Lines 2993-3065. -/
def fpgm_bci_action_serif_lower_upper_bound : List Byte :=
  [PUSHB_1, bci bci_action_serif_lower_upper_bound, FDEF, PUSHB_1, num 0, SZPS, DUP, DUP,
   PUSHB_1, num 4, MINDEX, PUSHB_1, num 2, CINDEX, PUSHB_1, sal sal_num_segments, RS, ADD, SWAP,
   DUP, MDAP_noround, PUSHB_1, sal sal_num_segments, RS, ADD, MD_cur, SWAP, ALIGNRP, SHPIX,
   SWAP, DUP, MDAP_noround, GC_cur, PUSHB_1, num 2, CINDEX, GC_cur, GT, IF, DUP, ALIGNRP, EIF,
   SWAP, DUP, MDAP_noround, GC_cur, PUSHB_1, num 2, CINDEX, GC_cur, Byte.LT, IF, DUP, ALIGNRP, EIF,
   MDAP_noround, PUSHB_2, bci bci_align_segments, num 1, SZP1, CALL, ENDF]

/-- Lines 3078-3116. -/
def fpgm_bci_action_serif_anchor : List Byte :=
  [PUSHB_1, bci bci_action_serif_anchor, FDEF, PUSHB_1, num 0, SZPS, DUP, PUSHB_1,
   sal sal_anchor, SWAP, WS, DUP, PUSHB_1, sal sal_num_segments, RS, ADD, MDAP_noround, DUP,
   DUP, ALIGNRP, MDAP_round, MDAP_noround, PUSHB_2, bci bci_align_segments, num 1, SZP1, CALL,
   ENDF]

/-- Lines 3131-3183. -/
def fpgm_bci_action_serif_anchor_lower_bound : List Byte :=
  [PUSHB_1, bci bci_action_serif_anchor_lower_bound, FDEF, PUSHB_1, num 0, SZPS, DUP, PUSHB_1,
   sal sal_anchor, SWAP, WS, DUP, PUSHB_1, sal sal_num_segments, RS, ADD, MDAP_noround, DUP,
   DUP, ALIGNRP, MDAP_round, SWAP, DUP, MDAP_noround, GC_cur, PUSHB_1, num 2, CINDEX, GC_cur,
   GT, IF, DUP, ALIGNRP, EIF, MDAP_noround, PUSHB_2, bci bci_align_segments, num 1, SZP1, CALL,
   ENDF]

/-- Lines 3198-3250. -/
def fpgm_bci_action_serif_anchor_upper_bound : List Byte :=
  [PUSHB_1, bci bci_action_serif_anchor_upper_bound, FDEF, PUSHB_1, num 0, SZPS, DUP, PUSHB_1,
   sal sal_anchor, SWAP, WS, DUP, PUSHB_1, sal sal_num_segments, RS, ADD, MDAP_noround, DUP,
   DUP, ALIGNRP, MDAP_round, SWAP, DUP, MDAP_noround, GC_cur, PUSHB_1, num 2, CINDEX, GC_cur,
   Byte.LT, IF, DUP, ALIGNRP, EIF, MDAP_noround, PUSHB_2, bci bci_align_segments, num 1, SZP1, CALL,
   ENDF]

/-- Lines 3266-3332. -/
def fpgm_bci_action_serif_anchor_lower_upper_bound : List Byte :=
  [PUSHB_1, bci bci_action_serif_anchor_lower_upper_bound, FDEF, PUSHB_1, num 0, SZPS, DUP,
   PUSHB_1, sal sal_anchor, SWAP, WS, DUP, PUSHB_1, sal sal_num_segments, RS, ADD, MDAP_noround,
   DUP, DUP, ALIGNRP, MDAP_round, SWAP, DUP, MDAP_noround, GC_cur, PUSHB_1, num 2, CINDEX,
   GC_cur, GT, IF, DUP, ALIGNRP, EIF, SWAP, DUP, MDAP_noround, GC_cur, PUSHB_1, num 2, CINDEX,
   GC_cur, Byte.LT, IF, DUP, ALIGNRP, EIF, MDAP_noround, PUSHB_2, bci bci_align_segments, num 1,
   SZP1, CALL, ENDF]

/-- Lines 3347-3457. -/
def fpgm_bci_action_serif_link1 : List Byte :=
  [PUSHB_1, bci bci_action_serif_link1, FDEF, PUSHB_1, num 0, SZPS, PUSHB_1, num 3, CINDEX,
   PUSHB_1, sal sal_num_segments, RS, ADD, PUSHB_1, num 2, CINDEX, PUSHB_1,
   sal sal_num_segments, RS, ADD, MD_cur, PUSHB_1, num 0, EQ, IF, MDAP_noround, DUP, ALIGNRP,
   SWAP, POP, ELSE, PUSHB_1, num 2, CINDEX, PUSHB_1, sal sal_num_segments, RS, ADD, PUSHB_1,
   num 2, CINDEX, PUSHB_1, sal sal_num_segments, RS, ADD, MD_cur, PUSHW_1, num 0x10, num 0x00,
   MUL, PUSHB_1, num 4, CINDEX, PUSHB_1, num 3, CINDEX, MD_cur, MUL, PUSHB_1, num 4, CINDEX,
   PUSHB_1, sal sal_num_segments, RS, ADD, PUSHB_1, num 3, CINDEX, PUSHB_1,
   sal sal_num_segments, RS, ADD, MD_cur, PUSHW_1, num 0x10, num 0x00, MUL, DIV, SWAP,
   MDAP_noround, SWAP, DUP, DUP, ALIGNRP, ROLL, SHPIX, SWAP, POP, EIF, MDAP_noround, PUSHB_2,
   bci bci_align_segments, num 1, SZP1, CALL, ENDF]

/-- Lines 3474-3597. -/
def fpgm_bci_action_serif_link1_lower_bound : List Byte :=
  [PUSHB_1, bci bci_action_serif_link1_lower_bound, FDEF, PUSHB_1, num 0, SZPS, PUSHB_1, num 3,
   CINDEX, PUSHB_1, sal sal_num_segments, RS, ADD, PUSHB_1, num 2, CINDEX, PUSHB_1,
   sal sal_num_segments, RS, ADD, MD_cur, PUSHB_1, num 0, EQ, IF, MDAP_noround, DUP, ALIGNRP,
   SWAP, POP, ELSE, PUSHB_1, num 2, CINDEX, PUSHB_1, sal sal_num_segments, RS, ADD, PUSHB_1,
   num 2, CINDEX, PUSHB_1, sal sal_num_segments, RS, ADD, MD_cur, PUSHW_1, num 0x10, num 0x00,
   MUL, PUSHB_1, num 4, CINDEX, PUSHB_1, num 3, CINDEX, MD_cur, MUL, PUSHB_1, num 4, CINDEX,
   PUSHB_1, sal sal_num_segments, RS, ADD, PUSHB_1, num 3, CINDEX, PUSHB_1,
   sal sal_num_segments, RS, ADD, MD_cur, PUSHW_1, num 0x10, num 0x00, MUL, DIV, SWAP,
   MDAP_noround, SWAP, DUP, DUP, ALIGNRP, ROLL, SHPIX, SWAP, POP, EIF, SWAP, DUP, MDAP_noround,
   GC_cur, PUSHB_1, num 2, CINDEX, GC_cur, GT, IF, DUP, ALIGNRP, EIF, MDAP_noround, PUSHB_2,
   bci bci_align_segments, num 1, SZP1, CALL, ENDF]

/-- Lines 3614-3738. -/
def fpgm_bci_action_serif_link1_upper_bound : List Byte :=
  [PUSHB_1, bci bci_action_serif_link1_upper_bound, FDEF, PUSHB_1, num 0, SZPS, PUSHB_1, num 3,
   CINDEX, PUSHB_1, sal sal_num_segments, RS, ADD, PUSHB_1, num 2, CINDEX, PUSHB_1,
   sal sal_num_segments, RS, ADD, MD_cur, PUSHB_1, num 0, EQ, IF, MDAP_noround, DUP, ALIGNRP,
   SWAP, POP, ELSE, PUSHB_1, num 2, CINDEX, PUSHB_1, sal sal_num_segments, RS, ADD, PUSHB_1,
   num 2, CINDEX, PUSHB_1, sal sal_num_segments, RS, ADD, MD_cur, PUSHW_1, num 0x10, num 0x00,
   MUL, PUSHB_1, num 4, CINDEX, PUSHB_1, num 3, CINDEX, MD_cur, MUL, PUSHB_1, num 4, CINDEX,
   PUSHB_1, sal sal_num_segments, RS, ADD, PUSHB_1, num 3, CINDEX, PUSHB_1,
   sal sal_num_segments, RS, ADD, MD_cur, PUSHW_1, num 0x10, num 0x00, MUL, DIV, SWAP,
   MDAP_noround, SWAP, DUP, DUP, ALIGNRP, ROLL, SHPIX, SWAP, POP, EIF, SWAP, DUP, MDAP_noround,
   GC_cur, PUSHB_1, num 2, CINDEX, GC_cur, Byte.LT, IF, DUP, ALIGNRP, EIF, MDAP_noround, PUSHB_2,
   bci bci_align_segments, num 1, SZP1, CALL, ENDF]

/-- Lines 3756-3894. -/
def fpgm_bci_action_serif_link1_lower_upper_bound : List Byte :=
  [PUSHB_1, bci bci_action_serif_link1_lower_upper_bound, FDEF, PUSHB_1, num 0, SZPS, PUSHB_1,
   num 3, CINDEX, PUSHB_1, sal sal_num_segments, RS, ADD, PUSHB_1, num 2, CINDEX, PUSHB_1,
   sal sal_num_segments, RS, ADD, MD_cur, PUSHB_1, num 0, EQ, IF, MDAP_noround, DUP, ALIGNRP,
   SWAP, POP, ELSE, PUSHB_1, num 2, CINDEX, PUSHB_1, sal sal_num_segments, RS, ADD, PUSHB_1,
   num 2, CINDEX, PUSHB_1, sal sal_num_segments, RS, ADD, MD_cur, PUSHW_1, num 0x10, num 0x00,
   MUL, PUSHB_1, num 4, CINDEX, PUSHB_1, num 3, CINDEX, MD_cur, MUL, PUSHB_1, num 4, CINDEX,
   PUSHB_1, sal sal_num_segments, RS, ADD, PUSHB_1, num 3, CINDEX, PUSHB_1,
   sal sal_num_segments, RS, ADD, MD_cur, PUSHW_1, num 0x10, num 0x00, MUL, DIV, SWAP,
   MDAP_noround, SWAP, DUP, DUP, ALIGNRP, ROLL, SHPIX, SWAP, POP, EIF, SWAP, DUP, MDAP_noround,
   GC_cur, PUSHB_1, num 2, CINDEX, GC_cur, GT, IF, DUP, ALIGNRP, EIF, SWAP, DUP, MDAP_noround,
   GC_cur, PUSHB_1, num 2, CINDEX, GC_cur, Byte.LT, IF, DUP, ALIGNRP, EIF, MDAP_noround, PUSHB_2,
   bci bci_align_segments, num 1, SZP1, CALL, ENDF]

/-- Lines 3906-3959. -/
def fpgm_bci_action_serif_link2 : List Byte :=
  [PUSHB_1, bci bci_action_serif_link2, FDEF, PUSHB_1, num 0, SZPS, DUP, PUSHB_1,
   sal sal_num_segments, RS, ADD, PUSHB_1, sal sal_anchor, RS, DUP, MDAP_noround, PUSHB_1,
   sal sal_num_segments, RS, ADD, MD_cur, DUP, ADD, PUSHB_1, num 32, ADD, FLOOR, PUSHB_1,
   num 128, DIV, SWAP, DUP, DUP, ALIGNRP, ROLL, SHPIX, MDAP_noround, PUSHB_2,
   bci bci_align_segments, num 1, SZP1, CALL, ENDF]

/-- Lines 3974-4041. -/
def fpgm_bci_action_serif_link2_lower_bound : List Byte :=
  [PUSHB_1, bci bci_action_serif_link2_lower_bound, FDEF, PUSHB_1, num 0, SZPS, DUP, PUSHB_1,
   sal sal_num_segments, RS, ADD, PUSHB_1, sal sal_anchor, RS, DUP, MDAP_noround, PUSHB_1,
   sal sal_num_segments, RS, ADD, MD_cur, DUP, ADD, PUSHB_1, num 32, ADD, FLOOR, PUSHB_1,
   num 128, DIV, SWAP, DUP, DUP, ALIGNRP, ROLL, SHPIX, SWAP, DUP, MDAP_noround, GC_cur, PUSHB_1,
   num 2, CINDEX, GC_cur, GT, IF, DUP, ALIGNRP, EIF, MDAP_noround, PUSHB_2,
   bci bci_align_segments, num 1, SZP1, CALL, ENDF]

/-- Lines 4056-4123. -/
def fpgm_bci_action_serif_link2_upper_bound : List Byte :=
  [PUSHB_1, bci bci_action_serif_link2_upper_bound, FDEF, PUSHB_1, num 0, SZPS, DUP, PUSHB_1,
   sal sal_num_segments, RS, ADD, PUSHB_1, sal sal_anchor, RS, DUP, MDAP_noround, PUSHB_1,
   sal sal_num_segments, RS, ADD, MD_cur, DUP, ADD, PUSHB_1, num 32, ADD, FLOOR, PUSHB_1,
   num 128, DIV, SWAP, DUP, DUP, ALIGNRP, ROLL, SHPIX, SWAP, DUP, MDAP_noround, GC_cur, PUSHB_1,
   num 2, CINDEX, GC_cur, Byte.LT, IF, DUP, ALIGNRP, EIF, MDAP_noround, PUSHB_2,
   bci bci_align_segments, num 1, SZP1, CALL, ENDF]

/-- Lines 4139-4220. -/
def fpgm_bci_action_serif_link2_lower_upper_bound : List Byte :=
  [PUSHB_1, bci bci_action_serif_link2_lower_upper_bound, FDEF, PUSHB_1, num 0, SZPS, DUP,
   PUSHB_1, sal sal_num_segments, RS, ADD, PUSHB_1, sal sal_anchor, RS, DUP, MDAP_noround,
   PUSHB_1, sal sal_num_segments, RS, ADD, MD_cur, DUP, ADD, PUSHB_1, num 32, ADD, FLOOR,
   PUSHB_1, num 128, DIV, SWAP, DUP, DUP, ALIGNRP, ROLL, SHPIX, SWAP, DUP, MDAP_noround, GC_cur,
   PUSHB_1, num 2, CINDEX, GC_cur, GT, IF, DUP, ALIGNRP, EIF, SWAP, DUP, MDAP_noround, GC_cur,
   PUSHB_1, num 2, CINDEX, GC_cur, Byte.LT, IF, DUP, ALIGNRP, EIF, MDAP_noround, PUSHB_2,
   bci bci_align_segments, num 1, SZP1, CALL, ENDF]

/-- Lines 4231-4241. -/
def fpgm_bci_handle_action : List Byte :=
  [PUSHB_1, bci bci_handle_action, FDEF, CALL, ENDF]

/-- Lines 4276-4290. -/
def fpgm_bci_hint_glyph : List Byte :=
  [PUSHB_1, bci bci_hint_glyph, FDEF, PUSHB_1, bci bci_handle_action, LOOPCALL, IUP_y, ENDF]

end Arrays

/-- The array of a name. -/
def FpgmArray.bytes : FpgmArray → List Byte
  | .bci_round => fpgm_bci_round
  | .bci_compute_stem_width_a => fpgm_bci_compute_stem_width_a
  | .bci_compute_stem_width_b => fpgm_bci_compute_stem_width_b
  | .bci_compute_stem_width_c => fpgm_bci_compute_stem_width_c
  | .bci_loop => fpgm_bci_loop
  | .bci_cvt_rescale => fpgm_bci_cvt_rescale
  | .bci_blue_round_a => fpgm_bci_blue_round_a
  | .bci_blue_round_b => fpgm_bci_blue_round_b
  | .bci_get_point_extrema => fpgm_bci_get_point_extrema
  | .bci_create_segment => fpgm_bci_create_segment
  | .bci_create_segments => fpgm_bci_create_segments
  | .bci_align_segment => fpgm_bci_align_segment
  | .bci_align_segments => fpgm_bci_align_segments
  | .bci_scale_contour => fpgm_bci_scale_contour
  | .bci_scale_glyph => fpgm_bci_scale_glyph
  | .bci_shift_contour => fpgm_bci_shift_contour
  | .bci_shift_subglyph => fpgm_bci_shift_subglyph
  | .bci_ip_outer_align_point => fpgm_bci_ip_outer_align_point
  | .bci_ip_on_align_points => fpgm_bci_ip_on_align_points
  | .bci_ip_between_align_point => fpgm_bci_ip_between_align_point
  | .bci_ip_between_align_points => fpgm_bci_ip_between_align_points
  | .bci_action_ip_before => fpgm_bci_action_ip_before
  | .bci_action_ip_after => fpgm_bci_action_ip_after
  | .bci_action_ip_on => fpgm_bci_action_ip_on
  | .bci_action_ip_between => fpgm_bci_action_ip_between
  | .bci_action_adjust_bound => fpgm_bci_action_adjust_bound
  | .bci_action_stem_bound => fpgm_bci_action_stem_bound
  | .bci_action_link => fpgm_bci_action_link
  | .bci_action_anchor => fpgm_bci_action_anchor
  | .bci_action_blue_anchor => fpgm_bci_action_blue_anchor
  | .bci_action_adjust => fpgm_bci_action_adjust
  | .bci_action_stem => fpgm_bci_action_stem
  | .bci_action_blue => fpgm_bci_action_blue
  | .bci_action_serif => fpgm_bci_action_serif
  | .bci_action_serif_lower_bound => fpgm_bci_action_serif_lower_bound
  | .bci_action_serif_upper_bound => fpgm_bci_action_serif_upper_bound
  | .bci_action_serif_lower_upper_bound => fpgm_bci_action_serif_lower_upper_bound
  | .bci_action_serif_anchor => fpgm_bci_action_serif_anchor
  | .bci_action_serif_anchor_lower_bound => fpgm_bci_action_serif_anchor_lower_bound
  | .bci_action_serif_anchor_upper_bound => fpgm_bci_action_serif_anchor_upper_bound
  | .bci_action_serif_anchor_lower_upper_bound => fpgm_bci_action_serif_anchor_lower_upper_bound
  | .bci_action_serif_link1 => fpgm_bci_action_serif_link1
  | .bci_action_serif_link1_lower_bound => fpgm_bci_action_serif_link1_lower_bound
  | .bci_action_serif_link1_upper_bound => fpgm_bci_action_serif_link1_upper_bound
  | .bci_action_serif_link1_lower_upper_bound => fpgm_bci_action_serif_link1_lower_upper_bound
  | .bci_action_serif_link2 => fpgm_bci_action_serif_link2
  | .bci_action_serif_link2_lower_bound => fpgm_bci_action_serif_link2_lower_bound
  | .bci_action_serif_link2_upper_bound => fpgm_bci_action_serif_link2_upper_bound
  | .bci_action_serif_link2_lower_upper_bound => fpgm_bci_action_serif_link2_lower_upper_bound
  | .bci_handle_action => fpgm_bci_handle_action
  | .bci_hint_glyph => fpgm_bci_hint_glyph


/-! ## Building the font program (`TA_table_build_fpgm`) -/

/-- What `TA_table_build_fpgm` takes from its font: the values of the macros
`CVT_VERT_WIDTHS_OFFSET(font)` and `CVT_BLUES_SIZE(font)`, which are defined
outside `tafpgm.c`, and whether `malloc` of a given size fails. -/
structure FONT where
  CVT_VERT_WIDTHS_OFFSET : Nat
  CVT_BLUES_SIZE : Nat
  malloc_fails : Nat → Bool

/-- A term of the sum that gives `buf_len` (lines 4309-4368): `sizeof` of an
array, or the literal `1`. -/
inductive LengthTerm where
  | sizeof (a : FpgmArray)
  | one
  deriving DecidableEq

/-- A statement of the copy sequence (lines 4383-4442): `COPY_FPGM` of an array, or
the store of one byte computed from the font. -/
inductive CopyStep where
  | COPY_FPGM (a : FpgmArray)
  | patch_CVT_VERT_WIDTHS_OFFSET
  | patch_CVT_BLUES_SIZE
  deriving DecidableEq

section Build

open LengthTerm CopyStep FpgmArray

/-- The terms of the sum of lines 4309-4368, in the order of the source. -/
def length_terms : List LengthTerm :=
  [sizeof bci_round, sizeof bci_compute_stem_width_a, one, sizeof bci_compute_stem_width_b, one,
   sizeof bci_compute_stem_width_c, sizeof bci_loop, sizeof bci_cvt_rescale,
   sizeof bci_blue_round_a, one, sizeof bci_blue_round_b, sizeof bci_get_point_extrema,
   sizeof bci_create_segment, sizeof bci_create_segments, sizeof bci_align_segment,
   sizeof bci_align_segments, sizeof bci_scale_contour, sizeof bci_scale_glyph,
   sizeof bci_shift_contour, sizeof bci_shift_subglyph, sizeof bci_ip_outer_align_point,
   sizeof bci_ip_on_align_points, sizeof bci_ip_between_align_point,
   sizeof bci_ip_between_align_points, sizeof bci_action_ip_before, sizeof bci_action_ip_after,
   sizeof bci_action_ip_on, sizeof bci_action_ip_between, sizeof bci_action_adjust_bound,
   sizeof bci_action_stem_bound, sizeof bci_action_link, sizeof bci_action_anchor,
   sizeof bci_action_blue_anchor, sizeof bci_action_adjust, sizeof bci_action_stem,
   sizeof bci_action_blue, sizeof bci_action_serif, sizeof bci_action_serif_lower_bound,
   sizeof bci_action_serif_upper_bound, sizeof bci_action_serif_lower_upper_bound,
   sizeof bci_action_serif_anchor, sizeof bci_action_serif_anchor_lower_bound,
   sizeof bci_action_serif_anchor_upper_bound, sizeof bci_action_serif_anchor_lower_upper_bound,
   sizeof bci_action_serif_link1, sizeof bci_action_serif_link1_lower_bound,
   sizeof bci_action_serif_link1_upper_bound, sizeof bci_action_serif_link1_lower_upper_bound,
   sizeof bci_action_serif_link2, sizeof bci_action_serif_link2_lower_bound,
   sizeof bci_action_serif_link2_upper_bound, sizeof bci_action_serif_link2_lower_upper_bound,
   sizeof bci_handle_action, sizeof bci_hint_glyph]

/-- The statements of lines 4383-4442, in the order of the source. -/
def copy_steps : List CopyStep :=
  [COPY_FPGM bci_round, COPY_FPGM bci_compute_stem_width_a, patch_CVT_VERT_WIDTHS_OFFSET,
   COPY_FPGM bci_compute_stem_width_b, patch_CVT_VERT_WIDTHS_OFFSET,
   COPY_FPGM bci_compute_stem_width_c, COPY_FPGM bci_loop, COPY_FPGM bci_cvt_rescale,
   COPY_FPGM bci_blue_round_a, patch_CVT_BLUES_SIZE, COPY_FPGM bci_blue_round_b,
   COPY_FPGM bci_get_point_extrema, COPY_FPGM bci_create_segment, COPY_FPGM bci_create_segments,
   COPY_FPGM bci_align_segment, COPY_FPGM bci_align_segments, COPY_FPGM bci_scale_contour,
   COPY_FPGM bci_scale_glyph, COPY_FPGM bci_shift_contour, COPY_FPGM bci_shift_subglyph,
   COPY_FPGM bci_ip_outer_align_point, COPY_FPGM bci_ip_on_align_points,
   COPY_FPGM bci_ip_between_align_point, COPY_FPGM bci_ip_between_align_points,
   COPY_FPGM bci_action_ip_before, COPY_FPGM bci_action_ip_after, COPY_FPGM bci_action_ip_on,
   COPY_FPGM bci_action_ip_between, COPY_FPGM bci_action_adjust_bound,
   COPY_FPGM bci_action_stem_bound, COPY_FPGM bci_action_link, COPY_FPGM bci_action_anchor,
   COPY_FPGM bci_action_blue_anchor, COPY_FPGM bci_action_adjust, COPY_FPGM bci_action_stem,
   COPY_FPGM bci_action_blue, COPY_FPGM bci_action_serif,
   COPY_FPGM bci_action_serif_lower_bound, COPY_FPGM bci_action_serif_upper_bound,
   COPY_FPGM bci_action_serif_lower_upper_bound, COPY_FPGM bci_action_serif_anchor,
   COPY_FPGM bci_action_serif_anchor_lower_bound, COPY_FPGM bci_action_serif_anchor_upper_bound,
   COPY_FPGM bci_action_serif_anchor_lower_upper_bound, COPY_FPGM bci_action_serif_link1,
   COPY_FPGM bci_action_serif_link1_lower_bound, COPY_FPGM bci_action_serif_link1_upper_bound,
   COPY_FPGM bci_action_serif_link1_lower_upper_bound, COPY_FPGM bci_action_serif_link2,
   COPY_FPGM bci_action_serif_link2_lower_bound, COPY_FPGM bci_action_serif_link2_upper_bound,
   COPY_FPGM bci_action_serif_link2_lower_upper_bound, COPY_FPGM bci_handle_action,
   COPY_FPGM bci_hint_glyph]

end Build

/-- The value of a term of the sum: `sizeof` of an `unsigned char` array is its
number of elements. -/
def LengthTerm.value : LengthTerm → Nat
  | .sizeof a => a.bytes.length
  | .one => 1

/-- The local `buf_len` of `TA_table_build_fpgm` (lines 4309-4368). -/
def fpgm_buf_len : Nat :=
  (length_terms.map LengthTerm.value).sum

/-- The local `len` (line 4370): `(buf_len + 3) & ~3` in `FT_UInt` arithmetic. -/
def fpgm_padded_len : Nat :=
  Nat.land ((fpgm_buf_len + 3) % 2 ^ 32) (2 ^ 32 - 1 - 3)

/-- The conversion `(unsigned char)` of an unsigned value. -/
def unsigned_char (v : Nat) : Nat :=
  v % 256

/-- The stores of `memcpy(buf_p, src, sizeof (src))`: index into `buf` and byte. -/
def memcpy (buf_p : Nat) : List Byte → List (Nat × Byte)
  | [] => []
  | b :: src => (buf_p, b) :: memcpy (buf_p + 1) src

/-- The state of the copy sequence: the offset of `buf_p` in `buf`, and the stores
made so far, oldest first. -/
structure CopyState where
  buf_p : Nat
  stores : List (Nat × Byte)

/-- One statement of the copy sequence: `COPY_FPGM` (lines 4292-4295), or
`*(buf_p++) = (unsigned char)...(font)`. -/
def copy_step (font : FONT) (s : CopyState) : CopyStep → CopyState
  | .COPY_FPGM a =>
    { buf_p := s.buf_p + a.bytes.length, stores := s.stores ++ memcpy s.buf_p a.bytes }
  | .patch_CVT_VERT_WIDTHS_OFFSET =>
    { buf_p := s.buf_p + 1,
      stores := s.stores ++ [(s.buf_p, Byte.num (unsigned_char font.CVT_VERT_WIDTHS_OFFSET))] }
  | .patch_CVT_BLUES_SIZE =>
    { buf_p := s.buf_p + 1,
      stores := s.stores ++ [(s.buf_p, Byte.num (unsigned_char font.CVT_BLUES_SIZE))] }

/-- The stores of lines 4376-4378, which pad the end of the buffer with zeros. -/
def padding_stores : List (Nat × Byte) :=
  [(fpgm_padded_len - 1, Byte.num 0), (fpgm_padded_len - 2, Byte.num 0),
   (fpgm_padded_len - 3, Byte.num 0)]

/-- The stores of the copy sequence (lines 4381-4442), which starts at
`buf_p = buf`. -/
def copy_stores (font : FONT) : List (Nat × Byte) :=
  (copy_steps.foldl (copy_step font) { buf_p := 0, stores := [] }).stores

/-- All stores of `TA_table_build_fpgm` into `buf`, in the order of execution. -/
def fpgm_stores (font : FONT) : List (Nat × Byte) :=
  padding_stores ++ copy_stores font

/-- One store into a buffer; a cell that was never stored into is `none`. -/
def write (buf : List (Option Byte)) (s : Nat × Byte) : List (Option Byte) :=
  buf.set s.1 (some s.2)

/-- What `TA_table_build_fpgm` hands back through `fpgm` and `fpgm_len`. -/
structure FpgmTable where
  fpgm : List (Option Byte)
  fpgm_len : Nat

/-- The function `TA_table_build_fpgm` (lines 4298-4448). The buffer that `malloc`
returns has `len` cells without content. -/
def TA_table_build_fpgm (font : FONT) : Except FT_Error FpgmTable :=
  if font.malloc_fails fpgm_padded_len then .error FT_Err_Out_Of_Memory
  else
    .ok { fpgm := (fpgm_stores font).foldl write (List.replicate fpgm_padded_len none),
          fpgm_len := fpgm_buf_len }

/-- The bytes that the copy sequence stores, in the order of the stores: the font
program as a stream. -/
def fpgm_stream (font : FONT) : List Byte :=
  (copy_stores font).map Prod.snd

/-- The array that a statement of the copy sequence names, if it names one. -/
def CopyStep.array : CopyStep → Option FpgmArray
  | .COPY_FPGM a => some a
  | _ => none

/-- The term of the length computation that stands for a statement of the copy
sequence. -/
def CopyStep.term : CopyStep → LengthTerm
  | .COPY_FPGM a => .sizeof a
  | _ => .one

/-- A font whose two CVT quantities are 256 and 257. -/
def wide_cvt_font : FONT :=
  { CVT_VERT_WIDTHS_OFFSET := 256, CVT_BLUES_SIZE := 257, malloc_fails := fun _ => false }

/-- A font whose two CVT quantities are 12 and 5. -/
def small_cvt_font : FONT :=
  { CVT_VERT_WIDTHS_OFFSET := 12, CVT_BLUES_SIZE := 5, malloc_fails := fun _ => false }

/-- The bytes that one statement of the copy sequence stores. -/
def step_bytes (font : FONT) : CopyStep → List Byte
  | .COPY_FPGM a => a.bytes
  | .patch_CVT_VERT_WIDTHS_OFFSET => [Byte.num (unsigned_char font.CVT_VERT_WIDTHS_OFFSET)]
  | .patch_CVT_BLUES_SIZE => [Byte.num (unsigned_char font.CVT_BLUES_SIZE)]

/-! ## The functions of the stream -/

/-- The stream cut behind every `ENDF`; `acc` holds the bytes since the last cut,
newest first. -/
def split_functions_from : List Byte → List Byte → List (List Byte)
  | acc, [] => if acc = [] then [] else [acc.reverse]
  | acc, b :: rest =>
    if b = Byte.ENDF then (b :: acc).reverse :: split_functions_from [] rest
    else split_functions_from (b :: acc) rest

/-- The function definitions of a stream: each one reaches up to and including
its `ENDF`. -/
def split_functions (stream : List Byte) : List (List Byte) :=
  split_functions_from [] stream

/-- The function that a definition defines: its first three bytes are
`PUSHB_1, bci_..., FDEF`. -/
def defined_function : List Byte → Option Fn
  | .PUSHB_1 :: .bci f :: .FDEF :: _ => some f
  | _ => none

/-- The function numbers that occur as literals in a run of bytes. -/
def literal_functions (bytes : List Byte) : List Fn :=
  bytes.filterMap fun b => match b with
    | .bci f => some f
    | _ => none

/-- Of every function definition of a stream, the function it defines and the
function numbers that occur as literals behind its `FDEF`. -/
def function_summaries (stream : List Byte) : List (Option Fn × List Fn) :=
  (split_functions stream).map fun f => (defined_function f, literal_functions (f.drop 3))

/-- A byte with its number, if it is one, replaced by 0. -/
def Byte.erase : Byte → Byte
  | .num _ => .num 0
  | b => b

/-- The nesting depth of `IF` after a run of bytes that starts at depth `d`; `none`
if an `ELSE` or an `EIF` stands where no `IF` is open. -/
def if_depth : Nat → List Byte → Option Nat
  | d, [] => some d
  | d, b :: rest =>
    match b with
    | .IF => if_depth (d + 1) rest
    | .ELSE => if d = 0 then none else if_depth d rest
    | .EIF => if d = 0 then none else if_depth (d - 1) rest
    | _ => if_depth d rest

/-- Whether `FDEF` and `ENDF` alternate in a run of bytes, starting with `FDEF` and
ending with `ENDF`; `inside` tells whether a definition is open. -/
def fdef_endf_alternate : Bool → List Byte → Bool
  | inside, [] => !inside
  | inside, b :: rest =>
    match b with
    | .FDEF => !inside && fdef_endf_alternate true rest
    | .ENDF => inside && fdef_endf_alternate false rest
    | _ => fdef_endf_alternate inside rest

/-- The definition of `bci_compute_stem_width` in the stream: three arrays and, two
times, the byte computed from `CVT_VERT_WIDTHS_OFFSET(font)` (lines 4384-4388). -/
def stem_width_function (font : FONT) : List Byte :=
  fpgm_bci_compute_stem_width_a ++ [Byte.num (unsigned_char font.CVT_VERT_WIDTHS_OFFSET)]
    ++ fpgm_bci_compute_stem_width_b ++ [Byte.num (unsigned_char font.CVT_VERT_WIDTHS_OFFSET)]
    ++ fpgm_bci_compute_stem_width_c

/-- The definition of `bci_blue_round` in the stream: two arrays and the byte
computed from `CVT_BLUES_SIZE(font)` (lines 4391-4393). -/
def blue_round_function (font : FONT) : List Byte :=
  fpgm_bci_blue_round_a ++ [Byte.num (unsigned_char font.CVT_BLUES_SIZE)]
    ++ fpgm_bci_blue_round_b

/-! ## The bytecode interpreter

The instructions of the font program are run on a small machine after the
TrueType instruction set: a stack of integers, the storage area, the CVT, and a
stack of return points. Numbers are integers without the 32-bit bound of a real
interpreter. The instructions that use the graphics state or the glyph zones are
not part of the machine; it stops with a failure on them. -/

/-- What the interpreter gets from outside `tafpgm.c`: the numbers behind the
names `bci_...` and `sal_...` (macros of another file), the functions that the
function definitions of the font program have stored, and the way the
rasterizer rounds the quotient `a / b` in `MUL` and `DIV`. -/
structure Engine where
  bci : Fn → Nat
  sal : Sal → Nat
  fdefs : Int → Option (List Byte)
  div : Int → Int → Int

/-- The stack (top first), the storage area and the CVT. -/
structure VM where
  stack : List Int
  storage : Int → Int
  cvt : Int → Int

/-- A return point: the bytes of the caller before and after its `CALL`. -/
structure Frame where
  before : List Byte
  rest : List Byte

/-- The machine in front of the instruction `rest.head`; `before` holds the bytes
of the running function that lie behind, nearest first. -/
structure Machine where
  before : List Byte
  rest : List Byte
  frames : List Frame
  vm : VM

/-- The outcome of one instruction. -/
inductive Step where
  | next (m : Machine)
  | halt (vm : VM)
  | fail

/-- The number that a data byte stands for. -/
def value (e : Engine) : Byte → Option Int
  | .bci f => some (e.bci f)
  | .sal s => some (e.sal s)
  | .num k => some k
  | _ => none

/-- The result of a comparison or of a logical instruction: 1 or 0. -/
def truth (p : Prop) [Decidable p] : Int :=
  if p then 1 else 0

/-- A cell of the storage area or of the CVT overwritten. -/
def update (f : Int → Int) (k v : Int) : Int → Int :=
  fun j => if j = k then v else f j

/-- The number of data bytes behind a push instruction. -/
def data_bytes : Byte → Nat
  | .PUSHB_1 => 1
  | .PUSHB_2 => 2
  | .PUSHB_3 => 3
  | .PUSHB_4 => 4
  | .PUSHB_6 => 6
  | .PUSHB_7 => 7
  | .PUSHW_1 => 2
  | _ => 0

/-- The jump of an `IF` whose condition is false (`stop_at_else` is true) or of
an `ELSE` that ends a branch (`stop_at_else` is false): forward over whole
instructions to behind the `ELSE` or `EIF` that belongs to it. `depth` counts the
`IF`s opened on the way, `data` the data bytes still to pass. -/
def skip (stop_at_else : Bool) : Nat → Nat → List Byte → List Byte →
    Option (List Byte × List Byte)
  | _, _, _, [] => none
  | depth, data + 1, bef, b :: rest => skip stop_at_else depth data (b :: bef) rest
  | depth, 0, bef, b :: rest =>
    match b with
    | .IF => skip stop_at_else (depth + 1) 0 (b :: bef) rest
    | .ELSE =>
      if depth = 0 ∧ stop_at_else = true then some (b :: bef, rest)
      else skip stop_at_else depth 0 (b :: bef) rest
    | .EIF =>
      if depth = 0 then some (b :: bef, rest)
      else skip stop_at_else (depth - 1) 0 (b :: bef) rest
    | _ => skip stop_at_else depth (data_bytes b) (b :: bef) rest

/-- The instructions `PUSHB_n`: the next `n` bytes go onto the stack. -/
def push_bytes (e : Engine) : Nat → Machine → Step
  | 0, m => .next m
  | k + 1, m =>
    match m.rest with
    | [] => .fail
    | b :: rest =>
      match value e b with
      | none => .fail
      | some v =>
        push_bytes e k { m with before := b :: m.before, rest := rest,
                                vm := { m.vm with stack := v :: m.vm.stack } }

/-- The machine with a new stack. -/
def set_stack (m : Machine) (s : List Int) : Step :=
  .next { m with vm := { m.vm with stack := s } }

/-- The machine at the start of the body of a function definition, behind
`PUSHB_1, bci_..., FDEF`. -/
def enter (arr : List Byte) (frames : List Frame) (vm : VM) : Machine :=
  { before := (arr.take 3).reverse, rest := arr.drop 3, frames := frames, vm := vm }

/-- The instruction `b`, which the machine has just passed. -/
def exec_op (e : Engine) (m : Machine) (b : Byte) : Step :=
  match b with
  | .PUSHB_1 => push_bytes e 1 m
  | .PUSHB_2 => push_bytes e 2 m
  | .PUSHB_3 => push_bytes e 3 m
  | .PUSHB_4 => push_bytes e 4 m
  | .PUSHB_6 => push_bytes e 6 m
  | .PUSHB_7 => push_bytes e 7 m
  | .DUP => match m.vm.stack with
    | x :: s => set_stack m (x :: x :: s)
    | _ => .fail
  | .POP => match m.vm.stack with
    | _ :: s => set_stack m s
    | _ => .fail
  | .SWAP => match m.vm.stack with
    | x :: y :: s => set_stack m (y :: x :: s)
    | _ => .fail
  | .ROLL => match m.vm.stack with
    | a :: b :: c :: s => set_stack m (c :: a :: b :: s)
    | _ => .fail
  | .CINDEX => match m.vm.stack with
    | k :: s =>
      match k.toNat with
      | 0 => .fail
      | i + 1 =>
        match s.get? i with
        | some x => set_stack m (x :: s)
        | none => .fail
    | _ => .fail
  | .MINDEX => match m.vm.stack with
    | k :: s =>
      match k.toNat with
      | 0 => .fail
      | i + 1 =>
        match s.get? i with
        | some x => set_stack m (x :: s.eraseIdx i)
        | none => .fail
    | _ => .fail
  | .ABS => match m.vm.stack with
    | x :: s => set_stack m (|x| :: s)
    | _ => .fail
  | .NEG => match m.vm.stack with
    | x :: s => set_stack m (-x :: s)
    | _ => .fail
  | .FLOOR => match m.vm.stack with
    | x :: s => set_stack m (x / 64 * 64 :: s)
    | _ => .fail
  | .ADD => match m.vm.stack with
    | x :: y :: s => set_stack m ((y + x) :: s)
    | _ => .fail
  | .SUB => match m.vm.stack with
    | x :: y :: s => set_stack m ((y - x) :: s)
    | _ => .fail
  | .MUL => match m.vm.stack with
    | x :: y :: s => set_stack m (e.div (y * x) 64 :: s)
    | _ => .fail
  | .DIV => match m.vm.stack with
    | x :: y :: s => if x = 0 then .fail else set_stack m (e.div (y * 64) x :: s)
    | _ => .fail
  | .LT => match m.vm.stack with
    | x :: y :: s => set_stack m (truth (y < x) :: s)
    | _ => .fail
  | .LTEQ => match m.vm.stack with
    | x :: y :: s => set_stack m (truth (y ≤ x) :: s)
    | _ => .fail
  | .GT => match m.vm.stack with
    | x :: y :: s => set_stack m (truth (y > x) :: s)
    | _ => .fail
  | .EQ => match m.vm.stack with
    | x :: y :: s => set_stack m (truth (y = x) :: s)
    | _ => .fail
  | .NEQ => match m.vm.stack with
    | x :: y :: s => set_stack m (truth (y ≠ x) :: s)
    | _ => .fail
  | .AND => match m.vm.stack with
    | x :: y :: s => set_stack m (truth (y ≠ 0 ∧ x ≠ 0) :: s)
    | _ => .fail
  | .OR => match m.vm.stack with
    | x :: y :: s => set_stack m (truth (y ≠ 0 ∨ x ≠ 0) :: s)
    | _ => .fail
  | .RS => match m.vm.stack with
    | k :: s => set_stack m (m.vm.storage k :: s)
    | _ => .fail
  | .WS => match m.vm.stack with
    | v :: k :: s =>
      .next { m with vm := { m.vm with stack := s, storage := update m.vm.storage k v } }
    | _ => .fail
  | .RCVT => match m.vm.stack with
    | k :: s => set_stack m (m.vm.cvt k :: s)
    | _ => .fail
  | .WCVTP => match m.vm.stack with
    | v :: k :: s =>
      .next { m with vm := { m.vm with stack := s, cvt := update m.vm.cvt k v } }
    | _ => .fail
  | .IF => match m.vm.stack with
    | c :: s =>
      if c ≠ 0 then set_stack m s
      else match skip true 0 0 m.before m.rest with
        | some (bef, rest) =>
          .next { m with before := bef, rest := rest, vm := { m.vm with stack := s } }
        | none => .fail
    | _ => .fail
  | .ELSE => match skip false 0 0 m.before m.rest with
    | some (bef, rest) => .next { m with before := bef, rest := rest }
    | none => .fail
  | .EIF => .next m
  | .CALL => match m.vm.stack with
    | f :: s =>
      match e.fdefs f with
      | some arr => .next (enter arr (⟨m.before, m.rest⟩ :: m.frames) { m.vm with stack := s })
      | none => .fail
    | _ => .fail
  | .ENDF => match m.frames with
    | [] => .halt m.vm
    | fr :: frs => .next { m with before := fr.before, rest := fr.rest, frames := frs }
  | _ => .fail

/-- One instruction of the machine. -/
def step (e : Engine) (m : Machine) : Step :=
  match m.rest with
  | [] => .fail
  | b :: rest => exec_op e { m with before := b :: m.before, rest := rest } b

/-- The machine run for at most `fuel` instructions; the result is the state at
the `ENDF` that ends the outermost function. -/
def run (e : Engine) : Nat → Machine → Option VM
  | 0, _ => none
  | fuel + 1, m =>
    match step e m with
    | .next m1 => run e fuel m1
    | .halt vm => some vm
    | .fail => none

/-- The machine gets from one state to another in some number of instructions. -/
inductive Reaches (e : Engine) : Machine → Machine → Prop where
  | refl (m : Machine) : Reaches e m m
  | step {m m1 m2 : Machine} (h : step e m = .next m1) (h2 : Reaches e m1 m2) :
      Reaches e m m2

/-- The rounding of the specification: symmetric rounding of a 26.6 number to a
multiple of 64, halves away from
zero. -/
def spec_round (v : Int) : Int :=
  Int.sign v * 64 * ((|v| + 32) / 64)

/-- The function table after the font program has run: every function definition
of the stream is stored under its number, of two definitions with one number the
later one. -/
def function_table (bci : Fn → Nat) (stream : List Byte) : Int → Option (List Byte) :=
  fun k => (split_functions stream).reverse.find? fun f =>
    decide ((defined_function f).map (fun g => (bci g : Int)) = some k)

/-- An interpreter for `small_cvt_font`: functions and storage slots are numbered
in the order of their first use in `tafpgm.c`, and quotients are truncated. -/
def sample_engine : Engine :=
  { bci := fun f => f.toCtorIdx
    sal := fun s => s.toCtorIdx
    fdefs := function_table (fun f => f.toCtorIdx) (fpgm_stream small_cvt_font)
    div := Int.tdiv }

/-- A storage area: `sal_is_extra_light` (slot 0) is 0, `sal_i` (slot 3) is 7,
`sal_scale` (slot 4) is 0x8000 and `sal_0x10000` (slot 5) is 0x10000. -/
def sample_storage : Int → Int :=
  fun k => if k = 3 then 7 else if k = 4 then 0x8000 else if k = 5 then 0x10000 else 0

/-- A CVT: cell 7 holds 100, cell 12 holds 60. -/
def sample_cvt : Int → Int :=
  fun k => if k = 7 then 100 else if k = 12 then 60 else 0

/-- The signed distance that `bci_blue_round` leaves between a reference and its
overshoot, after the specification: 0 below 32, 32 below 48, 64 otherwise, with
the sign of the distance `dist` before. -/
def spec_blue_delta (dist : Int) : Int :=
  (if dist < 0 then -1 else 1) * (if |dist| < 32 then 0 else if |dist| < 48 then 32 else 64)

/-- The CVT after `bci_blue_round`, after the specification: `CVT[i]` is the
rounded reference, `CVT[i + B]` lies `spec_blue_delta` below it. -/
def spec_blue_round (cvt : Int → Int) (i B : Int) : Int → Int :=
  fun j =>
    if j = i then spec_round (cvt i)
    else if j = i + B then spec_round (cvt i) - spec_blue_delta (cvt i - cvt (i + B))
    else cvt j

/-- The first part of the reference code in the comment over
`bci_compute_stem_width` (lines 74-78): the least distance, by roundness. -/
def spec_stem_min (base_is_round dist : Int) : Int :=
  if base_is_round ≠ 0 then (if dist < 80 then 64 else dist)
  else if dist < 56 then 56 else dist

/-- The middle part of the reference code (lines 80-102): the distance snaps to
the standard width, or else is fitted to the grid. -/
def spec_stem_fit (std_width dist : Int) : Int :=
  if |dist - std_width| < 40 then (if std_width < 48 then 48 else std_width)
  else if dist < 3 * 64 then
    (if dist - dist / 64 * 64 < 10 then dist / 64 * 64 + (dist - dist / 64 * 64)
     else if dist - dist / 64 * 64 < 32 then dist / 64 * 64 + 10
     else if dist - dist / 64 * 64 < 54 then dist / 64 * 64 + 54
     else dist / 64 * 64 + (dist - dist / 64 * 64))
  else spec_round dist

/-- The reference code in the comment over `bci_compute_stem_width`
(lines 68-107), with `FLOOR(dist) = dist / 64 * 64` and `ROUND = spec_round`. -/
def spec_stem_width (width stem_is_serif base_is_round is_extra_light std_width : Int) :
    Int :=
  if (stem_is_serif ≠ 0 ∧ |width| < 3 * 64) ∨ is_extra_light ≠ 0 then width
  else if width < 0 then -spec_stem_fit std_width (spec_stem_min base_is_round |width|)
  else spec_stem_fit std_width (spec_stem_min base_is_round |width|)

/-- Whether the brackets of a function definition are balanced: as many `IF` as
`EIF`, and every `ELSE` and `EIF` inside an open `IF`. -/
def balanced (f : List Byte) : Bool :=
  f.count Byte.IF == f.count Byte.EIF && if_depth 0 f == some 0

/-- Whether every function definition of a list of summaries defines a function,
and every literal of its body names a function that is not its own and that one
of the definitions `earlier` in the stream defines. -/
def literals_defined_earlier : List (Option Fn) → List (Option Fn × List Fn) → Bool
  | _, [] => true
  | earlier, (id, literals) :: rest =>
    id.isSome && literals.all (fun g => some g != id && earlier.contains (some g))
      && literals_defined_earlier (earlier ++ [id]) rest

/-! ## The table builders `TA_sfnt_build_cvt_table` and `TA_sfnt_build_fpgm_table` -/

/-- A table of `font->tables` as the two builders hand it to
`TA_font_add_table`: the tag `TTAG_cvt` or `TTAG_fpgm` with length and
buffer. -/
inductive SFNT_Table where
  | cvt (t : CvtTable)
  | fpgm (t : FpgmTable)

/-- What the two builders read and change of `sfnt` and `font`:
`sfnt->table_infos` (its length is `sfnt->num_table_infos`), `font->tables`,
and of the glyf table `glyf_table->processed` and `data->cvt_idx`. -/
structure SFNT where
  table_infos : List Nat
  tables : List SFNT_Table
  processed : Bool
  cvt_idx : Nat

/-- The two functions the builders call that are defined in other files.
`TA_sfnt_add_table_info(sfnt)` returns an error or changes
`sfnt->table_infos`; `TA_font_add_table(font, table_info, tag, len, buf)`
returns an error or changes `font->tables` and stores an index through
`table_info`. -/
structure TableFunctions where
  TA_sfnt_add_table_info : List Nat → Except FT_Error (List Nat)
  TA_font_add_table : List SFNT_Table → SFNT_Table → Except FT_Error (List SFNT_Table × Nat)

/-- The assignment `sfnt->table_infos[sfnt->num_table_infos - 1] = v`. -/
def set_last_info (infos : List Nat) (v : Nat) : List Nat :=
  infos.set (infos.length - 1) v

/-- The function `TA_sfnt_build_cvt_table` (`tacvt.c`, lines 366-406): the
error it returns, or on `FT_Err_Ok` the state it leaves. -/
def TA_sfnt_build_cvt_table (fs : TableFunctions) (env : Env) (sfnt : SFNT) :
    Except FT_Error SFNT :=
  match fs.TA_sfnt_add_table_info sfnt.table_infos with
  | .error e => .error e
  | .ok infos =>
    if sfnt.processed then
      .ok { sfnt with table_infos := set_last_info infos sfnt.cvt_idx }
    else
      match TA_table_build_cvt env with
      | .error e => .error e
      | .ok t =>
        match fs.TA_font_add_table sfnt.tables (.cvt t) with
        | .error e => .error e
        | .ok (tables, idx) =>
          { sfnt with
            table_infos := set_last_info infos idx
            tables := tables
            cvt_idx := idx } |> .ok

/-- The function `TA_sfnt_build_fpgm_table` (`tafpgm.c`, lines 4451-4481). -/
def TA_sfnt_build_fpgm_table (fs : TableFunctions) (font : FONT) (sfnt : SFNT) :
    Except FT_Error SFNT :=
  match fs.TA_sfnt_add_table_info sfnt.table_infos with
  | .error e => .error e
  | .ok infos =>
    match TA_table_build_fpgm font with
    | .error e => .error e
    | .ok t =>
      match fs.TA_font_add_table sfnt.tables (.fpgm t) with
      | .error e => .error e
      | .ok (tables, idx) =>
        .ok { sfnt with
          table_infos := set_last_info infos idx
          tables := tables }

/-- Table functions that never fail: a new table info is appended with the
value `0xFFFFFFFF`, a new table is appended to `font->tables` and its index
is stored. -/
def appending_functions : TableFunctions :=
  { TA_sfnt_add_table_info := fun infos => .ok (infos ++ [0xFFFFFFFF])
    TA_font_add_table := fun tables t => .ok (tables ++ [t], tables.length) }

/-- The tags of a list of tables: `true` for `fpgm`. -/
def fpgm_tags (tables : List SFNT_Table) : List Bool :=
  tables.map (fun t => match t with | .fpgm _ => true | .cvt _ => false)

/-- The state a call leaves, reduced to the table infos and the tags of the
tables. -/
def tables_after (r : Except FT_Error SFNT) : Option (List Nat × List Bool) :=
  match r with
  | .ok s => some (s.table_infos, fpgm_tags s.tables)
  | .error _ => none

/-- An SFNT whose glyf table has not been processed: one table info, no
`cvt` or `fpgm` table yet. -/
def fresh_sfnt : SFNT :=
  { table_infos := [0], tables := [], processed := false, cvt_idx := 0 }

/-- A second SFNT of the same font that shares the glyf table of the first:
the glyf table is marked as processed, `font->tables` holds the `cvt` table
(index 0, recorded in `data->cvt_idx`) and the `fpgm` table (index 1) built
for the first SFNT. -/
def second_sfnt : SFNT :=
  { table_infos := [0]
    tables := [.cvt (the_table latin_font),
      .fpgm { fpgm := [], fpgm_len := fpgm_buf_len }]
    processed := true
    cvt_idx := 0 }

/-! ## The front end (`frontend/maingui.cpp`) and the API (`lib/ttfautohint.h`) -/

/-- The error codes of `ttfautohint-errors.h` that `Main_GUI::run` compares
the return value with. -/
structure TA_Errors where
  TA_Err_Canceled : Int
  TA_Err_Invalid_FreeType_Version : Int
  TA_Err_Missing_Legal_Permission : Int
  TA_Err_Missing_Unicode_CMap : Int
  TA_Err_Missing_Glyph : Int

/-- A `QComboBox`: the texts of its items and the current index (`-1` when
no item is current). -/
structure QComboBox where
  items : List String
  currentIndex : Int

/-- A new combo box is empty. -/
def QComboBox.new : QComboBox := { items := [], currentIndex := -1 }

/-- The Qt function `QComboBox::insertItem(index, text)`: the item is
inserted at `index` (appended when `index` is not below the count); an item
inserted into an empty box becomes the current one, otherwise the current
item stays the same. -/
def QComboBox.insertItem (box : QComboBox) (index : Nat) (text : String) : QComboBox :=
  { items := box.items.take index ++ text :: box.items.drop index
    currentIndex :=
      if box.items = [] then 0
      else if (index : Int) ≤ box.currentIndex then box.currentIndex + 1
      else box.currentIndex }

/-- The Qt function `QComboBox::currentText()`: the text shown. -/
def QComboBox.currentText (box : QComboBox) : Option String :=
  if box.currentIndex < 0 then none else box.items[box.currentIndex.toNat]?

/-- The widgets of `Main_GUI` that `run` reads. -/
structure Main_GUI where
  min_box : Int
  max_box : Int
  ignore_box : Bool
  pre_box : Bool
  fallback_box : QComboBox

/-- Lines 490-492 of `Main_GUI::create_layout`: the combo box for the
fallback script. -/
def create_fallback_box : QComboBox :=
  QComboBox.new.insertItem 0 "Latin"

/-- A variadic argument of the call of `TTF_autohint` in `Main_GUI::run`. -/
inductive Argument where
  | in_file
  | out_file
  | integer (v : Int)
  | error_string
  | gui_progress
  | gui_progress_data
  deriving DecidableEq

/-- The kind of argument a field of the options string takes. -/
inductive ArgumentKind where
  | file
  | buffer
  | size
  | callback
  | callback_data
  | string_pointer
  | integer
  deriving DecidableEq

/-- The kind of a variadic argument. -/
def Argument.kind : Argument → ArgumentKind
  | .in_file => .file
  | .out_file => .file
  | .integer _ => .integer
  | .error_string => .string_pointer
  | .gui_progress => .callback
  | .gui_progress_data => .callback_data

/-- The value of a `bool` passed as a variadic argument. -/
def bool_argument (b : Bool) : Int := if b then 1 else 0

/-- Lines 367-372 of `Main_GUI::run`: the options string, the concatenation
of six string literals. -/
def run_options : String :=
  "in-file, out-file," ++ "hinting-range-min, hinting-range-max," ++ "error-string,"
    ++ "progress-callback, progress-callback-data," ++ "ignore-permissions, pre-hinting,"
    ++ "fallback-script"

/-- Lines 373-379 of `Main_GUI::run`: the variadic arguments. -/
def run_arguments (gui : Main_GUI) : List Argument :=
  [.in_file, .out_file,
   .integer gui.min_box, .integer gui.max_box,
   .error_string,
   .gui_progress, .gui_progress_data,
   .integer (bool_argument gui.ignore_box), .integer (bool_argument gui.pre_box),
   .integer gui.fallback_box.currentIndex]

/-- The fields that `ttfautohint.h` documents for the options string (lines
185-331), each with the kind of its one argument. -/
def documented_fields : List (String × ArgumentKind) :=
  [("in-file", .file),
   ("in-buffer", .buffer),
   ("in-buffer-len", .size),
   ("out-file", .file),
   ("out-buffer", .buffer),
   ("out-buffer-len", .size),
   ("progress-callback", .callback),
   ("progress-callback-data", .callback_data),
   ("error-string", .string_pointer),
   ("hinting-range-min", .integer),
   ("hinting-range-max", .integer),
   ("hinting-limit", .integer),
   ("gray-strong-stem-width", .integer),
   ("gdi-cleartype-strong-stem-width", .integer),
   ("dw-cleartype-strong-stem-width", .integer),
   ("increase-x-height", .integer),
   ("hint-with-components", .integer),
   ("pre-hinting", .integer),
   ("info-callback", .callback),
   ("info-callback-data", .callback_data),
   ("x-height-snapping-exceptions", .string_pointer),
   ("ignore-restrictions", .integer),
   ("fallback-script", .integer),
   ("symbol", .integer),
   ("debug", .integer)]

/-- The kind of argument `ttfautohint.h` documents for a field name. -/
def documented_kind (name : String) : Option ArgumentKind :=
  (documented_fields.find? (fun f => f.1 = name)).map Prod.snd

/-- The fields of an options string in the format `ttfautohint.h` documents
(lines 176-182), on the characters of the string: fields are separated by
commas, whitespace is not significant, a trailing comma is ignored.  `cur`
holds the characters of the current field in reverse order. -/
def split_fields : List Char → List Char → List (List Char)
  | [], cur => if cur = [] then [] else [cur.reverse]
  | c :: cs, cur =>
    if c = ',' then cur.reverse :: split_fields cs []
    else if c = ' ' ∨ c = '\t' ∨ c = '\n' then split_fields cs cur
    else split_fields cs (c :: cur)

/-- The field names of an options string. -/
def option_fields (options : String) : List String :=
  (split_fields options.toList []).map String.mk

/-- The script `ttfautohint.h` documents for a value of `fallback-script`
(lines 315-319): 1 selects the latin script, 0 no script; other values are
not documented. -/
inductive FallbackScript where
  | no_script
  | latin
  deriving DecidableEq

/-- The documented meaning of the argument of `fallback-script`. -/
def documented_fallback_script (v : Int) : Option FallbackScript :=
  if v = 1 then some .latin else if v = 0 then some .no_script else none

/-- A message box of `Main_GUI::run`, by its text. -/
inductive Message where
  | freetype_version
  | legal_permission
  | no_unicode_cmap
  | no_key_glyph
  | error_code (error : Int)
  deriving DecidableEq

/-- What `Main_GUI::run` does after the call of `TTF_autohint`. -/
inductive Effect where
  | critical (m : Message)
  | warning (m : Message)
  | remove_out_file
  deriving DecidableEq

/-- An effect is a message box. -/
def Effect.is_box : Effect → Bool
  | .critical _ => true
  | .warning _ => true
  | .remove_out_file => false

/-- Lines 383-431 of `Main_GUI::run`: the message box for a non-zero error
code. -/
def error_box (codes : TA_Errors) (error : Int) : List Effect :=
  if error = codes.TA_Err_Canceled then []
  else if error = codes.TA_Err_Invalid_FreeType_Version then [.critical .freetype_version]
  else if error = codes.TA_Err_Missing_Legal_Permission then [.warning .legal_permission]
  else if error = codes.TA_Err_Missing_Unicode_CMap then [.warning .no_unicode_cmap]
  else if error = codes.TA_Err_Missing_Glyph then [.warning .no_key_glyph]
  else [.warning (.error_code error)]

/-- The function `Main_GUI::run` (lines 338-436) from the call of
`TTF_autohint` on.  `check_filenames` and `open_files` are the values the
two calls in front return (0 makes `run` return at once; their own message
boxes are not part of the result), `TTF_autohint` is the library function
applied to the options string and the arguments.  The result lists what
happens after the call, in order. -/
def Main_GUI.run (codes : TA_Errors) (gui : Main_GUI) (check_filenames open_files : Int)
    (TTF_autohint : String → List Argument → Int) : List Effect :=
  if check_filenames = 0 then []
  else if open_files = 0 then []
  else
    let error := TTF_autohint run_options (run_arguments gui)
    if error ≠ 0 then error_box codes error ++ [.remove_out_file]
    else []

/-- The widgets after `create_layout` with the default values `min` and
`max` of the two spin boxes. -/
def sample_gui : Main_GUI :=
  { min_box := 8, max_box := 1000, ignore_box := false, pre_box := false,
    fallback_box := create_fallback_box }

/-- Sample values of the error codes. -/
def sample_errors : TA_Errors :=
  { TA_Err_Canceled := 0x10
    TA_Err_Invalid_FreeType_Version := 0x0E
    TA_Err_Missing_Legal_Permission := 0x0F
    TA_Err_Missing_Unicode_CMap := 0x12
    TA_Err_Missing_Glyph := 0x14 }

/-! ## The interpreter with the graphics state -/

/-- What the run of a glyph program leaves in the log: a function is
entered (through `CALL`, or in a round of `LOOPCALL`), `ALIGNRP` is applied
to a point of a zone, `IUP_y` is executed. -/
inductive Event where
  | enter (f : Int)
  | ALIGNRP (zone point : Int)
  | IUP_y
  deriving DecidableEq

/-- The graphics state along the y axis, to which `SVTCA_y` sets both
vectors: the three zone pointers, the three reference points, the rounding of
the current round state, the current and the original y coordinate of the
points of a zone (zone 0 is the twilight zone, zone 1 the glyph), and the log
with the latest event first.  The loop counter is 1 throughout: `SLOOP` is
not among the instructions run here. -/
structure GS where
  zp0 : Int
  zp1 : Int
  zp2 : Int
  rp0 : Int
  rp1 : Int
  rp2 : Int
  round : Int → Int
  cur : Int → Int → Int
  org : Int → Int → Int
  log : List Event

/-- A return point: the bytes of the caller before and after its `CALL` or
`LOOPCALL`, the function called and the number of rounds of a `LOOPCALL`
still to come. -/
structure GFrame where
  before : List Byte
  rest : List Byte
  fn : Int
  again : Nat

/-- The machine with the graphics state. -/
structure GMachine where
  before : List Byte
  rest : List Byte
  frames : List GFrame
  vm : VM
  gs : GS

/-- The outcome of one instruction. -/
inductive GStep where
  | next (m : GMachine)
  | halt (vm : VM) (gs : GS)
  | fail

/-- A coordinate of a point of a zone overwritten. -/
def move (c : Int → Int → Int) (zone point v : Int) : Int → Int → Int :=
  fun z p => if z = zone ∧ p = point then v else c z p

/-- The instruction `SZPS` with the zone `z`. -/
def GS.szps (gs : GS) (z : Int) : GS :=
  { gs with zp0 := z, zp1 := z, zp2 := z }

/-- The instruction `MDAP[noround]` on the point `p`: the point becomes `rp0`
and `rp1`. -/
def GS.mdap (gs : GS) (p : Int) : GS :=
  { gs with rp0 := p, rp1 := p }

/-- The instruction `MDAP[round]` on the point `p` of `zp0`: the coordinate
is rounded, and the point becomes `rp0` and `rp1`. -/
def GS.mdap_round (gs : GS) (p : Int) : GS :=
  { gs with
    rp0 := p
    rp1 := p
    cur := move gs.cur gs.zp0 p (gs.round (gs.cur gs.zp0 p)) }

/-- The instruction `ALIGNRP` on the point `p` of `zp1`: the point gets the
coordinate of `rp0` in `zp0`. -/
def GS.alignrp (gs : GS) (p : Int) : GS :=
  { gs with
    cur := move gs.cur gs.zp1 p (gs.cur gs.zp0 gs.rp0)
    log := .ALIGNRP gs.zp1 p :: gs.log }

/-- The instruction `SHPIX` on the point `p` of `zp2` with the amount `d`. -/
def GS.shpix (gs : GS) (p d : Int) : GS :=
  { gs with cur := move gs.cur gs.zp2 p (gs.cur gs.zp2 p + d) }

/-- The machine at the start of the body of a function definition. -/
def genter (arr : List Byte) (frames : List GFrame) (vm : VM) (gs : GS) : GMachine :=
  { before := (arr.take 3).reverse, rest := arr.drop 3, frames := frames, vm := vm, gs := gs }

/-- An instruction without effect on the graphics state and the frames,
done as in the machine without graphics state. -/
def pure_op (e : Engine) (m : GMachine) (b : Byte) : GStep :=
  match exec_op e ⟨m.before, m.rest, [], m.vm⟩ b with
  | .next m1 => .next { m with before := m1.before, rest := m1.rest, vm := m1.vm }
  | _ => .fail

/-- The 16-bit word of `PUSHW_1` with the high byte `hi` and the low byte
`lo`, read as a signed number. -/
def word (hi lo : Int) : Int :=
  if hi * 256 + lo < 32768 then hi * 256 + lo else hi * 256 + lo - 65536

/-- The machine with a new stack and a new graphics state. -/
def set_gs (m : GMachine) (s : List Int) (gs : GS) : GStep :=
  .next { m with vm := { m.vm with stack := s }, gs := gs }

/-- The instruction `b`, which the machine has just passed. -/
def gexec (e : Engine) (m : GMachine) (b : Byte) : GStep :=
  match b with
  | .CALL => match m.vm.stack with
    | f :: s =>
      match e.fdefs f with
      | some arr =>
        .next (genter arr (⟨m.before, m.rest, f, 0⟩ :: m.frames) { m.vm with stack := s }
          { m.gs with log := .enter f :: m.gs.log })
      | none => .fail
    | _ => .fail
  | .LOOPCALL => match m.vm.stack with
    | f :: count :: s =>
      match count.toNat with
      | 0 => .next { m with vm := { m.vm with stack := s } }
      | k + 1 =>
        match e.fdefs f with
        | some arr =>
          .next (genter arr (⟨m.before, m.rest, f, k⟩ :: m.frames) { m.vm with stack := s }
            { m.gs with log := .enter f :: m.gs.log })
        | none => .fail
    | _ => .fail
  | .ENDF => match m.frames with
    | [] => .halt m.vm m.gs
    | fr :: frs =>
      match fr.again with
      | 0 => .next { m with before := fr.before, rest := fr.rest, frames := frs }
      | k + 1 =>
        match e.fdefs fr.fn with
        | some arr =>
          .next (genter arr ({ fr with again := k } :: frs) m.vm
            { m.gs with log := .enter fr.fn :: m.gs.log })
        | none => .fail
  | .JMPR => match m.vm.stack with
    | k :: s =>
      if k ≤ 0 then
        if (-k).toNat + 1 ≤ m.before.length then
          .next { m with
            before := m.before.drop ((-k).toNat + 1)
            rest := (m.before.take ((-k).toNat + 1)).reverse ++ m.rest
            vm := { m.vm with stack := s } }
        else .fail
      else
        if k.toNat - 1 ≤ m.rest.length then
          .next { m with
            before := (m.rest.take (k.toNat - 1)).reverse ++ m.before
            rest := m.rest.drop (k.toNat - 1)
            vm := { m.vm with stack := s } }
        else .fail
    | _ => .fail
  | .PUSHW_1 => match m.rest with
    | b1 :: b2 :: rest =>
      match value e b1, value e b2 with
      | some hi, some lo =>
        .next { m with
          before := b2 :: b1 :: m.before
          rest := rest
          vm := { m.vm with stack := word hi lo :: m.vm.stack } }
      | _, _ => .fail
    | _ => .fail
  | .SVTCA_y => .next m
  | .SZPS => match m.vm.stack with
    | z :: s =>
      if z = 0 ∨ z = 1 then set_gs m s (m.gs.szps z) else .fail
    | _ => .fail
  | .SZP0 => match m.vm.stack with
    | z :: s => if z = 0 ∨ z = 1 then set_gs m s { m.gs with zp0 := z } else .fail
    | _ => .fail
  | .SZP1 => match m.vm.stack with
    | z :: s => if z = 0 ∨ z = 1 then set_gs m s { m.gs with zp1 := z } else .fail
    | _ => .fail
  | .SZP2 => match m.vm.stack with
    | z :: s => if z = 0 ∨ z = 1 then set_gs m s { m.gs with zp2 := z } else .fail
    | _ => .fail
  | .MDAP_noround => match m.vm.stack with
    | p :: s => set_gs m s (m.gs.mdap p)
    | _ => .fail
  | .MDAP_round => match m.vm.stack with
    | p :: s => set_gs m s (m.gs.mdap_round p)
    | _ => .fail
  | .ALIGNRP => match m.vm.stack with
    | p :: s => set_gs m s (m.gs.alignrp p)
    | _ => .fail
  | .SHPIX => match m.vm.stack with
    | d :: p :: s => set_gs m s (m.gs.shpix p d)
    | _ => .fail
  | .GC_cur => match m.vm.stack with
    | p :: s => set_gs m (m.gs.cur m.gs.zp2 p :: s) m.gs
    | _ => .fail
  | .GC_orig => match m.vm.stack with
    | p :: s => set_gs m (m.gs.org m.gs.zp2 p :: s) m.gs
    | _ => .fail
  | .MD_cur => match m.vm.stack with
    | k :: l :: s => set_gs m ((m.gs.cur m.gs.zp0 l - m.gs.cur m.gs.zp1 k) :: s) m.gs
    | _ => .fail
  | .MD_orig => match m.vm.stack with
    | k :: l :: s => set_gs m ((m.gs.org m.gs.zp0 l - m.gs.org m.gs.zp1 k) :: s) m.gs
    | _ => .fail
  | .IUP_y => .next { m with gs := { m.gs with log := .IUP_y :: m.gs.log } }
  | _ => pure_op e m b

/-- One instruction of the machine. -/
def gstep (e : Engine) (m : GMachine) : GStep :=
  match m.rest with
  | [] => .fail
  | b :: rest => gexec e { m with before := b :: m.before, rest := rest } b

/-- The machine run for at most `fuel` instructions; the result is the state
at the `ENDF` that ends the outermost function. -/
def grun (e : Engine) : Nat → GMachine → Option (VM × GS)
  | 0, _ => none
  | fuel + 1, m =>
    match gstep e m with
    | .next m1 => grun e fuel m1
    | .halt vm gs => some (vm, gs)
    | .fail => none

/-- The machine gets from one state to another in some number of
instructions. -/
inductive GReaches (e : Engine) : GMachine → GMachine → Prop where
  | refl (m : GMachine) : GReaches e m m
  | step {m m1 m2 : GMachine} (h : gstep e m = .next m1) (h2 : GReaches e m1 m2) :
      GReaches e m m2

/-- The events `ALIGNRP` of the points `f`, `f + 1`, ..., `f + n - 1` of a
zone, the latest first. -/
def alignrp_events (zone f : Int) : Nat → List Event
  | 0 => []
  | n + 1 => .ALIGNRP zone (f + n) :: alignrp_events zone f n

/-- The graphics state after `ALIGNRP` of the points `f`, `f + 1`, ..., `l`
of the zone `zp1`, in this order: each gets the coordinate of `rp0`. -/
def GS.aligned (gs : GS) (f l : Int) : GS :=
  { gs with
    cur := fun z p => if z = gs.zp1 ∧ f ≤ p ∧ p ≤ l then gs.cur gs.zp0 gs.rp0 else gs.cur z p
    log := alignrp_events gs.zp1 f (l - f + 1).toNat ++ gs.log }

/-- The storage cell with the first point of segment `seg`. -/
def segment_first (e : Engine) (st : Int → Int) (seg : Int) : Int :=
  st (e.sal .sal_segment_offset + 2 * seg)

/-- The storage cell with the last point of segment `seg`. -/
def segment_last (e : Engine) (st : Int → Int) (seg : Int) : Int :=
  st (e.sal .sal_segment_offset + 2 * seg + 1)

/-- The function with the body `arr`, entered with `vm` and `gs`, runs to its
`ENDF` and has `vm1` and `gs1` there, whatever the callers are. -/
def Returns (e : Engine) (arr : List Byte) (vm : VM) (gs : GS) (vm1 : VM) (gs1 : GS) : Prop :=
  ∀ frames : List GFrame,
    ∃ bef, GReaches e (genter arr frames vm gs) ⟨bef, [Byte.ENDF], frames, vm1, gs1⟩

/-- The stack of a glyph program in front of `bci_hint_glyph` holds `M`
actions: `M` times, the number on top of the stack is the number `a` of a
function other than `bci_handle_action`; with `a` removed and after the
entries of `bci_handle_action` and of `a` in the log, the function runs to
its `ENDF`, and the events `evs` it adds to the log hold neither an entry of
`bci_handle_action` nor `IUP_y`.  The last two arguments are the state after
the last action. -/
inductive Actions (e : Engine) : Nat → VM → GS → VM → GS → Prop where
  | done (vm : VM) (gs : GS) : Actions e 0 vm gs vm gs
  | act {M : Nat} {a : Int} {s : List Int} {st cv : Int → Int} {gs : GS} {arr : List Byte}
      {evs : List Event} {vm1 : VM} {gs1 : GS} {vm2 : VM} {gs2 : GS}
      (ha : a ≠ e.bci .bci_handle_action)
      (hf : e.fdefs a = some arr)
      (hr : Returns e arr ⟨s, st, cv⟩
        { gs with log := .enter a :: .enter (e.bci .bci_handle_action) :: gs.log } vm1 gs1)
      (hl : gs1.log = evs ++ .enter a :: .enter (e.bci .bci_handle_action) :: gs.log)
      (h1 : Event.enter (e.bci .bci_handle_action) ∉ evs)
      (h2 : Event.IUP_y ∉ evs)
      (hn : Actions e M vm1 gs1 vm2 gs2) :
      Actions e (M + 1) ⟨a :: s, st, cv⟩ gs vm2 gs2

/-! ## The serif actions and their bounds -/

/-- The four serif actions of `tafpgm.c`. -/
inductive SerifAction where
  | serif
  | serif_anchor
  | serif_link1
  | serif_link2
  deriving DecidableEq

/-- The variants of a serif action: without bound, with the lower bound
`edge[-1]`, with the upper bound `edge[1]`, with both. -/
inductive Bounds where
  | unbounded
  | lower
  | upper
  | lower_upper
  deriving DecidableEq

/-- The array of a serif action in a variant. -/
def SerifAction.array : SerifAction → Bounds → List Byte
  | .serif, .unbounded => fpgm_bci_action_serif
  | .serif, .lower => fpgm_bci_action_serif_lower_bound
  | .serif, .upper => fpgm_bci_action_serif_upper_bound
  | .serif, .lower_upper => fpgm_bci_action_serif_lower_upper_bound
  | .serif_anchor, .unbounded => fpgm_bci_action_serif_anchor
  | .serif_anchor, .lower => fpgm_bci_action_serif_anchor_lower_bound
  | .serif_anchor, .upper => fpgm_bci_action_serif_anchor_upper_bound
  | .serif_anchor, .lower_upper => fpgm_bci_action_serif_anchor_lower_upper_bound
  | .serif_link1, .unbounded => fpgm_bci_action_serif_link1
  | .serif_link1, .lower => fpgm_bci_action_serif_link1_lower_bound
  | .serif_link1, .upper => fpgm_bci_action_serif_link1_upper_bound
  | .serif_link1, .lower_upper => fpgm_bci_action_serif_link1_lower_upper_bound
  | .serif_link2, .unbounded => fpgm_bci_action_serif_link2
  | .serif_link2, .lower => fpgm_bci_action_serif_link2_lower_bound
  | .serif_link2, .upper => fpgm_bci_action_serif_link2_upper_bound
  | .serif_link2, .lower_upper => fpgm_bci_action_serif_link2_lower_upper_bound

/-- The last seven bytes of every serif action: `MDAP_noround`, the call of
`bci_align_segments` with `zp1` set to the glyph zone, and `ENDF`. -/
def action_tail : List Byte :=
  fpgm_bci_action_serif.drop 29

/-- The bytes of a serif action without bound between its `FDEF` and the last
seven bytes: the computation of the position. -/
def SerifAction.code (a : SerifAction) : List Byte :=
  ((a.array .unbounded).drop 3).dropLast.dropLast.dropLast.dropLast.dropLast.dropLast.dropLast

/-- The check of the lower bound, as it stands in
`bci_action_serif_lower_bound` behind the computation of the position. -/
def lower_bound_check : List Byte :=
  (fpgm_bci_action_serif_lower_bound.drop 29).take 13

/-- The check of the upper bound, as it stands in
`bci_action_serif_upper_bound`. -/
def upper_bound_check : List Byte :=
  (fpgm_bci_action_serif_upper_bound.drop 29).take 13

/-- The checks of a variant. -/
def Bounds.checks : Bounds → List Byte
  | .unbounded => []
  | .lower => lower_bound_check
  | .upper => upper_bound_check
  | .lower_upper => lower_bound_check ++ upper_bound_check

/-- The function number of a serif action in a variant. -/
def SerifAction.fn : SerifAction → Bounds → Fn
  | .serif, .unbounded => .bci_action_serif
  | .serif, .lower => .bci_action_serif_lower_bound
  | .serif, .upper => .bci_action_serif_upper_bound
  | .serif, .lower_upper => .bci_action_serif_lower_upper_bound
  | .serif_anchor, .unbounded => .bci_action_serif_anchor
  | .serif_anchor, .lower => .bci_action_serif_anchor_lower_bound
  | .serif_anchor, .upper => .bci_action_serif_anchor_upper_bound
  | .serif_anchor, .lower_upper => .bci_action_serif_anchor_lower_upper_bound
  | .serif_link1, .unbounded => .bci_action_serif_link1
  | .serif_link1, .lower => .bci_action_serif_link1_lower_bound
  | .serif_link1, .upper => .bci_action_serif_link1_upper_bound
  | .serif_link1, .lower_upper => .bci_action_serif_link1_lower_upper_bound
  | .serif_link2, .unbounded => .bci_action_serif_link2
  | .serif_link2, .lower => .bci_action_serif_link2_lower_bound
  | .serif_link2, .upper => .bci_action_serif_link2_upper_bound
  | .serif_link2, .lower_upper => .bci_action_serif_link2_lower_upper_bound

/-- The check of the lower bound `lo` for the point `edge`: `lo` becomes
`rp0` and `rp1`, and when its coordinate is greater than the one of `edge`,
`edge` is aligned with it. -/
def GS.lower_bound (gs : GS) (edge lo : Int) : GS :=
  if (gs.mdap lo).cur (gs.mdap lo).zp2 lo > (gs.mdap lo).cur (gs.mdap lo).zp2 edge then
    (gs.mdap lo).alignrp edge
  else gs.mdap lo

/-- The check of the upper bound `hi` for the point `edge`: `hi` becomes
`rp0` and `rp1`, and when its coordinate is less than the one of `edge`,
`edge` is aligned with it. -/
def GS.upper_bound (gs : GS) (edge hi : Int) : GS :=
  if (gs.mdap hi).cur (gs.mdap hi).zp2 hi < (gs.mdap hi).cur (gs.mdap hi).zp2 edge then
    (gs.mdap hi).alignrp edge
  else gs.mdap hi

/-- The checks of a variant on the state `gs` behind the computation of the
position of `edge`, with the bounds on the stack `s`: the state and the stack
behind the checks. -/
def Bounds.apply (gs : GS) (edge : Int) : Bounds → List Int → Option (GS × List Int)
  | .unbounded, s => some (gs, s)
  | .lower, lo :: s => some (gs.lower_bound edge lo, s)
  | .upper, hi :: s => some (gs.upper_bound edge hi, s)
  | .lower_upper, lo :: hi :: s => some ((gs.lower_bound edge lo).upper_bound edge hi, s)
  | _, _ => none

/-- The product of `MUL`. -/
def mul (e : Engine) (x y : Int) : Int := e.div (x * y) 64

/-- The computation of `bci_action_serif` for the points `serif` and `base`
of the twilight zone, with `N` the storage cell `sal_num_segments`: `serif`
is aligned with `base` and shifted by the distance of the points
`serif + N` and `base + N`. -/
def serif_result (e : Engine) (st : Int → Int) (gs : GS) (serif base : Int) : GS :=
  (((gs.szps 0).mdap base).alignrp serif).shpix serif
    (gs.cur 0 (serif + st (e.sal .sal_num_segments))
      - gs.cur 0 (base + st (e.sal .sal_num_segments)))

/-- The computation of `bci_action_serif_anchor` for the point `edge`, with
`N` the storage cell `sal_num_segments` read after `sal_anchor` has been
written: `edge` is aligned with `edge + N` and rounded. -/
def serif_anchor_result (e : Engine) (st : Int → Int) (gs : GS) (edge : Int) : GS :=
  (((gs.szps 0).mdap
      (edge + update st (e.sal .sal_anchor) edge (e.sal .sal_num_segments))).alignrp
    edge).mdap_round edge

/-- The computation of `bci_action_serif_link1` for the points `before`,
`edge` and `after`. -/
def serif_link1_result (e : Engine) (st : Int → Int) (gs : GS) (before edge after : Int) :
    GS :=
  if gs.cur 0 (after + st (e.sal .sal_num_segments))
      - gs.cur 0 (before + st (e.sal .sal_num_segments)) = 0 then
    ((gs.szps 0).mdap before).alignrp edge
  else
    (((gs.szps 0).mdap before).alignrp edge).shpix edge
      (e.div
        (mul e
            (mul e (gs.cur 0 (edge + st (e.sal .sal_num_segments))
              - gs.cur 0 (before + st (e.sal .sal_num_segments))) 4096)
            (gs.cur 0 after - gs.cur 0 before) * 64)
        (mul e (gs.cur 0 (after + st (e.sal .sal_num_segments))
          - gs.cur 0 (before + st (e.sal .sal_num_segments))) 4096))

/-- The computation of `bci_action_serif_link2` for the point `edge`, with
`anchor` the storage cell `sal_anchor`. -/
def serif_link2_result (e : Engine) (st : Int → Int) (gs : GS) (edge : Int) : GS :=
  (((gs.szps 0).mdap (st (e.sal .sal_anchor))).alignrp edge).shpix edge
    (e.div
      ((gs.cur 0 (edge + st (e.sal .sal_num_segments))
          - gs.cur 0 (st (e.sal .sal_anchor) + st (e.sal .sal_num_segments))
          + (gs.cur 0 (edge + st (e.sal .sal_num_segments))
            - gs.cur 0 (st (e.sal .sal_anchor) + st (e.sal .sal_num_segments)))
          + 32) / 64 * 64 * 64)
      128)

/-- The computation of the position in a serif action, on the stack `stack`
and the storage area `st`: the point moved, the stack below the arguments,
the storage area and the graphics state behind the computation.  There is no
result when an argument is missing, or when `bci_action_serif_link1` divides
by zero. -/
def SerifAction.result (e : Engine) (st : Int → Int) (gs : GS) :
    SerifAction → List Int → Option (Int × List Int × (Int → Int) × GS)
  | .serif, point :: base :: s => some (point, s, st, serif_result e st gs point base)
  | .serif_anchor, edge :: s =>
    some (edge, s, update st (e.sal .sal_anchor) edge, serif_anchor_result e st gs edge)
  | .serif_link1, before :: edge :: after :: s =>
    if gs.cur 0 (after + st (e.sal .sal_num_segments))
          - gs.cur 0 (before + st (e.sal .sal_num_segments)) ≠ 0
        ∧ mul e (gs.cur 0 (after + st (e.sal .sal_num_segments))
          - gs.cur 0 (before + st (e.sal .sal_num_segments))) 4096 = 0 then none
    else some (edge, s, st, serif_link1_result e st gs before edge after)
  | .serif_link2, edge :: s => some (edge, s, st, serif_link2_result e st gs edge)
  | _, _ => none

/-- The entry of the function `f` in the log. -/
def GS.entered (gs : GS) (f : Int) : GS :=
  { gs with log := .enter f :: gs.log }

/-- The instruction `SZP1` with the zone `z`. -/
def GS.szp1 (gs : GS) (z : Int) : GS :=
  { gs with zp1 := z }

/-- The graphics state after `bci_align_segment` has been entered and run
for each segment of a list in turn. -/
def aligned_segments (e : Engine) (st : Int → Int) : GS → List Int → GS
  | gs, [] => gs
  | gs, seg :: segs =>
    aligned_segments e st
      ((gs.entered (e.bci .bci_align_segment)).aligned (segment_first e st seg)
        (segment_last e st seg)) segs

/-- The graphics state after the last bytes of a serif action for the point
`edge` and the segments `segs`: `edge` becomes `rp0` and `rp1`, `zp1` is set
to the glyph zone, and `bci_align_segments` aligns the points of the
segments. -/
def tail_result (e : Engine) (st : Int → Int) (gs : GS) (edge : Int) (segs : List Int) : GS :=
  aligned_segments e st (((gs.mdap edge).szp1 1).entered (e.bci .bci_align_segments)) segs

/-! ## The segments -/

/-- One call of `bci_get_point_extrema` for the point `p`, which is the
point above the one on the stack: `p` becomes `sal_point_min` when it lies
below the point stored there, and `sal_point_max` when it lies above the point
stored there; `o0` and `o1` are the original coordinates of the points of
`zp0` and of `zp1`. -/
def extrema_step (e : Engine) (o0 o1 : Int → Int) (st : Int → Int) (p : Int) : Int → Int :=
  if o0 p
      - o1 ((if o0 p - o1 (st (e.sal .sal_point_min)) < 0
          then update st (e.sal .sal_point_min) p else st) (e.sal .sal_point_max)) > 0 then
    update
      (if o0 p - o1 (st (e.sal .sal_point_min)) < 0
        then update st (e.sal .sal_point_min) p else st)
      (e.sal .sal_point_max) p
  else
    if o0 p - o1 (st (e.sal .sal_point_min)) < 0
      then update st (e.sal .sal_point_min) p else st

/-- The storage area after `n` calls of `bci_get_point_extrema` in a row, for
the points `p + 1`, ..., `p + n`. -/
def extrema (e : Engine) (o0 o1 : Int → Int) : Nat → Int → (Int → Int) → (Int → Int)
  | 0, _, st => st
  | n + 1, p, st => extrema e o0 o1 n (p + 1) (extrema_step e o0 o1 st (p + 1))

/-- The graphics state after `n` entries of the function `f` in the log. -/
def GS.entered_times (gs : GS) (f : Int) (n : Nat) : GS :=
  { gs with log := List.replicate n (.enter f) ++ gs.log }

/-- The instruction `SZP2` with the zone `z`. -/
def GS.szp2 (gs : GS) (z : Int) : GS :=
  { gs with zp2 := z }

/-- The arguments of `bci_create_segment` for one segment: `start`, `end`,
and for a wrap-around segment (`end < start`) the last and the first point
of the contour. -/
structure Segment where
  start : Int
  end_ : Int
  last : Int
  first : Int

/-- The arguments of a segment on the stack, `start` on top. -/
def Segment.args (g : Segment) : List Int :=
  if g.end_ < g.start then [g.start, g.end_, g.last, g.first] else [g.start, g.end_]

/-- The point that `bci_create_segment` stores behind `start`: `end`, and
for a wrap-around segment the last point of the contour. -/
def Segment.recorded_last (g : Segment) : Int :=
  if g.end_ < g.start then g.last else g.end_

/-- Lines 568-596 of `bci_create_segment`: `start` is stored in the cell
`sal_i` points to, `sal_i` is increased, and `sal_point_min` and
`sal_point_max` are set to `start`. -/
def segment_head (e : Engine) (st : Int → Int) (start : Int) : Int → Int :=
  update
    (update
      (update (update st (st (e.sal .sal_i)) start) (e.sal .sal_i)
        (1 + update st (st (e.sal .sal_i)) start (e.sal .sal_i)))
      (e.sal .sal_point_min) start)
    (e.sal .sal_point_max) start

/-- Lines 615-621 and 659-665: the last point of the range is stored in the
cell `sal_i` points to now. -/
def segment_recorded (e : Engine) (st : Int → Int) (g : Segment) : Int → Int :=
  update (segment_head e st g.start) (segment_head e st g.start (e.sal .sal_i)) g.recorded_last

/-- Lines 623-655 and 667-677: the extrema are taken over the points
`start + 1`, ..., `end`, and for a wrap-around segment over
`start + 1`, ..., `last` and `first`, ..., `end`. -/
def segment_extrema (e : Engine) (o : Int → Int) (st : Int → Int) (g : Segment) : Int → Int :=
  if g.end_ < g.start then
    extrema e o o (g.end_ - (g.first - 1)).toNat (g.first - 1)
      (extrema e o o (g.last - g.start).toNat g.start (segment_recorded e st g))
  else extrema e o o (g.end_ - g.start).toNat g.start (segment_recorded e st g)

/-- Lines 680-702: the scaled middle between the original coordinates of
`sal_point_min` and `sal_point_max`. -/
def segment_middle (e : Engine) (o : Int → Int) (st : Int → Int) : Int :=
  e.div
    (mul e (e.div ((o (st (e.sal .sal_point_min)) + o (st (e.sal .sal_point_max))) * 64) 128)
        (st (e.sal .sal_scale)) * 64)
    (st (e.sal .sal_0x10000))

/-- The storage area after `bci_create_segment`: lines 727-739 increase
`sal_j` and `sal_k`. -/
def created_storage (e : Engine) (o : Int → Int) (st : Int → Int) (g : Segment) : Int → Int :=
  update
    (update (segment_extrema e o st g) (e.sal .sal_j)
      (1 + segment_extrema e o st g (e.sal .sal_j)))
    (e.sal .sal_k)
    (1 + update (segment_extrema e o st g) (e.sal .sal_j)
      (1 + segment_extrema e o st g (e.sal .sal_j)) (e.sal .sal_k))

/-- The number of calls of `bci_get_point_extrema` for a segment. -/
def Segment.extrema_calls (g : Segment) : Nat :=
  if g.end_ < g.start then (g.last - g.start).toNat + (g.end_ - (g.first - 1)).toNat
  else (g.end_ - g.start).toNat

/-- The graphics state after `bci_create_segment`: the zone pointers are set
(lines 598-600 and 706), the calls of `bci_get_point_extrema` are logged, and
lines 704-725 shift the twilight points `sal_j` and `sal_k` to the middle. -/
def created_gs (e : Engine) (st : Int → Int) (gs : GS) (g : Segment) : GS :=
  ((((gs.szps 1).entered_times (e.bci .bci_get_point_extrema) g.extrema_calls).szp2 0).shpix
      (segment_extrema e (gs.org 1) st g (e.sal .sal_j))
      (segment_middle e (gs.org 1) (segment_extrema e (gs.org 1) st g)
        - gs.cur 0 (segment_extrema e (gs.org 1) st g (e.sal .sal_j)))).shpix
    (segment_extrema e (gs.org 1) st g (e.sal .sal_k))
    (segment_middle e (gs.org 1) (segment_extrema e (gs.org 1) st g)
      - ((((gs.szps 1).entered_times (e.bci .bci_get_point_extrema) g.extrema_calls).szp2
            0).shpix
          (segment_extrema e (gs.org 1) st g (e.sal .sal_j))
          (segment_middle e (gs.org 1) (segment_extrema e (gs.org 1) st g)
            - gs.cur 0 (segment_extrema e (gs.org 1) st g (e.sal .sal_j)))).cur 0
        (segment_extrema e (gs.org 1) st g (e.sal .sal_k)))

/-- The numbering of the storage area: the named cells have different
numbers, and `sal_segment_offset`, where the segments start, is the greatest
of them. -/
structure Slots (e : Engine) : Prop where
  inj : Function.Injective e.sal
  below : ∀ x : Sal, x ≠ .sal_segment_offset → e.sal x < e.sal .sal_segment_offset

/-- One round of `bci_loop` with the function `bci_create_segment`: the
function is entered and run, and lines 327-334 increase `sal_i`. -/
def loop_step (e : Engine) (state : (Int → Int) × GS) (g : Segment) : (Int → Int) × GS :=
  (update
      (created_storage e (state.2.org 1) state.1 g) (e.sal .sal_i)
      (1 + created_storage e (state.2.org 1) state.1 g (e.sal .sal_i)),
    created_gs e state.1 (state.2.entered (e.bci .bci_create_segment)) g)

/-- The arguments of a list of segments on the stack, the first segment on
top. -/
def segments_args : List Segment → List Int
  | [] => []
  | g :: gs => g.args ++ segments_args gs

/-- The state in front of the loop of `bci_loop` as `bci_create_segments`
calls it for `n` segments (lines 778-808 and 301-315). -/
def segments_start (e : Engine) (st : Int → Int) (gs : GS) (n : Nat) : (Int → Int) × GS :=
  (update
      (update
        (update
          (update
            (update (update st (e.sal .sal_num_segments) n) (e.sal .sal_j)
              (update st (e.sal .sal_num_segments) n (e.sal .sal_num_segments)))
            (e.sal .sal_k) 0)
          (e.sal .sal_func) (e.bci .bci_create_segment))
        (e.sal .sal_limit)
        (e.sal .sal_segment_offset
          + (update
                (update (update st (e.sal .sal_num_segments) n) (e.sal .sal_j)
                  (update st (e.sal .sal_num_segments) n (e.sal .sal_num_segments)))
                (e.sal .sal_k) 0 (e.sal .sal_num_segments)
              + update
                (update (update st (e.sal .sal_num_segments) n) (e.sal .sal_j)
                  (update st (e.sal .sal_num_segments) n (e.sal .sal_num_segments)))
                (e.sal .sal_k) 0 (e.sal .sal_num_segments))
          - 1))
      (e.sal .sal_i) (e.sal .sal_segment_offset),
    (gs.entered (e.bci .bci_loop)))

/-- The loop of `bci_loop` runs through for a list of segments: in front of
each segment `sal_i` is not above `sal_limit`, `sal_func` holds the number of
`bci_create_segment` and the function does not divide by zero; behind the
last segment `sal_i` is above `sal_limit`. -/
def loop_ok (e : Engine) : (Int → Int) × GS → List Segment → Prop
  | state, [] => ¬ state.1 (e.sal .sal_i) ≤ state.1 (e.sal .sal_limit)
  | state, g :: segs =>
    state.1 (e.sal .sal_i) ≤ state.1 (e.sal .sal_limit)
    ∧ state.1 (e.sal .sal_func) = e.bci .bci_create_segment
    ∧ segment_extrema e (state.2.org 1) state.1 g (e.sal .sal_0x10000) ≠ 0
    ∧ loop_ok e (loop_step e state g) segs

/-- The invariant of the loop of `bci_create_segments` for `n` segments,
behind the segments `done`, with `st0` and `gs0` the storage area and the
graphics state at the call: the counters, the cells the loop reads, the
ranges stored so far, and the twilight points set so far. -/
structure SegmentsInv (e : Engine) (st0 : Int → Int) (gs0 : GS) (n : Nat)
    (done : List Segment) (state : (Int → Int) × GS) : Prop where
  sal_i : state.1 (e.sal .sal_i) = e.sal .sal_segment_offset + 2 * done.length
  sal_j : state.1 (e.sal .sal_j) = n + done.length
  sal_k : state.1 (e.sal .sal_k) = done.length
  sal_func : state.1 (e.sal .sal_func) = e.bci .bci_create_segment
  sal_limit : state.1 (e.sal .sal_limit) = e.sal .sal_segment_offset + 2 * n - 1
  sal_num : state.1 (e.sal .sal_num_segments) = n
  divisor : state.1 (e.sal .sal_0x10000) = st0 (e.sal .sal_0x10000)
  cells : ∀ (t : Nat) (g : Segment), done[t]? = some g →
    state.1 (e.sal .sal_segment_offset + 2 * t) = g.start
    ∧ state.1 (e.sal .sal_segment_offset + 2 * t + 1) = g.recorded_last
  org : state.2.org = gs0.org
  twins : ∀ t : Nat, t < done.length → state.2.cur 0 t = state.2.cur 0 (n + t)
  others : ∀ z p : Int,
    ¬ (z = 0 ∧ ((0 ≤ p ∧ p < done.length) ∨ (n ≤ p ∧ p < n + done.length))) →
    state.2.cur z p = gs0.cur z p
  log : ∃ new, state.2.log = new ++ gs0.log
    ∧ new.count (.enter (e.bci .bci_create_segment)) = done.length

/-! ## A sample glyph -/

/-- An interpreter for `small_cvt_font` in which the segments start behind
the named cells of the storage area: the cells are numbered in the order of
their first use in `tafpgm.c`, but `sal_segment_offset` is 16. -/
def glyph_engine : Engine :=
  { bci := fun f => f.toCtorIdx
    sal := fun s => if s = .sal_segment_offset then 16 else s.toCtorIdx
    fdefs := function_table (fun f => f.toCtorIdx) (fpgm_stream small_cvt_font)
    div := Int.tdiv }

/-- A storage area for a glyph with three segments: `sal_scale` (cell 4)
and `sal_0x10000` (cell 5) are 0x10000, `sal_num_segments` (cell 10) is 3,
`sal_anchor` (cell 15) is 0; segment 0 has the points 3 to 5, segment 1 the
points 8 to 9, and segment 2 is stored with the first point 7 and the last
point 6. -/
def glyph_storage : Int → Int :=
  fun k =>
    if k = 4 then 0x10000 else if k = 5 then 0x10000 else if k = 10 then 3
    else if k = 16 then 3 else if k = 17 then 5
    else if k = 18 then 8 else if k = 19 then 9
    else if k = 20 then 7 else if k = 21 then 6 else 0

/-- The coordinates of the sample glyph: in the twilight zone the hinted
points 0, 1, 2 are at 128, 0, 170 and the original points 3, 4, 5 at 100,
150, 210; point `p` of the glyph is at `10 * p`. -/
def glyph_cur : Int → Int → Int :=
  fun z p =>
    if z = 0 then
      if p = 0 then 128 else if p = 2 then 170 else if p = 3 then 100
      else if p = 4 then 150 else if p = 5 then 210 else 0
    else 10 * p

/-- A graphics state of the sample glyph: the zone pointers are 1, the
reference points 0, the round state rounds to the grid, the log is empty. -/
def glyph_gs : GS :=
  { zp0 := 1, zp1 := 1, zp2 := 1, rp0 := 0, rp1 := 0, rp2 := 0, round := spec_round,
    cur := glyph_cur, org := glyph_cur, log := [] }

/-- The graphics state in which an action of the sample glyph starts when
`bci_hint_glyph` calls the serif action with both bounds: the entries of
`bci_handle_action` and of the action are in the log. -/
def sample_action_gs : GS :=
  { glyph_gs with
    log := .enter (glyph_engine.bci .bci_action_serif_lower_upper_bound)
      :: .enter (glyph_engine.bci .bci_handle_action) :: glyph_gs.log }

/-- The graphics state that the serif action with both bounds leaves from
`gs` in the sample glyph, for the serif point 1 with the base point 0, the
bounds 0 and 2 and the segment 0. -/
def sample_action_result (gs : GS) : GS :=
  tail_result glyph_engine glyph_storage
    (((serif_result glyph_engine glyph_storage gs 1 0).lower_bound 1 0).upper_bound 1 2) 1 [0]

/-- The storage area and the graphics state that `bci_create_segments`
leaves for a list of segments: the rounds of the loop in the order of the
list, from the state in front of the loop. -/
def created_segments (e : Engine) (st : Int → Int) (gs : GS) (segs : List Segment) :
    (Int → Int) × GS :=
  segs.foldl (loop_step e) (segments_start e st gs segs.length)

/-- A wrap-around segment of the sample glyph: the contour has the points 0
to 9, the segment the points 8, 9, 0, 1, 2. -/
def wrap_around_segment : Segment :=
  { start := 8, end_ := 2, last := 9, first := 0 }

/-- A segment of the sample glyph with the points 3 to 5. -/
def plain_segment : Segment :=
  { start := 3, end_ := 5, last := 0, first := 0 }


/-- The points that the calls of `bci_get_point_extrema` in
`bci_create_segment` compare (lines 584-596, 623-655 and 667-677): `start`
and the points behind it up to the stored last point, and for a wrap-around
segment also `first`, ..., `end`. -/
def Segment.extrema_over (g : Segment) (q : Int) : Prop :=
  q = g.start ∨ (g.start < q ∧ q ≤ g.recorded_last)
    ∨ (g.end_ < g.start ∧ g.first ≤ q ∧ q ≤ g.end_)


/-- The number of cells the second loop stores for style `j` on the
glyph-style map `gstyles` (lines 289-348): the two standard widths, the
widths, and a reference and a shoot for each blue zone; nothing when the call
for the style returns an error. -/
def written_cells (env : Env) (gstyles : List Nat) (j : Nat) : Nat :=
  match TA_sfnt_compute_global_hints env gstyles j with
  | .ok m =>
    2 + (block_counts env m).1 + (block_counts env m).2.1 + 2 * (block_counts env m).2.2
  | .error _ => 0


/-- The byte `buf[k]` when `TA_table_build_cvt` returns `t`: lines 233-236
store zeros to the last three of the `len` bytes allocated, then the bytes of
`cvt` are stored through `bufp` from index 0 on; a byte never stored to has
the content `junk k` that `malloc` left there. -/
def cvt_buffer (t : CvtTable) (junk : Nat → Nat) (k : Nat) : Nat :=
  if k < t.cvt.length then t.cvt.getD k 0
  else if t.len - 3 ≤ k ∧ k < t.len then 0
  else junk k


/-- The offsets in an array of bytes at which an instruction starts: the data
bytes behind a push instruction are passed over.  `pos` is the offset of the
first byte of the list and `data` the number of data bytes still to pass. -/
def instruction_starts_from : Nat → Nat → List Byte → List Nat
  | _, _, [] => []
  | pos, 0, b :: rest => pos :: instruction_starts_from (pos + 1) (data_bytes b) rest
  | pos, data + 1, _ :: rest => instruction_starts_from (pos + 1) data rest

/-- The offsets of the instructions of an array. -/
def instruction_starts (arr : List Byte) : List Nat :=
  instruction_starts_from 0 0 arr


/-- One round of the loop of `bci_loop` (lines 323-334) for the function with
the number `f`, which turns the state at its entry into `F`: the call is
logged, the function runs, and `sal_i` is increased by 1. -/
def loop_round (e : Engine) (f : Int) (F : VM × GS → VM × GS) (state : VM × GS) : VM × GS :=
  ({ (F (state.1, state.2.entered f)).1 with
      storage :=
        update (F (state.1, state.2.entered f)).1.storage (e.sal .sal_i)
          (1 + (F (state.1, state.2.entered f)).1.storage (e.sal .sal_i)) },
    (F (state.1, state.2.entered f)).2)

/-- The loop of `bci_loop` runs through in `n` rounds from `state`: in front
of each round `sal_i` is not above `sal_limit`, `sal_func` holds `f`, and the
function with the body `body` runs to its `ENDF` and leaves the state `F`;
behind the last round `sal_i` is above `sal_limit`. -/
def loop_runs (e : Engine) (f : Int) (body : List Byte) (F : VM × GS → VM × GS) :
    Nat → VM × GS → Prop
  | 0, state => ¬ state.1.storage (e.sal .sal_i) ≤ state.1.storage (e.sal .sal_limit)
  | n + 1, state =>
    state.1.storage (e.sal .sal_i) ≤ state.1.storage (e.sal .sal_limit)
    ∧ state.1.storage (e.sal .sal_func) = f
    ∧ Returns e body state.1 (state.2.entered f) (F (state.1, state.2.entered f)).1
        (F (state.1, state.2.entered f)).2
    ∧ loop_runs e f body F n (loop_round e f F state)

/-- What `bci_loop` needs of the function `f` it calls, for the states `P` in
front of a round: entered in such a state, the function with the body `body`
runs to its `ENDF` and leaves the state `F`; it adds `d` to `sal_i` and leaves
`sal_limit` and `sal_func` as they are; and behind the round the state is in
`P` again. -/
structure LoopFunction (e : Engine) (f : Int) (body : List Byte) (F : VM × GS → VM × GS)
    (d : Int) (P : VM × GS → Prop) : Prop where
  runs : ∀ x, P x →
    Returns e body x.1 (x.2.entered f) (F (x.1, x.2.entered f)).1 (F (x.1, x.2.entered f)).2
  sal_i : ∀ x, P x →
    (F (x.1, x.2.entered f)).1.storage (e.sal .sal_i) = x.1.storage (e.sal .sal_i) + d
  sal_limit : ∀ x, P x →
    (F (x.1, x.2.entered f)).1.storage (e.sal .sal_limit) = x.1.storage (e.sal .sal_limit)
  sal_func : ∀ x, P x →
    (F (x.1, x.2.entered f)).1.storage (e.sal .sal_func) = x.1.storage (e.sal .sal_func)
  next : ∀ x, P x → P (loop_round e f F x)

/-- The state in front of the loop of `bci_loop` (lines 301-312): `func_num`,
`end` and `start` are taken from the stack and stored. -/
def loop_start (e : Engine) (f end_ start : Int) (s : List Int) (st cv : Int → Int) (gs : GS) :
    VM × GS :=
  (⟨s, update (update (update st (e.sal .sal_func) f) (e.sal .sal_limit) end_) (e.sal .sal_i)
      start, cv⟩, gs)

/-- The effect of `bci_get_point_extrema` on a state with a point on the
stack (lines 492-533). -/
def extrema_effect (e : Engine) (x : VM × GS) : VM × GS :=
  match x.1.stack with
  | p :: s =>
    (⟨(p + 1) :: s, extrema_step e (x.2.org x.2.zp0) (x.2.org x.2.zp1) x.1.storage (p + 1),
        x.1.cvt⟩, x.2)
  | [] => x


/-- The distance `d` that `bci_action_serif_link2` measures (lines 3915-3929):
the position of the original twilight point of the edge minus that of the
original twilight point of the anchor. -/
def serif_link2_distance (e : Engine) (st : Int → Int) (gs : GS) (edge : Int) : Int :=
  gs.cur 0 (edge + st (e.sal .sal_num_segments))
    - gs.cur 0 (st (e.sal .sal_anchor) + st (e.sal .sal_num_segments))

/-- The shift of `bci_action_serif_link2` (lines 3930-3937): `DUP, ADD` doubles
the distance, 32 is added, `FLOOR` rounds down to a multiple of 64, and `DIV`
divides by `2 * 64`. -/
def serif_link2_shift (e : Engine) (st : Int → Int) (gs : GS) (edge : Int) : Int :=
  e.div
    ((serif_link2_distance e st gs edge + serif_link2_distance e st gs edge + 32) / 64 * 64 * 64)
    128


/-- The distance `c` that `bci_action_serif_link1` compares with 0 (lines
3357-3375) and uses in the `ELSE` branch (lines 3411-3426): the position of
the original twilight point of `after` minus that of `before`. -/
def serif_link1_distance (e : Engine) (st : Int → Int) (gs : GS) (before after : Int) : Int :=
  gs.cur 0 (after + st (e.sal .sal_num_segments))
    - gs.cur 0 (before + st (e.sal .sal_num_segments))

/-- The divisor of the `DIV` of `bci_action_serif_link1` (lines 3427-3430): the
product `MUL` of the distance `c` and `0x1000`. -/
def serif_link1_divisor (e : Engine) (st : Int → Int) (gs : GS) (before after : Int) : Int :=
  mul e (serif_link1_distance e st gs before after) 4096

/-- The number that the `DIV` of `bci_action_serif_link1` divides (lines
3383-3409): `a`, the distance of the original points of `edge` and `before`,
times `0x1000`, times `b`, the distance of the points `after` and `before`. -/
def serif_link1_dividend (e : Engine) (st : Int → Int) (gs : GS) (before edge after : Int) :
    Int :=
  mul e
    (mul e (gs.cur 0 (edge + st (e.sal .sal_num_segments))
      - gs.cur 0 (before + st (e.sal .sal_num_segments))) 4096)
    (gs.cur 0 after - gs.cur 0 before)


/-- The storage area of `bci_ip_between_align_points` behind line 1313:
`sal_i` holds the position of the original twilight point of `before`. -/
def ip_between_storage (e : Engine) (st : Int → Int) (gs : GS) (before : Int) : Int → Int :=
  update st (e.sal .sal_i) (gs.cur 0 (before + st (e.sal .sal_num_segments)))

/-- The divisor of the `DIV` of `bci_ip_between_align_points` (lines 1303-1322):
the result of `MD_cur` for the original twilight points of `before` and
`after`. -/
def ip_between_divisor (e : Engine) (st : Int → Int) (gs : GS) (before after : Int) : Int :=
  gs.cur 0 (before + st (e.sal .sal_num_segments))
    - gs.cur 0 (after + ip_between_storage e st gs before (e.sal .sal_num_segments))

/-- The number that the `DIV` of `bci_ip_between_align_points` divides (lines
1323-1326): the result of `MD_cur` for the points `before` and `after`. -/
def ip_between_dividend (gs : GS) (before after : Int) : Int :=
  gs.cur 0 before - gs.cur 0 after


/-- The Qt function `QSpinBox::setValue(v)` for a spin box with the range of
lines 472 and 478, `setRange(2, 10000)`: the value the box takes is `v`
brought into the range. -/
def spin_value (v : Int) : Int :=
  if v < 2 then 2 else if v > 10000 then 10000 else v

/-- Lines 470-479 of `Main_GUI::create_layout`: the values of `min_box` and
`max_box` after `setRange(2, 10000)` and `setValue`. -/
def create_spin_boxes (hinting_range_min hinting_range_max : Int) : Int × Int :=
  (spin_value hinting_range_min, spin_value hinting_range_max)

/-- The slots `Main_GUI::check_min` (`of_min` is true, lines 101-108) and
`Main_GUI::check_max` (lines 111-118) as they are connected in lines 559-562:
`setValue` on the other box brings the value into the range and, when the
value of that box changes, emits `valueChanged`, which runs the slot of that
box before `setValue` returns.  `fuel` bounds the nesting of the slots; there
is no result when it does not suffice. -/
def check_boxes : Nat → Bool → Main_GUI → Option Main_GUI
  | 0, _, _ => none
  | fuel + 1, true, gui =>
    if gui.min_box > gui.max_box then
      if spin_value gui.min_box = gui.max_box then some gui
      else check_boxes fuel false { gui with max_box := spin_value gui.min_box }
    else some gui
  | fuel + 1, false, gui =>
    if gui.max_box < gui.min_box then
      if spin_value gui.max_box = gui.min_box then some gui
      else check_boxes fuel true { gui with min_box := spin_value gui.max_box }
    else some gui

/-- The slot `Main_GUI::check_min`. -/
def check_min (fuel : Nat) (gui : Main_GUI) : Option Main_GUI :=
  check_boxes fuel true gui

/-- The slot `Main_GUI::check_max`. -/
def check_max (fuel : Nat) (gui : Main_GUI) : Option Main_GUI :=
  check_boxes fuel false gui

/-- The values of both spin boxes lie in the range 2 to 10000. -/
def Main_GUI.in_range (gui : Main_GUI) : Prop :=
  2 ≤ gui.min_box ∧ gui.min_box ≤ 10000 ∧ 2 ≤ gui.max_box ∧ gui.max_box ≤ 10000


/-! ## The standard-character lookup -/

/-- Claim C10.  `TA_sfnt_compute_global_hints` looks up `standard_char1`; it
looks up `standard_char2` exactly when that character is defined and the
first lookup gave glyph 0, and `standard_char3` exactly when it is defined
and the second lookup took place and gave glyph 0.  The glyph index it uses
is the result of the last lookup, and every lookup before the last gave 0.
Once a charmap is selected and the glyph index is 0, the function returns
`TA_Err_Missing_Glyph` unless `font->symbol` is set, `fallback_style` is not
`TA_STYLE_NONE_DFLT` and `fallback_style` is the style computed; in that
case glyph 0 is handed to the loader and the loader's error is returned.  So
for a style other than the fallback style the result is
`TA_Err_Missing_Glyph`, also in a symbol font. -/
theorem standard_char_lookup (env : Env) (gstyles : List Nat) (style_idx : Nat) :
    let c1 := env.standard_char1 style_idx
    let c2 := env.standard_char2 style_idx
    let c3 := env.standard_char3 style_idx
    let g := env.ta_get_char_index style_idx
    let looked := (lookup_standard_char env style_idx).1
    let glyph_index := (lookup_standard_char env style_idx).2
    looked = [c1, c2, c3].take looked.length
    ∧ 1 ≤ looked.length
    ∧ (2 ≤ looked.length ↔ c2 ≠ 0 ∧ g c1 = 0)
    ∧ (3 ≤ looked.length ↔ c3 ≠ 0 ∧ 2 ≤ looked.length ∧ g c2 = 0)
    ∧ (∀ c ∈ looked.dropLast, g c = 0)
    ∧ (∀ c, looked.getLast? = some c → glyph_index = g c)
    ∧ (select_charmap env = none → glyph_index = 0 →
        (env.symbol = true ∧ env.fallback_style ≠ env.TA_STYLE_NONE_DFLT
            ∧ env.fallback_style = style_idx →
          select_glyph env gstyles style_idx = .ok 0
          ∧ TA_sfnt_compute_global_hints env gstyles style_idx
              = (if (env.ta_loader_load_glyph gstyles 0).1 = FT_Err_Ok
                 then .ok (env.ta_loader_load_glyph gstyles 0).2
                 else .error (env.ta_loader_load_glyph gstyles 0).1))
        ∧ (¬ (env.symbol = true ∧ env.fallback_style ≠ env.TA_STYLE_NONE_DFLT
            ∧ env.fallback_style = style_idx) →
          TA_sfnt_compute_global_hints env gstyles style_idx = .error TA_Err_Missing_Glyph)
        ∧ (env.fallback_style ≠ style_idx →
          TA_sfnt_compute_global_hints env gstyles style_idx = .error TA_Err_Missing_Glyph)) := by
  intro c1 c2 c3 g looked glyph_index
  have hl : looked = (lookup_standard_char env style_idx).1 := rfl
  have hg : glyph_index = (lookup_standard_char env style_idx).2 := rfl
  refine ⟨?_, ?_, ?_, ?_, ?_, ?_, ?_⟩
  · rw [hl]; unfold lookup_standard_char; simp only []; split_ifs <;> simp [c1, c2, c3]
  · rw [hl]; unfold lookup_standard_char; simp only []; split_ifs <;> simp
  · rw [hl]; unfold lookup_standard_char; simp only []; split_ifs <;> simp_all [g, c1, c2]
  · rw [hl]; unfold lookup_standard_char; simp only []; split_ifs <;> simp_all [g, c1, c2, c3]
  · rw [hl]; unfold lookup_standard_char; simp only []
    split_ifs <;> simp_all [g, c1, c2, c3, List.dropLast]
  · rw [hl, hg]; unfold lookup_standard_char; simp only []
    split_ifs <;> simp_all [g, c1, c2, c3, List.getLast?]
  · intro hc h0
    have h0' : (lookup_standard_char env style_idx).2 = 0 := h0
    refine ⟨?_, ?_, ?_⟩
    · intro hs
      have hsel : select_glyph env gstyles style_idx = .ok 0 := by
        obtain ⟨h1, h2, h3⟩ := hs
        unfold select_glyph; simp only [h0']; simp only [if_true]; rw [if_pos ⟨h1, h2, h3⟩]
      refine ⟨hsel, ?_⟩
      unfold TA_sfnt_compute_global_hints; rw [hc, hsel]
    · intro hs
      have hsel : select_glyph env gstyles style_idx = .error TA_Err_Missing_Glyph := by
        unfold select_glyph; simp only [h0']; simp only [if_true]; rw [if_neg]
        intro h; exact hs ⟨h.1, h.2.1, h.2.2⟩
      unfold TA_sfnt_compute_global_hints; rw [hc, hsel]
    · intro hs
      have hsel : select_glyph env gstyles style_idx = .error TA_Err_Missing_Glyph := by
        unfold select_glyph; simp only [h0']; simp only [if_true]; rw [if_neg]
        intro h; exact hs h.2.2
      unfold TA_sfnt_compute_global_hints; rw [hc, hsel]

/-! ## The first loop -/

theorem first_loop_succ_ok {env : Env} {n : Nat} {st1 : FirstLoop}
    (h : first_loop env (n + 1) = .ok st1) :
    ∃ st, first_loop env n = .ok st ∧ first_loop_step env st n = .ok st1 := by
  simp only [first_loop] at h
  cases hn : first_loop env n with
  | error e => rw [hn] at h; cases h
  | ok st => rw [hn] at h; exact ⟨st, rfl, h⟩

theorem first_loop_hints_of_ok {env : Env} {n : Nat} {st : FirstLoop}
    (h : first_loop env n = .ok st) :
    first_loop_hints env n = some (TA_sfnt_compute_global_hints env st.gstyles n) := by
  simp [first_loop_hints, h]

/-- An iteration that does not return: either the call gave
`TA_Err_Missing_Glyph` and the style is stripped, or it gave `FT_Err_Ok` and
the style gets the next id. -/
theorem first_loop_step_ok {env : Env} {st st1 : FirstLoop} {i : Nat}
    (h : first_loop_step env st i = .ok st1) :
    (TA_sfnt_compute_global_hints env st.gstyles i = .error TA_Err_Missing_Glyph
      ∧ st1.gstyles = st.gstyles.map (strip_style env i)
      ∧ st1.style_ids = store st.style_ids i 0xFFFF
      ∧ st1.num_used_styles = st.num_used_styles
      ∧ st1.hwidth_count = st.hwidth_count
      ∧ st1.vwidth_count = st.vwidth_count
      ∧ st1.blue_count = st.blue_count)
    ∨ (∃ m, TA_sfnt_compute_global_hints env st.gstyles i = .ok m
      ∧ st1.gstyles = st.gstyles
      ∧ st1.style_ids = store st.style_ids i st.num_used_styles
      ∧ st1.num_used_styles = st.num_used_styles + 1
      ∧ st1.hwidth_count = st.hwidth_count
          + (if i = env.TA_STYLE_NONE_DFLT then 0 else m.haxis.width_count)
      ∧ st1.vwidth_count = st.vwidth_count
          + (if i = env.TA_STYLE_NONE_DFLT then 0 else m.vaxis.width_count)
      ∧ st1.blue_count = st.blue_count
          + (if i = env.TA_STYLE_NONE_DFLT then 0 else m.vaxis.blue_count + 2)) := by
  unfold first_loop_step at h
  cases hc : TA_sfnt_compute_global_hints env st.gstyles i with
  | error e =>
    rw [hc] at h
    simp only [] at h
    by_cases he : e = TA_Err_Missing_Glyph
    · rw [if_pos he] at h
      cases h
      left
      exact ⟨by rw [he], rfl, rfl, rfl, rfl, rfl, rfl⟩
    · rw [if_neg he] at h; cases h
  | ok m =>
    rw [hc] at h
    simp only [] at h
    right
    refine ⟨m, rfl, ?_⟩
    by_cases hi : i = env.TA_STYLE_NONE_DFLT
    · rw [if_pos hi] at h
      cases h
      simp [hi]
    · rw [if_neg hi] at h
      cases h
      simp [hi]

/-- An iteration returns exactly the errors other than
`TA_Err_Missing_Glyph` of its call. -/
theorem first_loop_step_error {env : Env} {st : FirstLoop} {i : Nat} {e : FT_Error}
    (h : first_loop_step env st i = .error e) :
    TA_sfnt_compute_global_hints env st.gstyles i = .error e ∧ e ≠ TA_Err_Missing_Glyph := by
  unfold first_loop_step at h
  cases hc : TA_sfnt_compute_global_hints env st.gstyles i with
  | error e1 =>
    rw [hc] at h
    simp only [] at h
    by_cases he : e1 = TA_Err_Missing_Glyph
    · rw [if_pos he] at h; cases h
    · rw [if_neg he] at h
      cases h
      exact ⟨rfl, he⟩
  | ok m =>
    rw [hc] at h
    simp only [] at h
    split_ifs at h

theorem style_used_of_ok {env : Env} {n : Nat} {st : FirstLoop} {m : TA_LatinMetricsRec}
    (h : first_loop env n = .ok st)
    (hc : TA_sfnt_compute_global_hints env st.gstyles n = .ok m) :
    style_used env n = true ∧ style_missing env n = false
      ∧ first_loop_metrics env n = some m := by
  simp [style_used, style_missing, first_loop_metrics, first_loop_hints_of_ok h, hc]

theorem style_missing_of_ok {env : Env} {n : Nat} {st : FirstLoop}
    (h : first_loop env n = .ok st)
    (hc : TA_sfnt_compute_global_hints env st.gstyles n = .error TA_Err_Missing_Glyph) :
    style_used env n = false ∧ style_missing env n = true
      ∧ first_loop_metrics env n = none := by
  simp [style_used, style_missing, first_loop_metrics, first_loop_hints_of_ok h, hc]

theorem first_loop_inv (env : Env) :
    ∀ (n : Nat) (st : FirstLoop), first_loop env n = .ok st → FirstLoopInv env n st := by
  intro n
  induction n with
  | zero =>
    intro st h
    simp only [first_loop] at h
    cases h
    exact
      { settled := fun i hi => absurd hi (Nat.not_lt_zero i)
        used := rfl
        ids_missing := fun i hi => absurd hi (Nat.not_lt_zero i)
        ids_used := fun i hi => absurd hi (Nat.not_lt_zero i)
        hwidths := rfl
        vwidths := rfl
        blues := rfl }
  | succ n ih =>
    intro st1 h
    obtain ⟨st, hst, hstep⟩ := first_loop_succ_ok h
    have inv := ih st hst
    rcases first_loop_step_ok hstep with
      ⟨hc, -, hids, hused, hh, hv, hb⟩ | ⟨m, hc, -, hids, hused, hh, hv, hb⟩
    · obtain ⟨hu, hm, hmet⟩ := style_missing_of_ok hst hc
      refine
        { settled := ?_, used := ?_, ids_missing := ?_, ids_used := ?_,
          hwidths := ?_, vwidths := ?_, blues := ?_ }
      · intro i hi
        rcases Nat.lt_succ_iff_lt_or_eq.mp hi with hlt | heq
        · exact inv.settled i hlt
        · subst heq; exact Or.inr hm
      · rw [hused, inv.used]; simp [used_below, sum_below, hu]
      · intro i hi hmi
        rw [hids]
        by_cases hin : i = n
        · simp [store, hin]
        · have hlt : i < n := by omega
          simp only [store, if_neg hin]
          exact inv.ids_missing i hlt hmi
      · intro i hi hui
        rw [hids]
        by_cases hin : i = n
        · subst hin; rw [hu] at hui; cases hui
        · have hlt : i < n := by omega
          simp only [store, if_neg hin]
          exact inv.ids_used i hlt hui
      · rw [hh, inv.hwidths]; simp [sum_below, counted_hwidths, hmet]
      · rw [hv, inv.vwidths]; simp [sum_below, counted_vwidths, hmet]
      · rw [hb, inv.blues]; simp [sum_below, counted_blues, hmet]
    · obtain ⟨hu, hm, hmet⟩ := style_used_of_ok hst hc
      refine
        { settled := ?_, used := ?_, ids_missing := ?_, ids_used := ?_,
          hwidths := ?_, vwidths := ?_, blues := ?_ }
      · intro i hi
        rcases Nat.lt_succ_iff_lt_or_eq.mp hi with hlt | heq
        · exact inv.settled i hlt
        · subst heq; exact Or.inl hu
      · rw [hused, inv.used]; simp [used_below, sum_below, hu]
      · intro i hi hmi
        rw [hids]
        by_cases hin : i = n
        · subst hin; rw [hm] at hmi; cases hmi
        · have hlt : i < n := by omega
          simp only [store, if_neg hin]
          exact inv.ids_missing i hlt hmi
      · intro i hi hui
        rw [hids]
        by_cases hin : i = n
        · subst hin; simp only [store, if_true]; exact inv.used
        · have hlt : i < n := by omega
          simp only [store, if_neg hin]
          exact inv.ids_used i hlt hui
      · rw [hh, inv.hwidths]; simp [sum_below, counted_hwidths, hmet]
      · rw [hv, inv.vwidths]; simp [sum_below, counted_vwidths, hmet]
      · rw [hb, inv.blues]; simp [sum_below, counted_blues, hmet]

/-! ## The loops that store one block -/

theorem encode_append (xs ys : List Int) : encode (xs ++ ys) = encode xs ++ encode ys := by
  induction xs with
  | nil => rfl
  | cons x xs ih => simp [encode, ih]

theorem encode_length (xs : List Int) : (encode xs).length = 2 * xs.length := by
  induction xs with
  | nil => rfl
  | cons x xs ih => simp only [encode, List.length_cons, ih]; omega

theorem put_cells_some_iff (org : Nat → Int) (n : Nat) (b b1 : List Nat) :
    put_cells org n b = some b1 ↔
      (∀ j, j < n → org j ≤ 0xFFFF) ∧ b1 = b ++ encode ((List.range n).map org) := by
  induction n generalizing b1 with
  | zero => simp [put_cells, encode, eq_comm]
  | succ n ih =>
    simp only [put_cells]
    cases hp : put_cells org n b with
    | none =>
      simp only []
      constructor
      · intro h; cases h
      · rintro ⟨hall, -⟩
        have := (ih (b ++ encode ((List.range n).map org))).mpr
          ⟨fun j hj => hall j (Nat.lt_succ_of_lt hj), rfl⟩
        rw [hp] at this; cases this
    | some b0 =>
      obtain ⟨hall, hb0⟩ := (ih b0).mp hp
      simp only []
      by_cases hov : org n > 0xFFFF
      · rw [if_pos hov]
        constructor
        · intro h; cases h
        · rintro ⟨hall1, -⟩
          exact absurd (hall1 n (Nat.lt_succ_self n)) (not_le.mpr hov)
      · rw [if_neg hov]
        constructor
        · intro h
          injection h with h
          refine ⟨?_, ?_⟩
          · intro j hj
            rcases Nat.lt_succ_iff_lt_or_eq.mp hj with hlt | heq
            · exact hall j hlt
            · subst heq; exact not_lt.mp hov
          · rw [← h, hb0, List.range_succ, List.map_append, encode_append]
            simp [encode]
        · rintro ⟨-, hb1⟩
          rw [hb1, hb0, List.range_succ, List.map_append, encode_append]
          simp [encode]

theorem put_shoots_eq (env : Env) (axis : TA_LatinAxisRec) (n : Nat) (b : List Nat) (a : Nat) :
    put_shoots env axis n (b, a) =
      (put_cells (fun j => (axis.blues j).shoot.org) n b).map
        (fun b1 => (b1, blue_adjustment env axis n a)) := by
  induction n with
  | zero => simp [put_shoots, put_cells, blue_adjustment]
  | succ n ih =>
    simp only [put_shoots, put_cells, ih]
    cases hp : put_cells (fun j => (axis.blues j).shoot.org) n b with
    | none => simp
    | some b0 =>
      simp only [Option.map_some']
      by_cases hov : (axis.blues n).shoot.org > 0xFFFF
      · simp [hov]
      · simp only [if_neg hov, Option.map_some', blue_adjustment]

/-! ## One block -/

theorem checked_cells_le_iff (env : Env) (m : TA_LatinMetricsRec) :
    (∀ x ∈ checked_cells env m, x ≤ 0xFFFF) ↔
      (∀ j, j < (block_counts env m).1 → (m.haxis.widths j).org ≤ 0xFFFF)
      ∧ (∀ j, j < (block_counts env m).2.1 → (m.vaxis.widths j).org ≤ 0xFFFF)
      ∧ (∀ j, j < (block_counts env m).2.2 → (m.vaxis.blues j).ref.org ≤ 0xFFFF)
      ∧ (∀ j, j < (block_counts env m).2.2 → (m.vaxis.blues j).shoot.org ≤ 0xFFFF) := by
  simp only [checked_cells, widths_org, refs_org, shoots_org, List.mem_append, List.mem_map,
    List.mem_range]
  constructor
  · intro h
    refine ⟨fun j hj => h _ (Or.inl (Or.inl (Or.inl ⟨j, hj, rfl⟩))),
      fun j hj => h _ (Or.inl (Or.inl (Or.inr ⟨j, hj, rfl⟩))),
      fun j hj => h _ (Or.inl (Or.inr ⟨j, hj, rfl⟩)),
      fun j hj => h _ (Or.inr ⟨j, hj, rfl⟩)⟩
  · rintro ⟨h1, h2, h3, h4⟩ x hx
    rcases hx with ((⟨j, hj, rfl⟩ | ⟨j, hj, rfl⟩) | ⟨j, hj, rfl⟩) | ⟨j, hj, rfl⟩
    · exact h1 j hj
    · exact h2 j hj
    · exact h3 j hj
    · exact h4 j hj

theorem standard_width_bytes_eq (env : Env) (axis : TA_LatinAxisRec) (count : Nat) :
    standard_width_bytes env axis count = encode [standard_width env axis count] := by
  unfold standard_width_bytes standard_width
  split_ifs <;> rfl

theorem write_block_of_le (env : Env) (m : TA_LatinMetricsRec) (st : SecondLoop) (i : Nat)
    (h : ∀ x ∈ checked_cells env m, x ≤ 0xFFFF) :
    write_block env m st i = .ok (block_written env m st i) := by
  obtain ⟨h1, h2, h3, h4⟩ := (checked_cells_le_iff env m).mp h
  unfold write_block
  simp only [put_widths, put_refs, put_shoots_eq]
  rw [(put_cells_some_iff _ _ _ _).mpr ⟨h1, rfl⟩]
  simp only []
  rw [(put_cells_some_iff _ _ _ _).mpr ⟨h2, rfl⟩]
  simp only []
  rw [(put_cells_some_iff _ _ _ _).mpr ⟨h3, rfl⟩]
  simp only []
  rw [(put_cells_some_iff _ _ _ _).mpr ⟨h4, rfl⟩]
  simp only [Option.map_some', block_written, block_cells, standard_width_bytes_eq,
    widths_org, refs_org, shoots_org, encode_append, encode, List.append_assoc,
    List.cons_append, List.nil_append, List.append_eq]

theorem write_block_of_gt (env : Env) (m : TA_LatinMetricsRec) (st : SecondLoop) (i : Nat)
    (h : ∃ x ∈ checked_cells env m, x > 0xFFFF) :
    write_block env m st i = .error TA_Err_Hinter_Overflow := by
  have hnot : ¬ ∀ x ∈ checked_cells env m, x ≤ 0xFFFF := by
    obtain ⟨x, hx, hgt⟩ := h
    exact fun hall => absurd (hall x hx) (not_le.mpr hgt)
  unfold write_block
  simp only [put_widths, put_refs, put_shoots_eq]
  cases hp1 : put_cells (fun j => (m.haxis.widths j).org) (block_counts env m).1
      (st.bytes ++ standard_width_bytes env m.haxis (block_counts env m).1) with
  | none => rfl
  | some b1 =>
    simp only []
    cases hp2 : put_cells (fun j => (m.vaxis.widths j).org) (block_counts env m).2.1
        (b1 ++ standard_width_bytes env m.vaxis (block_counts env m).2.1) with
    | none => rfl
    | some b2 =>
      simp only []
      cases hp3 : put_cells (fun j => (m.vaxis.blues j).ref.org) (block_counts env m).2.2 b2 with
      | none => rfl
      | some b3 =>
        simp only []
        cases hp4 : put_cells (fun j => (m.vaxis.blues j).shoot.org)
            (block_counts env m).2.2 b3 with
        | none => rfl
        | some b4 =>
          exfalso
          apply hnot
          rw [checked_cells_le_iff]
          exact ⟨((put_cells_some_iff _ _ _ _).mp hp1).1, ((put_cells_some_iff _ _ _ _).mp hp2).1,
            ((put_cells_some_iff _ _ _ _).mp hp3).1, ((put_cells_some_iff _ _ _ _).mp hp4).1⟩

/-- The two outcomes of `write_block`. -/
theorem write_block_cases (env : Env) (m : TA_LatinMetricsRec) (st : SecondLoop) (i : Nat) :
    ((∀ x ∈ checked_cells env m, x ≤ 0xFFFF)
        ∧ write_block env m st i = .ok (block_written env m st i))
    ∨ ((∃ x ∈ checked_cells env m, x > 0xFFFF)
        ∧ write_block env m st i = .error TA_Err_Hinter_Overflow) := by
  by_cases h : ∀ x ∈ checked_cells env m, x ≤ 0xFFFF
  · exact Or.inl ⟨h, write_block_of_le env m st i h⟩
  · right
    have hex : ∃ x ∈ checked_cells env m, x > 0xFFFF := by
      by_contra hno
      apply h
      intro x hx
      by_contra hgt
      exact hno ⟨x, hx, not_le.mp hgt⟩
    exact ⟨hex, write_block_of_gt env m st i hex⟩

/-! ## The second loop -/

theorem second_loop_succ_ok {env : Env} {gstyles : List Nat} {off : Nat}
    {start st1 : SecondLoop} {n : Nat}
    (h : second_loop env gstyles off start (n + 1) = .ok st1) :
    ∃ st, second_loop env gstyles off start n = .ok st
      ∧ second_loop_step env gstyles off st n = .ok st1 := by
  simp only [second_loop] at h
  cases hn : second_loop env gstyles off start n with
  | error e => rw [hn] at h; cases h
  | ok st => rw [hn] at h; exact ⟨st, rfl, h⟩

theorem second_loop_succ_error {env : Env} {gstyles : List Nat} {off : Nat}
    {start : SecondLoop} {n : Nat} {e : FT_Error}
    (h : second_loop env gstyles off start (n + 1) = .error e) :
    second_loop env gstyles off start n = .error e
    ∨ ∃ st, second_loop env gstyles off start n = .ok st
        ∧ second_loop_step env gstyles off st n = .error e := by
  simp only [second_loop] at h
  cases hn : second_loop env gstyles off start n with
  | error e1 => rw [hn] at h; cases h; exact Or.inl rfl
  | ok st => rw [hn] at h; exact Or.inr ⟨st, rfl, h⟩

theorem second_loop_error_mono {env : Env} {gstyles : List Nat} {off : Nat}
    {start : SecondLoop} {n : Nat} {e : FT_Error}
    (h : second_loop env gstyles off start n = .error e) :
    ∀ k, second_loop env gstyles off start (n + k) = .error e := by
  intro k
  induction k with
  | zero => exact h
  | succ k ih =>
    show second_loop env gstyles off start (n + k + 1) = .error e
    simp only [second_loop, ih]

/-- The state an iteration of the second loop leaves when the call returns
`TA_Err_Missing_Glyph`: only the offset is recorded. -/
theorem second_loop_step_missing {env : Env} {gstyles : List Nat} {off : Nat}
    {st : SecondLoop} {i : Nat}
    (hc : TA_sfnt_compute_global_hints env gstyles i = .error TA_Err_Missing_Glyph) :
    second_loop_step env gstyles off st i
      = .ok { st with
          cvt_offsets := store st.cvt_offsets i ((st.bytes.length - off) >>> 1) } := by
  unfold second_loop_step
  rw [hc]
  simp

theorem second_loop_step_other {env : Env} {gstyles : List Nat} {off : Nat}
    {st : SecondLoop} {i : Nat} {e : FT_Error}
    (hc : TA_sfnt_compute_global_hints env gstyles i = .error e)
    (he : e ≠ TA_Err_Missing_Glyph) :
    second_loop_step env gstyles off st i = .error e := by
  unfold second_loop_step
  rw [hc]
  simp [he]

theorem second_loop_step_metrics {env : Env} {gstyles : List Nat} {off : Nat}
    {st : SecondLoop} {i : Nat} {m : TA_LatinMetricsRec}
    (hc : TA_sfnt_compute_global_hints env gstyles i = .ok m) :
    second_loop_step env gstyles off st i
      = write_block env m
          { st with cvt_offsets := store st.cvt_offsets i ((st.bytes.length - off) >>> 1) } i := by
  unfold second_loop_step
  rw [hc]

theorem second_loop_inv (env : Env) (gstyles : List Nat) (off : Nat) (start : SecondLoop) :
    ∀ (n : Nat) (st : SecondLoop), second_loop env gstyles off start n = .ok st →
      SecondLoopInv env gstyles off start n st := by
  intro n
  induction n with
  | zero =>
    intro st h
    simp only [second_loop] at h
    cases h
    exact
      { settled := fun i hi => absurd hi (Nat.not_lt_zero i)
        bytes := by simp [blocks_below]
        offsets := fun i hi => absurd hi (Nat.not_lt_zero i)
        hsizes := fun i m hi => absurd hi (Nat.not_lt_zero i)
        vsizes := fun i m hi => absurd hi (Nat.not_lt_zero i)
        bsizes := fun i m hi => absurd hi (Nat.not_lt_zero i)
        adjust := fun i m hi => absurd hi (Nat.not_lt_zero i) }
  | succ n ih =>
    intro st1 h
    obtain ⟨st, hst, hstep⟩ := second_loop_succ_ok h
    have inv := ih st hst
    cases hc : TA_sfnt_compute_global_hints env gstyles n with
    | error e =>
      by_cases he : e = TA_Err_Missing_Glyph
      · subst he
        rw [second_loop_step_missing hc] at hstep
        cases hstep
        have hbb : block_bytes env gstyles n = [] := by simp [block_bytes, hc]
        refine
          { settled := ?_, bytes := ?_, offsets := ?_, hsizes := ?_, vsizes := ?_,
            bsizes := ?_, adjust := ?_ }
        · intro i hi
          rcases Nat.lt_succ_iff_lt_or_eq.mp hi with hlt | heq
          · exact inv.settled i hlt
          · subst heq; exact Or.inl hc
        · simp [blocks_below, hbb, inv.bytes]
        · intro i hi
          by_cases hin : i = n
          · subst hin; simp [store, inv.bytes]
          · have hlt : i < n := by omega
            simp only [store, if_neg hin]
            exact inv.offsets i hlt
        · intro i m hi hm
          by_cases hin : i = n
          · subst hin; rw [hc] at hm; cases hm
          · exact inv.hsizes i m (by omega) hm
        · intro i m hi hm
          by_cases hin : i = n
          · subst hin; rw [hc] at hm; cases hm
          · exact inv.vsizes i m (by omega) hm
        · intro i m hi hm
          by_cases hin : i = n
          · subst hin; rw [hc] at hm; cases hm
          · exact inv.bsizes i m (by omega) hm
        · intro i m hi hm
          by_cases hin : i = n
          · subst hin; rw [hc] at hm; cases hm
          · exact inv.adjust i m (by omega) hm
      · rw [second_loop_step_other hc he] at hstep
        cases hstep
    | ok m =>
      rw [second_loop_step_metrics hc] at hstep
      rcases write_block_cases env m
          { st with cvt_offsets := store st.cvt_offsets n ((st.bytes.length - off) >>> 1) } n with
        ⟨hle, hw⟩ | ⟨-, hw⟩
      · rw [hw] at hstep
        cases hstep
        have hbb : block_bytes env gstyles n = encode (block_cells env m) := by
          simp [block_bytes, hc]
        refine
          { settled := ?_, bytes := ?_, offsets := ?_, hsizes := ?_, vsizes := ?_,
            bsizes := ?_, adjust := ?_ }
        · intro i hi
          rcases Nat.lt_succ_iff_lt_or_eq.mp hi with hlt | heq
          · exact inv.settled i hlt
          · subst heq; exact Or.inr ⟨m, hc, hle⟩
        · simp [block_written, blocks_below, hbb, inv.bytes]
        · intro i hi
          by_cases hin : i = n
          · subst hin; simp [block_written, store, inv.bytes]
          · have hlt : i < n := by omega
            simp only [block_written, store, if_neg hin]
            exact inv.offsets i hlt
        · intro i m1 hi hm
          by_cases hin : i = n
          · subst hin; rw [hc] at hm; cases hm; simp [block_written, store]
          · simp only [block_written, store, if_neg hin]
            exact inv.hsizes i m1 (by omega) hm
        · intro i m1 hi hm
          by_cases hin : i = n
          · subst hin; rw [hc] at hm; cases hm; simp [block_written, store]
          · simp only [block_written, store, if_neg hin]
            exact inv.vsizes i m1 (by omega) hm
        · intro i m1 hi hm
          by_cases hin : i = n
          · subst hin; rw [hc] at hm; cases hm; simp [block_written, store]
          · simp only [block_written, store, if_neg hin]
            exact inv.bsizes i m1 (by omega) hm
        · intro i m1 hi hm
          by_cases hin : i = n
          · subst hin; rw [hc] at hm; cases hm; simp [block_written, store]
          · simp only [block_written, store, if_neg hin]
            exact inv.adjust i m1 (by omega) hm
      · rw [hw] at hstep
        cases hstep

/-- The second loop returns an error in the first iteration whose call
returns an error other than `TA_Err_Missing_Glyph`, or whose metrics hold a
value greater than `0xFFFF`. -/
theorem second_loop_error {env : Env} {gstyles : List Nat} {off : Nat} {start : SecondLoop} :
    ∀ (n : Nat) (e : FT_Error), second_loop env gstyles off start n = .error e →
      ∃ i st, i < n ∧ second_loop env gstyles off start i = .ok st
        ∧ ((TA_sfnt_compute_global_hints env gstyles i = .error e ∧ e ≠ TA_Err_Missing_Glyph)
          ∨ (∃ m, TA_sfnt_compute_global_hints env gstyles i = .ok m
              ∧ (∃ x ∈ checked_cells env m, x > 0xFFFF) ∧ e = TA_Err_Hinter_Overflow)) := by
  intro n
  induction n with
  | zero => intro e h; simp only [second_loop] at h; cases h
  | succ n ih =>
    intro e h
    rcases second_loop_succ_error h with hprev | ⟨st, hst, hstep⟩
    · obtain ⟨i, st, hi, hst, hcase⟩ := ih e hprev
      exact ⟨i, st, Nat.lt_succ_of_lt hi, hst, hcase⟩
    · refine ⟨n, st, Nat.lt_succ_self n, hst, ?_⟩
      cases hc : TA_sfnt_compute_global_hints env gstyles n with
      | error e1 =>
        by_cases he : e1 = TA_Err_Missing_Glyph
        · subst he
          rw [second_loop_step_missing hc] at hstep
          cases hstep
        · rw [second_loop_step_other hc he] at hstep
          cases hstep
          exact Or.inl ⟨rfl, he⟩
      | ok m =>
        rw [second_loop_step_metrics hc] at hstep
        rcases write_block_cases env m
            { st with cvt_offsets := store st.cvt_offsets n ((st.bytes.length - off) >>> 1) } n with
          ⟨-, hw⟩ | ⟨hgt, hw⟩
        · rw [hw] at hstep; cases hstep
        · rw [hw] at hstep
          cases hstep
          exact Or.inr ⟨m, rfl, hgt, rfl⟩

/-! ## Style ids -/

theorem used_below_eq_countP (env : Env) (n : Nat) :
    used_below env n = (List.range n).countP (style_used env) := by
  induction n with
  | zero => rfl
  | succ n ih =>
    have hs : used_below env (n + 1)
        = used_below env n + (if style_used env n then 1 else 0) := rfl
    rw [hs, ih, List.range_succ, List.countP_append]
    cases h : style_used env n <;> simp [h]

theorem used_below_succ (env : Env) (n : Nat) :
    used_below env (n + 1) = used_below env n + (if style_used env n then 1 else 0) := rfl

theorem used_below_mono (env : Env) {i n : Nat} (h : i ≤ n) :
    used_below env i ≤ used_below env n := by
  induction n with
  | zero => rw [Nat.le_zero.mp h]
  | succ n ih =>
    rcases Nat.le_succ_iff.mp h with hle | heq
    · exact Nat.le_trans (ih hle) (by rw [used_below_succ]; exact Nat.le_add_right _ _)
    · rw [heq]

theorem used_below_lt (env : Env) {i n : Nat} (h : i < n) (hu : style_used env i = true) :
    used_below env i < used_below env n := by
  have h1 : used_below env (i + 1) = used_below env i + 1 := by
    rw [used_below_succ, hu]; rfl
  have h2 : used_below env (i + 1) ≤ used_below env n := used_below_mono env h
  omega

theorem used_below_surj (env : Env) (n k : Nat) (h : k < used_below env n) :
    ∃ i, i < n ∧ style_used env i = true ∧ used_below env i = k := by
  induction n with
  | zero => exact absurd h (Nat.not_lt_zero k)
  | succ n ih =>
    rw [used_below_succ] at h
    by_cases hk : k < used_below env n
    · obtain ⟨i, hi, hu, hik⟩ := ih hk
      exact ⟨i, Nat.lt_succ_of_lt hi, hu, hik⟩
    · cases hu : style_used env n with
      | false => rw [hu] at h; simp at h; exact absurd h hk
      | true =>
        rw [hu] at h
        simp at h
        exact ⟨n, Nat.lt_succ_self n, hu, by omega⟩

theorem used_below_eq_zero (env : Env) (n : Nat) :
    used_below env n = 0 ↔ ∀ i, i < n → style_used env i = false := by
  constructor
  · intro h i hi
    cases hu : style_used env i with
    | false => rfl
    | true =>
      have := used_below_lt env hi hu
      omega
  · intro h
    by_contra hne
    obtain ⟨i, hi, hu, -⟩ := used_below_surj env n 0 (Nat.pos_of_ne_zero hne)
    rw [h i hi] at hu
    cases hu

theorem not_used_of_missing {env : Env} {i : Nat} (h : style_missing env i = true) :
    style_used env i = false := by
  unfold style_missing at h
  unfold style_used
  cases hh : first_loop_hints env i with
  | none => rfl
  | some r =>
    cases r with
    | error e => rfl
    | ok m => rw [hh] at h; simp at h

/-- Claim C2.  When the first loop of `TA_table_build_cvt` has run through
all styles, `style_ids[i]` is `0xFFFF` for every style whose call returned
`TA_Err_Missing_Glyph`, and for every other style it is the number of
styles `j < i` whose call returned `FT_Err_Ok`; every style is of one of
the two kinds.  `num_used_styles` is the number of used styles, the ids of
the used styles are below it, every number below it is the id of a used
style, and the ids grow strictly with the style index, so no id is
repeated.  No case is made for `TA_STYLE_NONE_DFLT`: it gets an id like
every other used style. -/
theorem style_ids_after_first_loop (env : Env) (st : FirstLoop)
    (h : first_loop env env.TA_STYLE_MAX = .ok st) :
    (∀ i, i < env.TA_STYLE_MAX →
        (style_missing env i = true ∨ style_used env i = true)
        ∧ (style_missing env i = true → st.style_ids i = 0xFFFF)
        ∧ (style_missing env i = false →
            st.style_ids i = (List.range i).countP (style_used env)))
    ∧ st.num_used_styles = (List.range env.TA_STYLE_MAX).countP (style_used env)
    ∧ (∀ i, i < env.TA_STYLE_MAX → style_used env i = true →
        st.style_ids i < st.num_used_styles)
    ∧ (∀ k, k < st.num_used_styles →
        ∃ i, i < env.TA_STYLE_MAX ∧ style_used env i = true ∧ st.style_ids i = k)
    ∧ (∀ i j, i < j → j < env.TA_STYLE_MAX → style_used env i = true →
        style_used env j = true → st.style_ids i < st.style_ids j)
    ∧ (env.TA_STYLE_NONE_DFLT < env.TA_STYLE_MAX →
        style_used env env.TA_STYLE_NONE_DFLT = true →
        st.style_ids env.TA_STYLE_NONE_DFLT
          = (List.range env.TA_STYLE_NONE_DFLT).countP (style_used env)) := by
  have inv := first_loop_inv env _ st h
  refine ⟨?_, ?_, ?_, ?_, ?_, ?_⟩
  · intro i hi
    refine ⟨(inv.settled i hi).symm, inv.ids_missing i hi, ?_⟩
    intro hm
    rcases inv.settled i hi with hu | hm1
    · rw [inv.ids_used i hi hu, used_below_eq_countP]
    · rw [hm] at hm1; cases hm1
  · rw [inv.used, used_below_eq_countP]
  · intro i hi hu
    rw [inv.ids_used i hi hu, inv.used]
    exact used_below_lt env hi hu
  · intro k hk
    rw [inv.used] at hk
    obtain ⟨i, hi, hu, hik⟩ := used_below_surj env _ k hk
    exact ⟨i, hi, hu, by rw [inv.ids_used i hi hu, hik]⟩
  · intro i j hij hj hui huj
    rw [inv.ids_used i (Nat.lt_trans hij hj) hui, inv.ids_used j hj huj]
    exact used_below_lt env hij hui
  · intro hn hu
    rw [inv.ids_used _ hn hu, used_below_eq_countP]

/-! ## The whole function -/

/-- A successful call: both loops have run through and the results are
handed back. -/
theorem build_ok {env : Env} {t : CvtTable} (h : TA_table_build_cvt env = .ok t) :
    ∃ st1 st2, first_loop env env.TA_STYLE_MAX = .ok st1
      ∧ ¬ (st1.num_used_styles = 0 ∧ env.symbol = false)
      ∧ env.malloc_fails = false
      ∧ second_loop env st1.gstyles (runtime_bytes env st1) (second_loop_start env st1)
          env.TA_STYLE_MAX = .ok st2
      ∧ t.cvt = st2.bytes
      ∧ t.len = (buf_len env st1 + 3) / 4 * 4
      ∧ t.cvt_len = buf_len env st1
      ∧ t.glyph_styles = st1.gstyles
      ∧ t.data.num_used_styles = st1.num_used_styles
      ∧ t.data.style_ids = st1.style_ids
      ∧ t.data.cvt_offsets = st2.cvt_offsets
      ∧ t.data.cvt_horz_width_sizes = st2.cvt_horz_width_sizes
      ∧ t.data.cvt_vert_width_sizes = st2.cvt_vert_width_sizes
      ∧ t.data.cvt_blue_zone_sizes = st2.cvt_blue_zone_sizes
      ∧ t.data.cvt_blue_adjustment_offsets = st2.cvt_blue_adjustment_offsets := by
  unfold TA_table_build_cvt at h
  cases h1 : first_loop env env.TA_STYLE_MAX with
  | error e => rw [h1] at h; cases h
  | ok st1 =>
    rw [h1] at h
    simp only [] at h
    by_cases hz : st1.num_used_styles = 0 ∧ env.symbol = false
    · rw [if_pos hz] at h; cases h
    · rw [if_neg hz] at h
      cases hm : env.malloc_fails with
      | true => rw [hm] at h; simp at h
      | false =>
        rw [hm] at h
        simp only [Bool.false_eq_true, if_false] at h
        cases h2 : second_loop env st1.gstyles (runtime_bytes env st1)
            (second_loop_start env st1) env.TA_STYLE_MAX with
        | error e => rw [h2] at h; cases h
        | ok st2 =>
          rw [h2] at h
          cases h
          exact ⟨st1, st2, rfl, hz, rfl, h2, rfl, rfl, rfl, rfl, rfl, rfl, rfl, rfl, rfl, rfl, rfl⟩

/-- The four places where the call returns an error. -/
theorem build_error {env : Env} {e : FT_Error} (h : TA_table_build_cvt env = .error e) :
    first_loop env env.TA_STYLE_MAX = .error e
    ∨ ∃ st1, first_loop env env.TA_STYLE_MAX = .ok st1
      ∧ ((st1.num_used_styles = 0 ∧ env.symbol = false ∧ e = TA_Err_Missing_Glyph)
        ∨ (¬ (st1.num_used_styles = 0 ∧ env.symbol = false)
            ∧ env.malloc_fails = true ∧ e = FT_Err_Out_Of_Memory)
        ∨ (¬ (st1.num_used_styles = 0 ∧ env.symbol = false)
            ∧ env.malloc_fails = false
            ∧ second_loop env st1.gstyles (runtime_bytes env st1) (second_loop_start env st1)
                env.TA_STYLE_MAX = .error e)) := by
  unfold TA_table_build_cvt at h
  cases h1 : first_loop env env.TA_STYLE_MAX with
  | error e1 => rw [h1] at h; cases h; exact Or.inl rfl
  | ok st1 =>
    rw [h1] at h
    simp only [] at h
    right
    refine ⟨st1, rfl, ?_⟩
    by_cases hz : st1.num_used_styles = 0 ∧ env.symbol = false
    · rw [if_pos hz] at h; cases h; exact Or.inl ⟨hz.1, hz.2, rfl⟩
    · rw [if_neg hz] at h
      cases hm : env.malloc_fails with
      | true =>
        rw [hm] at h
        simp only [if_true] at h
        cases h
        exact Or.inr (Or.inl ⟨hz, rfl, rfl⟩)
      | false =>
        rw [hm] at h
        simp only [Bool.false_eq_true, if_false] at h
        cases h2 : second_loop env st1.gstyles (runtime_bytes env st1)
            (second_loop_start env st1) env.TA_STYLE_MAX with
        | error e2 => rw [h2] at h; cases h; exact Or.inr (Or.inr ⟨hz, rfl, rfl⟩)
        | ok st2 => rw [h2] at h; cases h

/-- The first loop returns the error of the first call that is neither
`FT_Err_Ok` nor `TA_Err_Missing_Glyph`. -/
theorem first_loop_error {env : Env} :
    ∀ (n : Nat) (e : FT_Error), first_loop env n = .error e →
      ∃ i st, i < n ∧ first_loop env i = .ok st
        ∧ TA_sfnt_compute_global_hints env st.gstyles i = .error e
        ∧ e ≠ TA_Err_Missing_Glyph := by
  intro n
  induction n with
  | zero => intro e h; simp only [first_loop] at h; cases h
  | succ n ih =>
    intro e h
    simp only [first_loop] at h
    cases hn : first_loop env n with
    | error e1 =>
      rw [hn] at h
      cases h
      obtain ⟨i, st, hi, hst, hc⟩ := ih e hn
      exact ⟨i, st, Nat.lt_succ_of_lt hi, hst, hc⟩
    | ok st =>
      rw [hn] at h
      exact ⟨n, st, Nat.lt_succ_self n, hn, first_loop_step_error h⟩

theorem first_loop_of_all_missing (env : Env) :
    ∀ n, (∀ i, i < n → style_missing env i = true) → ∃ st, first_loop env n = .ok st := by
  intro n
  induction n with
  | zero => intro _; exact ⟨_, rfl⟩
  | succ n ih =>
    intro hall
    obtain ⟨st, hst⟩ := ih (fun i hi => hall i (Nat.lt_succ_of_lt hi))
    have hm := hall n (Nat.lt_succ_self n)
    have hc : TA_sfnt_compute_global_hints env st.gstyles n = .error TA_Err_Missing_Glyph := by
      unfold style_missing at hm
      rw [first_loop_hints_of_ok hst] at hm
      cases hr : TA_sfnt_compute_global_hints env st.gstyles n with
      | error e => rw [hr] at hm; simp at hm; rw [hm]
      | ok m => rw [hr] at hm; simp at hm
    simp only [first_loop, hst]
    unfold first_loop_step
    rw [hc]
    simp

theorem second_loop_not_missing {env : Env} {gstyles : List Nat} {off : Nat}
    {start : SecondLoop} {n : Nat} :
    second_loop env gstyles off start n ≠ .error TA_Err_Missing_Glyph := by
  intro h
  obtain ⟨i, st, -, -, hcase⟩ := second_loop_error n _ h
  rcases hcase with ⟨-, hne⟩ | ⟨m, -, -, he⟩
  · exact hne rfl
  · cases he

theorem sum_below_eq_zero (f : Nat → Nat) (n : Nat) (h : ∀ i, i < n → f i = 0) :
    sum_below f n = 0 := by
  induction n with
  | zero => rfl
  | succ n ih =>
    simp only [sum_below, h n (Nat.lt_succ_self n), ih (fun i hi => h i (Nat.lt_succ_of_lt hi))]

theorem no_metrics_of_not_used {env : Env} {i : Nat} (h : style_used env i = false) :
    first_loop_metrics env i = none := by
  unfold style_used at h
  unfold first_loop_metrics
  cases hh : first_loop_hints env i with
  | none => rfl
  | some r =>
    cases r with
    | error e => rfl
    | ok m => rw [hh] at h; simp at h

/-- Claim C1.  `TA_table_build_cvt` returns `TA_Err_Missing_Glyph` exactly
when the call of the first loop returns `TA_Err_Missing_Glyph` for every
style index below `TA_STYLE_MAX` and `font->symbol` is false (a run in which
another error occurs returns that error, so the equivalence needs no side
condition).  When the call returns `TA_Err_Missing_Glyph` for some styles and
`FT_Err_Ok` for another one, the function succeeds unless it returns another
error.  In a symbol font in which no style is used it succeeds unless it
returns another error, `num_used_styles` is 0, `cvt_len` is the size of the
runtime area alone, and these bytes are zero. -/
theorem missing_glyph_for_whole_font (env : Env) :
    (TA_table_build_cvt env = .error TA_Err_Missing_Glyph ↔
      (∀ i, i < env.TA_STYLE_MAX → style_missing env i = true) ∧ env.symbol = false)
    ∧ ((∃ i, i < env.TA_STYLE_MAX ∧ style_missing env i = true) →
        (∃ j, j < env.TA_STYLE_MAX ∧ style_used env j = true) →
        (∀ e, TA_table_build_cvt env = .error e → e = TA_Err_Missing_Glyph) →
        ∃ t, TA_table_build_cvt env = .ok t)
    ∧ (env.symbol = true →
        (∀ i, i < env.TA_STYLE_MAX → style_missing env i = true) →
        (∀ e, TA_table_build_cvt env = .error e → e = TA_Err_Missing_Glyph) →
        ∃ t, TA_table_build_cvt env = .ok t
          ∧ t.data.num_used_styles = 0
          ∧ t.cvt_len = 2 * env.cvtl_max_runtime
          ∧ t.cvt.take t.cvt_len = List.replicate (2 * env.cvtl_max_runtime) 0) := by
  have hiff : TA_table_build_cvt env = .error TA_Err_Missing_Glyph ↔
      (∀ i, i < env.TA_STYLE_MAX → style_missing env i = true) ∧ env.symbol = false := by
    constructor
    · intro h
      rcases build_error h with h1 | ⟨st1, h1, hcase⟩
      · obtain ⟨i, st, -, -, -, hne⟩ := first_loop_error _ _ h1
        exact absurd rfl hne
      · have inv := first_loop_inv env _ st1 h1
        rcases hcase with ⟨hz, hs, -⟩ | ⟨-, -, he⟩ | ⟨-, -, h2⟩
        · refine ⟨?_, hs⟩
          intro i hi
          rw [inv.used] at hz
          have hnu := (used_below_eq_zero env _).mp hz i hi
          rcases inv.settled i hi with hu | hm
          · rw [hnu] at hu; cases hu
          · exact hm
        · cases he
        · exact absurd h2 second_loop_not_missing
    · rintro ⟨hall, hs⟩
      obtain ⟨st1, h1⟩ := first_loop_of_all_missing env _ hall
      have inv := first_loop_inv env _ st1 h1
      have hz : st1.num_used_styles = 0 := by
        rw [inv.used, used_below_eq_zero]
        exact fun i hi => not_used_of_missing (hall i hi)
      unfold TA_table_build_cvt
      rw [h1]
      simp [hz, hs]
  refine ⟨hiff, ?_, ?_⟩
  · rintro ⟨i, hi, hm⟩ ⟨j, hj, hu⟩ hno
    cases hr : TA_table_build_cvt env with
    | ok t => exact ⟨t, rfl⟩
    | error e =>
      have he := hno e hr
      subst he
      have hmj := (hiff.mp hr).1 j hj
      rw [not_used_of_missing hmj] at hu
      cases hu
  · intro hs hall hno
    cases hr : TA_table_build_cvt env with
    | error e =>
      have he := hno e hr
      subst he
      have := (hiff.mp hr).2
      rw [hs] at this
      cases this
    | ok t =>
      obtain ⟨st1, st2, h1, -, -, h2, hcvt, -, hlen, -, hnum, -⟩ := build_ok hr
      have inv := first_loop_inv env _ st1 h1
      have hnu : ∀ i, i < env.TA_STYLE_MAX → style_used env i = false :=
        fun i hi => not_used_of_missing (hall i hi)
      have hz : st1.num_used_styles = 0 := by
        rw [inv.used, used_below_eq_zero]; exact hnu
      have hh : st1.hwidth_count = 0 := by
        rw [inv.hwidths]
        apply sum_below_eq_zero
        intro i hi
        simp [counted_hwidths, no_metrics_of_not_used (hnu i hi)]
      have hv : st1.vwidth_count = 0 := by
        rw [inv.vwidths]
        apply sum_below_eq_zero
        intro i hi
        simp [counted_vwidths, no_metrics_of_not_used (hnu i hi)]
      have hb : st1.blue_count = 0 := by
        rw [inv.blues]
        apply sum_below_eq_zero
        intro i hi
        simp [counted_blues, no_metrics_of_not_used (hnu i hi)]
      have hbl : buf_len env st1 = 2 * env.cvtl_max_runtime := by
        simp [buf_len, hz, hh, hv, hb, Nat.shiftLeft_eq, Nat.mul_comm]
      have inv2 := second_loop_inv env _ _ _ _ st2 h2
      refine ⟨t, rfl, by rw [hnum, hz], by rw [hlen, hbl], ?_⟩
      rw [hcvt, hlen, hbl, inv2.bytes]
      have hstart : (second_loop_start env st1).bytes
          = List.replicate (2 * env.cvtl_max_runtime) 0 := by
        simp [second_loop_start, runtime_bytes, hz, Nat.mul_comm]
      rw [hstart, List.take_append_of_le_length (by simp)]
      simp

/-! ## Stripping a style -/

theorem and_7F (g : Nat) : g &&& 0x7F = g % 128 := by
  have := Nat.and_pow_two_sub_one_eq_mod g 7
  norm_num at this
  exact this

theorem and_80_mod (g : Nat) : g &&& 0x80 = (g % 256) &&& 0x80 := by
  apply Nat.eq_of_testBit_eq
  intro i
  have h128 : (0x80 : Nat) = 2 ^ 7 := by norm_num
  have h256 : (256 : Nat) = 2 ^ 8 := by norm_num
  rw [h128, h256]
  simp only [Nat.testBit_and, Nat.testBit_mod_two_pow, Nat.testBit_two_pow]
  by_cases h : 7 = i
  · subst h; simp
  · simp [h]

set_option maxRecDepth 100000 in
theorem byte_and_80 : ∀ r, r < 256 → r &&& 0x80 = r / 128 * 128 := by decide

theorem and_80 (g : Nat) : g &&& 0x80 = g % 256 / 128 * 128 := by
  rw [and_80_mod]
  exact byte_and_80 _ (Nat.mod_lt _ (by norm_num))

theorem or_low (a f : Nat) (hf : f ≤ 0x7F) : (128 * a) ||| f = 128 * a + f := by
  have := Nat.mul_add_lt_is_or (i := 7) (b := f) (by norm_num; omega) a
  norm_num at this
  exact this.symm

/-- The byte lines 185-186 store, for the masks `0x80` and `0x7F` and a
fallback style that fits the style bits. -/
theorem stripped_byte (g f : Nat) (hf : f ≤ 0x7F) :
    (clear_bits g 0x7F ||| f) % 256 = 128 * (g % 256 / 128) + f := by
  have h1 : clear_bits g 0x7F = 128 * (g / 128) := by
    unfold clear_bits
    rw [and_7F]
    omega
  rw [h1, or_low _ _ hf]
  omega

theorem clear_digit (g : Nat) : clear_bits g 0x80 = g - g % 256 / 128 * 128 := by
  unfold clear_bits
  rw [and_80]

/-- One glyph-style byte under lines 183-187, for the masks `0x80` and `0x7F`
and a fallback style `f ≤ 0x7F`. -/
theorem strip_style_byte (env : Env) (i g : Nat)
    (hD : env.TA_DIGIT = 0x80) (hU : env.TA_STYLE_UNASSIGNED = 0x7F)
    (hf : env.fallback_style ≤ 0x7F) :
    (clear_bits g env.TA_DIGIT = i →
      clear_bits (strip_style env i g) env.TA_DIGIT = env.fallback_style
      ∧ strip_style env i g &&& env.TA_DIGIT = g &&& env.TA_DIGIT)
    ∧ (clear_bits g env.TA_DIGIT ≠ i → strip_style env i g = g) := by
  constructor
  · intro h
    have hs : strip_style env i g = 128 * (g % 256 / 128) + env.fallback_style := by
      unfold strip_style
      rw [if_pos h, hU, stripped_byte g _ hf]
    rw [hs, hD, clear_digit, and_80, and_80]
    constructor <;> omega
  · intro h
    unfold strip_style
    rw [if_neg h]

/-- Claim C3, amended.  Let the masks be `TA_DIGIT = 0x80` and
`TA_STYLE_UNASSIGNED = 0x7F`, let the fallback style fit the style bits, and
let style `i` be a style other than the fallback style whose call returns
`TA_Err_Missing_Glyph`.  After the iteration of the first loop for `i`, every
glyph whose style bits (the byte without the `TA_DIGIT` bit) were `i` has the
fallback style in its style bits and its `TA_DIGIT` bit unchanged, every other
glyph is unchanged, and no glyph has style bits `i`. -/
theorem missing_style_stripped (env : Env) (st st1 : FirstLoop) (i : Nat)
    (hD : env.TA_DIGIT = 0x80) (hU : env.TA_STYLE_UNASSIGNED = 0x7F)
    (hf : env.fallback_style ≤ 0x7F) (hne : env.fallback_style ≠ i)
    (hc : TA_sfnt_compute_global_hints env st.gstyles i = .error TA_Err_Missing_Glyph)
    (hstep : first_loop_step env st i = .ok st1) :
    st1.gstyles.length = st.gstyles.length
    ∧ (∀ (k g : Nat), st.gstyles[k]? = some g → clear_bits g env.TA_DIGIT = i →
        ∃ g1, st1.gstyles[k]? = some g1
          ∧ clear_bits g1 env.TA_DIGIT = env.fallback_style
          ∧ g1 &&& env.TA_DIGIT = g &&& env.TA_DIGIT)
    ∧ (∀ (k g : Nat), st.gstyles[k]? = some g → clear_bits g env.TA_DIGIT ≠ i →
        st1.gstyles[k]? = some g)
    ∧ (∀ g ∈ st1.gstyles, clear_bits g env.TA_DIGIT ≠ i) := by
  have hg : st1.gstyles = st.gstyles.map (strip_style env i) := by
    rcases first_loop_step_ok hstep with ⟨-, hg, -⟩ | ⟨m, hm, -⟩
    · exact hg
    · rw [hc] at hm; cases hm
  refine ⟨by rw [hg, List.length_map], ?_, ?_, ?_⟩
  · intro k g hk hi
    refine ⟨strip_style env i g, by rw [hg, List.getElem?_map, hk]; rfl, ?_⟩
    exact (strip_style_byte env i g hD hU hf).1 hi
  · intro k g hk hi
    rw [hg, List.getElem?_map, hk, Option.map_some', (strip_style_byte env i g hD hU hf).2 hi]
  · intro g hmem
    rw [hg, List.mem_map] at hmem
    obtain ⟨g0, -, rfl⟩ := hmem
    by_cases hi : clear_bits g0 env.TA_DIGIT = i
    · rw [((strip_style_byte env i g0 hD hU hf).1 hi).1]
      exact hne
    · rw [(strip_style_byte env i g0 hD hU hf).2 hi]
      exact hi

/-- Claim C3 as stated fails when the style without standard character is
the fallback style itself.  In `fallback_font` the call for style 0, the
fallback style, returns `TA_Err_Missing_Glyph`; after the iteration the
glyph-style map is what it was, and glyphs 0, 1 and 2 still have style
bits 0. -/
theorem fallback_style_not_stripped :
    style_missing fallback_font 0 = true
    ∧ fallback_font.fallback_style = 0
    ∧ gstyles_before fallback_font 0 = some [0, 0, 0x80, 1]
    ∧ gstyles_before fallback_font 1 = some [0, 0, 0x80, 1]
    ∧ ¬ (∀ g ∈ [0, 0, 0x80, 1], clear_bits g fallback_font.TA_DIGIT ≠ 0) := by
  decide

/-! ## Overflow -/

theorem checked_cells_gt_iff (env : Env) (m : TA_LatinMetricsRec) :
    (∃ x ∈ checked_cells env m, x > 0xFFFF) ↔
      (∃ j, j < (block_counts env m).1 ∧ (m.haxis.widths j).org > 0xFFFF)
      ∨ (∃ j, j < (block_counts env m).2.1 ∧ (m.vaxis.widths j).org > 0xFFFF)
      ∨ (∃ j, j < (block_counts env m).2.2 ∧ (m.vaxis.blues j).ref.org > 0xFFFF)
      ∨ (∃ j, j < (block_counts env m).2.2 ∧ (m.vaxis.blues j).shoot.org > 0xFFFF) := by
  simp only [checked_cells, widths_org, refs_org, shoots_org, List.mem_append, List.mem_map,
    List.mem_range]
  constructor
  · rintro ⟨x, hx, hgt⟩
    rcases hx with ((⟨j, hj, rfl⟩ | ⟨j, hj, rfl⟩) | ⟨j, hj, rfl⟩) | ⟨j, hj, rfl⟩
    · exact Or.inl ⟨j, hj, hgt⟩
    · exact Or.inr (Or.inl ⟨j, hj, hgt⟩)
    · exact Or.inr (Or.inr (Or.inl ⟨j, hj, hgt⟩))
    · exact Or.inr (Or.inr (Or.inr ⟨j, hj, hgt⟩))
  · rintro (⟨j, hj, hgt⟩ | ⟨j, hj, hgt⟩ | ⟨j, hj, hgt⟩ | ⟨j, hj, hgt⟩)
    · exact ⟨_, Or.inl (Or.inl (Or.inl ⟨j, hj, rfl⟩)), hgt⟩
    · exact ⟨_, Or.inl (Or.inl (Or.inr ⟨j, hj, rfl⟩)), hgt⟩
    · exact ⟨_, Or.inl (Or.inr ⟨j, hj, rfl⟩), hgt⟩
    · exact ⟨_, Or.inr ⟨j, hj, rfl⟩, hgt⟩

theorem select_glyph_error {env : Env} {gstyles : List Nat} {i : Nat} {e : FT_Error}
    (h : select_glyph env gstyles i = .error e) : e = TA_Err_Missing_Glyph := by
  unfold select_glyph at h
  simp only [] at h
  split_ifs at h <;> cases h <;> rfl

/-- The errors `TA_sfnt_compute_global_hints` returns are the two charmap
errors, `TA_Err_Missing_Glyph`, and the errors of the loader. -/
theorem hints_error {env : Env} {gstyles : List Nat} {i : Nat} {e : FT_Error}
    (h : TA_sfnt_compute_global_hints env gstyles i = .error e) :
    e = TA_Err_Missing_Symbol_CMap ∨ e = TA_Err_Missing_Unicode_CMap
    ∨ e = TA_Err_Missing_Glyph ∨ ∃ g, (env.ta_loader_load_glyph gstyles g).1 = e := by
  unfold TA_sfnt_compute_global_hints at h
  cases hc : select_charmap env with
  | some e1 =>
    rw [hc] at h
    cases h
    unfold select_charmap at hc
    split_ifs at hc <;> cases hc
    · exact Or.inl rfl
    · exact Or.inr (Or.inl rfl)
  | none =>
    rw [hc] at h
    simp only [] at h
    cases hg : select_glyph env gstyles i with
    | error e1 =>
      rw [hg] at h
      cases h
      exact Or.inr (Or.inr (Or.inl (select_glyph_error hg)))
    | ok g =>
      rw [hg] at h
      simp only [] at h
      split_ifs at h
      cases h
      exact Or.inr (Or.inr (Or.inr ⟨g, rfl⟩))

theorem hints_ne_overflow {env : Env}
    (hload : ∀ gstyles g, (env.ta_loader_load_glyph gstyles g).1 ≠ TA_Err_Hinter_Overflow)
    (gstyles : List Nat) (i : Nat) :
    TA_sfnt_compute_global_hints env gstyles i ≠ .error TA_Err_Hinter_Overflow := by
  intro h
  rcases hints_error h with he | he | he | ⟨g, hg⟩
  · cases he
  · cases he
  · cases he
  · exact hload gstyles g hg

theorem first_loop_of_settled (env : Env) :
    ∀ n, (∀ i, i < n → style_used env i = true ∨ style_missing env i = true) →
      ∃ st, first_loop env n = .ok st := by
  intro n
  induction n with
  | zero => intro _; exact ⟨_, rfl⟩
  | succ n ih =>
    intro hall
    obtain ⟨st, hst⟩ := ih (fun i hi => hall i (Nat.lt_succ_of_lt hi))
    have hn := hall n (Nat.lt_succ_self n)
    simp only [first_loop, hst]
    unfold first_loop_step
    cases hr : TA_sfnt_compute_global_hints env st.gstyles n with
    | error e =>
      have he : e = TA_Err_Missing_Glyph := by
        rcases hn with hu | hm
        · simp [style_used, first_loop_hints_of_ok hst, hr] at hu
        · simpa [style_missing, first_loop_hints_of_ok hst, hr] using hm
      simp [he]
    | ok m =>
      simp only []
      split_ifs <;> exact ⟨_, rfl⟩

/-- The second loop runs into `Err` when the metrics of a style hold a value
greater than `0xFFFF` and no call before has returned an error other than
`TA_Err_Missing_Glyph`. -/
theorem second_loop_overflow (env : Env) (gstyles : List Nat) (off : Nat) (start : SecondLoop)
    (i : Nat) (m : TA_LatinMetricsRec)
    (hbefore : ∀ k, k < i →
      TA_sfnt_compute_global_hints env gstyles k = .error TA_Err_Missing_Glyph
      ∨ ∃ mk, TA_sfnt_compute_global_hints env gstyles k = .ok mk)
    (hm : TA_sfnt_compute_global_hints env gstyles i = .ok m)
    (hgt : ∃ x ∈ checked_cells env m, x > 0xFFFF) :
    second_loop env gstyles off start (i + 1) = .error TA_Err_Hinter_Overflow := by
  have hpre : ∀ n, n ≤ i →
      second_loop env gstyles off start n = .error TA_Err_Hinter_Overflow
      ∨ ∃ st, second_loop env gstyles off start n = .ok st := by
    intro n
    induction n with
    | zero => intro _; exact Or.inr ⟨_, rfl⟩
    | succ n ih =>
      intro hn
      rcases ih (Nat.le_of_succ_le hn) with herr | ⟨st, hst⟩
      · left; simp only [second_loop, herr]
      · simp only [second_loop, hst]
        rcases hbefore n hn with hc | ⟨mk, hc⟩
        · rw [second_loop_step_missing hc]; exact Or.inr ⟨_, rfl⟩
        · rw [second_loop_step_metrics hc]
          rcases write_block_cases env mk
              { st with cvt_offsets := store st.cvt_offsets n ((st.bytes.length - off) >>> 1) }
              n with ⟨-, hw⟩ | ⟨-, hw⟩
          · rw [hw]; exact Or.inr ⟨_, rfl⟩
          · rw [hw]; exact Or.inl rfl
  rcases hpre i (Nat.le_refl i) with herr | ⟨st, hst⟩
  · simp only [second_loop, herr]
  · simp only [second_loop, hst]
    rw [second_loop_step_metrics hm, write_block_of_gt env m _ i hgt]

theorem second_loop_hints_of_ok {env : Env} {st1 : FirstLoop} (i : Nat)
    (h : first_loop env env.TA_STYLE_MAX = .ok st1) :
    second_loop_hints env i = some (TA_sfnt_compute_global_hints env st1.gstyles i) := by
  simp [second_loop_hints, h]

/-- Claim C4.  Let the glyph loader never return `TA_Err_Hinter_Overflow`
itself.  Then `TA_table_build_cvt` returns `TA_Err_Hinter_Overflow` exactly
when no error occurs before (every call of the first loop returns
`FT_Err_Ok` or `TA_Err_Missing_Glyph`, a style is used or the font is a
symbol font, `malloc` succeeds) and the second loop reaches, without a call
that returns another error, a style whose call returns `FT_Err_Ok` and whose
metrics hold a horizontal width, a vertical width, a blue reference or a blue
shoot (among the `blue_count + 2` zones) greater than `0xFFFF`.  The standard
width `widths[0]` is one of the widths compared.  When the error is
returned, `*cvt` and `*cvt_len` have not been assigned. -/
theorem hinter_overflow_iff (env : Env)
    (hload : ∀ gstyles g, (env.ta_loader_load_glyph gstyles g).1 ≠ TA_Err_Hinter_Overflow) :
    (TA_table_build_cvt env = .error TA_Err_Hinter_Overflow ↔
      (∀ i, i < env.TA_STYLE_MAX → style_used env i = true ∨ style_missing env i = true)
      ∧ ((∃ j, j < env.TA_STYLE_MAX ∧ style_used env j = true) ∨ env.symbol = true)
      ∧ env.malloc_fails = false
      ∧ ∃ i m, i < env.TA_STYLE_MAX
          ∧ (∀ k, k < i → second_loop_hints env k = some (.error TA_Err_Missing_Glyph)
              ∨ ∃ mk, second_loop_hints env k = some (.ok mk))
          ∧ second_loop_hints env i = some (.ok m)
          ∧ ((∃ j, j < (block_counts env m).1 ∧ (m.haxis.widths j).org > 0xFFFF)
            ∨ (∃ j, j < (block_counts env m).2.1 ∧ (m.vaxis.widths j).org > 0xFFFF)
            ∨ (∃ j, j < (block_counts env m).2.2 ∧ (m.vaxis.blues j).ref.org > 0xFFFF)
            ∨ (∃ j, j < (block_counts env m).2.2 ∧ (m.vaxis.blues j).shoot.org > 0xFFFF)))
    ∧ (∀ m, m.style_class ≠ env.TA_STYLE_NONE_DFLT →
        block_counts env m
          = (m.haxis.width_count, m.vaxis.width_count, m.vaxis.blue_count + 2)
        ∧ (0 < m.haxis.width_count → (m.haxis.widths 0).org > 0xFFFF →
            ∃ j, j < (block_counts env m).1 ∧ (m.haxis.widths j).org > 0xFFFF)
        ∧ (0 < m.vaxis.width_count → (m.vaxis.widths 0).org > 0xFFFF →
            ∃ j, j < (block_counts env m).2.1 ∧ (m.vaxis.widths j).org > 0xFFFF))
    ∧ (TA_table_build_cvt env = .error TA_Err_Hinter_Overflow →
        cvt_assigned (TA_table_build_cvt env) = none
        ∧ cvt_len_assigned (TA_table_build_cvt env) = none) := by
  refine ⟨?_, ?_, ?_⟩
  · constructor
    · intro h
      rcases build_error h with h1 | ⟨st1, h1, hcase⟩
      · obtain ⟨i, st, -, -, hc, -⟩ := first_loop_error _ _ h1
        exact absurd hc (hints_ne_overflow hload _ _)
      · have inv := first_loop_inv env _ st1 h1
        rcases hcase with ⟨-, -, he⟩ | ⟨-, -, he⟩ | ⟨hz, hm, h2⟩
        · cases he
        · cases he
        · refine ⟨inv.settled, ?_, hm, ?_⟩
          · by_cases hs : env.symbol = true
            · exact Or.inr hs
            · left
              have hs1 : env.symbol = false := by
                cases hb : env.symbol with
                | true => exact absurd hb hs
                | false => rfl
              have hpos : 0 < used_below env env.TA_STYLE_MAX := by
                rw [← inv.used]
                exact Nat.pos_of_ne_zero (fun h0 => hz ⟨h0, hs1⟩)
              obtain ⟨j, hj, hu, -⟩ := used_below_surj env _ 0 hpos
              exact ⟨j, hj, hu⟩
          · obtain ⟨i, st, hi, hst, hcase2⟩ := second_loop_error _ _ h2
            have inv2 := second_loop_inv env _ _ _ _ st hst
            rcases hcase2 with ⟨hc, -⟩ | ⟨m, hc, hgt, -⟩
            · exact absurd hc (hints_ne_overflow hload _ _)
            · refine ⟨i, m, hi, ?_, ?_, (checked_cells_gt_iff env m).mp hgt⟩
              · intro k hk
                rw [second_loop_hints_of_ok k h1]
                rcases inv2.settled k hk with hmk | ⟨mk, hmk, -⟩
                · exact Or.inl (by rw [hmk])
                · exact Or.inr ⟨mk, by rw [hmk]⟩
              · rw [second_loop_hints_of_ok i h1, hc]
    · rintro ⟨hsettled, hany, hmalloc, i, m, hi, hbefore, hm, hgt⟩
      obtain ⟨st1, h1⟩ := first_loop_of_settled env _ hsettled
      have inv := first_loop_inv env _ st1 h1
      have hz : ¬ (st1.num_used_styles = 0 ∧ env.symbol = false) := by
        rintro ⟨h0, hs⟩
        rcases hany with ⟨j, hj, hu⟩ | hs1
        · rw [inv.used] at h0
          rw [(used_below_eq_zero env _).mp h0 j hj] at hu
          cases hu
        · rw [hs] at hs1; cases hs1
      have hm1 : TA_sfnt_compute_global_hints env st1.gstyles i = .ok m := by
        rw [second_loop_hints_of_ok i h1] at hm
        exact Option.some.inj hm
      have hbefore1 : ∀ k, k < i →
          TA_sfnt_compute_global_hints env st1.gstyles k = .error TA_Err_Missing_Glyph
          ∨ ∃ mk, TA_sfnt_compute_global_hints env st1.gstyles k = .ok mk := by
        intro k hk
        rcases hbefore k hk with hk1 | ⟨mk, hk1⟩
        · rw [second_loop_hints_of_ok k h1] at hk1
          exact Or.inl (Option.some.inj hk1)
        · rw [second_loop_hints_of_ok k h1] at hk1
          exact Or.inr ⟨mk, Option.some.inj hk1⟩
      have h2 := second_loop_overflow env st1.gstyles (runtime_bytes env st1)
        (second_loop_start env st1) i m hbefore1 hm1 ((checked_cells_gt_iff env m).mpr hgt)
      have h3 := second_loop_error_mono h2 (env.TA_STYLE_MAX - (i + 1))
      have hidx : i + 1 + (env.TA_STYLE_MAX - (i + 1)) = env.TA_STYLE_MAX := by omega
      rw [hidx] at h3
      unfold TA_table_build_cvt
      rw [h1]
      simp only []
      rw [if_neg hz, hmalloc]
      simp only [Bool.false_eq_true, if_false]
      rw [h3]
  · intro m hm
    have hb : block_counts env m
        = (m.haxis.width_count, m.vaxis.width_count, m.vaxis.blue_count + 2) := by
      unfold block_counts
      rw [if_neg hm]
    refine ⟨hb, ?_, ?_⟩
    · intro h0 hgt
      exact ⟨0, by rw [hb]; exact h0, hgt⟩
    · intro h0 hgt
      exact ⟨0, by rw [hb]; exact h0, hgt⟩
  · intro h
    rw [h]
    exact ⟨rfl, rfl⟩

/-! ## The place of a block in the table -/

theorem block_bytes_length (env : Env) (gstyles : List Nat) (i : Nat) :
    ∃ c, (block_bytes env gstyles i).length = 2 * c := by
  unfold block_bytes
  cases TA_sfnt_compute_global_hints env gstyles i with
  | error e => exact ⟨0, rfl⟩
  | ok m => exact ⟨_, encode_length _⟩

theorem blocks_below_length (env : Env) (gstyles : List Nat) (n : Nat) :
    ∃ c, (blocks_below env gstyles n).length = 2 * c := by
  induction n with
  | zero => exact ⟨0, rfl⟩
  | succ n ih =>
    obtain ⟨c, hc⟩ := ih
    obtain ⟨d, hd⟩ := block_bytes_length env gstyles n
    exact ⟨c + d, by simp only [blocks_below, List.length_append, hc, hd]; omega⟩

theorem blocks_below_split (env : Env) (gstyles : List Nat) (s n : Nat) (h : s < n) :
    ∃ rest, blocks_below env gstyles n
      = blocks_below env gstyles s ++ block_bytes env gstyles s ++ rest := by
  induction n with
  | zero => exact absurd h (Nat.not_lt_zero s)
  | succ n ih =>
    rcases Nat.lt_succ_iff_lt_or_eq.mp h with hlt | heq
    · obtain ⟨rest, hr⟩ := ih hlt
      exact ⟨rest ++ block_bytes env gstyles n, by
        simp only [blocks_below, hr, List.append_assoc]⟩
    · subst heq
      exact ⟨[], by simp only [blocks_below, List.append_nil]⟩

/-- In the table a successful call hands back, the block of a style `s` the
second loop has written starts at byte
`2 * (cvtl_max_runtime + 3 * num_used_styles + cvt_offsets[s])` and consists
of the cells `block_cells`; the recorded sizes are the counts of the block,
and no value compared with `0xFFFF` is greater. -/
theorem block_in_table {env : Env} {t : CvtTable} {s : Nat} {m : TA_LatinMetricsRec}
    (h : TA_table_build_cvt env = .ok t) (hs : s < env.TA_STYLE_MAX)
    (hm : second_loop_hints env s = some (.ok m)) :
    (∃ before after, t.cvt = before ++ encode (block_cells env m) ++ after
      ∧ before.length
          = 2 * (env.cvtl_max_runtime + 3 * t.data.num_used_styles + t.data.cvt_offsets s))
    ∧ t.data.cvt_horz_width_sizes s = (block_counts env m).1
    ∧ t.data.cvt_vert_width_sizes s = (block_counts env m).2.1
    ∧ t.data.cvt_blue_zone_sizes s = (block_counts env m).2.2
    ∧ (∀ x ∈ checked_cells env m, x ≤ 0xFFFF) := by
  obtain ⟨st1, st2, h1, -, -, h2, hcvt, -, -, -, hnum, -, hoff, hh, hv, hb, -⟩ := build_ok h
  have inv2 := second_loop_inv env _ _ _ _ st2 h2
  have hm1 : TA_sfnt_compute_global_hints env st1.gstyles s = .ok m := by
    rw [second_loop_hints_of_ok s h1] at hm
    exact Option.some.inj hm
  have hle : ∀ x ∈ checked_cells env m, x ≤ 0xFFFF := by
    rcases inv2.settled s hs with hmiss | ⟨m1, hm2, hle⟩
    · rw [hm1] at hmiss; cases hmiss
    · rw [hm1] at hm2; cases hm2; exact hle
  refine ⟨?_, by rw [hh, inv2.hsizes s m hs hm1], by rw [hv, inv2.vsizes s m hs hm1],
    by rw [hb, inv2.bsizes s m hs hm1], hle⟩
  obtain ⟨rest, hrest⟩ := blocks_below_split env st1.gstyles s _ hs
  obtain ⟨c, hc⟩ := blocks_below_length env st1.gstyles s
  have hbb : block_bytes env st1.gstyles s = encode (block_cells env m) := by
    simp [block_bytes, hm1]
  have hstart : (second_loop_start env st1).bytes.length = runtime_bytes env st1 := by
    simp [second_loop_start]
  refine ⟨(second_loop_start env st1).bytes ++ blocks_below env st1.gstyles s, rest, ?_, ?_⟩
  · rw [hcvt, inv2.bytes, hrest, hbb]
    simp only [List.append_assoc]
  · rw [hoff, inv2.offsets s hs, hnum, List.length_append, hstart, hc, Nat.shiftRight_eq_div_pow]
    unfold runtime_bytes
    omega

/-! ## Decoding -/

theorem cell16_cast (x : Int) : (cell16 x : Int) = x % 65536 := by
  unfold cell16
  exact Int.toNat_of_nonneg (Int.emod_nonneg x (by norm_num))

theorem cell16_of_range (x : Int) (h0 : 0 ≤ x) (h1 : x ≤ 0xFFFF) : (cell16 x : Int) = x := by
  rw [cell16_cast]
  omega

theorem cell16_of_neg (x : Int) (h0 : x < 0) (h1 : -65536 ≤ x) :
    (cell16 x : Int) = x + 65536 := by
  rw [cell16_cast]
  omega

theorem high_low (x : Int) : HIGH x * 256 + LOW x = cell16 x := by
  unfold HIGH LOW
  omega

theorem decode16_encode_append (xs : List Int) (rest : List Nat) :
    decode16 (encode xs ++ rest) = xs.map cell16 ++ decode16 rest := by
  induction xs with
  | nil => rfl
  | cons x xs ih =>
    simp only [encode, List.cons_append, decode16, List.map_cons, high_low, List.append_eq, ih]

theorem decode16_encode (xs : List Int) : decode16 (encode xs) = xs.map cell16 := by
  have h := decode16_encode_append xs []
  simpa [decode16] using h

theorem take_encode_append (xs : List Int) (rest : List Nat) :
    (encode xs ++ rest).take (2 * xs.length) = encode xs := by
  rw [← encode_length xs]
  exact List.take_left' rfl

theorem drop_encode (xs : List Int) (j : Nat) :
    (encode xs).drop (2 * j) = encode (xs.drop j) := by
  induction j generalizing xs with
  | zero => rfl
  | succ j ih =>
    cases xs with
    | nil => simp [encode]
    | cons x xs =>
      have h2 : 2 * (j + 1) = 2 * j + 1 + 1 := by omega
      rw [h2]
      simp only [encode, List.drop_succ_cons]
      exact ih xs

/-- Reading cell `j` of a block that starts at cell `base`. -/
theorem cell_at_block (before after : List Nat) (xs : List Int) (base j : Nat) (x : Int)
    (hb : before.length = 2 * base) (hx : xs[j]? = some x) :
    cell_at (before ++ encode xs ++ after) (base + j) = some (cell16 x) := by
  unfold cell_at
  have h1 : 2 * (base + j) = before.length + 2 * j := by omega
  rw [h1, List.append_assoc, List.drop_append, List.drop_append_of_le_length
    (by rw [encode_length]; have := (List.getElem?_eq_some_iff.mp hx).1; omega), drop_encode]
  have hd : xs.drop j = x :: xs.drop (j + 1) := by
    obtain ⟨hj, hxj⟩ := List.getElem?_eq_some_iff.mp hx
    rw [← hxj]
    exact List.drop_eq_getElem_cons hj
  rw [hd]
  simp [encode, decode16, high_low]

theorem block_cells_length (env : Env) (m : TA_LatinMetricsRec) :
    (block_cells env m).length
      = 2 + (block_counts env m).1 + (block_counts env m).2.1 + 2 * (block_counts env m).2.2 := by
  simp only [block_cells, widths_org, refs_org, shoots_org, List.length_append,
    List.length_cons, List.length_map, List.length_range]
  omega

/-- Claim C8.  On success, for every style `s` the second loop has written
(its call returned `FT_Err_Ok` with metrics `m`), decoding big-endian 16-bit
cells from byte offset
`2 * (cvtl_max_runtime + 3 * num_used_styles + cvt_offsets[s])`, over the
`2 + H + V + 2 * B` cells given by the recorded sizes `H`, `V`, `B`, yields
in this order the horizontal standard width, the `H` horizontal widths, the
vertical standard width, the `V` vertical widths, the `B` blue references
and the `B` blue shoots, each as the 16-bit cell of the `.org` value.  The
recorded sizes are the counts of the metrics.  Each width and blue value is
at most `0xFFFF`; its cell is the value itself when the value is not
negative, the value plus `2^16` when it is negative and not below `-2^16`,
and the value modulo `2^16` in every case. -/
theorem block_round_trip (env : Env) (t : CvtTable) (s : Nat) (m : TA_LatinMetricsRec)
    (h : TA_table_build_cvt env = .ok t) (hs : s < env.TA_STYLE_MAX)
    (hm : second_loop_hints env s = some (.ok m)) :
    decode16
        ((t.cvt.drop
            (2 * (env.cvtl_max_runtime + 3 * t.data.num_used_styles + t.data.cvt_offsets s))).take
          (2 * (2 + t.data.cvt_horz_width_sizes s + t.data.cvt_vert_width_sizes s
                + 2 * t.data.cvt_blue_zone_sizes s)))
      = cell16 (standard_width env m.haxis (t.data.cvt_horz_width_sizes s))
          :: (widths_org m.haxis (t.data.cvt_horz_width_sizes s)).map cell16
        ++ cell16 (standard_width env m.vaxis (t.data.cvt_vert_width_sizes s))
          :: (widths_org m.vaxis (t.data.cvt_vert_width_sizes s)).map cell16
        ++ (refs_org m.vaxis (t.data.cvt_blue_zone_sizes s)).map cell16
        ++ (shoots_org m.vaxis (t.data.cvt_blue_zone_sizes s)).map cell16
    ∧ (t.data.cvt_horz_width_sizes s, t.data.cvt_vert_width_sizes s,
        t.data.cvt_blue_zone_sizes s) = block_counts env m
    ∧ (∀ x ∈ widths_org m.haxis (t.data.cvt_horz_width_sizes s)
          ++ widths_org m.vaxis (t.data.cvt_vert_width_sizes s)
          ++ refs_org m.vaxis (t.data.cvt_blue_zone_sizes s)
          ++ shoots_org m.vaxis (t.data.cvt_blue_zone_sizes s),
        x ≤ 0xFFFF ∧ (0 ≤ x → (cell16 x : Int) = x)
        ∧ (x < 0 → -65536 ≤ x → (cell16 x : Int) = x + 65536)
        ∧ (cell16 x : Int) = x % 65536) := by
  obtain ⟨⟨before, after, hcvt, hlen⟩, hH, hV, hB, hle⟩ := block_in_table h hs hm
  rw [hH, hV, hB]
  refine ⟨?_, rfl, ?_⟩
  · rw [hcvt, List.append_assoc, List.drop_left' hlen, ← block_cells_length,
      take_encode_append, decode16_encode]
    simp only [block_cells, List.map_append, List.map_cons, List.cons_append, List.append_assoc]
  · intro x hx
    have hx1 : x ≤ 0xFFFF := hle x hx
    exact ⟨hx1, fun h0 => cell16_of_range x h0 hx1, cell16_of_neg x, cell16_cast x⟩

/-! ## The layout of a block -/

/-- Reading cell `j` of a run `xs` of cells inside a block that starts at
cell `base`. -/
theorem cell_at_segment (before after : List Nat) (P xs S : List Int) (base j : Nat) (x : Int)
    (hb : before.length = 2 * base) (hx : xs[j]? = some x) :
    cell_at (before ++ encode (P ++ xs ++ S) ++ after) (base + P.length + j)
      = some (cell16 x) := by
  have h1 : before ++ encode (P ++ xs ++ S) ++ after
      = (before ++ encode P) ++ encode xs ++ (encode S ++ after) := by
    simp only [encode_append, List.append_assoc]
  rw [h1]
  exact cell_at_block _ _ xs (base + P.length) j x
    (by rw [List.length_append, encode_length, hb]; omega) hx

theorem cell_at_of_split {bytes before after : List Nat} {cells P xs S : List Int}
    {base j : Nat} {x : Int}
    (hcvt : bytes = before ++ encode cells ++ after) (hb : before.length = 2 * base)
    (hc : cells = P ++ xs ++ S) (hx : xs[j]? = some x) :
    cell_at bytes (base + P.length + j) = some (cell16 x) := by
  rw [hcvt, hc]
  exact cell_at_segment before after P xs S base j x hb hx

theorem range_map_getElem? (f : Nat → Int) (n j : Nat) (h : j < n) :
    ((List.range n).map f)[j]? = some (f j) := by
  rw [List.getElem?_map, List.getElem?_range h]
  rfl

/-- Claim C6, amended.  In the block of a style the second loop has written,
the first cell is the horizontal standard width, which is `widths[0].org`
when `hwidth_count >= 1`; it is followed by all `hwidth_count` horizontal
widths, `widths[0]` included, so the horizontal part has `1 + hwidth_count`
cells.  Then come the vertical standard width and all `vwidth_count`
vertical widths.  The blue reference cells begin at cell
`2 + hwidth_count + vwidth_count` of the block, the blue shoot cells follow
them. -/
theorem block_layout (env : Env) (t : CvtTable) (s : Nat) (m : TA_LatinMetricsRec)
    (h : TA_table_build_cvt env = .ok t) (hs : s < env.TA_STYLE_MAX)
    (hm : second_loop_hints env s = some (.ok m)) :
    let base := env.cvtl_max_runtime + 3 * t.data.num_used_styles + t.data.cvt_offsets s
    let hwidth_count := (block_counts env m).1
    let vwidth_count := (block_counts env m).2.1
    let blue_count := (block_counts env m).2.2
    (0 < hwidth_count → cell_at t.cvt base = some (cell16 (m.haxis.widths 0).org))
    ∧ (∀ j, j < hwidth_count →
        cell_at t.cvt (base + 1 + j) = some (cell16 (m.haxis.widths j).org))
    ∧ (0 < vwidth_count →
        cell_at t.cvt (base + (1 + hwidth_count)) = some (cell16 (m.vaxis.widths 0).org))
    ∧ (∀ j, j < vwidth_count →
        cell_at t.cvt (base + (2 + hwidth_count) + j) = some (cell16 (m.vaxis.widths j).org))
    ∧ (∀ j, j < blue_count →
        cell_at t.cvt (base + (2 + hwidth_count + vwidth_count) + j)
          = some (cell16 (m.vaxis.blues j).ref.org))
    ∧ (∀ j, j < blue_count →
        cell_at t.cvt (base + (2 + hwidth_count + vwidth_count + blue_count) + j)
          = some (cell16 (m.vaxis.blues j).shoot.org)) := by
  intro base hwidth_count vwidth_count blue_count
  obtain ⟨⟨before, after, hcvt, hlen⟩, -⟩ := block_in_table h hs hm
  have hlen1 : before.length = 2 * base := hlen
  refine ⟨?_, ?_, ?_, ?_, ?_, ?_⟩
  · intro h0
    have hc : block_cells env m
        = [] ++ [standard_width env m.haxis hwidth_count]
          ++ (widths_org m.haxis hwidth_count
            ++ standard_width env m.vaxis vwidth_count :: widths_org m.vaxis vwidth_count
            ++ refs_org m.vaxis blue_count ++ shoots_org m.vaxis blue_count) := by
      simp only [block_cells, List.nil_append, List.cons_append, List.append_assoc,
        hwidth_count, vwidth_count, blue_count]
    have := cell_at_of_split hcvt hlen1 hc
      (show [standard_width env m.haxis hwidth_count][0]? = some _ from rfl)
    simp only [List.length_nil, Nat.add_zero] at this
    rw [this]
    simp [standard_width, h0]
  · intro j hj
    have hc : block_cells env m
        = [standard_width env m.haxis hwidth_count]
          ++ (List.range hwidth_count).map (fun j => (m.haxis.widths j).org)
          ++ (standard_width env m.vaxis vwidth_count :: widths_org m.vaxis vwidth_count
            ++ refs_org m.vaxis blue_count ++ shoots_org m.vaxis blue_count) := by
      simp only [block_cells, widths_org, List.nil_append, List.cons_append, List.append_assoc,
        hwidth_count, vwidth_count, blue_count]
    exact cell_at_of_split hcvt hlen1 hc (range_map_getElem? _ hwidth_count j hj)
  · intro h0
    have hc : block_cells env m
        = (standard_width env m.haxis hwidth_count :: widths_org m.haxis hwidth_count)
          ++ [standard_width env m.vaxis vwidth_count]
          ++ (widths_org m.vaxis vwidth_count
            ++ refs_org m.vaxis blue_count ++ shoots_org m.vaxis blue_count) := by
      simp only [block_cells, List.nil_append, List.cons_append, List.append_assoc,
        hwidth_count, vwidth_count, blue_count]
    have := cell_at_of_split hcvt hlen1 hc
      (show [standard_width env m.vaxis vwidth_count][0]? = some _ from rfl)
    simp only [List.length_cons, widths_org, List.length_map, List.length_range,
      Nat.add_zero] at this
    rw [show base + (1 + hwidth_count) = base + (hwidth_count + 1) by omega, this]
    simp [standard_width, h0]
  · intro j hj
    have hc : block_cells env m
        = (standard_width env m.haxis hwidth_count :: widths_org m.haxis hwidth_count
            ++ [standard_width env m.vaxis vwidth_count])
          ++ (List.range vwidth_count).map (fun j => (m.vaxis.widths j).org)
          ++ (refs_org m.vaxis blue_count ++ shoots_org m.vaxis blue_count) := by
      simp only [block_cells, widths_org, List.nil_append, List.cons_append, List.append_assoc,
        hwidth_count, vwidth_count, blue_count]
    have := cell_at_of_split hcvt hlen1 hc (range_map_getElem? _ vwidth_count j hj)
    simp only [List.length_cons, List.length_append, widths_org, List.length_map,
      List.length_range, List.length_nil] at this
    rw [show base + (2 + hwidth_count) + j = base + (hwidth_count + (0 + 1) + 1) + j by omega]
    exact this
  · intro j hj
    have hc : block_cells env m
        = (standard_width env m.haxis hwidth_count :: widths_org m.haxis hwidth_count
            ++ standard_width env m.vaxis vwidth_count :: widths_org m.vaxis vwidth_count)
          ++ (List.range blue_count).map (fun j => (m.vaxis.blues j).ref.org)
          ++ shoots_org m.vaxis blue_count := by
      simp only [block_cells, refs_org, hwidth_count, vwidth_count, blue_count]
    have := cell_at_of_split hcvt hlen1 hc (range_map_getElem? _ blue_count j hj)
    simp only [List.length_cons, List.length_append, widths_org, List.length_map,
      List.length_range] at this
    rw [show base + (2 + hwidth_count + vwidth_count) + j
      = base + (hwidth_count + 1 + (vwidth_count + 1)) + j by omega]
    exact this
  · intro j hj
    have hc : block_cells env m
        = (standard_width env m.haxis hwidth_count :: widths_org m.haxis hwidth_count
            ++ standard_width env m.vaxis vwidth_count :: widths_org m.vaxis vwidth_count
            ++ refs_org m.vaxis blue_count)
          ++ (List.range blue_count).map (fun j => (m.vaxis.blues j).shoot.org) ++ [] := by
      simp only [block_cells, shoots_org, hwidth_count, vwidth_count, blue_count,
        List.append_nil]
    have := cell_at_of_split hcvt hlen1 hc (range_map_getElem? _ blue_count j hj)
    simp only [List.length_cons, List.length_append, widths_org, refs_org, List.length_map,
      List.length_range] at this
    rw [show base + (2 + hwidth_count + vwidth_count + blue_count) + j
      = base + (hwidth_count + 1 + (vwidth_count + 1) + blue_count) + j by omega]
    exact this

/-- Claim C6 as stated fails.  In `latin_font` style 0 is written with
`hwidth_count = 2` and `vwidth_count = 1`.  Its block has 13 cells: the
horizontal standard width 100 and then both horizontal widths 100 and 120,
the vertical standard width 90 and then the vertical width 90, and only
then, at cell 5, the four blue references.  In the layout of the claim
(standard width, then `hwidth_count - 1` more widths) the block would have
11 cells and the blue references would begin at cell 3. -/
theorem standard_width_stored_twice :
    style_written latin_font 0 = true
    ∧ (built_table latin_font).map (fun t =>
          decode16 (t.cvt.drop
            (2 * (latin_font.cvtl_max_runtime + 3 * t.data.num_used_styles
                  + t.data.cvt_offsets 0))))
        = some [100, 100, 120, 90, 90, 0, 500, 700, 65336, 65526, 510, 700, 65336]
    ∧ (spec_block_cells latin_font ⟨0, sample_haxis, sample_vaxis⟩).map cell16
        = [100, 120, 90, 0, 500, 700, 65336, 65526, 510, 700, 65336] := by
  decide

/-! ## The default width -/

/-- Claim C9.  `default_width` is `50 * units_per_EM / 2048` with truncating
division; for `units_per_EM <= 65535` it is at most 1599 and is its own
16-bit cell.  In the block of a style the second loop has written, the
standard-width cell of an axis without widths holds `default_width`: the
first cell of the block when `hwidth_count` is 0, the cell after the
horizontal widths when `vwidth_count` is 0.  Metrics of the style class
`none_dflt` have no widths and no blue zones. -/
theorem default_width_cell (env : Env) (t : CvtTable) (s : Nat) (m : TA_LatinMetricsRec)
    (hu : env.units_per_EM ≤ 65535)
    (h : TA_table_build_cvt env = .ok t) (hs : s < env.TA_STYLE_MAX)
    (hm : second_loop_hints env s = some (.ok m)) :
    let base := env.cvtl_max_runtime + 3 * t.data.num_used_styles + t.data.cvt_offsets s
    default_width env = 50 * env.units_per_EM / 2048
    ∧ default_width env ≤ 1599
    ∧ cell16 (default_width env) = default_width env
    ∧ ((block_counts env m).1 = 0 → cell_at t.cvt base = some (default_width env))
    ∧ ((block_counts env m).2.1 = 0 →
        cell_at t.cvt (base + (1 + (block_counts env m).1)) = some (default_width env))
    ∧ (m.style_class = env.TA_STYLE_NONE_DFLT → block_counts env m = (0, 0, 0)) := by
  intro base
  obtain ⟨⟨before, after, hcvt, hlen⟩, -⟩ := block_in_table h hs hm
  have hlen1 : before.length = 2 * base := hlen
  have hd : default_width env ≤ 1599 := by
    unfold default_width
    omega
  have hcell : cell16 (default_width env) = default_width env := by
    have h1 := cell16_of_range (default_width env) (by omega) (by omega)
    exact_mod_cast h1
  refine ⟨rfl, hd, hcell, ?_, ?_, ?_⟩
  · intro h0
    have hc : block_cells env m
        = [] ++ [standard_width env m.haxis (block_counts env m).1]
          ++ (widths_org m.haxis (block_counts env m).1
            ++ standard_width env m.vaxis (block_counts env m).2.1
              :: widths_org m.vaxis (block_counts env m).2.1
            ++ refs_org m.vaxis (block_counts env m).2.2
            ++ shoots_org m.vaxis (block_counts env m).2.2) := by
      simp only [block_cells, List.nil_append, List.cons_append, List.append_assoc]
    have := cell_at_of_split hcvt hlen1 hc
      (show [standard_width env m.haxis (block_counts env m).1][0]? = some _ from rfl)
    simp only [List.length_nil, Nat.add_zero] at this
    rw [this]
    simp [standard_width, h0, hcell]
  · intro h0
    have hc : block_cells env m
        = (standard_width env m.haxis (block_counts env m).1
            :: widths_org m.haxis (block_counts env m).1)
          ++ [standard_width env m.vaxis (block_counts env m).2.1]
          ++ (widths_org m.vaxis (block_counts env m).2.1
            ++ refs_org m.vaxis (block_counts env m).2.2
            ++ shoots_org m.vaxis (block_counts env m).2.2) := by
      simp only [block_cells, List.nil_append, List.cons_append, List.append_assoc]
    have := cell_at_of_split hcvt hlen1 hc
      (show [standard_width env m.vaxis (block_counts env m).2.1][0]? = some _ from rfl)
    simp only [List.length_cons, widths_org, List.length_map, List.length_range,
      Nat.add_zero] at this
    rw [show base + (1 + (block_counts env m).1) = base + ((block_counts env m).1 + 1) by omega,
      this]
    simp [standard_width, h0, hcell]
  · intro hn
    unfold block_counts
    rw [if_pos hn]

/-! ## The length of the table -/

/-- Claim C7, amended.  On success `cvt_len` is twice the number of cells of:
the fixed runtime area; three runtime cells for every used style; two
standard-width cells for every used style; and, summed over the used styles
other than `none_dflt`, the horizontal widths, the vertical widths and twice
the `blue_count + 2` blue zones.  `num_used_styles` is the number of used
styles. -/
theorem cvt_len_formula (env : Env) (t : CvtTable) (h : TA_table_build_cvt env = .ok t) :
    t.cvt_len
      = 2 * (env.cvtl_max_runtime
            + 3 * t.data.num_used_styles
            + 2 * t.data.num_used_styles
            + sum_below (counted_hwidths env) env.TA_STYLE_MAX
            + sum_below (counted_vwidths env) env.TA_STYLE_MAX
            + 2 * sum_below (counted_blues env) env.TA_STYLE_MAX)
    ∧ t.data.num_used_styles = (List.range env.TA_STYLE_MAX).countP (style_used env) := by
  obtain ⟨st1, st2, h1, -, -, -, -, -, hlen, -, hnum, -⟩ := build_ok h
  have inv := first_loop_inv env _ st1 h1
  refine ⟨?_, by rw [hnum, inv.used, used_below_eq_countP]⟩
  rw [hlen, hnum]
  unfold buf_len
  rw [Nat.shiftLeft_eq, inv.hwidths, inv.vwidths, inv.blues]
  omega

/-- Claim C7 as stated fails.  In `latin_font` one style is used, with 2
horizontal widths, 1 vertical width and 2 blue zones.  The table has 40
bytes.  The fixed runtime area (4 cells) plus twice the widths and blues
gives 18 bytes; even when the three runtime cells of the style are counted
as runtime scratch and every blue zone, the artificial ones included, is
counted with its two cells, the sum is 36 bytes: the two standard-width
cells of the style contribute as well. -/
theorem cvt_len_counts_more_cells :
    (built_table latin_font).map (fun t => t.cvt_len) = some 40
    ∧ spec_cvt_len latin_font = 18
    ∧ 2 * (latin_font.cvtl_max_runtime + 3 * 1)
        + 2 * (sum_below (counted_hwidths latin_font) 3
              + sum_below (counted_vwidths latin_font) 3
              + 2 * sum_below (counted_blues latin_font) 3) = 36 := by
  decide

/-! ## The second loop and the length of the buffer -/

/-- Claim C5 fails on `late_fallback_font`.  The first loop finds no glyph
of the fallback style 0 (the standard character found, the digit zero, is
flagged `TA_DIGIT`), so style 0 gets the id `0xFFFF` and no room; style 1 is
used; style 2 has no standard character and its glyph 3 is given the
fallback style.  `buf_len` is 26 and 28 bytes are allocated.  The second
loop now finds glyph 3 for style 0 and writes the 13 cells of its block
behind the 14 bytes of the runtime area, then the 6 cells of the block of
style 1 at cell offset 13: 52 bytes are stored through `bufp`, and the
function returns `FT_Err_Ok`. -/
theorem second_loop_writes_past_buffer :
    style_missing late_fallback_font 0 = true
    ∧ style_written late_fallback_font 0 = true
    ∧ gstyles_before late_fallback_font 4 = some [1, 0x80, 1, 0]
    ∧ (built_table late_fallback_font).map (fun t =>
          [t.cvt_len, t.len, t.cvt.length, t.data.style_ids 0, t.data.cvt_offsets 0,
            t.data.cvt_horz_width_sizes 0, t.data.cvt_vert_width_sizes 0,
            t.data.cvt_blue_zone_sizes 0, t.data.cvt_offsets 1])
        = some [26, 28, 52, 0xFFFF, 0, 2, 1, 4, 13]
    ∧ ¬ (2 * (late_fallback_font.cvtl_max_runtime + 3 * 1 + 0 + (2 + 2 + 1 + 2 * 4)) ≤ 26) := by
  decide

/-! ## The theorems on the sample fonts -/

/-- Style 1 of `latin_font` has no standard character in the font and is not
the fallback style: the call returns `TA_Err_Missing_Glyph`. -/
theorem standard_char_lookup_witness :
    select_charmap latin_font = none
    ∧ (lookup_standard_char latin_font 1).2 = 0
    ∧ latin_font.fallback_style ≠ 1
    ∧ TA_sfnt_compute_global_hints latin_font latin_font.glyph_styles 1
        = .error TA_Err_Missing_Glyph :=
  ⟨by decide, by decide, by decide,
    ((standard_char_lookup latin_font latin_font.glyph_styles 1).2.2.2.2.2.2
      (by decide) (by decide)).2.2 (by decide)⟩

/-- In `latin_font` style 0 is used and styles 1 and 2 are missing: the call
succeeds.  In `symbol_font` every style is missing and the table is the
runtime area of 8 bytes.  In `fallback_font` every style is missing and the
font is no symbol font: the call returns `TA_Err_Missing_Glyph`. -/
theorem missing_glyph_for_whole_font_witness :
    style_missing latin_font 1 = true
    ∧ style_used latin_font 0 = true
    ∧ (∃ t, TA_table_build_cvt latin_font = .ok t)
    ∧ symbol_font.symbol = true
    ∧ (∃ t, TA_table_build_cvt symbol_font = .ok t
        ∧ t.data.num_used_styles = 0
        ∧ t.cvt_len = 2 * symbol_font.cvtl_max_runtime
        ∧ t.cvt.take t.cvt_len = List.replicate (2 * symbol_font.cvtl_max_runtime) 0)
    ∧ TA_table_build_cvt fallback_font = .error TA_Err_Missing_Glyph :=
  ⟨by decide, by decide,
    (missing_glyph_for_whole_font latin_font).2.1 ⟨1, by decide, by decide⟩
      ⟨0, by decide, by decide⟩
      (fun e he => by
        have h2 : TA_table_build_cvt latin_font = .ok (the_table latin_font) := rfl
        rw [h2] at he
        cases he),
    by decide,
    (missing_glyph_for_whole_font symbol_font).2.2 (by decide) (by decide)
      (fun e he => by
        have h2 : TA_table_build_cvt symbol_font = .ok (the_table symbol_font) := rfl
        rw [h2] at he
        cases he),
    (missing_glyph_for_whole_font fallback_font).1.mpr ⟨by decide, by decide⟩⟩

/-- In `latin_font` the first loop runs through, and one style is used. -/
theorem style_ids_after_first_loop_witness :
    first_loop latin_font latin_font.TA_STYLE_MAX = .ok (state_before latin_font 3)
    ∧ (state_before latin_font 3).num_used_styles
        = (List.range latin_font.TA_STYLE_MAX).countP (style_used latin_font)
    ∧ (List.range latin_font.TA_STYLE_MAX).countP (style_used latin_font) = 1 :=
  ⟨rfl, (style_ids_after_first_loop latin_font (state_before latin_font 3) rfl).2.1, by decide⟩

/-- In `latin_font` style 1 is missing and is not the fallback style: in
front of iteration 2 no glyph has style bits 1. -/
theorem missing_style_stripped_witness :
    latin_font.fallback_style ≠ 1
    ∧ first_loop_step latin_font (state_before latin_font 1) 1
        = .ok (state_before latin_font 2)
    ∧ ∀ g ∈ (state_before latin_font 2).gstyles, clear_bits g latin_font.TA_DIGIT ≠ 1 :=
  ⟨by decide, rfl,
    (missing_style_stripped latin_font (state_before latin_font 1) (state_before latin_font 2) 1
      rfl rfl (by decide) (by decide) rfl rfl).2.2.2⟩

/-- The standard width 70000 of `wide_font` makes the call return
`TA_Err_Hinter_Overflow`, and `*cvt` is not assigned. -/
theorem hinter_overflow_iff_witness :
    TA_table_build_cvt wide_font = .error TA_Err_Hinter_Overflow
    ∧ cvt_assigned (TA_table_build_cvt wide_font) = none
    ∧ cvt_len_assigned (TA_table_build_cvt wide_font) = none :=
  ⟨rfl,
    (hinter_overflow_iff wide_font
      (fun gstyles g => by
        show (sample_loader _ gstyles g).1 ≠ TA_Err_Hinter_Overflow
        unfold sample_loader
        split_ifs <;> simp)).2.2 rfl⟩

/-- In `latin_font` the first blue reference of style 0, the value 0, is
cell `2 + 2 + 1` of the block. -/
theorem block_layout_witness :
    style_written latin_font 0 = true
    ∧ cell_at (the_table latin_font).cvt
        (latin_font.cvtl_max_runtime + 3 * (the_table latin_font).data.num_used_styles
          + (the_table latin_font).data.cvt_offsets 0 + (2 + 2 + 1) + 0) = some 0 :=
  ⟨by decide,
    (block_layout latin_font (the_table latin_font) 0 ⟨0, sample_haxis, sample_vaxis⟩
      rfl (by decide) rfl).2.2.2.2.1 0 (by decide)⟩

/-- In `latin_font` the table has `2 * (4 + 3 + 2 + 2 + 1 + 2 * 4)` bytes. -/
theorem cvt_len_formula_witness :
    TA_table_build_cvt latin_font = .ok (the_table latin_font)
    ∧ (the_table latin_font).cvt_len = 2 * (4 + 3 * 1 + 2 * 1 + 2 + 1 + 2 * 4) :=
  ⟨rfl, (cvt_len_formula latin_font (the_table latin_font) rfl).1⟩

/-- In `latin_font` the block of style 0 decodes to its thirteen cells; the
descender blue -200 is read back as 65336. -/
theorem block_round_trip_witness :
    second_loop_hints latin_font 0 = some (.ok ⟨0, sample_haxis, sample_vaxis⟩)
    ∧ decode16
        (((the_table latin_font).cvt.drop
            (2 * (latin_font.cvtl_max_runtime + 3 * (the_table latin_font).data.num_used_styles
                  + (the_table latin_font).data.cvt_offsets 0))).take
          (2 * (2 + (the_table latin_font).data.cvt_horz_width_sizes 0
                + (the_table latin_font).data.cvt_vert_width_sizes 0
                + 2 * (the_table latin_font).data.cvt_blue_zone_sizes 0)))
      = [100, 100, 120, 90, 90, 0, 500, 700, 65336, 65526, 510, 700, 65336] :=
  ⟨rfl,
    (block_round_trip latin_font (the_table latin_font) 0 ⟨0, sample_haxis, sample_vaxis⟩
      rfl (by decide) rfl).1.trans (by decide)⟩

/-- In `symbol_fallback_font`, with 1000 units per em, the first cell of the
block of style 0 is the default width 24. -/
theorem default_width_cell_witness :
    symbol_fallback_font.units_per_EM ≤ 65535
    ∧ default_width symbol_fallback_font = 24
    ∧ cell_at (the_table symbol_fallback_font).cvt
        (symbol_fallback_font.cvtl_max_runtime
          + 3 * (the_table symbol_fallback_font).data.num_used_styles
          + (the_table symbol_fallback_font).data.cvt_offsets 0)
        = some (default_width symbol_fallback_font) :=
  ⟨by decide, by decide,
    (default_width_cell symbol_fallback_font (the_table symbol_fallback_font) 0
      ⟨0, empty_axis, empty_axis⟩ (by decide) rfl (by decide) rfl).2.2.2.1 (by decide)⟩

/-! ## Charmap errors -/

theorem first_loop_error_mono {env : Env} {n : Nat} {e : FT_Error}
    (h : first_loop env n = .error e) : ∀ k, first_loop env (n + k) = .error e := by
  intro k
  induction k with
  | zero => exact h
  | succ k ih =>
    show first_loop env (n + k + 1) = .error e
    simp only [first_loop, ih]

theorem select_charmap_cases (env : Env) :
    (select_charmap env = some TA_Err_Missing_Unicode_CMap
      ∧ env.unicode_charmap_fails = true ∧ env.symbol = false)
    ∨ (select_charmap env = some TA_Err_Missing_Symbol_CMap
      ∧ env.unicode_charmap_fails = true ∧ env.symbol = true
      ∧ env.ms_symbol_charmap_fails = true)
    ∨ (select_charmap env = none
      ∧ ¬ (env.unicode_charmap_fails = true ∧ env.symbol = false)
      ∧ ¬ (env.unicode_charmap_fails = true ∧ env.symbol = true
          ∧ env.ms_symbol_charmap_fails = true)) := by
  unfold select_charmap
  cases env.unicode_charmap_fails <;> cases env.symbol <;> cases env.ms_symbol_charmap_fails
    <;> simp

/-- Once a charmap is selected, the errors of `TA_sfnt_compute_global_hints`
are `TA_Err_Missing_Glyph` and the errors of the loader. -/
theorem hints_error_of_charmap {env : Env} {gstyles : List Nat} {i : Nat} {e : FT_Error}
    (hc : select_charmap env = none)
    (h : TA_sfnt_compute_global_hints env gstyles i = .error e) :
    e = TA_Err_Missing_Glyph ∨ ∃ g, (env.ta_loader_load_glyph gstyles g).1 = e := by
  unfold TA_sfnt_compute_global_hints at h
  rw [hc] at h
  simp only [] at h
  cases hg : select_glyph env gstyles i with
  | error e1 =>
    rw [hg] at h
    injection h with h1
    rw [← h1]
    exact Or.inl (select_glyph_error hg)
  | ok g =>
    rw [hg] at h
    simp only [] at h
    split_ifs at h
    injection h with h1
    exact Or.inr ⟨g, h1⟩

/-- Claim C11.  Let the glyph loader never return one of the two charmap
errors itself.  Then `TA_sfnt_compute_global_hints` returns
`TA_Err_Missing_Unicode_CMap` exactly when the selection of the Unicode
charmap fails and the font is no symbol font, and
`TA_Err_Missing_Symbol_CMap` exactly when the font is a symbol font and the
selections of the Unicode and of the MS-Symbol charmap both fail.  When the
call of the first loop for a style `i` returns one of the two errors, the
loop returns that error in iteration `i`, and `TA_table_build_cvt` returns
it. -/
theorem charmap_errors (env : Env)
    (hload : ∀ gstyles g,
      (env.ta_loader_load_glyph gstyles g).1 ≠ TA_Err_Missing_Unicode_CMap
      ∧ (env.ta_loader_load_glyph gstyles g).1 ≠ TA_Err_Missing_Symbol_CMap) :
    (∀ gstyles style_idx,
      (TA_sfnt_compute_global_hints env gstyles style_idx = .error TA_Err_Missing_Unicode_CMap ↔
        env.unicode_charmap_fails = true ∧ env.symbol = false)
      ∧ (TA_sfnt_compute_global_hints env gstyles style_idx = .error TA_Err_Missing_Symbol_CMap ↔
        env.symbol = true ∧ env.unicode_charmap_fails = true
          ∧ env.ms_symbol_charmap_fails = true))
    ∧ (∀ i e, i < env.TA_STYLE_MAX →
        e = TA_Err_Missing_Unicode_CMap ∨ e = TA_Err_Missing_Symbol_CMap →
        first_loop_hints env i = some (.error e) →
        first_loop env (i + 1) = .error e ∧ TA_table_build_cvt env = .error e) := by
  constructor
  · intro gstyles style_idx
    rcases select_charmap_cases env with ⟨hc, hu, hs⟩ | ⟨hc, hu, hs, hm⟩ | ⟨hc, hnu, hns⟩
    · have hr : TA_sfnt_compute_global_hints env gstyles style_idx
          = .error TA_Err_Missing_Unicode_CMap := by
        unfold TA_sfnt_compute_global_hints; rw [hc]
      rw [hr]
      simp [hu, hs]
    · have hr : TA_sfnt_compute_global_hints env gstyles style_idx
          = .error TA_Err_Missing_Symbol_CMap := by
        unfold TA_sfnt_compute_global_hints; rw [hc]
      rw [hr]
      simp [hu, hs, hm]
    · constructor
      · constructor
        · intro h
          rcases hints_error_of_charmap hc h with he | ⟨g, hg⟩
          · cases he
          · exact absurd hg (hload gstyles g).1
        · intro h; exact absurd h hnu
      · constructor
        · intro h
          rcases hints_error_of_charmap hc h with he | ⟨g, hg⟩
          · cases he
          · exact absurd hg (hload gstyles g).2
        · intro h; exact absurd ⟨h.2.1, h.1, h.2.2⟩ hns
  · intro i e hi he hh
    have hne : e ≠ TA_Err_Missing_Glyph := by
      rcases he with he | he <;> rw [he] <;> decide
    cases hst : first_loop env i with
    | error e1 => simp [first_loop_hints, hst] at hh
    | ok st =>
      have hc : TA_sfnt_compute_global_hints env st.gstyles i = .error e := by
        rw [first_loop_hints_of_ok hst] at hh
        exact Option.some.inj hh
      have hnext : first_loop env (i + 1) = .error e := by
        simp only [first_loop, hst]
        unfold first_loop_step
        rw [hc]
        simp [hne]
      refine ⟨hnext, ?_⟩
      have hmax := first_loop_error_mono hnext (env.TA_STYLE_MAX - (i + 1))
      have hidx : i + 1 + (env.TA_STYLE_MAX - (i + 1)) = env.TA_STYLE_MAX := by omega
      rw [hidx] at hmax
      unfold TA_table_build_cvt
      rw [hmax]

/-- In `no_charmap_font` the call for style 0 returns
`TA_Err_Missing_Unicode_CMap`, and so does `TA_table_build_cvt`. -/
theorem charmap_errors_witness :
    no_charmap_font.unicode_charmap_fails = true
    ∧ no_charmap_font.symbol = false
    ∧ TA_sfnt_compute_global_hints no_charmap_font no_charmap_font.glyph_styles 0
        = .error TA_Err_Missing_Unicode_CMap
    ∧ TA_table_build_cvt no_charmap_font = .error TA_Err_Missing_Unicode_CMap :=
  have hload : ∀ gstyles g,
      (no_charmap_font.ta_loader_load_glyph gstyles g).1 ≠ TA_Err_Missing_Unicode_CMap
      ∧ (no_charmap_font.ta_loader_load_glyph gstyles g).1 ≠ TA_Err_Missing_Symbol_CMap := by
    intro gstyles g
    show (sample_loader _ gstyles g).1 ≠ _ ∧ (sample_loader _ gstyles g).1 ≠ _
    unfold sample_loader
    split_ifs <;> simp
  ⟨rfl, rfl,
    (((charmap_errors no_charmap_font hload).1 no_charmap_font.glyph_styles 0).1).mpr ⟨rfl, rfl⟩,
    ((charmap_errors no_charmap_font hload).2 0 TA_Err_Missing_Unicode_CMap (by decide)
      (Or.inl rfl) rfl).2⟩

/-! ## The font program -/

theorem memcpy_append (p : Nat) (xs ys : List Byte) :
    memcpy p (xs ++ ys) = memcpy p xs ++ memcpy (p + xs.length) ys := by
  induction xs generalizing p with
  | nil => simp [memcpy]
  | cons x xs ih =>
    have h : p + 1 + xs.length = p + (xs.length + 1) := by omega
    simp only [List.cons_append, memcpy, List.append_eq, ih, List.length_cons, h]

theorem memcpy_fst (p : Nat) (xs : List Byte) :
    (memcpy p xs).map Prod.fst = List.range' p xs.length := by
  induction xs generalizing p with
  | nil => simp [memcpy]
  | cons x xs ih => simp [memcpy, ih, List.range'_succ]

theorem memcpy_snd (p : Nat) (xs : List Byte) : (memcpy p xs).map Prod.snd = xs := by
  induction xs generalizing p with
  | nil => simp [memcpy]
  | cons x xs ih => simp [memcpy, ih]

theorem copy_step_eq (font : FONT) (s : CopyState) (st : CopyStep) :
    copy_step font s st =
      { buf_p := s.buf_p + (step_bytes font st).length,
        stores := s.stores ++ memcpy s.buf_p (step_bytes font st) } := by
  cases st <;> simp [copy_step, step_bytes, memcpy]

theorem copy_fold (font : FONT) (steps : List CopyStep) (s : CopyState) :
    steps.foldl (copy_step font) s =
      { buf_p := s.buf_p + (steps.flatMap (step_bytes font)).length,
        stores := s.stores ++ memcpy s.buf_p (steps.flatMap (step_bytes font)) } := by
  induction steps generalizing s with
  | nil => simp [memcpy]
  | cons st steps ih =>
    rw [List.foldl_cons, ih, copy_step_eq]
    simp only [List.flatMap_cons, List.length_append, memcpy_append, List.append_assoc,
      Nat.add_assoc]

/-- The stores of the copy sequence are those of one `memcpy` of the concatenated
pieces to the start of the buffer. -/
theorem copy_stores_eq (font : FONT) :
    copy_stores font = memcpy 0 (copy_steps.flatMap (step_bytes font)) := by
  simp [copy_stores, copy_fold]

theorem fpgm_stream_eq (font : FONT) :
    fpgm_stream font = copy_steps.flatMap (step_bytes font) := by
  simp [fpgm_stream, copy_stores_eq, memcpy_snd]

theorem step_bytes_length (font : FONT) (st : CopyStep) :
    (step_bytes font st).length = st.term.value := by
  cases st <;> rfl

theorem flatMap_step_bytes_length (font : FONT) (steps : List CopyStep) :
    (steps.flatMap (step_bytes font)).length = ((steps.map CopyStep.term).map LengthTerm.value).sum := by
  induction steps with
  | nil => rfl
  | cons st steps ih => simp [List.flatMap_cons, ih, step_bytes_length]

theorem length_terms_eq : length_terms = copy_steps.map CopyStep.term := by
  decide

theorem fpgm_stream_length (font : FONT) : (fpgm_stream font).length = fpgm_buf_len := by
  rw [fpgm_stream_eq, flatMap_step_bytes_length, ← length_terms_eq]
  rfl

set_option maxRecDepth 100000 in
theorem fpgm_buf_len_eq : fpgm_buf_len = 2636 := by
  decide!

set_option maxRecDepth 100000 in
theorem fpgm_padded_len_eq : fpgm_padded_len = 2636 := by
  decide!

theorem write_length (buf : List (Option Byte)) (s : Nat × Byte) :
    (write buf s).length = buf.length := by
  simp [write]

theorem foldl_write_length (stores : List (Nat × Byte)) (buf : List (Option Byte)) :
    (stores.foldl write buf).length = buf.length := by
  induction stores generalizing buf with
  | nil => rfl
  | cons s stores ih => rw [List.foldl_cons, ih, write_length]

/-- A `memcpy` over cells of a buffer replaces exactly these cells. -/
theorem foldl_write_memcpy (xs : List Byte) (pre ys post : List (Option Byte))
    (h : ys.length = xs.length) :
    (memcpy pre.length xs).foldl write (pre ++ ys ++ post) = pre ++ xs.map some ++ post := by
  induction xs generalizing pre ys with
  | nil =>
    cases ys with
    | nil => simp [memcpy]
    | cons y ys => simp at h
  | cons x xs ih =>
    cases ys with
    | nil => simp at h
    | cons y ys =>
      simp only [List.length_cons, Nat.add_right_cancel_iff] at h
      have hw : write (pre ++ y :: ys ++ post) (pre.length, x)
          = (pre ++ [some x]) ++ ys ++ post := by
        simp [write, List.set_append]
      have hl : (pre ++ [some x]).length = pre.length + 1 := by simp
      rw [memcpy, List.foldl_cons, hw, ← hl, ih _ _ h]
      simp

theorem foldl_write_memcpy_all (xs : List Byte) (ys : List (Option Byte))
    (h : ys.length = xs.length) : (memcpy 0 xs).foldl write ys = xs.map some := by
  have h1 := foldl_write_memcpy xs [] ys [] h
  simpa using h1

/-- The copy sequence fills the whole buffer, so that nothing of the padding and
no cell without content is left. -/
theorem fpgm_buffer (font : FONT) :
    (fpgm_stores font).foldl write (List.replicate fpgm_padded_len none)
      = (fpgm_stream font).map some := by
  rw [fpgm_stores, List.foldl_append, copy_stores_eq, ← fpgm_stream_eq]
  have hlen : (padding_stores.foldl write (List.replicate fpgm_padded_len none)).length
      = (fpgm_stream font).length := by
    rw [foldl_write_length, List.length_replicate, fpgm_stream_length, fpgm_padded_len_eq,
      fpgm_buf_len_eq]
  exact foldl_write_memcpy_all _ _ hlen

theorem flatMap_arrays (font : FONT) (steps : List CopyStep)
    (h : ∀ st ∈ steps, st.array ≠ none) :
    steps.flatMap (step_bytes font)
      = (steps.filterMap CopyStep.array).flatMap FpgmArray.bytes := by
  induction steps with
  | nil => rfl
  | cons st steps ih =>
    have h1 := h st (List.mem_cons_self _ _)
    have h2 := ih (fun s hs => h s (List.mem_cons_of_mem _ hs))
    cases st with
    | COPY_FPGM a => simp [List.flatMap_cons, step_bytes, CopyStep.array, h2]
    | patch_CVT_VERT_WIDTHS_OFFSET => simp [CopyStep.array] at h1
    | patch_CVT_BLUES_SIZE => simp [CopyStep.array] at h1

/-- The stream starts with the five functions that are assembled from eight arrays
and three bytes computed from the font; the other functions are one array each. -/
theorem fpgm_stream_parts (font : FONT) :
    fpgm_stream font =
      fpgm_bci_round ++
      (fpgm_bci_compute_stem_width_a ++ [Byte.num (unsigned_char font.CVT_VERT_WIDTHS_OFFSET)]
        ++ fpgm_bci_compute_stem_width_b
        ++ [Byte.num (unsigned_char font.CVT_VERT_WIDTHS_OFFSET)]
        ++ fpgm_bci_compute_stem_width_c) ++
      fpgm_bci_loop ++ fpgm_bci_cvt_rescale ++
      (fpgm_bci_blue_round_a ++ [Byte.num (unsigned_char font.CVT_BLUES_SIZE)]
        ++ fpgm_bci_blue_round_b) ++
      ((copy_steps.drop 11).filterMap CopyStep.array).flatMap FpgmArray.bytes := by
  have hs : copy_steps.flatMap (step_bytes font)
      = (copy_steps.take 11).flatMap (step_bytes font)
        ++ (copy_steps.drop 11).flatMap (step_bytes font) := by
    rw [← List.flatMap_append, List.take_append_drop]
  have hrest : ∀ st ∈ copy_steps.drop 11, st.array ≠ none := by decide
  have hfirst : (copy_steps.take 11).flatMap (step_bytes font) =
      fpgm_bci_round ++
      (fpgm_bci_compute_stem_width_a ++ [Byte.num (unsigned_char font.CVT_VERT_WIDTHS_OFFSET)]
        ++ fpgm_bci_compute_stem_width_b
        ++ [Byte.num (unsigned_char font.CVT_VERT_WIDTHS_OFFSET)]
        ++ fpgm_bci_compute_stem_width_c) ++
      fpgm_bci_loop ++ fpgm_bci_cvt_rescale ++
      (fpgm_bci_blue_round_a ++ [Byte.num (unsigned_char font.CVT_BLUES_SIZE)]
        ++ fpgm_bci_blue_round_b) := by
    have ht : copy_steps.take 11 =
        [.COPY_FPGM .bci_round, .COPY_FPGM .bci_compute_stem_width_a,
         .patch_CVT_VERT_WIDTHS_OFFSET, .COPY_FPGM .bci_compute_stem_width_b,
         .patch_CVT_VERT_WIDTHS_OFFSET, .COPY_FPGM .bci_compute_stem_width_c,
         .COPY_FPGM .bci_loop, .COPY_FPGM .bci_cvt_rescale, .COPY_FPGM .bci_blue_round_a,
         .patch_CVT_BLUES_SIZE, .COPY_FPGM .bci_blue_round_b] := by decide
    rw [ht]
    simp only [List.flatMap_cons, List.flatMap_nil, step_bytes, FpgmArray.bytes,
      List.append_assoc, List.append_nil]
  rw [fpgm_stream_eq, hs, flatMap_arrays font _ hrest, hfirst]

theorem getElem?_of_eq_append {α : Type} {l post : List α} {x : α} (pre : List α)
    (h : l = pre ++ x :: post) : l[pre.length]? = some x := by
  subst h
  rw [List.getElem?_append_right (Nat.le_refl _)]
  simp

/-- The three bytes computed from the font, at their offsets in the stream. -/
theorem patched_bytes (font : FONT) :
    (fpgm_stream font)[fpgm_bci_round.length + fpgm_bci_compute_stem_width_a.length]?
      = some (Byte.num (font.CVT_VERT_WIDTHS_OFFSET % 256))
    ∧ (fpgm_stream font)[fpgm_bci_round.length + fpgm_bci_compute_stem_width_a.length + 1
        + fpgm_bci_compute_stem_width_b.length]?
      = some (Byte.num (font.CVT_VERT_WIDTHS_OFFSET % 256))
    ∧ (fpgm_stream font)[fpgm_bci_round.length + fpgm_bci_compute_stem_width_a.length + 1
        + fpgm_bci_compute_stem_width_b.length + 1 + fpgm_bci_compute_stem_width_c.length
        + fpgm_bci_loop.length + fpgm_bci_cvt_rescale.length + fpgm_bci_blue_round_a.length]?
      = some (Byte.num (font.CVT_BLUES_SIZE % 256)) := by
  have h := fpgm_stream_parts font
  simp only [unsigned_char] at h
  refine ⟨?_, ?_, ?_⟩
  · have h1 := getElem?_of_eq_append
      (fpgm_bci_round ++ fpgm_bci_compute_stem_width_a) (h.trans (by
        simp only [List.append_assoc, List.singleton_append]; rfl))
    simpa only [List.length_append] using h1
  · have h1 := getElem?_of_eq_append
      (fpgm_bci_round ++ fpgm_bci_compute_stem_width_a
        ++ [Byte.num (font.CVT_VERT_WIDTHS_OFFSET % 256)] ++ fpgm_bci_compute_stem_width_b)
      (h.trans (by simp only [List.append_assoc, List.singleton_append]; rfl))
    simpa only [List.length_append, List.length_singleton] using h1
  · have h1 := getElem?_of_eq_append
      (fpgm_bci_round ++ fpgm_bci_compute_stem_width_a
        ++ [Byte.num (font.CVT_VERT_WIDTHS_OFFSET % 256)] ++ fpgm_bci_compute_stem_width_b
        ++ [Byte.num (font.CVT_VERT_WIDTHS_OFFSET % 256)] ++ fpgm_bci_compute_stem_width_c
        ++ fpgm_bci_loop ++ fpgm_bci_cvt_rescale ++ fpgm_bci_blue_round_a)
      (h.trans (by simp only [List.append_assoc, List.singleton_append]; rfl))
    simpa only [List.length_append, List.length_singleton] using h1

/-- The number of stores of `TA_table_build_fpgm` to a byte of the program:
the copy sequence stores once to every byte, and the three padding stores in
front of it hit the last three bytes. -/
theorem fpgm_stores_count (font : FONT) (k : Nat) (hk : k < fpgm_buf_len) :
    ((fpgm_stores font).map Prod.fst).count k = if fpgm_buf_len - 3 ≤ k then 2 else 1 := by
  have hcopy : (copy_stores font).map Prod.fst = List.range fpgm_buf_len := by
    rw [copy_stores_eq, memcpy_fst, ← fpgm_stream_eq, fpgm_stream_length,
      List.range_eq_range']
  have hone : (List.range fpgm_buf_len).count k = 1 :=
    List.count_eq_one_of_mem (List.nodup_range _) (List.mem_range.2 hk)
  rw [fpgm_stores, List.map_append, List.count_append, hcopy, hone, padding_stores,
    fpgm_padded_len_eq]
  rw [fpgm_buf_len_eq] at hk ⊢
  simp only [List.map_cons, List.map_nil, List.count_cons, List.count_nil, beq_iff_eq]
  split_ifs <;> omega

/-- The copy sequence stores once to every byte of the program. -/
theorem fpgm_copy_count (font : FONT) (k : Nat) (hk : k < fpgm_buf_len) :
    ((copy_stores font).map Prod.fst).count k = 1 := by
  rw [copy_stores_eq, memcpy_fst, ← fpgm_stream_eq, fpgm_stream_length,
    ← List.range_eq_range']
  exact List.count_eq_one_of_mem (List.nodup_range _) (List.mem_range.2 hk)

set_option maxRecDepth 100000 in
/-- Claim C19, with the padding stores counted. For every font for which `malloc`
succeeds: the terms of the length computation are the statements of the copy
sequence in the same order (an array for an array, `1` for a byte computed from
the font); every `fpgm_...` array is copied exactly once; `fpgm_len` is the sum of
the sizes of the arrays plus 3; the copy sequence stores to the indices
`0, 1, ..., fpgm_len - 1`, each once and in this order; the function returns the
stream with `fpgm_len` as its length; the three bytes computed from the font stand
after `bci_compute_stem_width_a`, after `bci_compute_stem_width_b` and after
`bci_blue_round_a`. The only other stores of the function are the three padding
stores before the copy sequence; they hit the last three of the first `fpgm_len`
bytes, so the function stores twice to each of these and once to every byte in
front of them. -/
theorem fpgm_copy_sequence (font : FONT) (hm : font.malloc_fails fpgm_padded_len = false) :
    length_terms = copy_steps.map CopyStep.term
    ∧ (∀ a : FpgmArray, (copy_steps.filterMap CopyStep.array).count a = 1)
    ∧ fpgm_buf_len
        = ((copy_steps.filterMap CopyStep.array).map fun a => a.bytes.length).sum + 3
    ∧ (copy_stores font).map Prod.fst = List.range fpgm_buf_len
    ∧ fpgm_stores font
        = [(fpgm_buf_len - 1, Byte.num 0), (fpgm_buf_len - 2, Byte.num 0),
           (fpgm_buf_len - 3, Byte.num 0)] ++ copy_stores font
    ∧ TA_table_build_fpgm font
        = .ok { fpgm := (fpgm_stream font).map some, fpgm_len := fpgm_buf_len }
    ∧ (fpgm_stream font).length = fpgm_buf_len
    ∧ copy_steps.filter (fun st => st.array.isNone)
        = [.patch_CVT_VERT_WIDTHS_OFFSET, .patch_CVT_VERT_WIDTHS_OFFSET, .patch_CVT_BLUES_SIZE]
    ∧ fpgm_stream font =
        fpgm_bci_round ++
        (fpgm_bci_compute_stem_width_a
          ++ [Byte.num (unsigned_char font.CVT_VERT_WIDTHS_OFFSET)]
          ++ fpgm_bci_compute_stem_width_b
          ++ [Byte.num (unsigned_char font.CVT_VERT_WIDTHS_OFFSET)]
          ++ fpgm_bci_compute_stem_width_c) ++
        fpgm_bci_loop ++ fpgm_bci_cvt_rescale ++
        (fpgm_bci_blue_round_a ++ [Byte.num (unsigned_char font.CVT_BLUES_SIZE)]
          ++ fpgm_bci_blue_round_b) ++
        ((copy_steps.drop 11).filterMap CopyStep.array).flatMap FpgmArray.bytes
    ∧ (∀ k, k < fpgm_buf_len →
        ((fpgm_stores font).map Prod.fst).count k = if fpgm_buf_len - 3 ≤ k then 2 else 1)
    ∧ (∀ k, k < fpgm_buf_len → ((copy_stores font).map Prod.fst).count k = 1) := by
  refine ⟨length_terms_eq, ?_, ?_, ?_, ?_, ?_, fpgm_stream_length font, by decide,
    fpgm_stream_parts font, fpgm_stores_count font, fpgm_copy_count font⟩
  · intro a
    cases a <;> decide
  · decide!
  · rw [copy_stores_eq, memcpy_fst, ← fpgm_stream_eq, fpgm_stream_length,
      List.range_eq_range']
  · rw [fpgm_stores, padding_stores, fpgm_padded_len_eq, fpgm_buf_len_eq]
  · rw [TA_table_build_fpgm, hm, fpgm_buffer]
    rfl

/-- The claim C19 fails for the last three bytes of the program. `fpgm_len` is
2636, a multiple of four, so 2636 bytes are allocated and lines 4376-4378
store zeros to the bytes 2635, 2634 and 2633, which are among the first
`fpgm_len` bytes; the copy sequence then stores to them again. In
`small_cvt_font` the function stores twice to each of these bytes, and once
to byte 2632. -/
theorem padded_bytes_stored_twice :
    fpgm_buf_len = 2636
    ∧ fpgm_padded_len = 2636
    ∧ TA_table_build_fpgm small_cvt_font
        = .ok { fpgm := (fpgm_stream small_cvt_font).map some, fpgm_len := fpgm_buf_len }
    ∧ (fpgm_stores small_cvt_font).take 3
        = [(2635, Byte.num 0), (2634, Byte.num 0), (2633, Byte.num 0)]
    ∧ [2632, 2633, 2634, 2635].map ((fpgm_stores small_cvt_font).map Prod.fst).count
        = [1, 2, 2, 2] := by
  refine ⟨fpgm_buf_len_eq, fpgm_padded_len_eq, ?_, ?_, ?_⟩
  · rw [TA_table_build_fpgm, fpgm_buffer]
    rfl
  · rw [fpgm_stores, padding_stores, fpgm_padded_len_eq]
    rfl
  · have h := fpgm_stores_count small_cvt_font
    rw [fpgm_buf_len_eq] at h
    simp only [List.map_cons, List.map_nil]
    rw [h 2632 (by omega), h 2633 (by omega), h 2634 (by omega), h 2635 (by omega)]
    rfl

/-- In `small_cvt_font`, `malloc` succeeds and the copy sequence of
`TA_table_build_fpgm` stores to the indices `0, ..., fpgm_len - 1` in order. -/
theorem fpgm_copy_sequence_witness :
    small_cvt_font.malloc_fails fpgm_padded_len = false
    ∧ (copy_stores small_cvt_font).map Prod.fst = List.range fpgm_buf_len
    ∧ TA_table_build_fpgm small_cvt_font
        = .ok { fpgm := (fpgm_stream small_cvt_font).map some, fpgm_len := fpgm_buf_len } :=
  ⟨rfl, (fpgm_copy_sequence small_cvt_font rfl).2.2.2.1,
    (fpgm_copy_sequence small_cvt_font rfl).2.2.2.2.2.1⟩

/-- Claim C20 as stated fails: in `wide_cvt_font` the quantities are 256 and 257,
and the bytes stored for them, at the offsets 63, 73 and 215 of the stream, are
0, 0 and 1. -/
theorem patched_operand_reduced :
    wide_cvt_font.CVT_VERT_WIDTHS_OFFSET = 256
    ∧ wide_cvt_font.CVT_BLUES_SIZE = 257
    ∧ TA_table_build_fpgm wide_cvt_font
        = .ok { fpgm := (fpgm_stream wide_cvt_font).map some, fpgm_len := fpgm_buf_len }
    ∧ (fpgm_stream wide_cvt_font)[fpgm_bci_round.length
        + fpgm_bci_compute_stem_width_a.length]? = some (Byte.num 0)
    ∧ (fpgm_stream wide_cvt_font)[fpgm_bci_round.length
        + fpgm_bci_compute_stem_width_a.length + 1
        + fpgm_bci_compute_stem_width_b.length]? = some (Byte.num 0)
    ∧ (fpgm_stream wide_cvt_font)[fpgm_bci_round.length
        + fpgm_bci_compute_stem_width_a.length + 1
        + fpgm_bci_compute_stem_width_b.length + 1 + fpgm_bci_compute_stem_width_c.length
        + fpgm_bci_loop.length + fpgm_bci_cvt_rescale.length
        + fpgm_bci_blue_round_a.length]? = some (Byte.num 1)
    ∧ fpgm_bci_round.length + fpgm_bci_compute_stem_width_a.length = 63
    ∧ fpgm_bci_round.length + fpgm_bci_compute_stem_width_a.length + 1
        + fpgm_bci_compute_stem_width_b.length = 73
    ∧ fpgm_bci_round.length + fpgm_bci_compute_stem_width_a.length + 1
        + fpgm_bci_compute_stem_width_b.length + 1 + fpgm_bci_compute_stem_width_c.length
        + fpgm_bci_loop.length + fpgm_bci_cvt_rescale.length
        + fpgm_bci_blue_round_a.length = 215 := by
  have h := patched_bytes wide_cvt_font
  refine ⟨rfl, rfl, ?_, h.1, h.2.1, h.2.2, by decide, by decide, by decide⟩
  rw [TA_table_build_fpgm, fpgm_buffer]
  rfl

/-- Claim C20 (amended). For every font whose `CVT_VERT_WIDTHS_OFFSET` and
`CVT_BLUES_SIZE` are below 256, the byte stored after `bci_compute_stem_width_a`
and the byte stored after `bci_compute_stem_width_b` are
`CVT_VERT_WIDTHS_OFFSET(font)`, and the byte stored after `bci_blue_round_a` is
`CVT_BLUES_SIZE(font)`; for every font the three bytes are these quantities
modulo 256. The first two are the operands of a `PUSHB_1` in front of `RCVT`, the
third is the first operand of a `PUSHB_2` in front of `CINDEX, ADD`. -/
theorem patched_operands (font : FONT) (hv : font.CVT_VERT_WIDTHS_OFFSET < 256)
    (hb : font.CVT_BLUES_SIZE < 256) :
    (fpgm_stream font)[fpgm_bci_round.length + fpgm_bci_compute_stem_width_a.length]?
      = some (Byte.num font.CVT_VERT_WIDTHS_OFFSET)
    ∧ (fpgm_stream font)[fpgm_bci_round.length + fpgm_bci_compute_stem_width_a.length + 1
        + fpgm_bci_compute_stem_width_b.length]?
      = some (Byte.num font.CVT_VERT_WIDTHS_OFFSET)
    ∧ (fpgm_stream font)[fpgm_bci_round.length + fpgm_bci_compute_stem_width_a.length + 1
        + fpgm_bci_compute_stem_width_b.length + 1 + fpgm_bci_compute_stem_width_c.length
        + fpgm_bci_loop.length + fpgm_bci_cvt_rescale.length + fpgm_bci_blue_round_a.length]?
      = some (Byte.num font.CVT_BLUES_SIZE)
    ∧ (∀ other : FONT,
        (fpgm_stream other)[fpgm_bci_round.length + fpgm_bci_compute_stem_width_a.length]?
          = some (Byte.num (other.CVT_VERT_WIDTHS_OFFSET % 256))
        ∧ (fpgm_stream other)[fpgm_bci_round.length + fpgm_bci_compute_stem_width_a.length + 1
            + fpgm_bci_compute_stem_width_b.length]?
          = some (Byte.num (other.CVT_VERT_WIDTHS_OFFSET % 256))
        ∧ (fpgm_stream other)[fpgm_bci_round.length + fpgm_bci_compute_stem_width_a.length + 1
            + fpgm_bci_compute_stem_width_b.length + 1 + fpgm_bci_compute_stem_width_c.length
            + fpgm_bci_loop.length + fpgm_bci_cvt_rescale.length
            + fpgm_bci_blue_round_a.length]?
          = some (Byte.num (other.CVT_BLUES_SIZE % 256)))
    ∧ fpgm_bci_compute_stem_width_a.getLast? = some Byte.PUSHB_1
    ∧ fpgm_bci_compute_stem_width_b.head? = some Byte.RCVT
    ∧ fpgm_bci_compute_stem_width_b.getLast? = some Byte.PUSHB_1
    ∧ fpgm_bci_compute_stem_width_c.head? = some Byte.RCVT
    ∧ fpgm_bci_blue_round_a.getLast? = some Byte.PUSHB_2
    ∧ fpgm_bci_blue_round_b.take 3 = [Byte.num 4, Byte.CINDEX, Byte.ADD] := by
  have h := patched_bytes font
  rw [Nat.mod_eq_of_lt hv, Nat.mod_eq_of_lt hb] at h
  exact ⟨h.1, h.2.1, h.2.2, patched_bytes, by decide, by decide, by decide, by decide,
    by decide, by decide⟩

/-- In `small_cvt_font` the quantities are 12 and 5, and so are the bytes stored
for them. -/
theorem patched_operands_witness :
    small_cvt_font.CVT_VERT_WIDTHS_OFFSET < 256
    ∧ small_cvt_font.CVT_BLUES_SIZE < 256
    ∧ (fpgm_stream small_cvt_font)[fpgm_bci_round.length
        + fpgm_bci_compute_stem_width_a.length]? = some (Byte.num 12)
    ∧ (fpgm_stream small_cvt_font)[fpgm_bci_round.length
        + fpgm_bci_compute_stem_width_a.length + 1
        + fpgm_bci_compute_stem_width_b.length]? = some (Byte.num 12)
    ∧ (fpgm_stream small_cvt_font)[fpgm_bci_round.length
        + fpgm_bci_compute_stem_width_a.length + 1
        + fpgm_bci_compute_stem_width_b.length + 1 + fpgm_bci_compute_stem_width_c.length
        + fpgm_bci_loop.length + fpgm_bci_cvt_rescale.length
        + fpgm_bci_blue_round_a.length]? = some (Byte.num 5) :=
  have h := patched_operands small_cvt_font (by decide) (by decide)
  ⟨by decide, by decide, h.1, h.2.1, h.2.2.1⟩

/-! ## The interpreter -/

theorem Reaches.trans {e : Engine} {m1 m2 m3 : Machine} (h1 : Reaches e m1 m2)
    (h2 : Reaches e m2 m3) : Reaches e m1 m3 := by
  induction h1 with
  | refl m => exact h2
  | step h _ ih => exact Reaches.step h (ih h2)

/-- A machine that reaches a state in which it halts gives its result with enough
fuel. -/
theorem run_of_reaches {e : Engine} {m m1 : Machine} {vm : VM} (h : Reaches e m m1)
    (hh : step e m1 = .halt vm) : ∃ K, ∀ fuel, K ≤ fuel → run e fuel m = some vm := by
  induction h with
  | refl m =>
    refine ⟨1, fun fuel hf => ?_⟩
    obtain ⟨k, rfl⟩ : ∃ k, fuel = k + 1 := ⟨fuel - 1, by omega⟩
    simp [run, hh]
  | step h _ ih =>
    obtain ⟨K, hK⟩ := ih hh
    refine ⟨K + 1, fun fuel hf => ?_⟩
    obtain ⟨k, rfl⟩ : ∃ k, fuel = k + 1 := ⟨fuel - 1, by omega⟩
    simp only [run, h]
    exact hK k (by omega)

/-- The `ENDF` of the outermost function ends the run. -/
theorem step_endf_halt (e : Engine) (bef : List Byte) (vm : VM) :
    step e ⟨bef, [Byte.ENDF], [], vm⟩ = .halt vm := rfl

theorem truth_ne_zero (p : Prop) [Decidable p] : truth p ≠ 0 ↔ p := by
  unfold truth
  split_ifs <;> simp [*]

theorem truth_eq_zero (p : Prop) [Decidable p] : truth p = 0 ↔ ¬ p := by
  unfold truth
  split_ifs <;> simp [*]

theorem step_if_pos {e : Engine} {bef rest : List Byte} {frames : List Frame} {c : Int}
    {s : List Int} {st cv : Int → Int} (hc : c ≠ 0) :
    step e ⟨bef, Byte.IF :: rest, frames, ⟨c :: s, st, cv⟩⟩
      = .next ⟨Byte.IF :: bef, rest, frames, ⟨s, st, cv⟩⟩ := by
  simp [step, exec_op, set_stack, hc]

theorem step_if_neg {e : Engine} {bef rest bef1 rest1 : List Byte} {frames : List Frame}
    {c : Int} {s : List Int} {st cv : Int → Int} (hc : c = 0)
    (hskip : skip true 0 0 (Byte.IF :: bef) rest = some (bef1, rest1)) :
    step e ⟨bef, Byte.IF :: rest, frames, ⟨c :: s, st, cv⟩⟩
      = .next ⟨bef1, rest1, frames, ⟨s, st, cv⟩⟩ := by
  simp [step, exec_op, set_stack, hc, hskip]

theorem enter_cons (a b c : Byte) (body : List Byte) (frames : List Frame) (vm : VM) :
    enter (a :: b :: c :: body) frames vm = ⟨[c, b, a], body, frames, vm⟩ := rfl

theorem spec_round_of_neg (v : Int) (h : v < 0) : spec_round v = -((-v + 32) / 64 * 64) := by
  rw [spec_round, Int.sign_eq_neg_one_of_neg h, abs_of_neg h]
  ring

theorem spec_round_of_nonneg (v : Int) (h : 0 ≤ v) : spec_round v = (v + 32) / 64 * 64 := by
  rcases h.eq_or_lt with h0 | h0
  · subst h0
    simp [spec_round]
  · rw [spec_round, Int.sign_eq_one_of_pos h0, abs_of_pos h0]
    ring

/-- The body of `bci_round` takes `v` from the stack and leaves its rounding. -/
theorem bci_round_body (e : Engine) (frames : List Frame) (v : Int) (s : List Int)
    (st cv : Int → Int) :
    ∃ bef, Reaches e (enter fpgm_bci_round frames ⟨v :: s, st, cv⟩)
      ⟨bef, [Byte.ENDF], frames, ⟨spec_round v :: s, st, cv⟩⟩ := by
  have h : ∃ bef x, Reaches e (enter fpgm_bci_round frames ⟨v :: s, st, cv⟩)
      ⟨bef, [Byte.ENDF], frames, ⟨x :: s, st, cv⟩⟩ ∧ x = spec_round v := by
    rw [fpgm_bci_round, enter_cons]
    by_cases hv : v < 0
    · refine ⟨?bef, ?x, ?hr, ?he⟩
      case hr =>
        iterate 8 (refine Reaches.step rfl ?_; dsimp only)
        refine Reaches.step (step_if_pos ((truth_ne_zero _).2 hv)) ?_
        iterate 2 (refine Reaches.step rfl ?_; dsimp only)
        exact Reaches.refl _
      case he =>
        rw [spec_round_of_neg v hv, abs_of_neg hv]
        rfl
    · refine ⟨?bef2, ?x2, ?hr2, ?he2⟩
      case hr2 =>
        iterate 8 (refine Reaches.step rfl ?_; dsimp only)
        refine Reaches.step (step_if_neg ((truth_eq_zero _).2 hv) rfl) ?_
        exact Reaches.refl _
      case he2 =>
        rw [spec_round_of_nonneg v (not_lt.1 hv), abs_of_nonneg (not_lt.1 hv)]
        rfl
  obtain ⟨bef, x, hr, rfl⟩ := h
  exact ⟨bef, hr⟩

/-- A `CALL` of `bci_round` replaces the number under the function number by its
rounding and goes on behind the `CALL`. -/
theorem call_bci_round {e : Engine} (hround : e.fdefs (e.bci .bci_round) = some fpgm_bci_round)
    (bef rest : List Byte) (frames : List Frame) (v : Int) (s : List Int)
    (st cv : Int → Int) :
    Reaches e ⟨bef, Byte.CALL :: rest, frames, ⟨(e.bci .bci_round : Int) :: v :: s, st, cv⟩⟩
      ⟨Byte.CALL :: bef, rest, frames, ⟨spec_round v :: s, st, cv⟩⟩ := by
  obtain ⟨b, hb⟩ := bci_round_body e (⟨Byte.CALL :: bef, rest⟩ :: frames) v s st cv
  refine Reaches.step ?_ (hb.trans (Reaches.step rfl (Reaches.refl _)))
  simp [step, exec_op, hround]

theorem spec_round_neg (v : Int) : spec_round (-v) = -spec_round v := by
  simp [spec_round, Int.sign_neg]

theorem spec_round_dvd (v : Int) : (64 : Int) ∣ spec_round v :=
  ⟨Int.sign v * ((|v| + 32) / 64), by rw [spec_round]; ring⟩

theorem spec_round_near (v : Int) : |spec_round v - v| ≤ 32 := by
  rcases lt_or_le v 0 with h | h
  · rw [spec_round_of_neg v h, abs_le]
    constructor <;> omega
  · rw [spec_round_of_nonneg v h, abs_le]
    constructor <;> omega

theorem spec_round_idem (v : Int) : spec_round (spec_round v) = spec_round v := by
  rcases lt_or_le v 0 with h | h
  · have h1 : spec_round v = -((-v + 32) / 64 * 64) := spec_round_of_neg v h
    rcases (show spec_round v < 0 ∨ spec_round v = 0 by omega) with h2 | h2
    · rw [spec_round_of_neg _ h2]
      omega
    · rw [h2]
      simp [spec_round]
  · have h1 : spec_round v = (v + 32) / 64 * 64 := spec_round_of_nonneg v h
    have h2 : 0 ≤ spec_round v := by omega
    rw [spec_round_of_nonneg _ h2]
    omega

theorem spec_round_pos (v : Int) (h : 32 ≤ v) : 0 < spec_round v := by
  rw [spec_round_of_nonneg v (by omega)]
  omega

/-- Claim C12. For every 26.6 integer `v` on top of the stack, the bytecode of
`bci_round`, run to its `ENDF`, replaces `v` by
`sgn(v) * 64 * floor((|v| + 32) / 64)` and changes nothing else; this rounding
commutes with negation, gives a multiple of 64, moves `v` by at most 32, and is
idempotent. -/
theorem bci_round_rounds (e : Engine) (v : Int) (s : List Int) (st cv : Int → Int) :
    (∃ K, ∀ fuel, K ≤ fuel →
      run e fuel (enter fpgm_bci_round [] ⟨v :: s, st, cv⟩)
        = some ⟨Int.sign v * 64 * ((|v| + 32) / 64) :: s, st, cv⟩)
    ∧ spec_round v = Int.sign v * 64 * ((|v| + 32) / 64)
    ∧ spec_round (-v) = -spec_round v
    ∧ (64 : Int) ∣ spec_round v
    ∧ |spec_round v - v| ≤ 32
    ∧ spec_round (spec_round v) = spec_round v := by
  obtain ⟨bef, hb⟩ := bci_round_body e [] v s st cv
  exact ⟨run_of_reaches hb (step_endf_halt e bef _), rfl, spec_round_neg v, spec_round_dvd v,
    spec_round_near v, spec_round_idem v⟩

theorem step_div {e : Engine} {bef rest : List Byte} {frames : List Frame} {x y : Int}
    {s : List Int} {st cv : Int → Int} (hx : x ≠ 0) :
    step e ⟨bef, Byte.DIV :: rest, frames, ⟨x :: y :: s, st, cv⟩⟩
      = .next ⟨Byte.DIV :: bef, rest, frames, ⟨e.div (y * 64) x :: s, st, cv⟩⟩ := by
  simp [step, exec_op, set_stack, hx]

/-- Claim C16. When the storage slot `sal_0x10000` is not 0, the bytecode of
`bci_cvt_rescale`, run to its `ENDF`, replaces `CVT[k]`, with `k` the value of
the slot `sal_i`, by `DIV(MUL(CVT[k], scale), s)`, where `scale` and `s` are the
values of the slots `sal_scale` and `sal_0x10000`, `MUL(a, b)` is the quotient
`a * b / 64` and `DIV(a, b)` the quotient `a * 64 / b`; the stack and the storage
area are as before, and so is every other CVT cell. If quotients without
remainder are exact and both slots hold 0x10000, `CVT[k]` keeps its value. -/
theorem bci_cvt_rescale_rescales (e : Engine) (s : List Int) (st cv : Int → Int)
    (h0 : st (e.sal .sal_0x10000) ≠ 0) :
    (∃ K, ∀ fuel, K ≤ fuel →
      run e fuel (enter fpgm_bci_cvt_rescale [] ⟨s, st, cv⟩)
        = some ⟨s, st, update cv (st (e.sal .sal_i))
            (e.div (e.div (cv (st (e.sal .sal_i)) * st (e.sal .sal_scale)) 64 * 64)
              (st (e.sal .sal_0x10000)))⟩)
    ∧ (∀ x j, j ≠ st (e.sal .sal_i) → update cv (st (e.sal .sal_i)) x j = cv j)
    ∧ (∀ x, update cv (st (e.sal .sal_i)) x (st (e.sal .sal_i)) = x)
    ∧ ((∀ a b : Int, b ≠ 0 → e.div (a * b) b = a) →
        st (e.sal .sal_scale) = 0x10000 → st (e.sal .sal_0x10000) = 0x10000 →
        e.div (e.div (cv (st (e.sal .sal_i)) * st (e.sal .sal_scale)) 64 * 64)
              (st (e.sal .sal_0x10000)) = cv (st (e.sal .sal_i))) := by
  refine ⟨?_, ?_, ?_, ?_⟩
  · have h : ∃ bef, Reaches e (enter fpgm_bci_cvt_rescale [] ⟨s, st, cv⟩)
        ⟨bef, [Byte.ENDF], [], ⟨s, st, update cv (st (e.sal .sal_i))
            (e.div (e.div (cv (st (e.sal .sal_i)) * st (e.sal .sal_scale)) 64 * 64)
              (st (e.sal .sal_0x10000)))⟩⟩ := by
      rw [fpgm_bci_cvt_rescale, enter_cons]
      refine ⟨?bef, ?hr⟩
      case hr =>
        iterate 9 (refine Reaches.step rfl ?_; dsimp only)
        refine Reaches.step (step_div h0) ?_
        iterate 1 (refine Reaches.step rfl ?_; dsimp only)
        exact Reaches.refl _
    obtain ⟨bef, hb⟩ := h
    exact run_of_reaches hb (step_endf_halt e bef _)
  · intro x j hj
    simp [update, hj]
  · intro x
    simp [update]
  · intro hdiv hs h1
    rw [hs, h1]
    have e1 : cv (st (e.sal .sal_i)) * 0x10000 = cv (st (e.sal .sal_i)) * 1024 * 64 := by ring
    have e2 : cv (st (e.sal .sal_i)) * 1024 * 64 = cv (st (e.sal .sal_i)) * 0x10000 := by ring
    rw [e1, hdiv _ 64 (by decide), e2, hdiv _ 0x10000 (by decide)]

/-- With `sample_storage` and `sample_cvt`, `bci_cvt_rescale` halves the CVT cell 7:
it holds 50 afterwards. -/
theorem bci_cvt_rescale_rescales_witness :
    sample_storage (sample_engine.sal .sal_0x10000) ≠ 0
    ∧ ∃ K, ∀ fuel, K ≤ fuel →
      run sample_engine fuel (enter fpgm_bci_cvt_rescale [] ⟨[], sample_storage, sample_cvt⟩)
        = some ⟨[], sample_storage, update sample_cvt 7 50⟩ :=
  ⟨by decide, (bci_cvt_rescale_rescales sample_engine [] sample_storage sample_cvt (by decide)).1⟩

set_option maxRecDepth 100000 in
theorem sample_engine_round : sample_engine.fdefs (sample_engine.bci .bci_round) = some fpgm_bci_round := by
  decide!

/-- An `IF` on the result of a comparison: the run goes on in the branch that the
comparison selects. -/
theorem Reaches.if_truth {e : Engine} {bef rest bef1 rest1 : List Byte} {frames : List Frame}
    {P : Prop} [Decidable P] {s : List Int} {st cv : Int → Int} {m2 : Machine}
    (hskip : skip true 0 0 (Byte.IF :: bef) rest = some (bef1, rest1))
    (hpos : P → Reaches e ⟨Byte.IF :: bef, rest, frames, ⟨s, st, cv⟩⟩ m2)
    (hneg : ¬ P → Reaches e ⟨bef1, rest1, frames, ⟨s, st, cv⟩⟩ m2) :
    Reaches e ⟨bef, Byte.IF :: rest, frames, ⟨truth P :: s, st, cv⟩⟩ m2 := by
  by_cases h : P
  · exact Reaches.step (step_if_pos ((truth_ne_zero P).2 h)) (hpos h)
  · exact Reaches.step (step_if_neg ((truth_eq_zero P).2 h) hskip) (hneg h)

/-- An `IF` on a number: the run goes on in the first branch if the number is not
0, and in the second branch or behind the `EIF` if it is 0. -/
theorem Reaches.if_value {e : Engine} {bef rest bef1 rest1 : List Byte} {frames : List Frame}
    {c : Int} {s : List Int} {st cv : Int → Int} {m2 : Machine}
    (hskip : skip true 0 0 (Byte.IF :: bef) rest = some (bef1, rest1))
    (hpos : c ≠ 0 → Reaches e ⟨Byte.IF :: bef, rest, frames, ⟨s, st, cv⟩⟩ m2)
    (hneg : c = 0 → Reaches e ⟨bef1, rest1, frames, ⟨s, st, cv⟩⟩ m2) :
    Reaches e ⟨bef, Byte.IF :: rest, frames, ⟨c :: s, st, cv⟩⟩ m2 := by
  by_cases h : c = 0
  · exact Reaches.step (step_if_neg h hskip) (hneg h)
  · exact Reaches.step (step_if_pos h) (hpos h)

theorem Reaches.of_top_eq {e : Engine} {bef rest : List Byte} {frames : List Frame}
    {x y : Int} {s : List Int} {st cv : Int → Int} (h : x = y) :
    Reaches e ⟨bef, rest, frames, ⟨x :: s, st, cv⟩⟩ ⟨bef, rest, frames, ⟨y :: s, st, cv⟩⟩ := by
  subst h
  exact Reaches.refl _

theorem Reaches.of_cvt_eq {e : Engine} {bef rest : List Byte} {frames : List Frame}
    {s : List Int} {st cv1 cv2 : Int → Int} (h : cv1 = cv2) :
    Reaches e ⟨bef, rest, frames, ⟨s, st, cv1⟩⟩ ⟨bef, rest, frames, ⟨s, st, cv2⟩⟩ := by
  subst h
  exact Reaches.refl _

theorem spec_blue_round_eq (cvt : Int → Int) (i B d : Int)
    (hd : d = spec_blue_delta (cvt i - cvt (B + i))) :
    update (update cvt (B + i) (spec_round (cvt i) - d)) i (spec_round (cvt i))
      = spec_blue_round cvt i B := by
  subst hd
  funext j
  simp only [update, spec_blue_round, add_comm B i]

/-- The body of `bci_blue_round` rounds the reference in `CVT[i]`, with `i` the
value of the slot `sal_i`, and moves the overshoot in `CVT[i + B]`. -/
theorem bci_blue_round_body {e : Engine}
    (hround : e.fdefs (e.bci .bci_round) = some fpgm_bci_round) (font : FONT)
    (frames : List Frame) (s : List Int) (st cv : Int → Int) :
    ∃ bef, Reaches e (enter (blue_round_function font) frames ⟨s, st, cv⟩)
      ⟨bef, [Byte.ENDF], frames,
        ⟨s, st, spec_blue_round cv (st (e.sal .sal_i))
          ((unsigned_char font.CVT_BLUES_SIZE : Nat) : Int)⟩⟩ := by
  rw [blue_round_function, fpgm_bci_blue_round_a, fpgm_bci_blue_round_b]
  simp only [List.cons_append, List.nil_append, List.append_assoc]
  rw [enter_cons]
  refine ⟨?bef, ?hr⟩
  case hr =>
    iterate 6 (refine Reaches.step rfl ?_; dsimp only)
    refine (call_bci_round hround _ _ _ _ _ _ _).trans ?_
    iterate 14 (refine Reaches.step rfl ?_; dsimp only)
    refine Reaches.if_truth rfl (fun h32 => ?_) (fun h32 => ?_)
    · iterate 3 (refine Reaches.step rfl ?_; dsimp only)
      iterate 3 (refine Reaches.step rfl ?_; dsimp only)
      refine Reaches.if_truth rfl (fun hneg => ?_) (fun hneg => ?_)
      · iterate 8 (refine Reaches.step rfl ?_; dsimp only)
        refine Reaches.of_cvt_eq (spec_blue_round_eq _ _ _ _ ?_)
        simp only [Nat.cast_ofNat, Nat.cast_zero] at h32 hneg
        simp only [spec_blue_delta, h32, hneg, if_true, if_false]
        norm_num
      · iterate 6 (refine Reaches.step rfl ?_; dsimp only)
        refine Reaches.of_cvt_eq (spec_blue_round_eq _ _ _ _ ?_)
        simp only [Nat.cast_ofNat, Nat.cast_zero] at h32 hneg
        simp only [spec_blue_delta, h32, hneg, if_true, if_false]
        norm_num
    · iterate 2 (refine Reaches.step rfl ?_; dsimp only)
      refine Reaches.if_truth rfl (fun h48 => ?_) (fun h48 => ?_)
      · iterate 6 (refine Reaches.step rfl ?_; dsimp only)
        refine Reaches.if_truth rfl (fun hneg => ?_) (fun hneg => ?_)
        · iterate 8 (refine Reaches.step rfl ?_; dsimp only)
          refine Reaches.of_cvt_eq (spec_blue_round_eq _ _ _ _ ?_)
          simp only [Nat.cast_ofNat, Nat.cast_zero] at h32 h48 hneg
          simp only [spec_blue_delta, h32, h48, hneg, if_true, if_false]
          norm_num
        · iterate 6 (refine Reaches.step rfl ?_; dsimp only)
          refine Reaches.of_cvt_eq (spec_blue_round_eq _ _ _ _ ?_)
          simp only [Nat.cast_ofNat, Nat.cast_zero] at h32 h48 hneg
          simp only [spec_blue_delta, h32, h48, hneg, if_true, if_false]
          norm_num
      · iterate 6 (refine Reaches.step rfl ?_; dsimp only)
        refine Reaches.if_truth rfl (fun hneg => ?_) (fun hneg => ?_)
        · iterate 8 (refine Reaches.step rfl ?_; dsimp only)
          refine Reaches.of_cvt_eq (spec_blue_round_eq _ _ _ _ ?_)
          simp only [Nat.cast_ofNat, Nat.cast_zero] at h32 h48 hneg
          simp only [spec_blue_delta, h32, h48, hneg, if_true, if_false]
          norm_num
        · iterate 6 (refine Reaches.step rfl ?_; dsimp only)
          refine Reaches.of_cvt_eq (spec_blue_round_eq _ _ _ _ ?_)
          simp only [Nat.cast_ofNat, Nat.cast_zero] at h32 h48 hneg
          simp only [spec_blue_delta, h32, h48, hneg, if_true, if_false]
          norm_num

/-- Claim C15. When the function table holds `bci_round`, the bytecode of
`bci_blue_round`, run to its `ENDF` with `i` the value of the slot `sal_i` and `B`
the byte stored for `CVT_BLUES_SIZE(font)`, sets `CVT[i]` to `round(ref)` and
`CVT[i + B]` to `round(ref) - s * d'`, where `ref` and `shoot` are the old `CVT[i]`
and `CVT[i + B]`, `dist = ref - shoot`, `d'` is 0, 32 or 64 for `|dist|` below 32,
below 48 or from 48 on, and `s` is -1 for `dist < 0` and 1 otherwise. The stack, the
storage area and every other CVT cell are as before; afterwards the two cells
differ by 0, 32 or 64, and if they differ, in the direction of `dist`. -/
theorem bci_blue_round_rounds (e : Engine)
    (hround : e.fdefs (e.bci .bci_round) = some fpgm_bci_round) (font : FONT)
    (s : List Int) (st cv : Int → Int) :
    (∃ K, ∀ fuel, K ≤ fuel →
      run e fuel (enter (blue_round_function font) [] ⟨s, st, cv⟩)
        = some ⟨s, st, spec_blue_round cv (st (e.sal .sal_i))
            ((font.CVT_BLUES_SIZE % 256 : Nat) : Int)⟩)
    ∧ ∀ (i B : Int) (after : Int → Int), after = spec_blue_round cv i B →
        after i = spec_round (cv i)
        ∧ after (i + B) = spec_round (cv i)
            - (if cv i - cv (i + B) < 0 then -1 else 1)
              * (if |cv i - cv (i + B)| < 32 then 0
                 else if |cv i - cv (i + B)| < 48 then 32 else 64)
        ∧ (|after i - after (i + B)| = 0 ∨ |after i - after (i + B)| = 32
            ∨ |after i - after (i + B)| = 64)
        ∧ (after i ≠ after (i + B) →
            (after (i + B) < after i ↔ cv (i + B) < cv i))
        ∧ ∀ j, j ≠ i → j ≠ i + B → after j = cv j := by
  refine ⟨?_, ?_⟩
  · obtain ⟨bef, hb⟩ := bci_blue_round_body hround font [] s st cv
    exact run_of_reaches hb (step_endf_halt e bef _)
  · intro i B after hafter
    subst hafter
    have hi : spec_blue_round cv i B i = spec_round (cv i) := by simp [spec_blue_round]
    have hB : spec_blue_round cv i B (i + B) = spec_round (cv i)
        - spec_blue_delta (cv i - cv (i + B)) := by
      by_cases hz : B = 0
      · subst hz
        simp [spec_blue_round, spec_blue_delta]
      · simp [spec_blue_round, hz]
    refine ⟨hi, hB, ?_, ?_, ?_⟩
    · rw [hi, hB]
      unfold spec_blue_delta
      split_ifs <;> simp
    · rw [hi, hB]
      unfold spec_blue_delta
      intro hne
      split_ifs at hne ⊢ with h1 h2 h3 h2 h3 <;> simp at hne ⊢ <;>
        first | omega | (rw [abs_lt] at *; omega)
    · intro j hj hjB
      simp [spec_blue_round, hj, hjB]

/-- With `sample_engine`, `small_cvt_font` (`B = 5`), `sample_storage` (`i = 7`) and
`sample_cvt` (reference 100, overshoot 60), `bci_blue_round` leaves 128 in cell 7
and 96 in cell 12. -/
theorem bci_blue_round_rounds_witness :
    sample_engine.fdefs (sample_engine.bci .bci_round) = some fpgm_bci_round
    ∧ (∃ K, ∀ fuel, K ≤ fuel →
        run sample_engine fuel
            (enter (blue_round_function small_cvt_font) [] ⟨[], sample_storage, sample_cvt⟩)
          = some ⟨[], sample_storage, spec_blue_round sample_cvt 7 5⟩)
    ∧ spec_blue_round sample_cvt 7 5 7 = 128
    ∧ spec_blue_round sample_cvt 7 5 12 = 96 :=
  ⟨sample_engine_round,
    (bci_blue_round_rounds sample_engine sample_engine_round small_cvt_font []
      sample_storage sample_cvt).1,
    by decide, by decide⟩

/-- The part of `bci_compute_stem_width` behind `ROLL` (lines 144-171): the least
distance, by roundness. -/
theorem stem_min_reaches (e : Engine) (bef rest : List Byte) (frames : List Frame)
    (bir d : Int) (s : List Int) (st cv : Int → Int) :
    Reaches e
      ⟨bef, (fpgm_bci_compute_stem_width_a.drop 23).take 21 ++ rest, frames,
        ⟨bir :: d :: s, st, cv⟩⟩
      ⟨((fpgm_bci_compute_stem_width_a.drop 23).take 21).reverse ++ bef, rest, frames,
        ⟨spec_stem_min bir d :: s, st, cv⟩⟩ := by
  rw [fpgm_bci_compute_stem_width_a]
  simp only [List.take, List.drop, List.cons_append, List.nil_append]
  refine Reaches.if_value rfl (fun hr => ?_) (fun hr => ?_)
  · iterate 3 (refine Reaches.step rfl ?_; dsimp only)
    refine Reaches.if_truth rfl (fun h80 => ?_) (fun h80 => ?_)
    · iterate 4 (refine Reaches.step rfl ?_; dsimp only)
      refine Reaches.of_top_eq ?_
      simp only [Nat.cast_ofNat] at h80
      simp [spec_stem_min, hr, h80]
    · iterate 1 (refine Reaches.step rfl ?_; dsimp only)
      refine Reaches.of_top_eq ?_
      simp only [Nat.cast_ofNat] at h80
      simp [spec_stem_min, hr, h80]
  · iterate 3 (refine Reaches.step rfl ?_; dsimp only)
    refine Reaches.if_truth rfl (fun h56 => ?_) (fun h56 => ?_)
    · iterate 4 (refine Reaches.step rfl ?_; dsimp only)
      refine Reaches.of_top_eq ?_
      simp only [Nat.cast_ofNat] at h56
      simp [spec_stem_min, hr, h56]
    · iterate 1 (refine Reaches.step rfl ?_; dsimp only)
      refine Reaches.of_top_eq ?_
      simp only [Nat.cast_ofNat] at h56
      simp [spec_stem_min, hr, h56]

/-- The end of `bci_compute_stem_width` (lines 266-276): the sign of the width goes
to the distance. The last `EIF` has no `IF`; the machine passes it. -/
theorem stem_sign_reaches (e : Engine) (bef : List Byte) (frames : List Frame)
    (d w : Int) (s : List Int) (st cv : Int → Int) :
    Reaches e
      ⟨bef, fpgm_bci_compute_stem_width_c.drop 59, frames, ⟨d :: w :: s, st, cv⟩⟩
      ⟨((fpgm_bci_compute_stem_width_c.drop 59).take 9).reverse ++ bef, [Byte.ENDF], frames,
        ⟨(if w < 0 then -d else d) :: s, st, cv⟩⟩ := by
  rw [fpgm_bci_compute_stem_width_c]
  simp only [List.take, List.drop, List.cons_append, List.nil_append]
  iterate 3 (refine Reaches.step rfl ?_; dsimp only)
  refine Reaches.if_truth rfl (fun hneg => ?_) (fun hneg => ?_)
  · iterate 4 (refine Reaches.step rfl ?_; dsimp only)
    refine Reaches.of_top_eq ?_
    simp only [Nat.cast_zero] at hneg
    simp [hneg]
  · iterate 2 (refine Reaches.step rfl ?_; dsimp only)
    refine Reaches.of_top_eq ?_
    simp only [Nat.cast_zero] at hneg
    simp [hneg]

/-- The middle of `bci_compute_stem_width` (lines 173-264), from the `DUP` in front
of the first byte computed from the font up to the `EIF` in front of `SWAP`: the
distance snaps to the standard width `CVT[k]`, or else is fitted to the grid. -/
theorem stem_fit_reaches {e : Engine}
    (hround : e.fdefs (e.bci .bci_round) = some fpgm_bci_round) (k : Nat)
    (bef rest : List Byte) (frames : List Frame) (d : Int) (s : List Int)
    (st cv : Int → Int) :
    Reaches e
      ⟨bef, fpgm_bci_compute_stem_width_a.drop 44 ++ Byte.num k
        :: (fpgm_bci_compute_stem_width_b
        ++ Byte.num k :: (fpgm_bci_compute_stem_width_c.take 59 ++ rest)),
        frames, ⟨d :: s, st, cv⟩⟩
      ⟨(fpgm_bci_compute_stem_width_a.drop 44 ++ Byte.num k
          :: (fpgm_bci_compute_stem_width_b
          ++ Byte.num k :: fpgm_bci_compute_stem_width_c.take 59)).reverse ++ bef,
        rest, frames, ⟨spec_stem_fit (cv k) d :: s, st, cv⟩⟩ := by
  rw [fpgm_bci_compute_stem_width_a, fpgm_bci_compute_stem_width_b,
    fpgm_bci_compute_stem_width_c]
  simp only [List.take, List.drop, List.cons_append, List.nil_append]
  iterate 7 (refine Reaches.step rfl ?_; dsimp only)
  refine Reaches.if_truth rfl (fun h40 => ?_) (fun h40 => ?_)
  · iterate 6 (refine Reaches.step rfl ?_; dsimp only)
    refine Reaches.if_truth rfl (fun h48 => ?_) (fun h48 => ?_)
    · iterate 4 (refine Reaches.step rfl ?_; dsimp only)
      refine Reaches.of_top_eq ?_
      simp only [Nat.cast_ofNat] at h40 h48
      simp only [spec_stem_fit, Nat.cast_ofNat, h40, h48, if_true, if_false]
    · iterate 1 (refine Reaches.step rfl ?_; dsimp only)
      refine Reaches.of_top_eq ?_
      simp only [Nat.cast_ofNat] at h40 h48
      simp only [spec_stem_fit, Nat.cast_ofNat, h40, h48, if_true, if_false]
  · iterate 3 (refine Reaches.step rfl ?_; dsimp only)
    refine Reaches.if_truth rfl (fun h192 => ?_) (fun h192 => ?_)
    · iterate 9 (refine Reaches.step rfl ?_; dsimp only)
      refine Reaches.if_truth rfl (fun h10 => ?_) (fun h10 => ?_)
      · iterate 4 (refine Reaches.step rfl ?_; dsimp only)
        refine Reaches.of_top_eq ?_
        simp only [Nat.cast_ofNat] at h40 h192 h10
        simp only [spec_stem_fit, Int.reduceMul, Nat.cast_ofNat, h40, h192, h10, if_true, if_false]
      · iterate 3 (refine Reaches.step rfl ?_; dsimp only)
        refine Reaches.if_truth rfl (fun h32 => ?_) (fun h32 => ?_)
        · iterate 7 (refine Reaches.step rfl ?_; dsimp only)
          refine Reaches.of_top_eq ?_
          simp only [Nat.cast_ofNat] at h40 h192 h10 h32
          simp only [spec_stem_fit, Int.reduceMul, Nat.cast_ofNat, h40, h192, h10, h32, if_true, if_false]
        · iterate 3 (refine Reaches.step rfl ?_; dsimp only)
          refine Reaches.if_truth rfl (fun h54 => ?_) (fun h54 => ?_)
          · iterate 8 (refine Reaches.step rfl ?_; dsimp only)
            refine Reaches.of_top_eq ?_
            simp only [Nat.cast_ofNat] at h40 h192 h10 h32 h54
            simp only [spec_stem_fit, Int.reduceMul, Nat.cast_ofNat, h40, h192, h10, h32, h54, if_true,
              if_false]
          · iterate 6 (refine Reaches.step rfl ?_; dsimp only)
            refine Reaches.of_top_eq ?_
            simp only [Nat.cast_ofNat] at h40 h192 h10 h32 h54
            simp only [spec_stem_fit, Int.reduceMul, Nat.cast_ofNat, h40, h192, h10, h32, h54, if_true,
              if_false]
    · iterate 1 (refine Reaches.step rfl ?_; dsimp only)
      refine (call_bci_round hround _ _ _ _ _ _ _).trans ?_
      iterate 2 (refine Reaches.step rfl ?_; dsimp only)
      refine Reaches.of_top_eq ?_
      simp only [Nat.cast_ofNat] at h40 h192
      simp only [spec_stem_fit, Int.reduceMul, Nat.cast_ofNat, h40, h192, if_true, if_false]

/-- The body of `bci_compute_stem_width`, as it stands in the stream, takes the
width and the two flags from the stack and leaves the result of the reference
code. -/
theorem stem_width_body {e : Engine}
    (hround : e.fdefs (e.bci .bci_round) = some fpgm_bci_round) (font : FONT)
    (frames : List Frame) (w sis bir : Int) (s : List Int) (st cv : Int → Int) :
    ∃ bef, Reaches e
      (enter (stem_width_function font) frames ⟨w :: sis :: bir :: s, st, cv⟩)
      ⟨bef, [Byte.ENDF], frames,
        ⟨spec_stem_width w sis bir (st (e.sal .sal_is_extra_light))
            (cv ((unsigned_char font.CVT_VERT_WIDTHS_OFFSET : Nat) : Int)) :: s, st, cv⟩⟩ := by
  rw [stem_width_function, fpgm_bci_compute_stem_width_a, fpgm_bci_compute_stem_width_b,
    fpgm_bci_compute_stem_width_c]
  simp only [List.cons_append, List.nil_append, List.append_assoc]
  rw [enter_cons]
  refine ⟨?bef, ?hr⟩
  case hr =>
    iterate 11 (refine Reaches.step rfl ?_; dsimp only)
    refine Reaches.if_truth rfl (fun hearly => ?_) (fun hearly => ?_)
    · iterate 5 (refine Reaches.step rfl ?_; dsimp only)
      refine Reaches.of_top_eq ?_
      simp only [Nat.cast_ofNat, truth_ne_zero] at hearly
      have hc : (sis ≠ 0 ∧ |w| < 3 * 64) ∨ st (e.sal .sal_is_extra_light) ≠ 0 := by
        rcases hearly with ⟨h1, h2⟩ | h3
        · exact Or.inl ⟨h2, by omega⟩
        · exact Or.inr h3
      rw [spec_stem_width, if_pos hc]
    · iterate 1 (refine Reaches.step rfl ?_; dsimp only)
      refine (stem_min_reaches e _ _ _ _ _ _ _ _).trans ?_
      refine (stem_fit_reaches hround _ _ _ _ _ _ _ _).trans ?_
      refine (stem_sign_reaches e _ _ _ _ _ _ _).trans ?_
      refine Reaches.of_top_eq ?_
      simp only [Nat.cast_ofNat, truth_ne_zero] at hearly
      have hc : ¬ ((sis ≠ 0 ∧ |w| < 3 * 64) ∨ st (e.sal .sal_is_extra_light) ≠ 0) := by
        rintro (⟨h1, h2⟩ | h3)
        · exact hearly (Or.inl ⟨by omega, h1⟩)
        · exact hearly (Or.inr h3)
      rw [spec_stem_width, if_neg hc]

/-- Claim C13. When the function table holds `bci_round`, the bytecode
`bci_compute_stem_width_a` + operand + `_b` + operand + `_c`, run to its `ENDF` on a
stack that holds `width`, `stem_is_serif` and `base_is_round` (top first), leaves
in their place the one value that the reference code in the comment over the
function gives for these inputs, for the value of the slot `sal_is_extra_light`
and for the standard width in the CVT cell that the operand names; the storage
area and the CVT are as before. -/
theorem stem_width_refines (e : Engine)
    (hround : e.fdefs (e.bci .bci_round) = some fpgm_bci_round) (font : FONT)
    (width stem_is_serif base_is_round : Int) (s : List Int) (st cv : Int → Int) :
    stem_width_function font
      = fpgm_bci_compute_stem_width_a ++ [Byte.num (font.CVT_VERT_WIDTHS_OFFSET % 256)]
        ++ fpgm_bci_compute_stem_width_b ++ [Byte.num (font.CVT_VERT_WIDTHS_OFFSET % 256)]
        ++ fpgm_bci_compute_stem_width_c
    ∧ ∃ K, ∀ fuel, K ≤ fuel →
      run e fuel (enter (stem_width_function font) []
          ⟨width :: stem_is_serif :: base_is_round :: s, st, cv⟩)
        = some ⟨spec_stem_width width stem_is_serif base_is_round
            (st (e.sal .sal_is_extra_light))
            (cv ((font.CVT_VERT_WIDTHS_OFFSET % 256 : Nat) : Int)) :: s, st, cv⟩ := by
  refine ⟨rfl, ?_⟩
  obtain ⟨bef, hb⟩ := stem_width_body hround font [] width stem_is_serif base_is_round s st cv
  exact run_of_reaches hb (step_endf_halt e bef _)

/-- With `sample_engine`, `small_cvt_font`, `sample_storage` (not extra light) and
`sample_cvt` (standard width 60 in cell 12), the width 150 of a stem that is
neither a serif nor round becomes 138. -/
theorem stem_width_refines_witness :
    sample_engine.fdefs (sample_engine.bci .bci_round) = some fpgm_bci_round
    ∧ ∃ K, ∀ fuel, K ≤ fuel →
      run sample_engine fuel (enter (stem_width_function small_cvt_font) []
          ⟨[150, 0, 0], sample_storage, sample_cvt⟩)
        = some ⟨[138], sample_storage, sample_cvt⟩ :=
  ⟨sample_engine_round,
    (stem_width_refines sample_engine sample_engine_round small_cvt_font 150 0 0 []
      sample_storage sample_cvt).2⟩

theorem spec_stem_min_ge (base_is_round dist : Int) : 56 ≤ spec_stem_min base_is_round dist := by
  unfold spec_stem_min
  split_ifs <;> omega

theorem spec_stem_fit_pos (std_width dist : Int) (h : 56 ≤ dist) :
    0 < spec_stem_fit std_width dist := by
  unfold spec_stem_fit
  split_ifs
  · omega
  · omega
  · omega
  · omega
  · omega
  · omega
  · exact spec_round_pos dist (by omega)

/-- Outside the early return, the reference code gives a distance above 0 with the
sign of the width. -/
theorem spec_stem_width_eq (width stem_is_serif base_is_round is_extra_light std_width : Int)
    (h : ¬ ((stem_is_serif ≠ 0 ∧ |width| < 3 * 64) ∨ is_extra_light ≠ 0)) :
    0 < spec_stem_fit std_width (spec_stem_min base_is_round |width|)
    ∧ spec_stem_width width stem_is_serif base_is_round is_extra_light std_width
      = if width < 0 then -spec_stem_fit std_width (spec_stem_min base_is_round |width|)
        else spec_stem_fit std_width (spec_stem_min base_is_round |width|) :=
  ⟨spec_stem_fit_pos _ _ (spec_stem_min_ge _ _), by rw [spec_stem_width, if_neg h]⟩

theorem spec_stem_width_neg (width stem_is_serif base_is_round is_extra_light std_width : Int)
    (hw : width ≠ 0) :
    spec_stem_width (-width) stem_is_serif base_is_round is_extra_light std_width
      = -spec_stem_width width stem_is_serif base_is_round is_extra_light std_width := by
  unfold spec_stem_width
  rw [abs_neg]
  split_ifs <;> first | rfl | omega

theorem spec_stem_width_sign (width stem_is_serif base_is_round is_extra_light std_width : Int)
    (hw : width ≠ 0) :
    (0 < spec_stem_width width stem_is_serif base_is_round is_extra_light std_width
        ↔ 0 < width)
    ∧ (spec_stem_width width stem_is_serif base_is_round is_extra_light std_width < 0
        ↔ width < 0) := by
  by_cases h : (stem_is_serif ≠ 0 ∧ |width| < 3 * 64) ∨ is_extra_light ≠ 0
  · rw [spec_stem_width, if_pos h]
    exact ⟨Iff.rfl, Iff.rfl⟩
  · obtain ⟨hpos, heq⟩ := spec_stem_width_eq width stem_is_serif base_is_round
      is_extra_light std_width h
    rw [heq]
    split_ifs with hneg
    · constructor <;> constructor <;> intro <;> omega
    · constructor <;> constructor <;> intro <;> omega

/-- Claim C14. When the function table holds `bci_round`, the results `r` and `r'`
of `bci_compute_stem_width` for `width` and for `-width`, all other inputs equal,
satisfy: if `width` is not 0 then `r' = -r` and `r` has the sign of `width`; if
`width` is 0 and the function does not return early (`stem_is_serif` and the slot
`sal_is_extra_light` are 0), then `r` is above 0. -/
theorem stem_width_sign (e : Engine)
    (hround : e.fdefs (e.bci .bci_round) = some fpgm_bci_round) (font : FONT)
    (width stem_is_serif base_is_round : Int) (s : List Int) (st cv : Int → Int) :
    ∃ r r' : Int,
      (∃ K, ∀ fuel, K ≤ fuel →
        run e fuel (enter (stem_width_function font) []
            ⟨width :: stem_is_serif :: base_is_round :: s, st, cv⟩) = some ⟨r :: s, st, cv⟩)
      ∧ (∃ K, ∀ fuel, K ≤ fuel →
        run e fuel (enter (stem_width_function font) []
            ⟨-width :: stem_is_serif :: base_is_round :: s, st, cv⟩) = some ⟨r' :: s, st, cv⟩)
      ∧ (width ≠ 0 → r' = -r ∧ (0 < r ↔ 0 < width) ∧ (r < 0 ↔ width < 0))
      ∧ (width = 0 → stem_is_serif = 0 → st (e.sal .sal_is_extra_light) = 0 → 0 < r) := by
  obtain ⟨bef, hb⟩ := stem_width_body hround font [] width stem_is_serif base_is_round s st cv
  obtain ⟨bef', hb'⟩ :=
    stem_width_body hround font [] (-width) stem_is_serif base_is_round s st cv
  refine ⟨_, _, run_of_reaches hb (step_endf_halt e bef _),
    run_of_reaches hb' (step_endf_halt e bef' _), ?_, ?_⟩
  · intro hw
    exact ⟨spec_stem_width_neg _ _ _ _ _ hw, spec_stem_width_sign _ _ _ _ _ hw⟩
  · intro hw hs hx
    have h : ¬ ((stem_is_serif ≠ 0 ∧ |width| < 3 * 64)
        ∨ st (e.sal .sal_is_extra_light) ≠ 0) := by
      simp [hs, hx]
    obtain ⟨hpos, heq⟩ := spec_stem_width_eq width stem_is_serif base_is_round
      (st (e.sal .sal_is_extra_light))
      (cv ((unsigned_char font.CVT_VERT_WIDTHS_OFFSET : Nat) : Int)) h
    rw [heq, if_neg (by omega)]
    exact hpos

/-- With `sample_engine`, `small_cvt_font`, `sample_storage` and `sample_cvt`, the
widths 150 and -150 of a stem that is neither a serif nor round become 138 and
-138. -/
theorem stem_width_sign_witness :
    sample_engine.fdefs (sample_engine.bci .bci_round) = some fpgm_bci_round
    ∧ ∃ r r' : Int,
      (∃ K, ∀ fuel, K ≤ fuel →
        run sample_engine fuel (enter (stem_width_function small_cvt_font) []
            ⟨[150, 0, 0], sample_storage, sample_cvt⟩)
          = some ⟨[r], sample_storage, sample_cvt⟩)
      ∧ (∃ K, ∀ fuel, K ≤ fuel →
        run sample_engine fuel (enter (stem_width_function small_cvt_font) []
            ⟨[-150, 0, 0], sample_storage, sample_cvt⟩)
          = some ⟨[r'], sample_storage, sample_cvt⟩)
      ∧ r' = -r ∧ 0 < r :=
  ⟨sample_engine_round,
    match stem_width_sign sample_engine sample_engine_round small_cvt_font 150 0 0 []
      sample_storage sample_cvt with
    | ⟨r, r', h1, h2, h3, _⟩ =>
      ⟨r, r', h1, h2, (h3 (by decide)).1, ((h3 (by decide)).2.1).2 (by decide)⟩⟩

/-! ## The functions of the stream -/

theorem erase_eq_endf (b : Byte) : b.erase = Byte.ENDF ↔ b = Byte.ENDF := by
  cases b <;> simp [Byte.erase]

theorem split_functions_from_erase (acc s : List Byte) :
    split_functions_from (acc.map Byte.erase) (s.map Byte.erase)
      = (split_functions_from acc s).map (List.map Byte.erase) := by
  induction s generalizing acc with
  | nil => cases acc <;> simp [split_functions_from]
  | cons b s ih =>
    by_cases hb : b = Byte.ENDF
    · subst hb
      have h := ih []
      simp only [List.map_nil] at h
      simp [split_functions_from, Byte.erase, h]
    · have hb' : ¬ b.erase = Byte.ENDF := fun h => hb ((erase_eq_endf b).1 h)
      have h := ih (b :: acc)
      simp only [List.map_cons] at h
      simp [split_functions_from, hb, hb', h]

theorem defined_function_erase (f : List Byte) :
    defined_function (f.map Byte.erase) = defined_function f := by
  rcases f with _ | ⟨a, _ | ⟨b, _ | ⟨c, t⟩⟩⟩
  · rfl
  · cases a <;> rfl
  · cases a <;> try rfl
    cases b <;> rfl
  · cases a <;> try rfl
    cases b <;> try rfl
    cases c <;> rfl

theorem literal_functions_erase (l : List Byte) :
    literal_functions (l.map Byte.erase) = literal_functions l := by
  unfold literal_functions
  rw [List.filterMap_map]
  congr 1
  funext b
  cases b <;> rfl

theorem function_summaries_erase (s : List Byte) :
    function_summaries (s.map Byte.erase) = function_summaries s := by
  have h := split_functions_from_erase [] s
  simp only [List.map_nil] at h
  unfold function_summaries split_functions
  rw [h, List.map_map]
  congr 1
  funext f
  simp [defined_function_erase, literal_functions_erase, ← List.map_drop]

/-- Up to the numbers in it, the stream is the same for every font. -/
theorem fpgm_stream_erase (font other : FONT) :
    (fpgm_stream font).map Byte.erase = (fpgm_stream other).map Byte.erase := by
  rw [fpgm_stream_eq, fpgm_stream_eq, List.map_flatMap, List.map_flatMap]
  congr 1
  funext st
  cases st <;> simp [step_bytes, Byte.erase]

theorem function_summaries_font (font : FONT) :
    function_summaries (fpgm_stream font)
      = function_summaries (copy_steps.flatMap (step_bytes small_cvt_font)) := by
  rw [← function_summaries_erase, fpgm_stream_erase font small_cvt_font,
    function_summaries_erase, fpgm_stream_eq]

theorem literals_defined_earlier_spec (sums : List (Option Fn × List Fn)) :
    ∀ earlier : List (Option Fn), literals_defined_earlier earlier sums = true →
      ∀ (k : Nat) (f : Option Fn × List Fn), sums[k]? = some f →
        ∃ id, f.1 = some id ∧ ∀ g ∈ f.2,
          g ≠ id ∧ some g ∈ earlier ++ (sums.take k).map Prod.fst := by
  induction sums with
  | nil => intro earlier _ k f hk; simp at hk
  | cons p rest ih =>
    intro earlier h k f hk
    obtain ⟨id, literals⟩ := p
    simp only [literals_defined_earlier, Bool.and_eq_true, List.all_eq_true] at h
    obtain ⟨⟨h1, h2⟩, h3⟩ := h
    cases k with
    | zero =>
      simp only [List.getElem?_cons_zero, Option.some.injEq] at hk
      subst hk
      obtain ⟨i, hi⟩ := Option.isSome_iff_exists.1 h1
      refine ⟨i, hi, fun g hg => ?_⟩
      have hg2 := h2 g hg
      simp at hg2
      refine ⟨fun hgi => hg2.1 (by rw [hgi, hi]), ?_⟩
      simpa using hg2.2
    | succ k =>
      simp only [List.getElem?_cons_succ] at hk
      obtain ⟨i, hi, hall⟩ := ih (earlier ++ [id]) h3 k f hk
      refine ⟨i, hi, fun g hg => ⟨(hall g hg).1, ?_⟩⟩
      have := (hall g hg).2
      simpa [List.append_assoc] using this

set_option maxRecDepth 100000 in
theorem literals_defined_earlier_stream :
    literals_defined_earlier []
      (function_summaries (copy_steps.flatMap (step_bytes small_cvt_font))) = true := by
  decide!

set_option maxRecDepth 100000 in
theorem function_summaries_shape :
    (function_summaries (copy_steps.flatMap (step_bytes small_cvt_font))).length = 48
    ∧ ((function_summaries (copy_steps.flatMap (step_bytes small_cvt_font))).map
        (fun f => f.2.length)).sum = 58
    ∧ (function_summaries (copy_steps.flatMap (step_bytes small_cvt_font)))[1]?
        = some (some Fn.bci_compute_stem_width, [Fn.bci_round]) := by
  decide!

/-- Claim C18. For every font, the stream that `TA_table_build_fpgm` assembles
consists of 48 function definitions, and every function number that stands as a
literal in the body of a definition (58 literals in all, among them the targets of
the `CALL`s and `LOOPCALL`s with a literal target) is the number of a function
that one of the definitions earlier in the stream defines, and is not the number
of the function it stands in. -/
theorem literal_calls_defined_earlier (font : FONT) (k : Nat) (f : Option Fn × List Fn)
    (hk : (function_summaries (fpgm_stream font))[k]? = some f) :
    (function_summaries (fpgm_stream font)).length = 48
    ∧ ((function_summaries (fpgm_stream font)).map (fun f => f.2.length)).sum = 58
    ∧ ∃ id, f.1 = some id ∧ ∀ g ∈ f.2,
        g ≠ id ∧ some g ∈ ((function_summaries (fpgm_stream font)).take k).map Prod.fst := by
  rw [function_summaries_font] at hk ⊢
  refine ⟨function_summaries_shape.1, function_summaries_shape.2.1, ?_⟩
  have h := literals_defined_earlier_spec _ [] literals_defined_earlier_stream k f hk
  simpa using h

/-- In the stream of `small_cvt_font`, the second definition is that of
`bci_compute_stem_width`; its one literal is `bci_round`, which the first
definition defines. -/
theorem literal_calls_defined_earlier_witness :
    (function_summaries (fpgm_stream small_cvt_font))[1]?
      = some (some Fn.bci_compute_stem_width, [Fn.bci_round])
    ∧ ∃ id, some Fn.bci_compute_stem_width = some id ∧ ∀ g ∈ [Fn.bci_round],
        g ≠ id
        ∧ some g ∈ ((function_summaries (fpgm_stream small_cvt_font)).take 1).map Prod.fst :=
  have hk : (function_summaries (fpgm_stream small_cvt_font))[1]?
      = some (some Fn.bci_compute_stem_width, [Fn.bci_round]) := by
    rw [function_summaries_font]
    exact function_summaries_shape.2.2
  ⟨hk, (literal_calls_defined_earlier small_cvt_font 1 _ hk).2.2⟩

theorem if_depth_erase (l : List Byte) :
    ∀ d, if_depth d (l.map Byte.erase) = if_depth d l := by
  induction l with
  | nil => intro d; rfl
  | cons b l ih =>
    intro d
    cases b <;> simp [if_depth, Byte.erase, ih]

theorem count_erase (l : List Byte) (a : Byte) (ha : ∀ b : Byte, b.erase = a ↔ b = a) :
    (l.map Byte.erase).count a = l.count a := by
  induction l with
  | nil => rfl
  | cons b l ih =>
    by_cases hb : b = a
    · subst hb
      simp [List.count_cons, ih, (ha b).2 rfl]
    · have hb' : ¬ b.erase = a := fun h => hb ((ha b).1 h)
      simp [List.count_cons, ih, hb, hb']

theorem erase_eq_if (b : Byte) : b.erase = Byte.IF ↔ b = Byte.IF := by
  cases b <;> simp [Byte.erase]

theorem erase_eq_eif (b : Byte) : b.erase = Byte.EIF ↔ b = Byte.EIF := by
  cases b <;> simp [Byte.erase]

theorem balanced_erase (f : List Byte) : balanced (f.map Byte.erase) = balanced f := by
  simp only [balanced, if_depth_erase, count_erase f _ erase_eq_if,
    count_erase f _ erase_eq_eif]

theorem fdef_endf_alternate_erase (l : List Byte) :
    ∀ inside, fdef_endf_alternate inside (l.map Byte.erase) = fdef_endf_alternate inside l := by
  induction l with
  | nil => intro inside; rfl
  | cons b l ih =>
    intro inside
    cases b <;> simp [fdef_endf_alternate, Byte.erase, ih]

theorem balanced_font (font : FONT) :
    (split_functions (fpgm_stream font)).map balanced
      = (split_functions (copy_steps.flatMap (step_bytes small_cvt_font))).map balanced := by
  have h : ∀ s : List Byte, (split_functions (s.map Byte.erase)).map balanced
      = (split_functions s).map balanced := by
    intro s
    have h1 := split_functions_from_erase [] s
    simp only [List.map_nil] at h1
    unfold split_functions
    rw [h1, List.map_map]
    congr 1
    funext f
    simp [balanced_erase]
  rw [← h, fpgm_stream_erase font small_cvt_font, h, fpgm_stream_eq]

theorem fdef_endf_alternate_font (font : FONT) :
    fdef_endf_alternate false (fpgm_stream font)
      = fdef_endf_alternate false (copy_steps.flatMap (step_bytes small_cvt_font)) := by
  rw [← fdef_endf_alternate_erase, fpgm_stream_erase font small_cvt_font,
    fdef_endf_alternate_erase, fpgm_stream_eq]

theorem split_functions_from_body (body rest : List Byte) (h : Byte.ENDF ∉ body) :
    ∀ acc, split_functions_from acc (body ++ Byte.ENDF :: rest)
      = (acc.reverse ++ body ++ [Byte.ENDF]) :: split_functions_from [] rest := by
  induction body with
  | nil => intro acc; simp [split_functions_from]
  | cons b body ih =>
    intro acc
    have hb : b ≠ Byte.ENDF := fun hb => h (by simp [hb])
    have hbody : Byte.ENDF ∉ body := fun hm => h (List.mem_cons_of_mem _ hm)
    simp [split_functions_from, hb, ih hbody]

theorem if_depth_append (xs ys : List Byte) :
    ∀ d, if_depth d (xs ++ ys) = (if_depth d xs).bind fun d1 => if_depth d1 ys := by
  induction xs with
  | nil => intro d; rfl
  | cons b xs ih =>
    intro d
    cases b <;> simp only [List.cons_append, List.append_eq, if_depth, ih] <;>
      first | rfl | (split_ifs <;> rfl)

theorem split_functions_cons (f rest body : List Byte) (hf : f = body ++ [Byte.ENDF])
    (h : Byte.ENDF ∉ body) : split_functions (f ++ rest) = f :: split_functions rest := by
  subst hf
  have h1 := split_functions_from_body body rest h []
  unfold split_functions
  simpa [List.append_assoc] using h1

/-- The definition of `bci_compute_stem_width` is the second one of the stream. -/
theorem stem_width_function_second (font : FONT) :
    (split_functions (fpgm_stream font))[1]? = some (stem_width_function font) := by
  have hr : fpgm_bci_round = fpgm_bci_round.dropLast ++ [Byte.ENDF] := by decide
  have hr' : Byte.ENDF ∉ fpgm_bci_round.dropLast := by decide
  have hc : fpgm_bci_compute_stem_width_c
      = fpgm_bci_compute_stem_width_c.dropLast ++ [Byte.ENDF] := by decide
  have hs : stem_width_function font
      = (fpgm_bci_compute_stem_width_a
          ++ [Byte.num (unsigned_char font.CVT_VERT_WIDTHS_OFFSET)]
          ++ fpgm_bci_compute_stem_width_b
          ++ [Byte.num (unsigned_char font.CVT_VERT_WIDTHS_OFFSET)]
          ++ fpgm_bci_compute_stem_width_c.dropLast) ++ [Byte.ENDF] := by
    rw [List.append_assoc _ fpgm_bci_compute_stem_width_c.dropLast, ← hc]
    rfl
  have hs' : Byte.ENDF ∉ fpgm_bci_compute_stem_width_a
      ++ [Byte.num (unsigned_char font.CVT_VERT_WIDTHS_OFFSET)]
      ++ fpgm_bci_compute_stem_width_b
      ++ [Byte.num (unsigned_char font.CVT_VERT_WIDTHS_OFFSET)]
      ++ fpgm_bci_compute_stem_width_c.dropLast := by
    have h1 : Byte.ENDF ∉ fpgm_bci_compute_stem_width_a := by decide
    have h2 : Byte.ENDF ∉ fpgm_bci_compute_stem_width_b := by decide
    have h3 : Byte.ENDF ∉ fpgm_bci_compute_stem_width_c.dropLast := by decide
    simp [h1, h2, h3]
  have hp : fpgm_stream font = fpgm_bci_round ++ (stem_width_function font
      ++ (fpgm_bci_loop ++ fpgm_bci_cvt_rescale ++
        (fpgm_bci_blue_round_a ++ [Byte.num (unsigned_char font.CVT_BLUES_SIZE)]
          ++ fpgm_bci_blue_round_b) ++
        ((copy_steps.drop 11).filterMap CopyStep.array).flatMap FpgmArray.bytes)) := by
    rw [fpgm_stream_parts font]
    simp only [stem_width_function, List.append_assoc]
  rw [hp, split_functions_cons _ _ _ hr hr', split_functions_cons _ _ _ hs hs']
  rfl

theorem stem_width_function_counts (font : FONT) :
    (stem_width_function font).count Byte.IF = 11
    ∧ (stem_width_function font).count Byte.EIF = 12
    ∧ if_depth 0 (stem_width_function font) = none := by
  have a1 : fpgm_bci_compute_stem_width_a.count Byte.IF = 4 := by decide
  have a2 : fpgm_bci_compute_stem_width_b.count Byte.IF = 1 := by decide
  have a3 : fpgm_bci_compute_stem_width_c.count Byte.IF = 6 := by decide
  have b1 : fpgm_bci_compute_stem_width_a.count Byte.EIF = 3 := by decide
  have b2 : fpgm_bci_compute_stem_width_b.count Byte.EIF = 0 := by decide
  have b3 : fpgm_bci_compute_stem_width_c.count Byte.EIF = 9 := by decide
  have d1 : if_depth 0 fpgm_bci_compute_stem_width_a = some 1 := by decide
  have d2 : if_depth 1 fpgm_bci_compute_stem_width_b = some 2 := by decide
  have d3 : if_depth 2 fpgm_bci_compute_stem_width_c = none := by decide
  have dn : ∀ (d k : Nat) (l : List Byte), if_depth d (Byte.num k :: l) = if_depth d l :=
    fun _ _ _ => rfl
  refine ⟨?_, ?_, ?_⟩
  · simp [stem_width_function, List.count_append, a1, a2, a3]
  · simp [stem_width_function, List.count_append, b1, b2, b3]
  · simp [stem_width_function, if_depth_append, d1, d2, d3, dn]

set_option maxRecDepth 100000 in
theorem bracket_checks_stream :
    fdef_endf_alternate false (copy_steps.flatMap (step_bytes small_cvt_font)) = true
    ∧ (split_functions (copy_steps.flatMap (step_bytes small_cvt_font))).map balanced
      = (List.range 48).map (fun k => decide (k ≠ 1)) := by
  decide!

/-- Claim C17 fails for `bci_compute_stem_width`. For every font, `FDEF` and `ENDF`
alternate in the stream that `TA_table_build_fpgm` assembles, and 47 of its 48
function definitions have balanced brackets; the second one, which is
`bci_compute_stem_width` assembled from its three parts, has 11 `IF` and 12 `EIF`,
and its last `EIF` (line 274) stands where no `IF` is open. -/
theorem stem_width_brackets_unbalanced (font : FONT) :
    fdef_endf_alternate false (fpgm_stream font) = true
    ∧ (split_functions (fpgm_stream font)).map balanced
      = (List.range 48).map (fun k => decide (k ≠ 1))
    ∧ (split_functions (fpgm_stream font))[1]? = some (stem_width_function font)
    ∧ (stem_width_function font).count Byte.IF = 11
    ∧ (stem_width_function font).count Byte.EIF = 12
    ∧ if_depth 0 (stem_width_function font) = none
    ∧ if_depth 0 (stem_width_function font).dropLast.dropLast = some 0 := by
  refine ⟨?_, ?_, stem_width_function_second font, (stem_width_function_counts font).1,
    (stem_width_function_counts font).2.1, (stem_width_function_counts font).2.2, ?_⟩
  · rw [fdef_endf_alternate_font]
    exact bracket_checks_stream.1
  · rw [balanced_font]
    exact bracket_checks_stream.2
  · have d1 : if_depth 0 fpgm_bci_compute_stem_width_a = some 1 := by decide
    have d2 : if_depth 1 fpgm_bci_compute_stem_width_b = some 2 := by decide
    have d3 : if_depth 2 (fpgm_bci_compute_stem_width_c.dropLast.dropLast) = some 0 := by
      decide
    have dn : ∀ (d k : Nat) (l : List Byte), if_depth d (Byte.num k :: l) = if_depth d l :=
    fun _ _ _ => rfl
    have hc : fpgm_bci_compute_stem_width_c ≠ [] := by decide
    have hc2 : fpgm_bci_compute_stem_width_c.dropLast ≠ [] := by decide
    have hd : (stem_width_function font).dropLast.dropLast
        = fpgm_bci_compute_stem_width_a
          ++ [Byte.num (unsigned_char font.CVT_VERT_WIDTHS_OFFSET)]
          ++ fpgm_bci_compute_stem_width_b
          ++ [Byte.num (unsigned_char font.CVT_VERT_WIDTHS_OFFSET)]
          ++ fpgm_bci_compute_stem_width_c.dropLast.dropLast := by
      rw [stem_width_function, List.dropLast_append_of_ne_nil _ hc,
        List.dropLast_append_of_ne_nil _ hc2]
    rw [hd]
    simp [if_depth_append, d1, d2, d3, dn]

/-! ## The two loops and the length of the table -/

/-- The bytes the second loop appends for style `i` when its call has the
result of the first loop's call and the metrics carry the class of the style
they were loaded for: the two standard-width cells and the counted widths
and blue zones of a used style, nothing for a missing one. -/
theorem block_bytes_counted {env : Env} {st1 : FirstLoop} (i : Nat)
    (h1 : first_loop env env.TA_STYLE_MAX = .ok st1)
    (hsame : second_loop_hints env i = first_loop_hints env i)
    (hclass : ∀ m, first_loop_metrics env i = some m →
      (m.style_class = env.TA_STYLE_NONE_DFLT ↔ i = env.TA_STYLE_NONE_DFLT)) :
    (block_bytes env st1.gstyles i).length
      = 2 * (2 * (if style_used env i then 1 else 0) + counted_hwidths env i
          + counted_vwidths env i + 2 * counted_blues env i) := by
  rw [second_loop_hints_of_ok i h1] at hsame
  unfold block_bytes
  cases hh : TA_sfnt_compute_global_hints env st1.gstyles i with
  | error e =>
    rw [hh] at hsame
    have hu : style_used env i = false := by simp [style_used, ← hsame]
    have hm : first_loop_metrics env i = none := no_metrics_of_not_used hu
    simp [hu, counted_hwidths, counted_vwidths, counted_blues, hm]
  | ok m =>
    rw [hh] at hsame
    have hu : style_used env i = true := by simp [style_used, ← hsame]
    have hm : first_loop_metrics env i = some m := by simp [first_loop_metrics, ← hsame]
    have hc := hclass m hm
    simp only [encode_length, block_cells_length, hu, if_true, counted_hwidths, counted_vwidths,
      counted_blues, hm, block_counts]
    by_cases hi : i = env.TA_STYLE_NONE_DFLT
    · simp only [if_pos (hc.mpr hi), if_pos hi]
    · simp only [if_neg (fun h => hi (hc.mp h)), if_neg hi]

/-- The number of bytes the iterations below `n` of the second loop append
under the same conditions. -/
theorem blocks_below_counted {env : Env} {st1 : FirstLoop}
    (h1 : first_loop env env.TA_STYLE_MAX = .ok st1) (n : Nat)
    (hsame : ∀ i, i < n → second_loop_hints env i = first_loop_hints env i)
    (hclass : ∀ i m, i < n → first_loop_metrics env i = some m →
      (m.style_class = env.TA_STYLE_NONE_DFLT ↔ i = env.TA_STYLE_NONE_DFLT)) :
    (blocks_below env st1.gstyles n).length
      = 2 * (2 * used_below env n + sum_below (counted_hwidths env) n
          + sum_below (counted_vwidths env) n + 2 * sum_below (counted_blues env) n) := by
  induction n with
  | zero => rfl
  | succ n ih =>
    have h := ih (fun i hi => hsame i (Nat.lt_succ_of_lt hi))
      (fun i m hi => hclass i m (Nat.lt_succ_of_lt hi))
    have hb := block_bytes_counted n h1 (hsame n (Nat.lt_succ_self n))
      (fun m => hclass n m (Nat.lt_succ_self n))
    simp only [blocks_below, List.length_append, h, hb, used_below_succ, sum_below]
    omega

/-- Claim C30.  On success `cvt_len` is
`2 * (cvtl_max_runtime + 5 * n + H + V + 2 * B)`, where `n` is the number of
used styles and `H`, `V`, `B` are the sums over the used styles other than
`none_dflt` of the horizontal `width_count`, the vertical `width_count` and
`blue_count + 2`.  It is even, the first `2 * (cvtl_max_runtime + 3 * n)`
bytes of the table are zero, and when in every iteration the call of the
second loop has the result of the call of the first loop, with metrics that
carry the class of the style they were loaded for, the second loop stores
exactly the remaining `2 * (2 * n + H + V + 2 * B)` bytes, so that `cvt_len`
bytes are stored in all. -/
theorem cvt_len_split (env : Env) (t : CvtTable) (h : TA_table_build_cvt env = .ok t) :
    t.data.num_used_styles = (List.range env.TA_STYLE_MAX).countP (style_used env)
    ∧ t.cvt_len
      = 2 * (env.cvtl_max_runtime + 5 * t.data.num_used_styles
            + sum_below (counted_hwidths env) env.TA_STYLE_MAX
            + sum_below (counted_vwidths env) env.TA_STYLE_MAX
            + 2 * sum_below (counted_blues env) env.TA_STYLE_MAX)
    ∧ t.cvt_len % 2 = 0
    ∧ t.cvt.take (2 * (env.cvtl_max_runtime + 3 * t.data.num_used_styles))
        = List.replicate (2 * (env.cvtl_max_runtime + 3 * t.data.num_used_styles)) 0
    ∧ ((∀ i, i < env.TA_STYLE_MAX → second_loop_hints env i = first_loop_hints env i) →
       (∀ i m, i < env.TA_STYLE_MAX → first_loop_metrics env i = some m →
          (m.style_class = env.TA_STYLE_NONE_DFLT ↔ i = env.TA_STYLE_NONE_DFLT)) →
        (t.cvt.drop (2 * (env.cvtl_max_runtime + 3 * t.data.num_used_styles))).length
          = 2 * (2 * t.data.num_used_styles
              + sum_below (counted_hwidths env) env.TA_STYLE_MAX
              + sum_below (counted_vwidths env) env.TA_STYLE_MAX
              + 2 * sum_below (counted_blues env) env.TA_STYLE_MAX)
        ∧ t.cvt.length = t.cvt_len) := by
  obtain ⟨st1, st2, h1, -, -, h2, hcvt, -, hlen, -, hnum, -⟩ := build_ok h
  have inv := first_loop_inv env _ st1 h1
  have inv2 := second_loop_inv env _ _ _ _ st2 h2
  have hl : t.cvt_len
      = 2 * (env.cvtl_max_runtime + 5 * t.data.num_used_styles
            + sum_below (counted_hwidths env) env.TA_STYLE_MAX
            + sum_below (counted_vwidths env) env.TA_STYLE_MAX
            + 2 * sum_below (counted_blues env) env.TA_STYLE_MAX) := by
    rw [hlen, hnum]
    unfold buf_len
    rw [Nat.shiftLeft_eq, inv.hwidths, inv.vwidths, inv.blues]
    omega
  have hr : runtime_bytes env st1
      = 2 * (env.cvtl_max_runtime + 3 * t.data.num_used_styles) := by
    rw [hnum]; unfold runtime_bytes; omega
  have hb : t.cvt = List.replicate (2 * (env.cvtl_max_runtime + 3 * t.data.num_used_styles)) 0
      ++ blocks_below env st1.gstyles env.TA_STYLE_MAX := by
    rw [hcvt, inv2.bytes, ← hr]; rfl
  refine ⟨by rw [hnum, inv.used, used_below_eq_countP], hl, by rw [hl]; omega, ?_, ?_⟩
  · rw [hb, List.take_left']
    exact List.length_replicate _ _
  · intro hsame hclass
    have hc := blocks_below_counted h1 env.TA_STYLE_MAX hsame hclass
    rw [← inv.used, ← hnum] at hc
    constructor
    · rw [hb, List.drop_left']
      · exact hc
      · exact List.length_replicate _ _
    · rw [hb, List.length_append, List.length_replicate, hc, hl]
      omega

/-- In `latin_font` one style is used, with 2 horizontal widths, 1 vertical
width and 4 blue zones: the table has 40 bytes, 14 zero bytes of the runtime
area and 26 bytes stored by the second loop. -/
theorem cvt_len_split_witness :
    TA_table_build_cvt latin_font = .ok (the_table latin_font)
    ∧ (the_table latin_font).data.num_used_styles = 1
    ∧ sum_below (counted_hwidths latin_font) 3 = 2
    ∧ sum_below (counted_vwidths latin_font) 3 = 1
    ∧ sum_below (counted_blues latin_font) 3 = 4
    ∧ ((the_table latin_font).cvt.drop (2 * (4 + 3 * 1))).length = 2 * (2 * 1 + 2 + 1 + 2 * 4)
    ∧ (the_table latin_font).cvt.length = (the_table latin_font).cvt_len :=
  ⟨rfl, by decide, by decide, by decide, by decide,
    (cvt_len_split latin_font (the_table latin_font) rfl).2.2.2.2
      (fun i hi => by
        have h3 : i < 3 := hi
        interval_cases i <;> rfl)
      (fun i m hi hm => by
        have h3 : i < 3 := hi
        interval_cases i
        · have h0 : first_loop_metrics latin_font 0 = some ⟨0, sample_haxis, sample_vaxis⟩ := rfl
          rw [h0] at hm
          cases hm
          decide
        · have h0 : first_loop_metrics latin_font 1 = none := rfl
          rw [h0] at hm
          cases hm
        · have h0 : first_loop_metrics latin_font 2 = none := rfl
          rw [h0] at hm
          cases hm)⟩

/-! ## The table builders -/

/-- Claim C25 holds for the CVT and fails for the font program.  When the
glyf table is marked as processed, `TA_sfnt_build_cvt_table` neither calls
`TA_table_build_cvt` nor `TA_font_add_table`: `font->tables` stays as it is
and the new table info gets `data->cvt_idx`.  `TA_sfnt_build_fpgm_table`
does not read the mark: it does for a processed glyf table what it does for
a fresh one.  For `second_sfnt`, whose font holds a `cvt` table at index 0
and an `fpgm` table at index 1, the CVT builder leaves the two tables and
stores index 0, while the font-program builder appends a third table, a
second `fpgm`, and stores its index 2 instead of 1. -/
theorem fpgm_table_built_again :
    (∀ (fs : TableFunctions) (env : Env) (sfnt : SFNT),
      TA_sfnt_build_cvt_table fs env { sfnt with processed := true }
        = match fs.TA_sfnt_add_table_info sfnt.table_infos with
          | .error e => .error e
          | .ok infos =>
            .ok { sfnt with processed := true, table_infos := set_last_info infos sfnt.cvt_idx })
    ∧ (∀ (fs : TableFunctions) (font : FONT) (sfnt : SFNT),
      TA_sfnt_build_fpgm_table fs font { sfnt with processed := true }
        = (TA_sfnt_build_fpgm_table fs font { sfnt with processed := false }).map
            (fun s => { s with processed := true }))
    ∧ second_sfnt.processed = true
    ∧ fpgm_tags second_sfnt.tables = [false, true]
    ∧ tables_after (TA_sfnt_build_cvt_table appending_functions latin_font second_sfnt)
        = some ([0, 0], [false, true])
    ∧ tables_after (TA_sfnt_build_fpgm_table appending_functions small_cvt_font second_sfnt)
        = some ([0, 2], [false, true, true]) := by
  refine ⟨?_, ?_, rfl, rfl, rfl, rfl⟩
  · intro fs env sfnt
    unfold TA_sfnt_build_cvt_table
    cases fs.TA_sfnt_add_table_info sfnt.table_infos <;> rfl
  · intro fs font sfnt
    unfold TA_sfnt_build_fpgm_table
    cases fs.TA_sfnt_add_table_info sfnt.table_infos with
    | error e => rfl
    | ok infos =>
      cases TA_table_build_fpgm font with
      | error e => rfl
      | ok t =>
        simp only []
        cases fs.TA_font_add_table sfnt.tables (.fpgm t) <;> rfl

/-! ## The front end -/

/-- Claim C24.  When `Main_GUI::run` reaches the call of `TTF_autohint`:
for every non-zero return value the output file is removed (once, as the
last thing done); for the value `TA_Err_Canceled` no message box is shown;
for the value zero nothing is done, so the output file is kept and no
message is shown. -/
theorem run_error_handling (codes : TA_Errors) (gui : Main_GUI)
    (check_filenames open_files : Int) (TTF_autohint : String → List Argument → Int)
    (hc : check_filenames ≠ 0) (ho : open_files ≠ 0) :
    (TTF_autohint run_options (run_arguments gui) ≠ 0 →
      (Main_GUI.run codes gui check_filenames open_files TTF_autohint).count .remove_out_file = 1
      ∧ (Main_GUI.run codes gui check_filenames open_files TTF_autohint).getLast?
          = some .remove_out_file)
    ∧ (TTF_autohint run_options (run_arguments gui) = codes.TA_Err_Canceled →
      ∀ x ∈ Main_GUI.run codes gui check_filenames open_files TTF_autohint, x.is_box = false)
    ∧ (TTF_autohint run_options (run_arguments gui) = 0 →
      Main_GUI.run codes gui check_filenames open_files TTF_autohint = []) := by
  have hrun : Main_GUI.run codes gui check_filenames open_files TTF_autohint
      = if TTF_autohint run_options (run_arguments gui) ≠ 0 then
          error_box codes (TTF_autohint run_options (run_arguments gui)) ++ [.remove_out_file]
        else [] := by
    unfold Main_GUI.run
    rw [if_neg hc, if_neg ho]
  generalize TTF_autohint run_options (run_arguments gui) = error at hrun
  rw [hrun]
  refine ⟨?_, ?_, ?_⟩
  · intro he
    rw [if_pos he]
    unfold error_box
    split_ifs <;> exact ⟨by simp [List.count_cons], rfl⟩
  · intro he x hx
    by_cases h0 : error ≠ 0
    · rw [if_pos h0] at hx
      unfold error_box at hx
      rw [if_pos he] at hx
      simp only [List.nil_append, List.mem_singleton] at hx
      rw [hx]
      rfl
    · rw [if_neg h0] at hx
      cases hx
  · intro he
    rw [if_neg (by simpa using he)]

/-- With the sample error codes, a run that is cancelled removes the output
file and shows no message box. -/
theorem run_error_handling_witness :
    (1 : Int) ≠ 0
    ∧ Main_GUI.run sample_errors sample_gui 1 1 (fun _ _ => 0x10) = [.remove_out_file]
    ∧ ∀ x ∈ Main_GUI.run sample_errors sample_gui 1 1 (fun _ _ => 0x10), x.is_box = false :=
  ⟨by decide, by decide,
    (run_error_handling sample_errors sample_gui 1 1 (fun _ _ => 0x10)
      (by decide) (by decide)).2.1 (by decide)⟩

/-- Claim C26 fails.  The options string of `Main_GUI::run` has ten fields.
Nine of them are documented in `ttfautohint.h`; the eighth,
`ignore-permissions`, is not: the documented name of the permission override,
`ignore-restrictions`, does not occur in the string.  The ten arguments have
the kinds documented for the nine fields, in the order of the fields, with an
integer at the place of `ignore-permissions`. -/
theorem run_options_field_undocumented :
    option_fields run_options
      = ["in-file", "out-file", "hinting-range-min", "hinting-range-max", "error-string",
         "progress-callback", "progress-callback-data", "ignore-permissions", "pre-hinting",
         "fallback-script"]
    ∧ (option_fields run_options).map documented_kind
      = [some .file, some .file, some .integer, some .integer, some .string_pointer,
         some .callback, some .callback_data, none, some .integer, some .integer]
    ∧ documented_kind "ignore-restrictions" = some .integer
    ∧ "ignore-restrictions" ∉ option_fields run_options
    ∧ ∀ gui : Main_GUI, (run_arguments gui).map Argument.kind
      = [.file, .file, .integer, .integer, .string_pointer,
         .callback, .callback_data, .integer, .integer, .integer] :=
  ⟨by decide, by decide, by decide, by decide, fun _ => rfl⟩

/-- Claim C27 fails.  The combo box has the one entry `Latin`, at index 0,
and shows it after `create_layout`.  The tenth field of the options string
is `fallback-script` and its argument is the current index of the box: 0,
which `ttfautohint.h` documents as 'no script', while the latin script is
documented as the value 1. -/
theorem fallback_latin_passes_zero :
    create_fallback_box.items = ["Latin"]
    ∧ create_fallback_box.currentText = some "Latin"
    ∧ (∀ i : Nat, create_fallback_box.items[i]? = some "Latin" ↔ i = 0)
    ∧ (option_fields run_options)[9]? = some "fallback-script"
    ∧ (run_arguments sample_gui)[9]? = some (.integer 0)
    ∧ (∀ gui : Main_GUI,
        (run_arguments gui)[9]? = some (.integer gui.fallback_box.currentIndex))
    ∧ documented_fallback_script 0 = some .no_script
    ∧ documented_fallback_script 1 = some .latin := by
  refine ⟨by decide, by decide, ?_, by decide, by decide, fun _ => rfl, by decide, by decide⟩
  intro i
  cases i with
  | zero => exact ⟨fun _ => rfl, fun _ => by decide⟩
  | succ n => exact ⟨fun h => by simp [create_fallback_box, QComboBox.insertItem, QComboBox.new] at h, fun h => by cases h⟩

/-! ## Runs with the graphics state -/

theorem GReaches.chain {e : Engine} {m1 m2 m3 : GMachine} (h1 : GReaches e m1 m2)
    (h2 : GReaches e m2 m3) : GReaches e m1 m3 := by
  induction h1 with
  | refl m => exact h2
  | step h _ ih => exact GReaches.step h (ih h2)

/-- A machine that reaches a state in which it halts gives its result with
enough fuel. -/
theorem grun_of_reaches {e : Engine} {m m1 : GMachine} {vm : VM} {gs : GS}
    (h : GReaches e m m1) (hh : gstep e m1 = .halt vm gs) :
    ∃ K, ∀ fuel, K ≤ fuel → grun e fuel m = some (vm, gs) := by
  induction h with
  | refl m =>
    refine ⟨1, fun fuel hf => ?_⟩
    obtain ⟨k, rfl⟩ : ∃ k, fuel = k + 1 := ⟨fuel - 1, by omega⟩
    simp [grun, hh]
  | step h _ ih =>
    obtain ⟨K, hK⟩ := ih hh
    refine ⟨K + 1, fun fuel hf => ?_⟩
    obtain ⟨k, rfl⟩ : ∃ k, fuel = k + 1 := ⟨fuel - 1, by omega⟩
    simp only [grun, h]
    exact hK k (by omega)

/-- The `ENDF` of the outermost function ends the run. -/
theorem gstep_endf_halt (e : Engine) (bef : List Byte) (vm : VM) (gs : GS) :
    gstep e ⟨bef, [Byte.ENDF], [], vm, gs⟩ = .halt vm gs := rfl

theorem genter_cons (a b c : Byte) (body : List Byte) (frames : List GFrame) (vm : VM)
    (gs : GS) : genter (a :: b :: c :: body) frames vm gs = ⟨[c, b, a], body, frames, vm, gs⟩ :=
  rfl

/-- A machine that reaches a state with given components reaches any state
that is equal to it. -/
theorem GReaches.of_eq {e : Engine} {m m1 m2 : GMachine} (h : GReaches e m m1) (he : m1 = m2) :
    GReaches e m m2 := he ▸ h

theorem gstep_if_pos {e : Engine} {bef rest : List Byte} {frames : List GFrame} {c : Int}
    {s : List Int} {st cv : Int → Int} {gs : GS} (hc : c ≠ 0) :
    gstep e ⟨bef, Byte.IF :: rest, frames, ⟨c :: s, st, cv⟩, gs⟩
      = .next ⟨Byte.IF :: bef, rest, frames, ⟨s, st, cv⟩, gs⟩ := by
  simp [gstep, gexec, pure_op, exec_op, set_stack, hc]

theorem gstep_if_neg {e : Engine} {bef rest bef1 rest1 : List Byte} {frames : List GFrame}
    {c : Int} {s : List Int} {st cv : Int → Int} {gs : GS} (hc : c = 0)
    (hskip : skip true 0 0 (Byte.IF :: bef) rest = some (bef1, rest1)) :
    gstep e ⟨bef, Byte.IF :: rest, frames, ⟨c :: s, st, cv⟩, gs⟩
      = .next ⟨bef1, rest1, frames, ⟨s, st, cv⟩, gs⟩ := by
  simp [gstep, gexec, pure_op, exec_op, set_stack, hc, hskip]

/-- An `IF` on the result of a comparison: the run goes on in the branch that
the comparison selects. -/
theorem GReaches.branch_truth {e : Engine} {bef rest bef1 rest1 : List Byte}
    {frames : List GFrame} {P : Prop} [Decidable P] {s : List Int} {st cv : Int → Int}
    {gs : GS} {m2 : GMachine}
    (hskip : skip true 0 0 (Byte.IF :: bef) rest = some (bef1, rest1))
    (hpos : P → GReaches e ⟨Byte.IF :: bef, rest, frames, ⟨s, st, cv⟩, gs⟩ m2)
    (hneg : ¬ P → GReaches e ⟨bef1, rest1, frames, ⟨s, st, cv⟩, gs⟩ m2) :
    GReaches e ⟨bef, Byte.IF :: rest, frames, ⟨truth P :: s, st, cv⟩, gs⟩ m2 := by
  by_cases h : P
  · exact GReaches.step (gstep_if_pos ((truth_ne_zero P).2 h)) (hpos h)
  · exact GReaches.step (gstep_if_neg ((truth_eq_zero P).2 h) hskip) (hneg h)

/-- An `IF` on a number. -/
theorem GReaches.branch_value {e : Engine} {bef rest bef1 rest1 : List Byte}
    {frames : List GFrame} {c : Int} {s : List Int} {st cv : Int → Int} {gs : GS}
    {m2 : GMachine}
    (hskip : skip true 0 0 (Byte.IF :: bef) rest = some (bef1, rest1))
    (hpos : c ≠ 0 → GReaches e ⟨Byte.IF :: bef, rest, frames, ⟨s, st, cv⟩, gs⟩ m2)
    (hneg : c = 0 → GReaches e ⟨bef1, rest1, frames, ⟨s, st, cv⟩, gs⟩ m2) :
    GReaches e ⟨bef, Byte.IF :: rest, frames, ⟨c :: s, st, cv⟩, gs⟩ m2 := by
  by_cases h : c = 0
  · exact GReaches.step (gstep_if_neg h hskip) (hneg h)
  · exact GReaches.step (gstep_if_pos h) (hpos h)

theorem gstep_div {e : Engine} {bef rest : List Byte} {frames : List GFrame} {x y : Int}
    {s : List Int} {st cv : Int → Int} {gs : GS} (hx : x ≠ 0) :
    gstep e ⟨bef, Byte.DIV :: rest, frames, ⟨x :: y :: s, st, cv⟩, gs⟩
      = .next ⟨Byte.DIV :: bef, rest, frames, ⟨e.div (y * 64) x :: s, st, cv⟩, gs⟩ := by
  simp [gstep, gexec, pure_op, exec_op, set_stack, hx]

/-- The coordinates after `ALIGNRP` of one more point. -/
theorem move_aligned (cur : Int → Int → Int) (zone f l v : Int) (h : f ≤ l) :
    (fun z p => if z = zone ∧ f + 1 ≤ p ∧ p ≤ l then v else move cur zone f v z p)
      = fun z p => if z = zone ∧ f ≤ p ∧ p ≤ l then v else cur z p := by
  funext z p
  unfold move
  by_cases hz : z = zone
  · by_cases hp : p = f
    · subst hp; simp [hz, h]
    · have h1 : f + 1 ≤ p ↔ f ≤ p := by omega
      simp [hz, hp, h1]
  · simp [hz]

/-- A run between two states, with the states rewritten. -/
theorem GReaches.of_eqs {e : Engine} {a b a1 b1 : GMachine} (h : GReaches e a b) (ha : a = a1)
    (hb : b = b1) : GReaches e a1 b1 := ha ▸ hb ▸ h

theorem alignrp_events_first (zone f : Int) (n : Nat) :
    alignrp_events zone f (n + 1) = alignrp_events zone (f + 1) n ++ [.ALIGNRP zone f] := by
  induction n with
  | zero => simp [alignrp_events]
  | succ n ih =>
    rw [alignrp_events, ih]
    simp only [alignrp_events, List.cons_append, Nat.cast_add, Nat.cast_one]
    congr 2
    ring

/-- The loop of `bci_align_segment`: with `last` on top of `first` on the
stack, `ALIGNRP` is applied to `first`, ..., `last` in ascending order, and
the two numbers are removed. -/
theorem align_segment_loop (e : Engine) (frames : List GFrame) (l : Int) (s : List Int)
    (st cv : Int → Int) (zp0 zp1 zp2 rp0 rp1 rp2 : Int) (round : Int → Int)
    (org : Int → Int → Int) (v : Int) :
    ∀ (n : Nat) (f : Int) (cur : Int → Int → Int) (log : List Event),
      (l - f + 1).toNat = n → cur zp0 rp0 = v →
      GReaches e
        ⟨(fpgm_bci_align_segment.take 15).reverse, fpgm_bci_align_segment.drop 15, frames,
          ⟨l :: f :: s, st, cv⟩, ⟨zp0, zp1, zp2, rp0, rp1, rp2, round, cur, org, log⟩⟩
        ⟨(fpgm_bci_align_segment.take 38).reverse, [Byte.ENDF], frames,
          ⟨s, st, cv⟩,
          ⟨zp0, zp1, zp2, rp0, rp1, rp2, round,
            fun z p => if z = zp1 ∧ f ≤ p ∧ p ≤ l then v else cur z p, org,
            alignrp_events zp1 f n ++ log⟩⟩ := by
  intro n
  induction n with
  | zero =>
    intro f cur log hn hv
    have hlt : ¬ f ≤ l := by omega
    rw [fpgm_bci_align_segment]
    iterate 5 (refine GReaches.step rfl ?_; dsimp only)
    refine GReaches.step (gstep_if_neg ((truth_eq_zero _).2 hlt) rfl) ?_
    iterate 3 (refine GReaches.step rfl ?_; dsimp only)
    refine (GReaches.refl _).of_eq ?_
    have hc : (fun z p => if z = zp1 ∧ f ≤ p ∧ p ≤ l then v else cur z p) = cur := by
      funext z p
      rw [if_neg]
      intro h
      omega
    rw [hc]
    rfl
  | succ n ih =>
    intro f cur log hn hv
    have hle : f ≤ l := by omega
    have h1 := ih (f + 1) (move cur zp1 f v) (.ALIGNRP zp1 f :: log) (by omega)
      (by unfold move; split_ifs <;> simp [hv])
    refine GReaches.chain (?_ : GReaches e _
      ⟨(fpgm_bci_align_segment.take 15).reverse, fpgm_bci_align_segment.drop 15, frames,
        ⟨l :: (f + 1) :: s, st, cv⟩,
        ⟨zp0, zp1, zp2, rp0, rp1, rp2, round, move cur zp1 f v, org, .ALIGNRP zp1 f :: log⟩⟩)
      (h1.of_eqs rfl ?_)
    · rw [fpgm_bci_align_segment]
      iterate 5 (refine GReaches.step rfl ?_; dsimp only)
      refine GReaches.step (gstep_if_pos ((truth_ne_zero _).2 hle)) ?_
      iterate 9 (refine GReaches.step rfl ?_; dsimp only [GS.alignrp])
      rw [hv]
      exact (GReaches.refl _).of_eq rfl
    · rw [move_aligned cur zp1 f l v hle]
      rw [alignrp_events_first]
      simp only [List.append_assoc, List.singleton_append]

/-- The events of `alignrp_events`, earliest first, are `ALIGNRP` of
`f`, `f + 1`, ..., `f + n - 1`. -/
theorem alignrp_events_reverse (zone f : Int) (n : Nat) :
    (alignrp_events zone f n).reverse = (List.range n).map (fun i => Event.ALIGNRP zone (f + i)) := by
  induction n with
  | zero => rfl
  | succ n ih => simp [alignrp_events, List.range_succ, ih]

/-- The body of `bci_align_segment`, from its entry to its `ENDF`. -/
theorem align_segment_body (e : Engine) (frames : List GFrame) (seg : Int) (s : List Int)
    (st cv : Int → Int) (gs : GS) :
    GReaches e (genter fpgm_bci_align_segment frames ⟨seg :: s, st, cv⟩ gs)
      ⟨(fpgm_bci_align_segment.take 38).reverse, [Byte.ENDF], frames, ⟨s, st, cv⟩,
        gs.aligned (segment_first e st seg) (segment_last e st seg)⟩ := by
  obtain ⟨zp0, zp1, zp2, rp0, rp1, rp2, round, cur, org, log⟩ := gs
  have ha : seg + seg + (e.sal .sal_segment_offset : Int) = e.sal .sal_segment_offset + 2 * seg := by
    ring
  have hb : seg + seg + (e.sal .sal_segment_offset : Int) + 1
      = e.sal .sal_segment_offset + 2 * seg + 1 := by ring
  refine GReaches.chain (?_ : GReaches e _
    ⟨(fpgm_bci_align_segment.take 15).reverse, fpgm_bci_align_segment.drop 15, frames,
      ⟨segment_last e st seg :: segment_first e st seg :: s, st, cv⟩,
      ⟨zp0, zp1, zp2, rp0, rp1, rp2, round, cur, org, log⟩⟩)
    (align_segment_loop e frames _ s st cv zp0 zp1 zp2 rp0 rp1 rp2 round org _ _ _ cur log
      rfl rfl)
  rw [fpgm_bci_align_segment, genter_cons]
  iterate 10 (refine GReaches.step rfl ?_; dsimp only)
  refine (GReaches.refl _).of_eq ?_
  simp only [value, Nat.cast_one, ha, hb, segment_first, segment_last]
  rfl

/-- Claim C23.  Let `f` and `l` be the storage cells
`sal_segment_offset + 2 * seg` and `sal_segment_offset + 2 * seg + 1`.  Run
with `seg` on top of the stack, `bci_align_segment` reaches its `ENDF` (and
ends the run when it is the outermost function) with `seg` removed and the
stack below, the storage area and the CVT as before.  The log has grown by
`ALIGNRP` of the points `f`, `f + 1`, ..., `l` of zone `zp1`, one event per
point in ascending order, `l - f + 1` events in all and none when `f > l`.
The points of `zp1` from `f` to `l` have the coordinate of `rp0`; every other
coordinate is as before. -/
theorem align_segment_aligns (e : Engine) (seg : Int) (s : List Int) (st cv : Int → Int)
    (gs : GS) :
    (∀ frames : List GFrame,
      GReaches e (genter fpgm_bci_align_segment frames ⟨seg :: s, st, cv⟩ gs)
        ⟨(fpgm_bci_align_segment.take 38).reverse, [Byte.ENDF], frames, ⟨s, st, cv⟩,
          gs.aligned (segment_first e st seg) (segment_last e st seg)⟩)
    ∧ (∃ K, ∀ fuel, K ≤ fuel →
        grun e fuel (genter fpgm_bci_align_segment [] ⟨seg :: s, st, cv⟩ gs)
          = some (⟨s, st, cv⟩, gs.aligned (segment_first e st seg) (segment_last e st seg)))
    ∧ (gs.aligned (segment_first e st seg) (segment_last e st seg)).log.reverse
        = gs.log.reverse
          ++ (List.range (segment_last e st seg - segment_first e st seg + 1).toNat).map
              (fun i => Event.ALIGNRP gs.zp1 (segment_first e st seg + i))
    ∧ (∀ z p, (gs.aligned (segment_first e st seg) (segment_last e st seg)).cur z p
        = if z = gs.zp1 ∧ segment_first e st seg ≤ p ∧ p ≤ segment_last e st seg
          then gs.cur gs.zp0 gs.rp0 else gs.cur z p)
    ∧ (segment_last e st seg < segment_first e st seg →
        gs.aligned (segment_first e st seg) (segment_last e st seg) = gs) := by
  refine ⟨fun frames => align_segment_body e frames seg s st cv gs, ?_, ?_, fun _ _ => rfl, ?_⟩
  · exact grun_of_reaches (align_segment_body e [] seg s st cv gs) rfl
  · simp only [GS.aligned, List.reverse_append, alignrp_events_reverse]
  · intro h
    have hn : (segment_last e st seg - segment_first e st seg + 1).toNat = 0 := by omega
    obtain ⟨zp0, zp1, zp2, rp0, rp1, rp2, round, cur, org, log⟩ := gs
    simp only [GS.aligned, hn, alignrp_events, List.nil_append, GS.mk.injEq, true_and, and_true]
    funext z p
    rw [if_neg]
    intro hh
    omega

/-- The rounds of the `LOOPCALL` of `bci_hint_glyph`: with `k` more rounds
to come behind the current one, `k + 1` actions are done and the run goes on
behind the `LOOPCALL`. -/
theorem handle_action_rounds {e : Engine}
    (hh : e.fdefs (e.bci .bci_handle_action) = some fpgm_bci_handle_action)
    (bef rest : List Byte) (frames : List GFrame) (vm2 : VM) (gs2 : GS) :
    ∀ (k : Nat) (vm : VM) (gs : GS), Actions e (k + 1) vm gs vm2 gs2 →
      GReaches e
        (genter fpgm_bci_handle_action (⟨bef, rest, e.bci .bci_handle_action, k⟩ :: frames) vm
          { gs with log := .enter (e.bci .bci_handle_action) :: gs.log })
        ⟨bef, rest, frames, vm2, gs2⟩ := by
  intro k
  induction k with
  | zero =>
    intro vm gs h
    cases h with
    | act ha hf hr hl h1 h2 hn =>
      cases hn
      obtain ⟨b, hb⟩ := hr (⟨[Byte.CALL, Byte.FDEF, Byte.bci .bci_handle_action, Byte.PUSHB_1],
        [Byte.ENDF], _, 0⟩ :: ⟨bef, rest, e.bci .bci_handle_action, 0⟩ :: frames)
      rw [fpgm_bci_handle_action, genter_cons]
      refine GReaches.step (by simp only [gstep, gexec, hf]; rfl) ?_
      refine hb.chain ?_
      refine GReaches.step rfl ?_
      dsimp only
      exact GReaches.step rfl (GReaches.refl _)
  | succ k ih =>
    intro vm gs h
    cases h with
    | act ha hf hr hl h1 h2 hn =>
      obtain ⟨b, hb⟩ := hr (⟨[Byte.CALL, Byte.FDEF, Byte.bci .bci_handle_action, Byte.PUSHB_1],
        [Byte.ENDF], _, 0⟩ :: ⟨bef, rest, e.bci .bci_handle_action, k + 1⟩ :: frames)
      have h3 := ih _ _ hn
      rw [fpgm_bci_handle_action, genter_cons]
      refine GReaches.step (by simp only [gstep, gexec, hf]; rfl) ?_
      refine hb.chain ?_
      refine GReaches.step rfl ?_
      dsimp only
      refine GReaches.step (by simp only [gstep, gexec, hh]; rfl) ?_
      rw [fpgm_bci_handle_action] at h3
      exact h3

/-- The events that `M` actions add to the log hold `M` entries of
`bci_handle_action` and no `IUP_y`. -/
theorem actions_log {e : Engine} {M : Nat} {vm : VM} {gs : GS} {vm2 : VM} {gs2 : GS}
    (h : Actions e M vm gs vm2 gs2) :
    ∃ new, gs2.log = new ++ gs.log
      ∧ new.count (.enter (e.bci .bci_handle_action)) = M
      ∧ new.count .IUP_y = 0 := by
  induction h with
  | done vm gs => exact ⟨[], rfl, rfl, rfl⟩
  | @act M a s st cv gs arr evs vm1 gs1 vm2 gs2 ha hf hr hl h1 h2 hn ih =>
    obtain ⟨new, hnew, hc, hi⟩ := ih
    refine ⟨new ++ evs ++ [.enter a, .enter (e.bci .bci_handle_action)], ?_, ?_, ?_⟩
    · rw [hnew, hl]
      simp
    · have hae : ¬ (Event.enter a = Event.enter (e.bci .bci_handle_action)) := by
        intro h
        injection h with h
        exact ha h
      simp only [List.count_append, hc, List.count_eq_zero_of_not_mem h1, List.count_cons,
        List.count_nil, beq_self_eq_true, if_true, beq_iff_eq, hae, if_false]
    · simp only [List.count_append, hi, List.count_eq_zero_of_not_mem h2, List.count_cons,
        List.count_nil, beq_iff_eq]
      simp

/-- The body of `bci_hint_glyph`, from its entry to its `ENDF`. -/
theorem hint_glyph_body {e : Engine}
    (hh : e.fdefs (e.bci .bci_handle_action) = some fpgm_bci_handle_action)
    (frames : List GFrame) (M : Nat) (s : List Int) (st cv : Int → Int) (gs : GS) (vm2 : VM)
    (gs2 : GS) (hact : Actions e M ⟨s, st, cv⟩ gs vm2 gs2) :
    GReaches e (genter fpgm_bci_hint_glyph frames ⟨(M : Int) :: s, st, cv⟩ gs)
      ⟨(fpgm_bci_hint_glyph.take 7).reverse, [Byte.ENDF], frames, vm2,
        { gs2 with log := .IUP_y :: gs2.log }⟩ := by
  rw [fpgm_bci_hint_glyph, genter_cons]
  refine GReaches.step rfl ?_
  dsimp only
  cases M with
  | zero =>
    cases hact
    refine GReaches.step rfl ?_
    exact GReaches.step rfl (GReaches.refl _)
  | succ k =>
    have h := handle_action_rounds hh
      [Byte.LOOPCALL, Byte.bci .bci_handle_action, Byte.PUSHB_1, Byte.FDEF,
        Byte.bci .bci_hint_glyph, Byte.PUSHB_1]
      [Byte.IUP_y, Byte.ENDF] frames vm2 gs2 k _ _ hact
    refine GReaches.step (?_ : _ = GStep.next _) (h.chain ?_)
    · simp only [gstep, gexec, value, Int.toNat_ofNat, hh]
    · exact GReaches.step rfl (GReaches.refl _)

/-- Claim C22.  Let the stack of `bci_hint_glyph` hold `M` on top of `M`
actions.  Then the function reaches its `ENDF` (and ends the run when it is
the outermost function); `bci_handle_action` is entered `M` times, each
time calling the function whose number is on top of the stack, and behind
the last action `IUP_y` is executed once, as the last event.  For `M = 0`
no function is called: the state is as before but for the event `IUP_y`. -/
theorem hint_glyph_runs {e : Engine}
    (hh : e.fdefs (e.bci .bci_handle_action) = some fpgm_bci_handle_action)
    (M : Nat) (s : List Int) (st cv : Int → Int) (gs : GS) (vm2 : VM) (gs2 : GS)
    (hact : Actions e M ⟨s, st, cv⟩ gs vm2 gs2) :
    (∀ frames : List GFrame,
      GReaches e (genter fpgm_bci_hint_glyph frames ⟨(M : Int) :: s, st, cv⟩ gs)
        ⟨(fpgm_bci_hint_glyph.take 7).reverse, [Byte.ENDF], frames, vm2,
          { gs2 with log := .IUP_y :: gs2.log }⟩)
    ∧ (∃ K, ∀ fuel, K ≤ fuel →
        grun e fuel (genter fpgm_bci_hint_glyph [] ⟨(M : Int) :: s, st, cv⟩ gs)
          = some (vm2, { gs2 with log := .IUP_y :: gs2.log }))
    ∧ (∃ new, gs2.log = new ++ gs.log
        ∧ new.count (.enter (e.bci .bci_handle_action)) = M
        ∧ (Event.IUP_y :: new).count .IUP_y = 1)
    ∧ (M = 0 → vm2 = ⟨s, st, cv⟩ ∧ gs2 = gs) := by
  refine ⟨fun frames => hint_glyph_body hh frames M s st cv gs vm2 gs2 hact,
    grun_of_reaches (hint_glyph_body hh [] M s st cv gs vm2 gs2 hact) rfl, ?_, ?_⟩
  · obtain ⟨new, h1, h2, h3⟩ := actions_log hact
    exact ⟨new, h1, h2, by simp [h3]⟩
  · intro h0
    subst h0
    cases hact
    exact ⟨rfl, rfl⟩

/-! ## The serif actions -/

/-- A serif action is the computation of the position of the action without
bound, the checks of its variant and the common last bytes. -/
theorem serif_actions_shape (a : SerifAction) (b : Bounds) :
    a.array b
      = [Byte.PUSHB_1, Byte.bci (a.fn b), Byte.FDEF] ++ (a.code ++ (b.checks ++ action_tail)) := by
  cases a <;> cases b <;> rfl

/-- The check of the lower bound. -/
theorem lower_bound_check_runs (e : Engine) (bef rest : List Byte) (frames : List GFrame)
    (edge lo : Int) (s : List Int) (st cv : Int → Int) (gs : GS) :
    GReaches e ⟨bef, lower_bound_check ++ rest, frames, ⟨edge :: lo :: s, st, cv⟩, gs⟩
      ⟨lower_bound_check.reverse ++ bef, rest, frames, ⟨edge :: s, st, cv⟩,
        gs.lower_bound edge lo⟩ := by
  simp only [lower_bound_check, fpgm_bci_action_serif_lower_bound, List.drop_succ_cons,
    List.drop_zero, List.take_succ_cons, List.take_zero, List.cons_append, List.nil_append,
    List.reverse_cons, List.reverse_nil, List.append_assoc]
  iterate 8 (refine GReaches.step rfl ?_; dsimp only)
  unfold GS.lower_bound
  refine GReaches.branch_truth rfl (fun h => ?_) (fun h => ?_)
  · rw [if_pos h]
    iterate 3 (refine GReaches.step rfl ?_; dsimp only)
    exact GReaches.refl _
  · rw [if_neg h]
    exact GReaches.refl _

/-- The check of the upper bound. -/
theorem upper_bound_check_runs (e : Engine) (bef rest : List Byte) (frames : List GFrame)
    (edge hi : Int) (s : List Int) (st cv : Int → Int) (gs : GS) :
    GReaches e ⟨bef, upper_bound_check ++ rest, frames, ⟨edge :: hi :: s, st, cv⟩, gs⟩
      ⟨upper_bound_check.reverse ++ bef, rest, frames, ⟨edge :: s, st, cv⟩,
        gs.upper_bound edge hi⟩ := by
  simp only [upper_bound_check, fpgm_bci_action_serif_upper_bound, List.drop_succ_cons,
    List.drop_zero, List.take_succ_cons, List.take_zero, List.cons_append, List.nil_append,
    List.reverse_cons, List.reverse_nil, List.append_assoc]
  iterate 8 (refine GReaches.step rfl ?_; dsimp only)
  unfold GS.upper_bound
  refine GReaches.branch_truth rfl (fun h => ?_) (fun h => ?_)
  · rw [if_pos h]
    iterate 3 (refine GReaches.step rfl ?_; dsimp only)
    exact GReaches.refl _
  · rw [if_neg h]
    exact GReaches.refl _
/-- The computation of the position in `bci_action_serif`. -/
theorem serif_code_runs (e : Engine) (bef rest : List Byte) (frames : List GFrame)
    (serif base : Int) (s : List Int) (st cv : Int → Int) (gs : GS) :
    GReaches e
      ⟨bef, SerifAction.serif.code ++ rest, frames, ⟨serif :: base :: s, st, cv⟩, gs⟩
      ⟨SerifAction.serif.code.reverse ++ bef, rest, frames, ⟨serif :: s, st, cv⟩,
        serif_result e st gs serif base⟩ := by
  simp only [SerifAction.code, SerifAction.array, fpgm_bci_action_serif, List.drop_succ_cons,
    List.drop_zero, List.dropLast, List.cons_append, List.nil_append, List.reverse_cons,
    List.reverse_nil, List.append_assoc]
  iterate 21 (refine GReaches.step rfl ?_; dsimp only)
  exact (GReaches.refl _).of_eq rfl

/-- The computation of the position in `bci_action_serif_anchor`. -/
theorem serif_anchor_code_runs (e : Engine) (bef rest : List Byte) (frames : List GFrame)
    (edge : Int) (s : List Int) (st cv : Int → Int) (gs : GS) :
    GReaches e
      ⟨bef, SerifAction.serif_anchor.code ++ rest, frames, ⟨edge :: s, st, cv⟩, gs⟩
      ⟨SerifAction.serif_anchor.code.reverse ++ bef, rest, frames,
        ⟨edge :: s, update st (e.sal .sal_anchor) edge, cv⟩,
        serif_anchor_result e st gs edge⟩ := by
  simp only [SerifAction.code, SerifAction.array, fpgm_bci_action_serif_anchor,
    List.drop_succ_cons, List.drop_zero, List.dropLast, List.cons_append, List.nil_append,
    List.reverse_cons, List.reverse_nil, List.append_assoc]
  iterate 15 (refine GReaches.step rfl ?_; dsimp only)
  exact (GReaches.refl _).of_eq rfl

/-- The computation of the position in `bci_action_serif_link2`. -/
theorem serif_link2_code_runs (e : Engine) (bef rest : List Byte) (frames : List GFrame)
    (edge : Int) (s : List Int) (st cv : Int → Int) (gs : GS) :
    GReaches e
      ⟨bef, SerifAction.serif_link2.code ++ rest, frames, ⟨edge :: s, st, cv⟩, gs⟩
      ⟨SerifAction.serif_link2.code.reverse ++ bef, rest, frames, ⟨edge :: s, st, cv⟩,
        serif_link2_result e st gs edge⟩ := by
  simp only [SerifAction.code, SerifAction.array, fpgm_bci_action_serif_link2,
    List.drop_succ_cons, List.drop_zero, List.dropLast, List.cons_append, List.nil_append,
    List.reverse_cons, List.reverse_nil, List.append_assoc]
  iterate 27 (refine GReaches.step rfl ?_; dsimp only)
  exact (GReaches.refl _).of_eq rfl

/-- The computation of the position in `bci_action_serif_link1`, unless it
divides by zero. -/
theorem serif_link1_code_runs (e : Engine) (bef rest : List Byte) (frames : List GFrame)
    (before edge after : Int) (s : List Int) (st cv : Int → Int) (gs : GS)
    (hdiv : gs.cur 0 (after + st (e.sal .sal_num_segments))
        - gs.cur 0 (before + st (e.sal .sal_num_segments)) ≠ 0 →
      mul e (gs.cur 0 (after + st (e.sal .sal_num_segments))
        - gs.cur 0 (before + st (e.sal .sal_num_segments))) 4096 ≠ 0) :
    GReaches e
      ⟨bef, SerifAction.serif_link1.code ++ rest, frames,
        ⟨before :: edge :: after :: s, st, cv⟩, gs⟩
      ⟨SerifAction.serif_link1.code.reverse ++ bef, rest, frames, ⟨edge :: s, st, cv⟩,
        serif_link1_result e st gs before edge after⟩ := by
  simp only [SerifAction.code, SerifAction.array, fpgm_bci_action_serif_link1,
    List.drop_succ_cons, List.drop_zero, List.dropLast, List.cons_append, List.nil_append,
    List.reverse_cons, List.reverse_nil, List.append_assoc]
  iterate 15 (refine GReaches.step rfl ?_; dsimp only)
  refine GReaches.branch_truth rfl (fun h => ?_) (fun h => ?_)
  · have hc : gs.cur 0 (after + st (e.sal .sal_num_segments))
        - gs.cur 0 (before + st (e.sal .sal_num_segments)) = 0 := h
    iterate 6 (refine GReaches.step rfl ?_; dsimp only)
    refine (GReaches.refl _).of_eq ?_
    unfold serif_link1_result
    rw [if_pos hc]
    rfl
  · have hc : gs.cur 0 (after + st (e.sal .sal_num_segments))
        - gs.cur 0 (before + st (e.sal .sal_num_segments)) ≠ 0 := h
    iterate 32 (refine GReaches.step rfl ?_; dsimp only)
    refine GReaches.step (gstep_div (hdiv hc)) ?_
    iterate 11 (refine GReaches.step rfl ?_; dsimp only)
    refine (GReaches.refl _).of_eq ?_
    unfold serif_link1_result
    rw [if_neg hc]
    rfl
/-- The rounds of the `LOOPCALL` of `bci_align_segments`: with `k` more
rounds to come behind the current one, the `k + 1` segments on the stack are
aligned and the run goes on behind the `LOOPCALL`. -/
theorem align_segment_rounds {e : Engine}
    (hseg : e.fdefs (e.bci .bci_align_segment) = some fpgm_bci_align_segment)
    (bef rest : List Byte) (frames : List GFrame) (s : List Int) (st cv : Int → Int) :
    ∀ (k : Nat) (seg : Int) (segs : List Int) (gs : GS), segs.length = k →
      GReaches e
        (genter fpgm_bci_align_segment (⟨bef, rest, e.bci .bci_align_segment, k⟩ :: frames)
          ⟨seg :: (segs ++ s), st, cv⟩ (gs.entered (e.bci .bci_align_segment)))
        ⟨bef, rest, frames, ⟨s, st, cv⟩, aligned_segments e st gs (seg :: segs)⟩ := by
  intro k
  induction k with
  | zero =>
    intro seg segs gs hl
    obtain rfl : segs = [] := List.length_eq_zero.1 hl
    refine (align_segment_body e _ seg _ st cv _).chain ?_
    exact GReaches.step rfl (GReaches.refl _)
  | succ k ih =>
    intro seg segs gs hl
    obtain ⟨seg1, segs1, rfl⟩ : ∃ a l, segs = a :: l := by
      cases segs with
      | nil => cases hl
      | cons a l => exact ⟨a, l, rfl⟩
    refine (align_segment_body e _ seg _ st cv _).chain ?_
    refine GReaches.step (by simp only [gstep, gexec, hseg]; rfl) ?_
    exact ih seg1 segs1 _ (by simpa using hl)

/-- The last bytes of a serif action, from `MDAP_noround` to `ENDF`: with the
point `edge`, a first segment, and the number and the list of further
segments on the stack. -/
theorem action_tail_runs {e : Engine}
    (hsegs : e.fdefs (e.bci .bci_align_segments) = some fpgm_bci_align_segments)
    (hseg : e.fdefs (e.bci .bci_align_segment) = some fpgm_bci_align_segment)
    (bef : List Byte) (frames : List GFrame) (edge seg : Int) (segs s : List Int)
    (st cv : Int → Int) (gs : GS) :
    GReaches e
      ⟨bef, action_tail, frames, ⟨edge :: seg :: (segs.length : Int) :: (segs ++ s), st, cv⟩, gs⟩
      ⟨action_tail.dropLast.reverse ++ bef, [Byte.ENDF], frames, ⟨s, st, cv⟩,
        tail_result e st gs edge (seg :: segs)⟩ := by
  simp only [action_tail, fpgm_bci_action_serif, List.drop_succ_cons, List.drop_zero,
    List.dropLast, List.reverse_cons, List.reverse_nil, List.cons_append, List.nil_append,
    List.append_assoc]
  iterate 3 (refine GReaches.step rfl ?_; dsimp only)
  refine GReaches.step (by simp only [gstep, gexec, hsegs]; rfl) ?_
  rw [fpgm_bci_align_segments, genter_cons]
  refine GReaches.step rfl ?_
  dsimp only
  refine GReaches.step (by simp only [gstep, gexec, hseg]; rfl) ?_
  refine (align_segment_body e _ seg _ st cv _).chain ?_
  refine GReaches.step rfl ?_
  dsimp only
  refine GReaches.step rfl ?_
  dsimp only
  cases segs with
  | nil =>
    refine GReaches.step rfl ?_
    dsimp only
    refine GReaches.step rfl ?_
    exact (GReaches.refl _).of_eq rfl
  | cons seg1 segs1 =>
    have h := align_segment_rounds hseg
      [Byte.LOOPCALL, Byte.bci .bci_align_segment, Byte.PUSHB_1, Byte.CALL,
        Byte.bci .bci_align_segment, Byte.PUSHB_1, Byte.FDEF, Byte.bci .bci_align_segments,
        Byte.PUSHB_1]
      [Byte.ENDF]
      (⟨Byte.CALL :: Byte.SZP1 :: Byte.num 1 :: Byte.bci .bci_align_segments :: Byte.PUSHB_2
          :: Byte.MDAP_noround :: bef, [Byte.ENDF], e.bci .bci_align_segments, 0⟩ :: frames)
      s st cv segs1.length seg1 segs1
      (((((gs.mdap edge).szp1 1).entered (e.bci .bci_align_segments)).entered
        (e.bci .bci_align_segment)).aligned (segment_first e st seg) (segment_last e st seg))
      rfl
    refine GReaches.step (?_ : _ = GStep.next _) (h.chain ?_)
    · simp only [gstep, gexec, value, hseg, List.length_cons, Nat.cast_add, Nat.cast_one]
      have hk : ((segs1.length : Int) + 1).toNat = segs1.length + 1 := by omega
      simp only [hk]
      rfl
    · refine GReaches.step rfl ?_
      exact (GReaches.refl _).of_eq rfl
/-- The computation of the position of a serif action, in any variant of
it. -/
theorem result_code_runs (a : SerifAction) (e : Engine) (bef rest : List Byte)
    (frames : List GFrame) (stack : List Int) (st cv : Int → Int) (gs : GS) (edge : Int)
    (s1 : List Int) (st1 : Int → Int) (Y : GS)
    (h : a.result e st gs stack = some (edge, s1, st1, Y)) :
    GReaches e ⟨bef, a.code ++ rest, frames, ⟨stack, st, cv⟩, gs⟩
      ⟨a.code.reverse ++ bef, rest, frames, ⟨edge :: s1, st1, cv⟩, Y⟩ := by
  cases a with
  | serif =>
    match stack, h with
    | p :: q :: s, h =>
      simp only [SerifAction.result, Option.some.injEq, Prod.mk.injEq] at h
      obtain ⟨rfl, rfl, rfl, rfl⟩ := h
      exact serif_code_runs e bef rest frames _ _ _ st cv gs
  | serif_anchor =>
    match stack, h with
    | p :: s, h =>
      simp only [SerifAction.result, Option.some.injEq, Prod.mk.injEq] at h
      obtain ⟨rfl, rfl, rfl, rfl⟩ := h
      exact serif_anchor_code_runs e bef rest frames _ _ st cv gs
  | serif_link1 =>
    match stack, h with
    | p :: q :: r :: s, h =>
      simp only [SerifAction.result] at h
      split_ifs at h with hc
      simp only [Option.some.injEq, Prod.mk.injEq] at h
      obtain ⟨rfl, rfl, rfl, rfl⟩ := h
      exact serif_link1_code_runs e bef rest frames _ _ _ _ st cv gs
        (fun h1 h2 => hc ⟨h1, h2⟩)
  | serif_link2 =>
    match stack, h with
    | p :: s, h =>
      simp only [SerifAction.result, Option.some.injEq, Prod.mk.injEq] at h
      obtain ⟨rfl, rfl, rfl, rfl⟩ := h
      exact serif_link2_code_runs e bef rest frames _ _ st cv gs

/-- The checks of a variant. -/
theorem checks_run (b : Bounds) (e : Engine) (bef rest : List Byte) (frames : List GFrame)
    (edge : Int) (s1 : List Int) (st cv : Int → Int) (Y Y1 : GS) (s2 : List Int)
    (h : b.apply Y edge s1 = some (Y1, s2)) :
    GReaches e ⟨bef, b.checks ++ rest, frames, ⟨edge :: s1, st, cv⟩, Y⟩
      ⟨b.checks.reverse ++ bef, rest, frames, ⟨edge :: s2, st, cv⟩, Y1⟩ := by
  cases b with
  | unbounded =>
    simp only [Bounds.apply, Option.some.injEq, Prod.mk.injEq] at h
    obtain ⟨rfl, rfl⟩ := h
    exact GReaches.refl _
  | lower =>
    match s1, h with
    | lo :: s, h =>
      simp only [Bounds.apply, Option.some.injEq, Prod.mk.injEq] at h
      obtain ⟨rfl, rfl⟩ := h
      exact lower_bound_check_runs e bef rest frames edge lo _ st cv Y
  | upper =>
    match s1, h with
    | hi :: s, h =>
      simp only [Bounds.apply, Option.some.injEq, Prod.mk.injEq] at h
      obtain ⟨rfl, rfl⟩ := h
      exact upper_bound_check_runs e bef rest frames edge hi _ st cv Y
  | lower_upper =>
    match s1, h with
    | lo :: hi :: s, h =>
      simp only [Bounds.apply, Option.some.injEq, Prod.mk.injEq] at h
      obtain ⟨rfl, rfl⟩ := h
      have h1 := lower_bound_check_runs e bef (upper_bound_check ++ rest) frames edge lo
        (hi :: s) st cv Y
      have h2 := upper_bound_check_runs e (lower_bound_check.reverse ++ bef) rest frames edge hi
        s st cv (Y.lower_bound edge lo)
      refine (h1.of_eqs ?_ rfl).chain (h2.of_eqs rfl ?_)
      · simp only [Bounds.checks, List.append_assoc]
      · simp only [Bounds.checks, List.reverse_append, List.append_assoc]

/-- A serif action in a variant, from its entry to its last seven bytes. -/
theorem serif_action_to_tail (a : SerifAction) (b : Bounds) (e : Engine)
    (frames : List GFrame) (stack : List Int) (st cv : Int → Int) (gs : GS) (edge : Int)
    (s1 : List Int) (st1 : Int → Int) (Y Y1 : GS) (s2 : List Int)
    (h : a.result e st gs stack = some (edge, s1, st1, Y))
    (hb : b.apply Y edge s1 = some (Y1, s2)) :
    GReaches e (genter (a.array b) frames ⟨stack, st, cv⟩ gs)
      ⟨b.checks.reverse ++ (a.code.reverse ++ [Byte.FDEF, Byte.bci (a.fn b), Byte.PUSHB_1]),
        action_tail, frames, ⟨edge :: s2, st1, cv⟩, Y1⟩ := by
  rw [serif_actions_shape a b]
  exact (result_code_runs a e _ _ frames stack st cv gs edge s1 st1 Y h).chain
    (checks_run b e _ _ frames edge s1 st1 cv Y Y1 s2 hb)

/-- The function `bci_align_segment` changes no coordinate outside `zp1`. -/
theorem aligned_segments_cur (e : Engine) (st : Int → Int) (segs : List Int) :
    ∀ (gs : GS) (z : Int), z ≠ gs.zp1 →
      (aligned_segments e st gs segs).zp1 = gs.zp1
      ∧ ∀ p, (aligned_segments e st gs segs).cur z p = gs.cur z p := by
  induction segs with
  | nil => exact fun gs z _ => ⟨rfl, fun _ => rfl⟩
  | cons seg segs ih =>
    intro gs z hz
    obtain ⟨h1, h2⟩ := ih ((gs.entered (e.bci .bci_align_segment)).aligned
      (segment_first e st seg) (segment_last e st seg)) z hz
    refine ⟨h1, fun p => ?_⟩
    rw [aligned_segments, h2 p]
    simp only [GS.aligned, GS.entered]
    rw [if_neg]
    intro h
    exact hz h.1

/-- The last bytes of a serif action change no coordinate of the twilight
zone. -/
theorem tail_result_cur (e : Engine) (st : Int → Int) (gs : GS) (edge : Int) (segs : List Int)
    (p : Int) : (tail_result e st gs edge segs).cur 0 p = gs.cur 0 p :=
  (aligned_segments_cur e st segs _ 0 (by simp [GS.entered, GS.szp1])).2 p

/-- The zone pointers behind the computation of the position are 0. -/
theorem result_zones {a : SerifAction} {e : Engine} {st : Int → Int} {gs : GS}
    {stack : List Int} {edge : Int} {s1 : List Int} {st1 : Int → Int} {Y : GS}
    (h : a.result e st gs stack = some (edge, s1, st1, Y)) :
    Y.zp0 = 0 ∧ Y.zp1 = 0 ∧ Y.zp2 = 0 := by
  cases a with
  | serif =>
    match stack, h with
    | p :: q :: s, h =>
      simp only [SerifAction.result, Option.some.injEq, Prod.mk.injEq] at h
      obtain ⟨rfl, rfl, rfl, rfl⟩ := h
      exact ⟨rfl, rfl, rfl⟩
  | serif_anchor =>
    match stack, h with
    | p :: s, h =>
      simp only [SerifAction.result, Option.some.injEq, Prod.mk.injEq] at h
      obtain ⟨rfl, rfl, rfl, rfl⟩ := h
      exact ⟨rfl, rfl, rfl⟩
  | serif_link1 =>
    match stack, h with
    | p :: q :: r :: s, h =>
      simp only [SerifAction.result] at h
      split_ifs at h with hc
      simp only [Option.some.injEq, Prod.mk.injEq] at h
      obtain ⟨rfl, rfl, rfl, rfl⟩ := h
      unfold serif_link1_result
      split_ifs <;> exact ⟨rfl, rfl, rfl⟩
  | serif_link2 =>
    match stack, h with
    | p :: s, h =>
      simp only [SerifAction.result, Option.some.injEq, Prod.mk.injEq] at h
      obtain ⟨rfl, rfl, rfl, rfl⟩ := h
      exact ⟨rfl, rfl, rfl⟩

/-- The check of the lower bound in the twilight zone: the coordinate of
`edge` is the greater one of its coordinate and the one of the bound; the
other coordinates and the zone pointers stay. -/
theorem lower_bound_cur (gs : GS) (edge lo : Int) (h0 : gs.zp0 = 0) (h1 : gs.zp1 = 0)
    (h2 : gs.zp2 = 0) :
    (gs.lower_bound edge lo).cur 0 edge = max (gs.cur 0 edge) (gs.cur 0 lo)
    ∧ (∀ z p, ¬ (z = 0 ∧ p = edge) → (gs.lower_bound edge lo).cur z p = gs.cur z p)
    ∧ (gs.lower_bound edge lo).zp0 = 0 ∧ (gs.lower_bound edge lo).zp1 = 0
    ∧ (gs.lower_bound edge lo).zp2 = 0 := by
  obtain ⟨zp0, zp1, zp2, rp0, rp1, rp2, round, cur, org, log⟩ := gs
  simp only at h0 h1 h2
  subst h0 h1 h2
  simp only [GS.lower_bound, GS.mdap, GS.alignrp]
  split_ifs with h
  · refine ⟨?_, fun z p hzp => ?_, rfl, rfl, rfl⟩
    · simp only [move, and_self, if_true]
      exact (max_eq_right (le_of_lt h)).symm
    · simp only [move, if_neg hzp]
  · exact ⟨(max_eq_left (not_lt.1 h)).symm, fun _ _ _ => rfl, rfl, rfl, rfl⟩

/-- The check of the upper bound in the twilight zone. -/
theorem upper_bound_cur (gs : GS) (edge hi : Int) (h0 : gs.zp0 = 0) (h1 : gs.zp1 = 0)
    (h2 : gs.zp2 = 0) :
    (gs.upper_bound edge hi).cur 0 edge = min (gs.cur 0 edge) (gs.cur 0 hi)
    ∧ (∀ z p, ¬ (z = 0 ∧ p = edge) → (gs.upper_bound edge hi).cur z p = gs.cur z p)
    ∧ (gs.upper_bound edge hi).zp0 = 0 ∧ (gs.upper_bound edge hi).zp1 = 0
    ∧ (gs.upper_bound edge hi).zp2 = 0 := by
  obtain ⟨zp0, zp1, zp2, rp0, rp1, rp2, round, cur, org, log⟩ := gs
  simp only at h0 h1 h2
  subst h0 h1 h2
  simp only [GS.upper_bound, GS.mdap, GS.alignrp]
  split_ifs with h
  · refine ⟨?_, fun z p hzp => ?_, rfl, rfl, rfl⟩
    · simp only [move, and_self, if_true]
      exact (min_eq_right (le_of_lt h)).symm
    · simp only [move, if_neg hzp]
  · exact ⟨(min_eq_left (not_lt.1 h)).symm, fun _ _ _ => rfl, rfl, rfl, rfl⟩
/-- The bytes of a serif action in front of its `ENDF`, latest first. -/
theorem serif_action_before (a : SerifAction) (b : Bounds) :
    action_tail.dropLast.reverse
        ++ (b.checks.reverse ++ (a.code.reverse ++ [Byte.FDEF, Byte.bci (a.fn b), Byte.PUSHB_1]))
      = (a.array b).dropLast.reverse := by
  cases a <;> cases b <;> rfl

/-- A serif action in a variant, from its entry to its `ENDF`. -/
theorem serif_action_body {e : Engine}
    (hsegs : e.fdefs (e.bci .bci_align_segments) = some fpgm_bci_align_segments)
    (hseg : e.fdefs (e.bci .bci_align_segment) = some fpgm_bci_align_segment)
    (a : SerifAction) (b : Bounds) (frames : List GFrame) (stack : List Int)
    (st cv : Int → Int) (gs : GS) (edge : Int) (s1 : List Int) (st1 : Int → Int) (Y Y1 : GS)
    (seg : Int) (segs s : List Int)
    (h : a.result e st gs stack = some (edge, s1, st1, Y))
    (hb : b.apply Y edge s1 = some (Y1, seg :: (segs.length : Int) :: (segs ++ s))) :
    GReaches e (genter (a.array b) frames ⟨stack, st, cv⟩ gs)
      ⟨(a.array b).dropLast.reverse, [Byte.ENDF], frames, ⟨s, st1, cv⟩,
        tail_result e st1 Y1 edge (seg :: segs)⟩ := by
  rw [← serif_action_before a b]
  exact (serif_action_to_tail a b e frames stack st cv gs edge s1 st1 Y Y1 _ h hb).chain
    (action_tail_runs hsegs hseg _ frames edge seg segs s st1 cv Y1)

/-- Claim C21.  Let the function table hold `bci_align_segments` and
`bci_align_segment`, and let `Y` be the graphics state that the computation
of a serif action without bound (`bci_action_serif`,
`bci_action_serif_anchor`, `bci_action_serif_link1`,
`bci_action_serif_link2`) leaves for the point `edge`; `p` is the coordinate
of `edge` in `Y`.  Every variant of the action runs from its entry to its
`ENDF` (and ends the run when it is the outermost function): the action
without bound leaves the twilight zone as in `Y`, the variant with the lower
bound as in `Y.lower_bound edge lo`, the variant with the upper bound as in
`Y.upper_bound edge hi`, the variant with both as after the lower and then
the upper check, since the last bytes move no point of the twilight zone.
Behind the lower check the coordinate of `edge` is `max p pos(lo)`, which
is not less than the coordinate of `lo`; behind the upper check it is
`min p pos(hi)`, not greater than the coordinate of `hi`; behind both it is
`min (max p pos(lo)) pos(hi)`.  When no bound is violated, every coordinate
is as in `Y`. -/
theorem serif_bounds_clamp {e : Engine}
    (hsegs : e.fdefs (e.bci .bci_align_segments) = some fpgm_bci_align_segments)
    (hseg : e.fdefs (e.bci .bci_align_segment) = some fpgm_bci_align_segment)
    (a : SerifAction) (stack : List Int) (st cv : Int → Int) (gs : GS) (edge : Int)
    (s1 : List Int) (st1 : Int → Int) (Y : GS)
    (h : a.result e st gs stack = some (edge, s1, st1, Y)) :
    (∀ (b : Bounds) (Y1 : GS) (seg : Int) (segs s : List Int),
      b.apply Y edge s1 = some (Y1, seg :: (segs.length : Int) :: (segs ++ s)) →
      (∀ frames : List GFrame,
        GReaches e (genter (a.array b) frames ⟨stack, st, cv⟩ gs)
          ⟨(a.array b).dropLast.reverse, [Byte.ENDF], frames, ⟨s, st1, cv⟩,
            tail_result e st1 Y1 edge (seg :: segs)⟩)
      ∧ (∃ K, ∀ fuel, K ≤ fuel →
          grun e fuel (genter (a.array b) [] ⟨stack, st, cv⟩ gs)
            = some (⟨s, st1, cv⟩, tail_result e st1 Y1 edge (seg :: segs)))
      ∧ ∀ p, (tail_result e st1 Y1 edge (seg :: segs)).cur 0 p = Y1.cur 0 p)
    ∧ Bounds.unbounded.apply Y edge s1 = some (Y, s1)
    ∧ (∀ lo s, Bounds.lower.apply Y edge (lo :: s) = some (Y.lower_bound edge lo, s))
    ∧ (∀ hi s, Bounds.upper.apply Y edge (hi :: s) = some (Y.upper_bound edge hi, s))
    ∧ (∀ lo hi s, Bounds.lower_upper.apply Y edge (lo :: hi :: s)
        = some ((Y.lower_bound edge lo).upper_bound edge hi, s))
    ∧ (∀ lo,
        (Y.lower_bound edge lo).cur 0 edge = max (Y.cur 0 edge) (Y.cur 0 lo)
        ∧ (Y.lower_bound edge lo).cur 0 lo ≤ (Y.lower_bound edge lo).cur 0 edge
        ∧ (Y.cur 0 lo ≤ Y.cur 0 edge → (Y.lower_bound edge lo).cur = Y.cur))
    ∧ (∀ hi,
        (Y.upper_bound edge hi).cur 0 edge = min (Y.cur 0 edge) (Y.cur 0 hi)
        ∧ (Y.upper_bound edge hi).cur 0 edge ≤ (Y.upper_bound edge hi).cur 0 hi
        ∧ (Y.cur 0 edge ≤ Y.cur 0 hi → (Y.upper_bound edge hi).cur = Y.cur))
    ∧ (∀ lo hi,
        ((Y.lower_bound edge lo).upper_bound edge hi).cur 0 edge
          = min (max (Y.cur 0 edge) (Y.cur 0 lo)) ((Y.lower_bound edge lo).cur 0 hi)
        ∧ (hi ≠ edge → (Y.lower_bound edge lo).cur 0 hi = Y.cur 0 hi)
        ∧ (Y.cur 0 lo ≤ Y.cur 0 edge → Y.cur 0 edge ≤ Y.cur 0 hi →
            ((Y.lower_bound edge lo).upper_bound edge hi).cur = Y.cur)) := by
  obtain ⟨h0, h1, h2⟩ := result_zones h
  have hlow := fun lo => lower_bound_cur Y edge lo h0 h1 h2
  have hupp := fun hi => upper_bound_cur Y edge hi h0 h1 h2
  have hlow_same : ∀ lo, Y.cur 0 lo ≤ Y.cur 0 edge → (Y.lower_bound edge lo).cur = Y.cur := by
    intro lo hle
    funext z p
    by_cases hzp : z = 0 ∧ p = edge
    · rw [hzp.1, hzp.2, (hlow lo).1, max_eq_left hle]
    · exact (hlow lo).2.1 z p hzp
  have hupp_same : ∀ hi, Y.cur 0 edge ≤ Y.cur 0 hi → (Y.upper_bound edge hi).cur = Y.cur := by
    intro hi hle
    funext z p
    by_cases hzp : z = 0 ∧ p = edge
    · rw [hzp.1, hzp.2, (hupp hi).1, min_eq_left hle]
    · exact (hupp hi).2.1 z p hzp
  refine ⟨?_, rfl, fun _ _ => rfl, fun _ _ => rfl, fun _ _ _ => rfl, ?_, ?_, ?_⟩
  · intro b Y1 seg segs s hb
    refine ⟨fun frames =>
        serif_action_body hsegs hseg a b frames stack st cv gs edge s1 st1 Y Y1 seg segs s h hb,
      grun_of_reaches
        (serif_action_body hsegs hseg a b [] stack st cv gs edge s1 st1 Y Y1 seg segs s h hb) rfl,
      fun p => ?_⟩
    rw [tail_result_cur]
  · intro lo
    refine ⟨(hlow lo).1, ?_, hlow_same lo⟩
    by_cases hle : lo = edge
    · rw [hle]
    · rw [(hlow lo).1, (hlow lo).2.1 0 lo (fun hh => hle hh.2)]
      exact le_max_right _ _
  · intro hi
    refine ⟨(hupp hi).1, ?_, hupp_same hi⟩
    by_cases hle : hi = edge
    · rw [hle]
    · rw [(hupp hi).1, (hupp hi).2.1 0 hi (fun hh => hle hh.2)]
      exact min_le_right _ _
  · intro lo hi
    obtain ⟨hl1, hl2, hz0, hz1, hz2⟩ := hlow lo
    obtain ⟨hu1, hu2, -⟩ := upper_bound_cur (Y.lower_bound edge lo) edge hi hz0 hz1 hz2
    refine ⟨by rw [hu1, hl1], fun hne => hl2 0 hi (fun hh => hne hh.2), fun hle1 hle2 => ?_⟩
    funext z p
    by_cases hzp : z = 0 ∧ p = edge
    · rw [hzp.1, hzp.2, hu1, hl1, max_eq_left hle1]
      by_cases hhe : hi = edge
      · rw [hhe, hl1, max_eq_left hle1, min_self]
      · rw [hl2 0 hi (fun hh => hhe hh.2), min_eq_left hle2]
    · rw [hu2 z p hzp, hl2 z p hzp]

/-! ## The segments -/

/-- The body of `bci_get_point_extrema`, from its entry to its `ENDF`. -/
theorem get_point_extrema_body (e : Engine) (frames : List GFrame) (p : Int) (s : List Int)
    (st cv : Int → Int) (gs : GS) :
    GReaches e (genter fpgm_bci_get_point_extrema frames ⟨p :: s, st, cv⟩ gs)
      ⟨fpgm_bci_get_point_extrema.dropLast.reverse, [Byte.ENDF], frames,
        ⟨(p + 1) :: s, extrema_step e (gs.org gs.zp0) (gs.org gs.zp1) st (p + 1), cv⟩, gs⟩ := by
  rw [fpgm_bci_get_point_extrema, genter_cons]
  iterate 9 (refine GReaches.step rfl ?_; dsimp only)
  unfold extrema_step
  refine GReaches.branch_truth rfl (fun h1 => ?_) (fun h1 => ?_)
  · iterate 10 (refine GReaches.step rfl ?_; dsimp only)
    refine GReaches.branch_truth rfl (fun h2 => ?_) (fun h2 => ?_)
    · iterate 5 (refine GReaches.step rfl ?_; dsimp only)
      refine (GReaches.refl _).of_eq ?_
      have h1a : gs.org gs.zp0 (p + 1) - gs.org gs.zp1 (st (e.sal .sal_point_min)) < 0 := h1
      simp only [if_pos h1a]
      have h2a : gs.org gs.zp0 (p + 1)
          - gs.org gs.zp1 (update st (e.sal .sal_point_min) (p + 1) (e.sal .sal_point_max))
            > 0 := h2
      rw [if_pos h2a]
      rfl
    · refine (GReaches.refl _).of_eq ?_
      have h1a : gs.org gs.zp0 (p + 1) - gs.org gs.zp1 (st (e.sal .sal_point_min)) < 0 := h1
      simp only [if_pos h1a]
      have h2a : ¬ gs.org gs.zp0 (p + 1)
          - gs.org gs.zp1 (update st (e.sal .sal_point_min) (p + 1) (e.sal .sal_point_max))
            > 0 := h2
      rw [if_neg h2a]
      rfl
  · iterate 5 (refine GReaches.step rfl ?_; dsimp only)
    refine GReaches.branch_truth rfl (fun h2 => ?_) (fun h2 => ?_)
    · iterate 5 (refine GReaches.step rfl ?_; dsimp only)
      refine (GReaches.refl _).of_eq ?_
      have h1a : ¬ gs.org gs.zp0 (p + 1) - gs.org gs.zp1 (st (e.sal .sal_point_min)) < 0 := h1
      simp only [if_neg h1a]
      have h2a : gs.org gs.zp0 (p + 1) - gs.org gs.zp1 (st (e.sal .sal_point_max)) > 0 := h2
      rw [if_pos h2a]
      rfl
    · refine (GReaches.refl _).of_eq ?_
      have h1a : ¬ gs.org gs.zp0 (p + 1) - gs.org gs.zp1 (st (e.sal .sal_point_min)) < 0 := h1
      simp only [if_neg h1a]
      have h2a : ¬ gs.org gs.zp0 (p + 1) - gs.org gs.zp1 (st (e.sal .sal_point_max)) > 0 := h2
      rw [if_neg h2a]
      rfl

/-- The rounds of a `LOOPCALL` of `bci_get_point_extrema`: with `k` more
rounds to come behind the current one. -/
theorem extrema_rounds {e : Engine}
    (hx : e.fdefs (e.bci .bci_get_point_extrema) = some fpgm_bci_get_point_extrema)
    (bef rest : List Byte) (frames : List GFrame) (s : List Int) (cv : Int → Int) :
    ∀ (k : Nat) (p : Int) (st : Int → Int) (gs : GS),
      GReaches e
        (genter fpgm_bci_get_point_extrema
          (⟨bef, rest, e.bci .bci_get_point_extrema, k⟩ :: frames) ⟨p :: s, st, cv⟩
          (gs.entered (e.bci .bci_get_point_extrema)))
        ⟨bef, rest, frames,
          ⟨(p + (k + 1 : Nat)) :: s, extrema e (gs.org gs.zp0) (gs.org gs.zp1) (k + 1) p st, cv⟩,
          gs.entered_times (e.bci .bci_get_point_extrema) (k + 1)⟩ := by
  intro k
  induction k with
  | zero =>
    intro p st gs
    refine (get_point_extrema_body e _ p s st cv _).chain ?_
    refine GReaches.step rfl ((GReaches.refl _).of_eq ?_)
    simp only [extrema, Nat.cast_one, zero_add]
    rfl
  | succ k ih =>
    intro p st gs
    refine (get_point_extrema_body e _ p s st cv _).chain ?_
    refine GReaches.step (by simp only [gstep, gexec, hx]; rfl) ?_
    refine (ih (p + 1) _ (gs.entered (e.bci .bci_get_point_extrema))).of_eqs rfl ?_
    have hp : p + 1 + ((k + 1 : Nat) : Int) = p + ((k + 1 + 1 : Nat) : Int) := by
      push_cast
      ring
    have hl : (gs.entered (e.bci .bci_get_point_extrema)).entered_times
        (e.bci .bci_get_point_extrema) (k + 1)
        = gs.entered_times (e.bci .bci_get_point_extrema) (k + 1 + 1) := by
      simp only [GS.entered_times, GS.entered, List.replicate_succ' (k + 1), List.append_assoc,
        List.singleton_append]
    rw [hp, hl]
    rfl

/-- A `LOOPCALL` of `bci_get_point_extrema` with the count `c` above the
point `p`: the extrema are taken over the points `p + 1`, ..., `p + c`, and
`p + c` is left on the stack. -/
theorem loopcall_extrema {e : Engine}
    (hx : e.fdefs (e.bci .bci_get_point_extrema) = some fpgm_bci_get_point_extrema)
    (bef rest : List Byte) (frames : List GFrame) (c p : Int) (s : List Int)
    (st cv : Int → Int) (gs : GS) :
    GReaches e
      ⟨bef, Byte.LOOPCALL :: rest, frames,
        ⟨(e.bci .bci_get_point_extrema : Int) :: c :: p :: s, st, cv⟩, gs⟩
      ⟨Byte.LOOPCALL :: bef, rest, frames,
        ⟨(p + (c.toNat : Int)) :: s, extrema e (gs.org gs.zp0) (gs.org gs.zp1) c.toNat p st, cv⟩,
        gs.entered_times (e.bci .bci_get_point_extrema) c.toNat⟩ := by
  cases hc : c.toNat with
  | zero =>
    have h1 : gstep e ⟨bef, Byte.LOOPCALL :: rest, frames,
          ⟨(e.bci .bci_get_point_extrema : Int) :: c :: p :: s, st, cv⟩, gs⟩
        = .next ⟨Byte.LOOPCALL :: bef, rest, frames, ⟨p :: s, st, cv⟩, gs⟩ := by
      simp only [gstep, gexec, hc]
    refine GReaches.step h1 ((GReaches.refl _).of_eq ?_)
    simp [extrema, GS.entered_times]
  | succ k =>
    refine GReaches.step (?_ : _ = GStep.next _) (extrema_rounds hx _ _ frames s cv k p st gs)
    simp only [gstep, gexec, hc, hx]
    rfl
theorem entered_times_add (gs : GS) (f : Int) (m n : Nat) :
    (gs.entered_times f m).entered_times f n = gs.entered_times f (m + n) := by
  simp only [GS.entered_times, Nat.add_comm m n, List.replicate_add, List.append_assoc]

/-- The body of `bci_create_segment`, from its entry to its `ENDF`, unless it
divides by zero. -/
theorem create_segment_body {e : Engine}
    (hx : e.fdefs (e.bci .bci_get_point_extrema) = some fpgm_bci_get_point_extrema)
    (frames : List GFrame) (g : Segment) (s : List Int) (st cv : Int → Int) (gs : GS)
    (h0 : segment_extrema e (gs.org 1) st g (e.sal .sal_0x10000) ≠ 0) :
    GReaches e (genter fpgm_bci_create_segment frames ⟨g.args ++ s, st, cv⟩ gs)
      ⟨fpgm_bci_create_segment.dropLast.reverse, [Byte.ENDF], frames,
        ⟨s, created_storage e (gs.org 1) st g, cv⟩, created_gs e st gs g⟩ := by
  obtain ⟨start, end_, last, first⟩ := g
  by_cases hw : end_ < start
  · simp only [Segment.args, if_pos hw, List.cons_append, List.nil_append]
    rw [fpgm_bci_create_segment, genter_cons]
    iterate 22 (refine GReaches.step rfl ?_; dsimp only)
    refine GReaches.step (gstep_if_pos ((truth_ne_zero _).2 hw)) ?_
    iterate 12 (refine GReaches.step rfl ?_; dsimp only)
    refine (loopcall_extrema hx _ _ frames _ _ _ _ cv _).chain ?_
    iterate 9 (refine GReaches.step rfl ?_; dsimp only)
    refine (loopcall_extrema hx _ _ frames _ _ _ _ cv _).chain ?_
    simp only [segment_extrema, if_pos hw, segment_recorded, Segment.recorded_last,
      segment_head] at h0
    iterate 10 (refine GReaches.step rfl ?_; dsimp only)
    iterate 6 (refine GReaches.step rfl ?_; dsimp only)
    refine GReaches.step (gstep_div h0) ?_
    iterate 25 (refine GReaches.step rfl ?_; dsimp only)
    refine (GReaches.refl _).of_eq ?_
    simp only [created_storage, created_gs, segment_extrema, Segment.extrema_calls,
      segment_recorded, Segment.recorded_last, segment_head, segment_middle, if_pos hw,
      ← entered_times_add]
    rfl
  · simp only [Segment.args, if_neg hw, List.cons_append, List.nil_append]
    rw [fpgm_bci_create_segment, genter_cons]
    iterate 22 (refine GReaches.step rfl ?_; dsimp only)
    refine GReaches.step (gstep_if_neg ((truth_eq_zero _).2 hw) rfl) ?_
    iterate 9 (refine GReaches.step rfl ?_; dsimp only)
    refine (loopcall_extrema hx _ _ frames _ _ _ _ cv _).chain ?_
    simp only [segment_extrema, if_neg hw, segment_recorded, Segment.recorded_last,
      segment_head] at h0
    iterate 10 (refine GReaches.step rfl ?_; dsimp only)
    iterate 6 (refine GReaches.step rfl ?_; dsimp only)
    refine GReaches.step (gstep_div h0) ?_
    iterate 25 (refine GReaches.step rfl ?_; dsimp only)
    refine (GReaches.refl _).of_eq ?_
    simp only [created_storage, created_gs, segment_extrema, Segment.extrema_calls,
      segment_recorded, Segment.recorded_last, segment_head, segment_middle, if_neg hw]
    rfl
/-- The loop of `bci_loop` with the function `bci_create_segment`, from the
test of `sal_i` to the `ENDF`. -/
theorem create_segment_loop {e : Engine}
    (hx : e.fdefs (e.bci .bci_get_point_extrema) = some fpgm_bci_get_point_extrema)
    (hc : e.fdefs (e.bci .bci_create_segment) = some fpgm_bci_create_segment)
    (frames : List GFrame) (s : List Int) (cv : Int → Int) :
    ∀ (segs : List Segment) (st : Int → Int) (gs : GS), loop_ok e (st, gs) segs →
      GReaches e
        ⟨(fpgm_bci_loop.take 15).reverse, fpgm_bci_loop.drop 15, frames,
          ⟨segments_args segs ++ s, st, cv⟩, gs⟩
        ⟨fpgm_bci_loop.dropLast.reverse, [Byte.ENDF], frames,
          ⟨s, (segs.foldl (loop_step e) (st, gs)).1, cv⟩,
          (segs.foldl (loop_step e) (st, gs)).2⟩ := by
  intro segs
  induction segs with
  | nil =>
    intro st gs hok
    have hgt : ¬ st (e.sal .sal_i) ≤ st (e.sal .sal_limit) := hok
    rw [fpgm_bci_loop]
    iterate 5 (refine GReaches.step rfl ?_; dsimp only)
    refine GReaches.step (gstep_if_neg ((truth_eq_zero _).2 hgt) rfl) ?_
    exact (GReaches.refl _).of_eq rfl
  | cons g segs ih =>
    intro st gs hok
    obtain ⟨hle, hf, h0, hnext⟩ := hok
    have hle : st (e.sal .sal_i) ≤ st (e.sal .sal_limit) := hle
    have hf : st (e.sal .sal_func) = e.bci .bci_create_segment := hf
    have h0 : segment_extrema e (gs.org 1) st g (e.sal .sal_0x10000) ≠ 0 := h0
    have h1 := ih _ _ hnext
    have hb := create_segment_body hx
      (⟨(fpgm_bci_loop.take 27).reverse, fpgm_bci_loop.drop 27, e.bci .bci_create_segment, 0⟩
        :: frames)
      g (segments_args segs ++ s) st cv (gs.entered (e.bci .bci_create_segment)) h0
    refine GReaches.chain (?_ : GReaches e _
      ⟨(fpgm_bci_loop.take 15).reverse, fpgm_bci_loop.drop 15, frames,
        ⟨segments_args segs ++ s, (loop_step e (st, gs) g).1, cv⟩, (loop_step e (st, gs) g).2⟩)
      h1
    have hargs : segments_args (g :: segs) ++ s = g.args ++ (segments_args segs ++ s) := by
      simp only [segments_args, List.append_assoc]
    rw [hargs]
    rw [fpgm_bci_loop]
    iterate 5 (refine GReaches.step rfl ?_; dsimp only)
    refine GReaches.step (gstep_if_pos ((truth_ne_zero _).2 hle)) ?_
    iterate 2 (refine GReaches.step rfl ?_; dsimp only)
    rw [hf]
    refine GReaches.step (by simp only [gstep, gexec, hc]; rfl) ?_
    refine (hb.of_eqs rfl rfl).chain ?_
    iterate 8 (refine GReaches.step rfl ?_; dsimp only)
    exact (GReaches.refl _).of_eq rfl
/-- The body of `bci_create_segments`, from its entry to its `ENDF`, when the
loop runs through. -/
theorem create_segments_body {e : Engine}
    (hl : e.fdefs (e.bci .bci_loop) = some fpgm_bci_loop)
    (hx : e.fdefs (e.bci .bci_get_point_extrema) = some fpgm_bci_get_point_extrema)
    (hc : e.fdefs (e.bci .bci_create_segment) = some fpgm_bci_create_segment)
    (frames : List GFrame) (segs : List Segment) (s : List Int) (st cv : Int → Int) (gs : GS)
    (hok : loop_ok e (segments_start e st gs segs.length) segs) :
    GReaches e
      (genter fpgm_bci_create_segments frames
        ⟨(segs.length : Int) :: (segments_args segs ++ s), st, cv⟩ gs)
      ⟨fpgm_bci_create_segments.dropLast.reverse, [Byte.ENDF], frames,
        ⟨s, (segs.foldl (loop_step e) (segments_start e st gs segs.length)).1, cv⟩,
        (segs.foldl (loop_step e) (segments_start e st gs segs.length)).2⟩ := by
  have h1 := create_segment_loop hx hc
    (⟨(fpgm_bci_create_segments.take 30).reverse, [Byte.ENDF], e.bci .bci_loop, 0⟩ :: frames)
    s cv segs _ _ hok
  rw [fpgm_bci_create_segments, genter_cons]
  iterate 15 (refine GReaches.step rfl ?_; dsimp only)
  refine GReaches.step (by simp only [gstep, gexec, hl]; rfl) ?_
  rw [fpgm_bci_loop, genter_cons]
  iterate 9 (refine GReaches.step rfl ?_; dsimp only)
  refine (h1.of_eqs rfl rfl).chain ?_
  exact GReaches.step rfl ((GReaches.refl _).of_eq rfl)

theorem update_same (f : Int → Int) (k v : Int) : update f k v k = v := by
  simp [update]

theorem update_other (f : Int → Int) (k v : Int) {j : Int} (h : j ≠ k) :
    update f k v j = f j := by
  simp [update, h]

/-- The numbers of two different named cells differ. -/
theorem Slots.ne {e : Engine} (hs : Slots e) {x y : Sal} (h : x ≠ y) :
    (e.sal x : Int) ≠ e.sal y := by
  intro hh
  exact h (hs.inj (by exact_mod_cast hh))

/-- A named cell lies in front of the segments. -/
theorem Slots.lt {e : Engine} (hs : Slots e) {x : Sal} (h : x ≠ .sal_segment_offset) :
    (e.sal x : Int) < e.sal .sal_segment_offset := by
  exact_mod_cast hs.below x h

/-- A call of `bci_get_point_extrema` changes `sal_point_min` and
`sal_point_max` only. -/
theorem extrema_step_other (e : Engine) (o0 o1 st : Int → Int) (p : Int) {c : Int}
    (h1 : c ≠ e.sal .sal_point_min) (h2 : c ≠ e.sal .sal_point_max) :
    extrema_step e o0 o1 st p c = st c := by
  unfold extrema_step
  split_ifs <;> simp [update, h1, h2]

theorem extrema_other (e : Engine) (o0 o1 : Int → Int) {c : Int}
    (h1 : c ≠ e.sal .sal_point_min) (h2 : c ≠ e.sal .sal_point_max) :
    ∀ (n : Nat) (p : Int) (st : Int → Int), extrema e o0 o1 n p st c = st c := by
  intro n
  induction n with
  | zero => exact fun _ _ => rfl
  | succ n ih =>
    intro p st
    rw [extrema, ih, extrema_step_other e o0 o1 st _ h1 h2]

theorem segment_extrema_other (e : Engine) (o st : Int → Int) (g : Segment) {c : Int}
    (h1 : c ≠ e.sal .sal_point_min) (h2 : c ≠ e.sal .sal_point_max) :
    segment_extrema e o st g c = segment_recorded e st g c := by
  unfold segment_extrema
  split_ifs
  · rw [extrema_other e o o h1 h2, extrema_other e o o h1 h2]
  · rw [extrema_other e o o h1 h2]

/-- The cells of the storage area behind the stores of the range. -/
theorem segment_recorded_cells {e : Engine} (hs : Slots e) (st : Int → Int) (g : Segment)
    (hi : (e.sal .sal_segment_offset : Int) ≤ st (e.sal .sal_i)) :
    segment_recorded e st g (e.sal .sal_i) = 1 + st (e.sal .sal_i)
    ∧ segment_recorded e st g (st (e.sal .sal_i)) = g.start
    ∧ segment_recorded e st g (1 + st (e.sal .sal_i)) = g.recorded_last
    ∧ ∀ c : Int, c ≠ e.sal .sal_i → c ≠ e.sal .sal_point_min → c ≠ e.sal .sal_point_max →
        c ≠ st (e.sal .sal_i) → c ≠ 1 + st (e.sal .sal_i) → segment_recorded e st g c = st c := by
  have h1 := hs.lt (show Sal.sal_i ≠ .sal_segment_offset by decide)
  have h2 := hs.lt (show Sal.sal_point_min ≠ .sal_segment_offset by decide)
  have h3 := hs.lt (show Sal.sal_point_max ≠ .sal_segment_offset by decide)
  have n1 := hs.ne (show Sal.sal_i ≠ .sal_point_min by decide)
  have n2 := hs.ne (show Sal.sal_i ≠ .sal_point_max by decide)
  have hii : (e.sal .sal_i : Int) ≠ st (e.sal .sal_i) := by omega
  have hhead : segment_head e st g.start (e.sal .sal_i) = 1 + st (e.sal .sal_i) := by
    unfold segment_head
    rw [update_other _ _ _ n2, update_other _ _ _ n1, update_same, update_other _ _ _ hii]
  refine ⟨?_, ?_, ?_, ?_⟩
  · unfold segment_recorded
    rw [hhead, update_other _ _ _ (by omega), hhead]
  · unfold segment_recorded
    rw [hhead, update_other _ _ _ (by omega)]
    unfold segment_head
    rw [update_other _ _ _ (by omega), update_other _ _ _ (by omega),
      update_other _ _ _ (by omega), update_same]
  · unfold segment_recorded
    rw [hhead, update_same]
  · intro c c1 c2 c3 c4 c5
    unfold segment_recorded
    rw [hhead, update_other _ _ _ c5]
    unfold segment_head
    rw [update_other _ _ _ c3, update_other _ _ _ c2, update_other _ _ _ c1,
      update_other _ _ _ c4]

/-! ## The sample glyph -/

set_option maxRecDepth 100000 in
theorem glyph_engine_align_segment :
    glyph_engine.fdefs (glyph_engine.bci .bci_align_segment) = some fpgm_bci_align_segment := by
  decide!

set_option maxRecDepth 100000 in
theorem glyph_engine_align_segments :
    glyph_engine.fdefs (glyph_engine.bci .bci_align_segments) = some fpgm_bci_align_segments := by
  decide!

set_option maxRecDepth 100000 in
theorem glyph_engine_handle_action :
    glyph_engine.fdefs (glyph_engine.bci .bci_handle_action) = some fpgm_bci_handle_action := by
  decide!

set_option maxRecDepth 100000 in
theorem glyph_engine_serif_lower_upper :
    glyph_engine.fdefs (glyph_engine.bci .bci_action_serif_lower_upper_bound)
      = some fpgm_bci_action_serif_lower_upper_bound := by
  decide!

/-- In the sample glyph the serif action computes the position 178 for point
1, between the lower bound 128 of point 0 and above the upper bound 170 of
point 2: the action with both bounds runs to its `ENDF` and leaves point 1 at
170. -/
theorem serif_bounds_clamp_witness :
    SerifAction.serif.result glyph_engine glyph_storage glyph_gs [1, 0, 0, 2, 0, 0]
      = some (1, [0, 2, 0, 0], glyph_storage, serif_result glyph_engine glyph_storage glyph_gs 1 0)
    ∧ (serif_result glyph_engine glyph_storage glyph_gs 1 0).cur 0 1 = 178
    ∧ (serif_result glyph_engine glyph_storage glyph_gs 1 0).cur 0 0 = 128
    ∧ (serif_result glyph_engine glyph_storage glyph_gs 1 0).cur 0 2 = 170
    ∧ (((serif_result glyph_engine glyph_storage glyph_gs 1 0).lower_bound 1 0).upper_bound
        1 2).cur 0 1 = 170
    ∧ ((((serif_result glyph_engine glyph_storage glyph_gs 1 0).lower_bound 1 0).upper_bound
          1 2).cur 0 1
        = min (max ((serif_result glyph_engine glyph_storage glyph_gs 1 0).cur 0 1)
              ((serif_result glyph_engine glyph_storage glyph_gs 1 0).cur 0 0))
            (((serif_result glyph_engine glyph_storage glyph_gs 1 0).lower_bound 1 0).cur 0 2)
      ∧ ((2 : Int) ≠ 1 →
          ((serif_result glyph_engine glyph_storage glyph_gs 1 0).lower_bound 1 0).cur 0 2
            = (serif_result glyph_engine glyph_storage glyph_gs 1 0).cur 0 2)
      ∧ ((serif_result glyph_engine glyph_storage glyph_gs 1 0).cur 0 0
            ≤ (serif_result glyph_engine glyph_storage glyph_gs 1 0).cur 0 1 →
          (serif_result glyph_engine glyph_storage glyph_gs 1 0).cur 0 1
            ≤ (serif_result glyph_engine glyph_storage glyph_gs 1 0).cur 0 2 →
          (((serif_result glyph_engine glyph_storage glyph_gs 1 0).lower_bound 1 0).upper_bound
            1 2).cur = (serif_result glyph_engine glyph_storage glyph_gs 1 0).cur))
    ∧ ∃ K, ∀ fuel, K ≤ fuel →
        grun glyph_engine fuel
            (genter fpgm_bci_action_serif_lower_upper_bound [] ⟨[1, 0, 0, 2, 0, 0], glyph_storage,
              sample_cvt⟩ glyph_gs)
          = some (⟨[], glyph_storage, sample_cvt⟩,
              tail_result glyph_engine glyph_storage
                (((serif_result glyph_engine glyph_storage glyph_gs 1 0).lower_bound 1 0).upper_bound
                  1 2) 1 [0]) :=
  ⟨rfl, by decide, by decide, by decide, by decide,
    (serif_bounds_clamp glyph_engine_align_segments glyph_engine_align_segment .serif
      [1, 0, 0, 2, 0, 0] glyph_storage sample_cvt glyph_gs 1 [0, 2, 0, 0] glyph_storage
      (serif_result glyph_engine glyph_storage glyph_gs 1 0) rfl).2.2.2.2.2.2.2 0 2,
    ((serif_bounds_clamp glyph_engine_align_segments glyph_engine_align_segment .serif
      [1, 0, 0, 2, 0, 0] glyph_storage sample_cvt glyph_gs 1 [0, 2, 0, 0] glyph_storage
      (serif_result glyph_engine glyph_storage glyph_gs 1 0) rfl).1 .lower_upper
        (((serif_result glyph_engine glyph_storage glyph_gs 1 0).lower_bound 1 0).upper_bound 1 2)
        0 [] [] rfl).2.1⟩

/-- The serif action with both bounds runs to its `ENDF` in the sample
glyph, whatever the callers are. -/
theorem sample_action_returns :
    Returns glyph_engine fpgm_bci_action_serif_lower_upper_bound
      ⟨[1, 0, 0, 2, 0, 0], glyph_storage, sample_cvt⟩ sample_action_gs
      ⟨[], glyph_storage, sample_cvt⟩ (sample_action_result sample_action_gs) :=
  fun frames =>
    ⟨_, serif_action_body glyph_engine_align_segments glyph_engine_align_segment .serif
      .lower_upper frames [1, 0, 0, 2, 0, 0] glyph_storage sample_cvt _ 1 [0, 2, 0, 0]
      glyph_storage _ _ 0 [] [] rfl rfl⟩

/-- The events the action adds to the log: `ALIGNRP` of the serif point in
the computation and in the check of the upper bound, the entries of
`bci_align_segments` and `bci_align_segment`, and `ALIGNRP` of the points 3,
4 and 5 of the glyph. -/
theorem sample_action_log :
    (sample_action_result sample_action_gs).log
      = [.ALIGNRP 1 5, .ALIGNRP 1 4, .ALIGNRP 1 3,
          .enter (glyph_engine.bci .bci_align_segment),
          .enter (glyph_engine.bci .bci_align_segments), .ALIGNRP 0 1, .ALIGNRP 0 1]
        ++ .enter (glyph_engine.bci .bci_action_serif_lower_upper_bound)
          :: .enter (glyph_engine.bci .bci_handle_action) :: glyph_gs.log := by
  decide

/-- The glyph program of the sample glyph with one action, the serif action
with both bounds: `bci_hint_glyph` runs to its end, `bci_handle_action` is
entered once, and `IUP_y` is the last event of the log. -/
theorem hint_glyph_runs_witness :
    (∃ K, ∀ fuel, K ≤ fuel →
      grun glyph_engine fuel
          (genter fpgm_bci_hint_glyph []
            ⟨((1 : Nat) : Int) :: (glyph_engine.bci .bci_action_serif_lower_upper_bound : Int)
              :: [1, 0, 0, 2, 0, 0], glyph_storage, sample_cvt⟩ glyph_gs)
        = some (⟨[], glyph_storage, sample_cvt⟩,
            { sample_action_result sample_action_gs with
              log := .IUP_y :: (sample_action_result sample_action_gs).log }))
    ∧ (sample_action_result sample_action_gs).log.count
        (.enter (glyph_engine.bci .bci_handle_action)) = 1
    ∧ (sample_action_result sample_action_gs).cur 0 1 = 170
    ∧ (sample_action_result sample_action_gs).cur 1 4 = 170 :=
  ⟨(hint_glyph_runs glyph_engine_handle_action 1 _ glyph_storage sample_cvt glyph_gs _ _
    (Actions.act (by decide) glyph_engine_serif_lower_upper sample_action_returns
      sample_action_log (by decide) (by decide) (Actions.done _ _))).2.1,
    by decide, by decide, by decide⟩

/-- The cells of the storage area behind one round of the loop of segments. -/
theorem loop_step_cells {e : Engine} (hs : Slots e) (st : Int → Int) (gs : GS) (g : Segment)
    (hi : (e.sal .sal_segment_offset : Int) ≤ st (e.sal .sal_i)) :
    (loop_step e (st, gs) g).1 (e.sal .sal_i) = 1 + (1 + st (e.sal .sal_i))
    ∧ (loop_step e (st, gs) g).1 (e.sal .sal_j) = 1 + st (e.sal .sal_j)
    ∧ (loop_step e (st, gs) g).1 (e.sal .sal_k) = 1 + st (e.sal .sal_k)
    ∧ (loop_step e (st, gs) g).1 (st (e.sal .sal_i)) = g.start
    ∧ (loop_step e (st, gs) g).1 (1 + st (e.sal .sal_i)) = g.recorded_last
    ∧ ∀ c : Int, c ≠ e.sal .sal_i → c ≠ e.sal .sal_j → c ≠ e.sal .sal_k →
        c ≠ e.sal .sal_point_min → c ≠ e.sal .sal_point_max →
        c ≠ st (e.sal .sal_i) → c ≠ 1 + st (e.sal .sal_i) →
        (loop_step e (st, gs) g).1 c = st c := by
  have li := hs.lt (show Sal.sal_i ≠ .sal_segment_offset by decide)
  have lj := hs.lt (show Sal.sal_j ≠ .sal_segment_offset by decide)
  have lk := hs.lt (show Sal.sal_k ≠ .sal_segment_offset by decide)
  have nij := hs.ne (show Sal.sal_i ≠ .sal_j by decide)
  have nik := hs.ne (show Sal.sal_i ≠ .sal_k by decide)
  have njk := hs.ne (show Sal.sal_j ≠ .sal_k by decide)
  have nim := hs.ne (show Sal.sal_i ≠ .sal_point_min by decide)
  have niM := hs.ne (show Sal.sal_i ≠ .sal_point_max by decide)
  have njm := hs.ne (show Sal.sal_j ≠ .sal_point_min by decide)
  have njM := hs.ne (show Sal.sal_j ≠ .sal_point_max by decide)
  have nkm := hs.ne (show Sal.sal_k ≠ .sal_point_min by decide)
  have nkM := hs.ne (show Sal.sal_k ≠ .sal_point_max by decide)
  have lm := hs.lt (show Sal.sal_point_min ≠ .sal_segment_offset by decide)
  have lM := hs.lt (show Sal.sal_point_max ≠ .sal_segment_offset by decide)
  obtain ⟨r1, r2, r3, r4⟩ := segment_recorded_cells hs st g hi
  have key : ∀ c : Int, c ≠ e.sal .sal_point_min → c ≠ e.sal .sal_point_max →
      (loop_step e (st, gs) g).1 c
        = if c = e.sal .sal_i then 1 + segment_recorded e st g (e.sal .sal_i)
          else if c = e.sal .sal_k then 1 + segment_recorded e st g (e.sal .sal_k)
          else if c = e.sal .sal_j then 1 + segment_recorded e st g (e.sal .sal_j)
          else segment_recorded e st g c := by
    intro c c1 c2
    simp only [loop_step, created_storage]
    by_cases hci : c = e.sal .sal_i
    · rw [hci, if_pos rfl, update_same, update_other _ _ _ nik, update_other _ _ _ nij,
        segment_extrema_other e _ st g nim niM]
    · rw [if_neg hci, update_other _ _ _ hci]
      by_cases hck : c = e.sal .sal_k
      · rw [hck, if_pos rfl, update_same, update_other _ _ _ njk.symm,
          segment_extrema_other e _ st g nkm nkM]
      · rw [if_neg hck, update_other _ _ _ hck]
        by_cases hcj : c = e.sal .sal_j
        · rw [hcj, if_pos rfl, update_same, segment_extrema_other e _ st g njm njM]
        · rw [if_neg hcj, update_other _ _ _ hcj, segment_extrema_other e _ st g c1 c2]
  refine ⟨?_, ?_, ?_, ?_, ?_, ?_⟩
  · rw [key _ nim niM, if_pos rfl, r1]
  · rw [key _ njm njM, if_neg nij.symm, if_neg njk, if_pos rfl,
      r4 _ nij.symm njm njM (by omega) (by omega)]
  · rw [key _ nkm nkM, if_neg nik.symm, if_pos rfl, r4 _ nik.symm nkm nkM (by omega) (by omega)]
  · rw [key _ (by omega) (by omega), if_neg (by omega), if_neg (by omega), if_neg (by omega), r2]
  · rw [key _ (by omega) (by omega), if_neg (by omega), if_neg (by omega), if_neg (by omega), r3]
  · intro c c1 c2 c3 c4 c5 c6 c7
    rw [key _ c4 c5, if_neg c1, if_neg c3, if_neg c2, r4 _ c1 c4 c5 c6 c7]

/-- The graphics state behind one round of the loop of segments: the
twilight points `sal_j` and `sal_k` are at the middle of the segment, and the
entry of `bci_create_segment` and the calls of `bci_get_point_extrema` are
logged. -/
theorem loop_step_gs {e : Engine} (hs : Slots e) (st : Int → Int) (gs : GS) (g : Segment)
    (hi : (e.sal .sal_segment_offset : Int) ≤ st (e.sal .sal_i)) :
    (loop_step e (st, gs) g).2.org = gs.org
    ∧ (∀ z p, (loop_step e (st, gs) g).2.cur z p
        = if z = 0 ∧ (p = st (e.sal .sal_k) ∨ p = st (e.sal .sal_j)) then
            segment_middle e (gs.org 1) (segment_extrema e (gs.org 1) st g)
          else gs.cur z p)
    ∧ (loop_step e (st, gs) g).2.log
        = List.replicate g.extrema_calls (.enter (e.bci .bci_get_point_extrema))
          ++ .enter (e.bci .bci_create_segment) :: gs.log := by
  have lj := hs.lt (show Sal.sal_j ≠ .sal_segment_offset by decide)
  have lk := hs.lt (show Sal.sal_k ≠ .sal_segment_offset by decide)
  have nij := hs.ne (show Sal.sal_i ≠ .sal_j by decide)
  have nik := hs.ne (show Sal.sal_i ≠ .sal_k by decide)
  have njm := hs.ne (show Sal.sal_j ≠ .sal_point_min by decide)
  have njM := hs.ne (show Sal.sal_j ≠ .sal_point_max by decide)
  have nkm := hs.ne (show Sal.sal_k ≠ .sal_point_min by decide)
  have nkM := hs.ne (show Sal.sal_k ≠ .sal_point_max by decide)
  obtain ⟨-, -, -, r4⟩ := segment_recorded_cells hs st g hi
  have hj : segment_extrema e (gs.org 1) st g (e.sal .sal_j) = st (e.sal .sal_j) := by
    rw [segment_extrema_other e _ st g njm njM, r4 _ nij.symm njm njM (by omega) (by omega)]
  have hk : segment_extrema e (gs.org 1) st g (e.sal .sal_k) = st (e.sal .sal_k) := by
    rw [segment_extrema_other e _ st g nkm nkM, r4 _ nik.symm nkm nkM (by omega) (by omega)]
  refine ⟨rfl, ?_, rfl⟩
  intro z p
  simp only [loop_step, created_gs, GS.shpix, GS.szp2, GS.entered_times, GS.szps, GS.entered, hj,
    hk, move]
  by_cases hz : z = 0
  · subst hz
    by_cases hpk : p = st (e.sal .sal_k)
    · simp [hpk]
    · by_cases hpj : p = st (e.sal .sal_j)
      · simp [hpk, hpj]
      · simp [hpk, hpj]
  · simp [hz]

/-- The invariant holds in front of the loop. -/
theorem segments_start_inv {e : Engine} (hs : Slots e) (hbci : Function.Injective e.bci)
    (st : Int → Int) (gs : GS) (n : Nat) :
    SegmentsInv e st gs n [] (segments_start e st gs n) := by
  have nj := hs.ne (show Sal.sal_num_segments ≠ .sal_j by decide)
  have nk := hs.ne (show Sal.sal_num_segments ≠ .sal_k by decide)
  have nf := hs.ne (show Sal.sal_num_segments ≠ .sal_func by decide)
  have nl := hs.ne (show Sal.sal_num_segments ≠ .sal_limit by decide)
  have ni := hs.ne (show Sal.sal_num_segments ≠ .sal_i by decide)
  have jk := hs.ne (show Sal.sal_j ≠ .sal_k by decide)
  have jf := hs.ne (show Sal.sal_j ≠ .sal_func by decide)
  have jl := hs.ne (show Sal.sal_j ≠ .sal_limit by decide)
  have ji := hs.ne (show Sal.sal_j ≠ .sal_i by decide)
  have kf := hs.ne (show Sal.sal_k ≠ .sal_func by decide)
  have kl := hs.ne (show Sal.sal_k ≠ .sal_limit by decide)
  have ki := hs.ne (show Sal.sal_k ≠ .sal_i by decide)
  have fl := hs.ne (show Sal.sal_func ≠ .sal_limit by decide)
  have fi := hs.ne (show Sal.sal_func ≠ .sal_i by decide)
  have li := hs.ne (show Sal.sal_limit ≠ .sal_i by decide)
  have dn := hs.ne (show Sal.sal_0x10000 ≠ .sal_num_segments by decide)
  have dj := hs.ne (show Sal.sal_0x10000 ≠ .sal_j by decide)
  have dk := hs.ne (show Sal.sal_0x10000 ≠ .sal_k by decide)
  have df := hs.ne (show Sal.sal_0x10000 ≠ .sal_func by decide)
  have dl := hs.ne (show Sal.sal_0x10000 ≠ .sal_limit by decide)
  have di := hs.ne (show Sal.sal_0x10000 ≠ .sal_i by decide)
  have hnum : update (update (update st (e.sal .sal_num_segments) n) (e.sal .sal_j)
      (update st (e.sal .sal_num_segments) n (e.sal .sal_num_segments))) (e.sal .sal_k) 0
      (e.sal .sal_num_segments) = n := by
    rw [update_other _ _ _ nk, update_other _ _ _ nj, update_same]
  exact
    { sal_i := by simp [segments_start, update_same]
      sal_j := by
        simp only [segments_start]
        rw [update_other _ _ _ ji, update_other _ _ _ jl, update_other _ _ _ jf,
          update_other _ _ _ jk, update_same, update_same]
        simp
      sal_k := by
        simp only [segments_start]
        rw [update_other _ _ _ ki, update_other _ _ _ kl, update_other _ _ _ kf, update_same]
        simp
      sal_func := by
        simp only [segments_start]
        rw [update_other _ _ _ fi, update_other _ _ _ fl, update_same]
      sal_limit := by
        simp only [segments_start]
        rw [update_other _ _ _ li, update_same, hnum]
        ring
      sal_num := by
        simp only [segments_start]
        rw [update_other _ _ _ ni, update_other _ _ _ nl, update_other _ _ _ nf, hnum]
      divisor := by
        simp only [segments_start]
        rw [update_other _ _ _ di, update_other _ _ _ dl, update_other _ _ _ df,
          update_other _ _ _ dk, update_other _ _ _ dj, update_other _ _ _ dn]
      cells := by
        intro t g h
        simp at h
      org := rfl
      twins := by
        intro t h
        simp at h
      others := fun _ _ _ => rfl
      log := ⟨[.enter (e.bci .bci_loop)], rfl, by
        have hne : ¬ (Event.enter (e.bci .bci_loop) = Event.enter (e.bci .bci_create_segment)) := by
          intro h
          injection h with h
          have h2 := hbci (by exact_mod_cast h)
          cases h2
        simp [List.count_cons, hne]⟩ }

/-- One round of the loop keeps the invariant. -/
theorem segments_inv_step {e : Engine} (hs : Slots e) (hbci : Function.Injective e.bci)
    (st0 : Int → Int) (gs0 : GS) (n : Nat) (done : List Segment) (state : (Int → Int) × GS)
    (g : Segment) (hinv : SegmentsInv e st0 gs0 n done state) (hd : done.length < n) :
    SegmentsInv e st0 gs0 n (done ++ [g]) (loop_step e state g) := by
  obtain ⟨st, gs⟩ := state
  have hsi : st (e.sal .sal_i) = e.sal .sal_segment_offset + 2 * done.length := hinv.sal_i
  have hsj : st (e.sal .sal_j) = n + done.length := hinv.sal_j
  have hsk : st (e.sal .sal_k) = done.length := hinv.sal_k
  have hi : (e.sal .sal_segment_offset : Int) ≤ st (e.sal .sal_i) := by rw [hsi]; omega
  obtain ⟨c1, c2, c3, c4, c5, c6⟩ := loop_step_cells hs st gs g hi
  obtain ⟨g1, g2, g3⟩ := loop_step_gs hs st gs g hi
  have named : ∀ x : Sal, x ≠ .sal_i → x ≠ .sal_j → x ≠ .sal_k → x ≠ .sal_point_min →
      x ≠ .sal_point_max → x ≠ .sal_segment_offset →
      (loop_step e (st, gs) g).1 (e.sal x) = st (e.sal x) := by
    intro x x1 x2 x3 x4 x5 x6
    have hl := hs.lt x6
    exact c6 _ (hs.ne x1) (hs.ne x2) (hs.ne x3) (hs.ne x4) (hs.ne x5) (by omega) (by omega)
  have hlen : (done ++ [g]).length = done.length + 1 := by simp
  exact
    { sal_i := by rw [c1, hsi, hlen]; push_cast; ring
      sal_j := by rw [c2, hsj, hlen]; push_cast; ring
      sal_k := by rw [c3, hsk, hlen]; push_cast; ring
      sal_func := by
        rw [named _ (by decide) (by decide) (by decide) (by decide) (by decide) (by decide)]
        exact hinv.sal_func
      sal_limit := by
        rw [named _ (by decide) (by decide) (by decide) (by decide) (by decide) (by decide)]
        exact hinv.sal_limit
      sal_num := by
        rw [named _ (by decide) (by decide) (by decide) (by decide) (by decide) (by decide)]
        exact hinv.sal_num
      divisor := by
        rw [named _ (by decide) (by decide) (by decide) (by decide) (by decide) (by decide)]
        exact hinv.divisor
      cells := by
        intro t g1 ht
        have li := hs.lt (show Sal.sal_i ≠ .sal_segment_offset by decide)
        have lj := hs.lt (show Sal.sal_j ≠ .sal_segment_offset by decide)
        have lk := hs.lt (show Sal.sal_k ≠ .sal_segment_offset by decide)
        have lm := hs.lt (show Sal.sal_point_min ≠ .sal_segment_offset by decide)
        have lM := hs.lt (show Sal.sal_point_max ≠ .sal_segment_offset by decide)
        by_cases htd : t < done.length
        · rw [List.getElem?_append_left htd] at ht
          obtain ⟨h1, h2⟩ := hinv.cells t g1 ht
          constructor
          · rw [c6 _ (by omega) (by omega) (by omega) (by omega) (by omega) (by omega)
              (by omega)]
            exact h1
          · rw [c6 _ (by omega) (by omega) (by omega) (by omega) (by omega) (by omega)
              (by omega)]
            exact h2
        · have hte : t = done.length := by
            have := (List.getElem?_eq_some_iff.1 ht).1
            rw [hlen] at this
            omega
          subst hte
          rw [List.getElem?_append_right (le_refl _)] at ht
          simp only [Nat.sub_self, List.getElem?_cons_zero, Option.some.injEq] at ht
          subst ht
          constructor
          · rw [← hsi]; exact c4
          · have : (e.sal .sal_segment_offset : Int) + 2 * done.length + 1
                = 1 + st (e.sal .sal_i) := by rw [hsi]; ring
            rw [this]; exact c5
      org := by rw [g1]; exact hinv.org
      twins := by
        intro t ht
        rw [hlen] at ht
        rw [g2, g2, hsk, hsj]
        by_cases htd : t = done.length
        · subst htd
          simp
        · have h1 : ¬ ((0 : Int) = 0 ∧ ((t : Int) = done.length ∨ (t : Int) = n + done.length)) := by
            omega
          have h2 : ¬ ((0 : Int) = 0
              ∧ ((n : Int) + t = done.length ∨ (n : Int) + t = n + done.length)) := by omega
          rw [if_neg h1, if_neg h2]
          exact hinv.twins t (by omega)
      others := by
        intro z p hzp
        rw [hlen] at hzp
        rw [g2, hsk, hsj]
        have h1 : ¬ (z = 0 ∧ (p = done.length ∨ p = n + done.length)) := by
          push_cast at hzp
          omega
        rw [if_neg h1]
        apply hinv.others
        push_cast at hzp
        omega
      log := by
        obtain ⟨new, hn1, hn2⟩ := hinv.log
        refine ⟨List.replicate g.extrema_calls (.enter (e.bci .bci_get_point_extrema))
          ++ .enter (e.bci .bci_create_segment) :: new, ?_, ?_⟩
        · rw [g3]
          have : gs.log = new ++ gs0.log := hn1
          rw [this]
          simp
        · have hne : ¬ (Event.enter (e.bci .bci_get_point_extrema)
              = Event.enter (e.bci .bci_create_segment)) := by
            intro h
            injection h with h
            have h2 := hbci (by exact_mod_cast h)
            cases h2
          rw [List.count_append, List.count_replicate, hlen]
          simp [List.count_cons, hne, hn2] }

/-- From a state with the invariant the loop runs through for the segments
that are left, and the invariant holds behind the last one. -/
theorem segments_loop_ok {e : Engine} (hs : Slots e) (hbci : Function.Injective e.bci)
    (st0 : Int → Int) (gs0 : GS) (n : Nat) (h0 : st0 (e.sal .sal_0x10000) ≠ 0) :
    ∀ (rest done : List Segment) (state : (Int → Int) × GS),
      SegmentsInv e st0 gs0 n done state → done.length + rest.length = n →
      loop_ok e state rest
      ∧ SegmentsInv e st0 gs0 n (done ++ rest) (rest.foldl (loop_step e) state) := by
  intro rest
  induction rest with
  | nil =>
    intro done state hinv hlen
    refine ⟨?_, by simpa using hinv⟩
    show ¬ state.1 (e.sal .sal_i) ≤ state.1 (e.sal .sal_limit)
    rw [hinv.sal_i, hinv.sal_limit]
    simp only [List.length_nil, Nat.add_zero] at hlen
    omega
  | cons g rest ih =>
    intro done state hinv hlen
    simp only [List.length_cons] at hlen
    have hd : done.length < n := by omega
    have hstep := segments_inv_step hs hbci st0 gs0 n done state g hinv hd
    obtain ⟨hok, hfin⟩ := ih (done ++ [g]) (loop_step e state g) hstep
      (by simp only [List.length_append, List.length_singleton]; omega)
    have hi : (e.sal .sal_segment_offset : Int) ≤ state.1 (e.sal .sal_i) := by
      rw [hinv.sal_i]; omega
    obtain ⟨-, -, -, r4⟩ := segment_recorded_cells hs state.1 g hi
    have ld := hs.lt (show Sal.sal_0x10000 ≠ .sal_segment_offset by decide)
    have hdiv : segment_extrema e (state.2.org 1) state.1 g (e.sal .sal_0x10000)
        = state.1 (e.sal .sal_0x10000) := by
      rw [segment_extrema_other e _ _ g (hs.ne (by decide)) (hs.ne (by decide)),
        r4 _ (hs.ne (by decide)) (hs.ne (by decide)) (hs.ne (by decide)) (by omega) (by omega)]
    refine ⟨⟨?_, hinv.sal_func, ?_, hok⟩, ?_⟩
    · rw [hinv.sal_i, hinv.sal_limit]
      omega
    · rw [hdiv, hinv.divisor]
      exact h0
    · rw [List.foldl_cons]
      have : done ++ g :: rest = (done ++ [g]) ++ rest := by simp
      rw [this]
      exact hfin

/-- The run of `bci_create_segments` for a list of segments, with the
invariant behind the last segment. -/
theorem create_segments_run {e : Engine}
    (hl : e.fdefs (e.bci .bci_loop) = some fpgm_bci_loop)
    (hx : e.fdefs (e.bci .bci_get_point_extrema) = some fpgm_bci_get_point_extrema)
    (hc : e.fdefs (e.bci .bci_create_segment) = some fpgm_bci_create_segment)
    (hs : Slots e) (hbci : Function.Injective e.bci) (segs : List Segment) (s : List Int)
    (st cv : Int → Int) (gs : GS) (h0 : st (e.sal .sal_0x10000) ≠ 0) :
    (∀ frames : List GFrame,
      GReaches e
        (genter fpgm_bci_create_segments frames
          ⟨(segs.length : Int) :: (segments_args segs ++ s), st, cv⟩ gs)
        ⟨fpgm_bci_create_segments.dropLast.reverse, [Byte.ENDF], frames,
          ⟨s, (segs.foldl (loop_step e) (segments_start e st gs segs.length)).1, cv⟩,
          (segs.foldl (loop_step e) (segments_start e st gs segs.length)).2⟩)
    ∧ SegmentsInv e st gs segs.length segs
        (segs.foldl (loop_step e) (segments_start e st gs segs.length)) := by
  obtain ⟨hok, hfin⟩ := segments_loop_ok hs hbci st gs segs.length h0 segs []
    (segments_start e st gs segs.length) (segments_start_inv hs hbci st gs segs.length)
    (by simp)
  exact ⟨fun frames => create_segments_body hl hx hc frames segs s st cv gs hok,
    by simpa using hfin⟩

/-- The invariant of the loop of `bci_create_segments` holds behind every
initial part of the list of segments. -/
theorem segments_inv_take {e : Engine} (hs : Slots e) (hbci : Function.Injective e.bci)
    (st : Int → Int) (gs : GS) (segs : List Segment) :
    ∀ t : Nat, t ≤ segs.length →
      SegmentsInv e st gs segs.length (segs.take t)
        ((segs.take t).foldl (loop_step e) (segments_start e st gs segs.length)) := by
  intro t
  induction t with
  | zero =>
    intro _
    simpa using segments_start_inv hs hbci st gs segs.length
  | succ t ih =>
    intro ht
    have hlt : t < segs.length := by omega
    have hinv := ih (by omega)
    have hstep := segments_inv_step hs hbci st gs segs.length (segs.take t) _ (segs.get ⟨t, hlt⟩)
      hinv (by simp only [List.length_take]; omega)
    have htake : segs.take (t + 1) = segs.take t ++ [segs.get ⟨t, hlt⟩] := by
      rw [List.take_succ, List.getElem?_eq_getElem hlt]
      rfl
    rw [htake, List.foldl_append]
    exact hstep

/-- Claim C28, with the point that is stored behind `start`.  Called with
`N` on top of the arguments of `N` segments, `bci_create_segments` reaches
its `ENDF` (and ends the run when it is the outermost function) with the
arguments removed.  In front of the loop `sal_num_segments` is `N`, `sal_k`
is 0 and `sal_j` is `N`; `bci_create_segment` is entered `N` times.  In front
of the invocation for segment `t` the counters `sal_k`, `sal_j` and `sal_i`
are `t`, `N + t` and `sal_segment_offset + 2 * t`, and the invocation puts
the twilight points `t` and `N + t` at the scaled middle of the extrema.
Behind the loop `sal_num_segments` is `N`, `sal_k` is `N` and `sal_j` is
`2 * N`; the cells `sal_segment_offset + 2 * t` and
`sal_segment_offset + 2 * t + 1` hold `start` and, for a segment with
`start <= end`, `end`, for a wrap-around segment the last point of the
contour; the twilight points `t` and `N + t` are at the same place, and no
other point has moved. -/
theorem create_segments_fills {e : Engine}
    (hl : e.fdefs (e.bci .bci_loop) = some fpgm_bci_loop)
    (hx : e.fdefs (e.bci .bci_get_point_extrema) = some fpgm_bci_get_point_extrema)
    (hc : e.fdefs (e.bci .bci_create_segment) = some fpgm_bci_create_segment)
    (hs : Slots e) (hbci : Function.Injective e.bci) (segs : List Segment) (s : List Int)
    (st cv : Int → Int) (gs : GS) (h0 : st (e.sal .sal_0x10000) ≠ 0) :
    (∀ frames : List GFrame,
      GReaches e
        (genter fpgm_bci_create_segments frames
          ⟨(segs.length : Int) :: (segments_args segs ++ s), st, cv⟩ gs)
        ⟨fpgm_bci_create_segments.dropLast.reverse, [Byte.ENDF], frames,
          ⟨s, (created_segments e st gs segs).1, cv⟩, (created_segments e st gs segs).2⟩)
    ∧ (∃ K, ∀ fuel, K ≤ fuel →
        grun e fuel
            (genter fpgm_bci_create_segments []
              ⟨(segs.length : Int) :: (segments_args segs ++ s), st, cv⟩ gs)
          = some (⟨s, (created_segments e st gs segs).1, cv⟩, (created_segments e st gs segs).2))
    ∧ ((segments_start e st gs segs.length).1 (e.sal .sal_num_segments) = segs.length
      ∧ (segments_start e st gs segs.length).1 (e.sal .sal_k) = 0
      ∧ (segments_start e st gs segs.length).1 (e.sal .sal_j) = segs.length)
    ∧ (∃ new, (created_segments e st gs segs).2.log = new ++ gs.log
        ∧ new.count (.enter (e.bci .bci_create_segment)) = segs.length)
    ∧ (∀ (t : Nat) (g : Segment), segs[t]? = some g →
        ((segs.take t).foldl (loop_step e) (segments_start e st gs segs.length)).1
            (e.sal .sal_k) = t
        ∧ ((segs.take t).foldl (loop_step e) (segments_start e st gs segs.length)).1
            (e.sal .sal_j) = segs.length + t
        ∧ ((segs.take t).foldl (loop_step e) (segments_start e st gs segs.length)).1
            (e.sal .sal_i) = e.sal .sal_segment_offset + 2 * t
        ∧ (loop_step e
              ((segs.take t).foldl (loop_step e) (segments_start e st gs segs.length)) g).2.cur
            0 t
          = segment_middle e (gs.org 1)
              (segment_extrema e (gs.org 1)
                ((segs.take t).foldl (loop_step e) (segments_start e st gs segs.length)).1 g)
        ∧ (loop_step e
              ((segs.take t).foldl (loop_step e) (segments_start e st gs segs.length)) g).2.cur
            0 (segs.length + t)
          = segment_middle e (gs.org 1)
              (segment_extrema e (gs.org 1)
                ((segs.take t).foldl (loop_step e) (segments_start e st gs segs.length)).1 g))
    ∧ ((created_segments e st gs segs).1 (e.sal .sal_num_segments) = segs.length
      ∧ (created_segments e st gs segs).1 (e.sal .sal_k) = segs.length
      ∧ (created_segments e st gs segs).1 (e.sal .sal_j) = segs.length + segs.length)
    ∧ (∀ (t : Nat) (g : Segment), segs[t]? = some g →
        (created_segments e st gs segs).1 (e.sal .sal_segment_offset + 2 * t) = g.start
        ∧ (created_segments e st gs segs).1 (e.sal .sal_segment_offset + 2 * t + 1)
          = if g.end_ < g.start then g.last else g.end_)
    ∧ (∀ t : Nat, t < segs.length →
        (created_segments e st gs segs).2.cur 0 t
          = (created_segments e st gs segs).2.cur 0 (segs.length + t))
    ∧ (∀ z p : Int,
        ¬ (z = 0 ∧ ((0 ≤ p ∧ p < segs.length) ∨ (segs.length ≤ p ∧ p < segs.length + segs.length))) →
        (created_segments e st gs segs).2.cur z p = gs.cur z p) := by
  obtain ⟨hrun, hinv⟩ := create_segments_run hl hx hc hs hbci segs s st cv gs h0
  have hstart := segments_start_inv hs hbci st gs segs.length
  refine ⟨hrun, grun_of_reaches (hrun []) rfl, ⟨hstart.sal_num, ?_, ?_⟩, hinv.log, ?_,
    ⟨hinv.sal_num, hinv.sal_k, hinv.sal_j⟩, hinv.cells, hinv.twins, hinv.others⟩
  · simpa using hstart.sal_k
  · simpa using hstart.sal_j
  · intro t g hg
    have ht : t < segs.length := by
      by_contra hcon
      rw [List.getElem?_eq_none (by omega)] at hg
      exact absurd hg (by simp)
    have hpre := segments_inv_take hs hbci st gs segs t (by omega)
    have hlen : (segs.take t).length = t := by simp only [List.length_take]; omega
    have hi : (e.sal .sal_segment_offset : Int)
        ≤ ((segs.take t).foldl (loop_step e) (segments_start e st gs segs.length)).1
            (e.sal .sal_i) := by
      rw [hpre.sal_i]; omega
    obtain ⟨-, hcur, -⟩ := loop_step_gs hs
      ((segs.take t).foldl (loop_step e) (segments_start e st gs segs.length)).1
      ((segs.take t).foldl (loop_step e) (segments_start e st gs segs.length)).2 g hi
    have hk := hpre.sal_k
    have hj := hpre.sal_j
    have hii := hpre.sal_i
    rw [hlen] at hk hj hii
    refine ⟨hk, hj, hii, ?_, ?_⟩
    · rw [show loop_step e
          ((segs.take t).foldl (loop_step e) (segments_start e st gs segs.length)) g
        = loop_step e
          (((segs.take t).foldl (loop_step e) (segments_start e st gs segs.length)).1,
            ((segs.take t).foldl (loop_step e) (segments_start e st gs segs.length)).2) g
        from rfl, hcur, if_pos ⟨rfl, Or.inl hk.symm⟩, hpre.org]
    · rw [show loop_step e
          ((segs.take t).foldl (loop_step e) (segments_start e st gs segs.length)) g
        = loop_step e
          (((segs.take t).foldl (loop_step e) (segments_start e st gs segs.length)).1,
            ((segs.take t).foldl (loop_step e) (segments_start e st gs segs.length)).2) g
        from rfl, hcur, if_pos ⟨rfl, Or.inr hj.symm⟩, hpre.org]

set_option maxRecDepth 100000 in
theorem glyph_engine_loop :
    glyph_engine.fdefs (glyph_engine.bci .bci_loop) = some fpgm_bci_loop := by
  decide!

set_option maxRecDepth 100000 in
theorem glyph_engine_get_point_extrema :
    glyph_engine.fdefs (glyph_engine.bci .bci_get_point_extrema)
      = some fpgm_bci_get_point_extrema := by
  decide!

set_option maxRecDepth 100000 in
theorem glyph_engine_create_segment :
    glyph_engine.fdefs (glyph_engine.bci .bci_create_segment) = some fpgm_bci_create_segment := by
  decide!

/-- The cells of the sample interpreter have different numbers below 16,
where the segments start. -/
theorem glyph_engine_slots : Slots glyph_engine := by
  refine ⟨?_, ?_⟩
  · intro x y h
    cases x <;> cases y <;> first | rfl | (exact absurd h (by decide))
  · intro x hx
    cases x <;> first | (exact absurd rfl hx) | decide

/-- The functions of the sample interpreter have different numbers. -/
theorem glyph_engine_bci_injective : Function.Injective glyph_engine.bci := by
  intro x y h
  have h1 : x.toCtorIdx = y.toCtorIdx := h
  have := congrArg Fn.ofNat h1
  rwa [Fn.ofNat_toCtorIdx, Fn.ofNat_toCtorIdx] at this

set_option maxRecDepth 100000 in
/-- The claim C28 fails for a wrap-around segment: run in the sample glyph
with the one segment of the points 8, 9, 0, 1, 2 (`start` 8, `end` 2, contour
from 0 to 9), `bci_create_segments` ends with `start` in cell
`sal_segment_offset`, but the next cell holds 9, the last point of the
contour, and not `end`. -/
theorem create_segments_stores_last :
    (∃ K, ∀ fuel, K ≤ fuel →
      grun glyph_engine fuel
          (genter fpgm_bci_create_segments [] ⟨[1, 8, 2, 9, 0], glyph_storage, sample_cvt⟩
            glyph_gs)
        = some (⟨[], (created_segments glyph_engine glyph_storage glyph_gs
              [wrap_around_segment]).1, sample_cvt⟩,
            (created_segments glyph_engine glyph_storage glyph_gs [wrap_around_segment]).2))
    ∧ wrap_around_segment.start = 8
    ∧ wrap_around_segment.end_ = 2
    ∧ (created_segments glyph_engine glyph_storage glyph_gs [wrap_around_segment]).1
        (glyph_engine.sal .sal_segment_offset + 2 * 0) = 8
    ∧ (created_segments glyph_engine glyph_storage glyph_gs [wrap_around_segment]).1
        (glyph_engine.sal .sal_segment_offset + 2 * 0 + 1) = 9
    ∧ (created_segments glyph_engine glyph_storage glyph_gs [wrap_around_segment]).1
        (glyph_engine.sal .sal_segment_offset + 2 * 0 + 1) ≠ wrap_around_segment.end_ :=
  ⟨grun_of_reaches
      ((create_segments_run glyph_engine_loop glyph_engine_get_point_extrema
        glyph_engine_create_segment glyph_engine_slots glyph_engine_bci_injective
        [wrap_around_segment] [] glyph_storage sample_cvt glyph_gs (by decide)).1 []) rfl,
    rfl, rfl, by decide, by decide, by decide⟩

set_option maxRecDepth 100000 in
/-- The sample glyph with two segments, the points 3 to 5 and the wrap-around
segment of the points 8, 9, 0, 1, 2: `bci_create_segments` runs to its end,
`bci_create_segment` is entered twice, the cells 16 to 19 hold 3, 5, 8 and 9,
and the twilight points 0 and 2 are at 40, the points 1 and 3 at 45. -/
theorem create_segments_fills_witness :
    (∃ K, ∀ fuel, K ≤ fuel →
      grun glyph_engine fuel
          (genter fpgm_bci_create_segments [] ⟨[2, 3, 5, 8, 2, 9, 0], glyph_storage, sample_cvt⟩
            glyph_gs)
        = some (⟨[], (created_segments glyph_engine glyph_storage glyph_gs
              [plain_segment, wrap_around_segment]).1, sample_cvt⟩,
            (created_segments glyph_engine glyph_storage glyph_gs
              [plain_segment, wrap_around_segment]).2))
    ∧ (created_segments glyph_engine glyph_storage glyph_gs
          [plain_segment, wrap_around_segment]).2.log.count
        (.enter (glyph_engine.bci .bci_create_segment)) = 2
    ∧ (created_segments glyph_engine glyph_storage glyph_gs
          [plain_segment, wrap_around_segment]).1 (glyph_engine.sal .sal_k) = 2
    ∧ (created_segments glyph_engine glyph_storage glyph_gs
          [plain_segment, wrap_around_segment]).1 (glyph_engine.sal .sal_j) = 4
    ∧ [16, 17, 18, 19].map (created_segments glyph_engine glyph_storage glyph_gs
          [plain_segment, wrap_around_segment]).1 = [3, 5, 8, 9]
    ∧ [0, 1, 2, 3].map ((created_segments glyph_engine glyph_storage glyph_gs
          [plain_segment, wrap_around_segment]).2.cur 0) = [40, 45, 40, 45] :=
  ⟨(create_segments_fills glyph_engine_loop glyph_engine_get_point_extrema
      glyph_engine_create_segment glyph_engine_slots glyph_engine_bci_injective
      [plain_segment, wrap_around_segment] [] glyph_storage sample_cvt glyph_gs
      (by decide)).2.1,
    by decide, by decide, by decide, by decide, by decide⟩

/-! ## The points of a segment -/

/-- The two cells behind a call of `bci_get_point_extrema` for the point
`q`. -/
theorem extrema_step_cells {e : Engine} (hne : (e.sal .sal_point_min : Int) ≠ e.sal .sal_point_max)
    (o st : Int → Int) (q : Int) :
    extrema_step e o o st q (e.sal .sal_point_min)
        = (if o q - o (st (e.sal .sal_point_min)) < 0 then q else st (e.sal .sal_point_min))
    ∧ extrema_step e o o st q (e.sal .sal_point_max)
        = (if o q - o (st (e.sal .sal_point_max)) > 0 then q else st (e.sal .sal_point_max)) := by
  unfold extrema_step
  constructor
  · split_ifs <;> simp_all [update, hne, hne.symm]
  · split_ifs <;> simp_all [update, hne, hne.symm]

/-- The minimum behind `n` calls of `bci_get_point_extrema` for the points
`p + 1`, ..., `p + n`: it is the minimum before or one of the points, and its
original coordinate is the least. -/
theorem extrema_min {e : Engine} (hne : (e.sal .sal_point_min : Int) ≠ e.sal .sal_point_max)
    (o : Int → Int) :
    ∀ (n : Nat) (p : Int) (st : Int → Int),
      (extrema e o o n p st (e.sal .sal_point_min) = st (e.sal .sal_point_min)
        ∨ ∃ k : Nat, 1 ≤ k ∧ k ≤ n ∧ extrema e o o n p st (e.sal .sal_point_min) = p + k)
      ∧ o (extrema e o o n p st (e.sal .sal_point_min)) ≤ o (st (e.sal .sal_point_min))
      ∧ ∀ k : Nat, 1 ≤ k → k ≤ n →
          o (extrema e o o n p st (e.sal .sal_point_min)) ≤ o (p + k) := by
  intro n
  induction n with
  | zero =>
    intro p st
    exact ⟨Or.inl rfl, le_refl _, fun k h1 h2 => by omega⟩
  | succ n ih =>
    intro p st
    obtain ⟨hm, hb, ha⟩ := ih (p + 1) (extrema_step e o o st (p + 1))
    have hcell := (extrema_step_cells hne o st (p + 1)).1
    rw [extrema]
    have hle : o (extrema_step e o o st (p + 1) (e.sal .sal_point_min))
          ≤ o (st (e.sal .sal_point_min))
        ∧ o (extrema_step e o o st (p + 1) (e.sal .sal_point_min)) ≤ o (p + 1) := by
      rw [hcell]
      split_ifs with h
      · exact ⟨by omega, le_refl _⟩
      · exact ⟨le_refl _, by omega⟩
    refine ⟨?_, le_trans hb hle.1, ?_⟩
    · rcases hm with hm | ⟨k, h1, h2, hk⟩
      · rw [hm, hcell]
        split_ifs with h
        · exact Or.inr ⟨1, le_refl _, by omega, by simp⟩
        · exact Or.inl rfl
      · exact Or.inr ⟨k + 1, by omega, by omega, by rw [hk]; push_cast; ring⟩
    · intro k h1 h2
      obtain ⟨j, rfl⟩ : ∃ j, k = j + 1 := ⟨k - 1, by omega⟩
      rcases Nat.eq_zero_or_pos j with hj | hj
      · subst hj
        simpa using le_trans hb hle.2
      · have := ha j hj (by omega)
        have he : p + 1 + (j : Int) = p + ((j + 1 : Nat) : Int) := by push_cast; ring
        rwa [he] at this

/-- The maximum behind `n` calls of `bci_get_point_extrema` for the points
`p + 1`, ..., `p + n`: it is the maximum before or one of the points, and its
original coordinate is the greatest. -/
theorem extrema_max {e : Engine} (hne : (e.sal .sal_point_min : Int) ≠ e.sal .sal_point_max)
    (o : Int → Int) :
    ∀ (n : Nat) (p : Int) (st : Int → Int),
      (extrema e o o n p st (e.sal .sal_point_max) = st (e.sal .sal_point_max)
        ∨ ∃ k : Nat, 1 ≤ k ∧ k ≤ n ∧ extrema e o o n p st (e.sal .sal_point_max) = p + k)
      ∧ o (st (e.sal .sal_point_max)) ≤ o (extrema e o o n p st (e.sal .sal_point_max))
      ∧ ∀ k : Nat, 1 ≤ k → k ≤ n →
          o (p + k) ≤ o (extrema e o o n p st (e.sal .sal_point_max)) := by
  intro n
  induction n with
  | zero =>
    intro p st
    exact ⟨Or.inl rfl, le_refl _, fun k h1 h2 => by omega⟩
  | succ n ih =>
    intro p st
    obtain ⟨hm, hb, ha⟩ := ih (p + 1) (extrema_step e o o st (p + 1))
    have hcell := (extrema_step_cells hne o st (p + 1)).2
    rw [extrema]
    have hle : o (st (e.sal .sal_point_max))
          ≤ o (extrema_step e o o st (p + 1) (e.sal .sal_point_max))
        ∧ o (p + 1) ≤ o (extrema_step e o o st (p + 1) (e.sal .sal_point_max)) := by
      rw [hcell]
      split_ifs with h
      · exact ⟨by omega, le_refl _⟩
      · exact ⟨le_refl _, by omega⟩
    refine ⟨?_, le_trans hle.1 hb, ?_⟩
    · rcases hm with hm | ⟨k, h1, h2, hk⟩
      · rw [hm, hcell]
        split_ifs with h
        · exact Or.inr ⟨1, le_refl _, by omega, by simp⟩
        · exact Or.inl rfl
      · exact Or.inr ⟨k + 1, by omega, by omega, by rw [hk]; push_cast; ring⟩
    · intro k h1 h2
      obtain ⟨j, rfl⟩ : ∃ j, k = j + 1 := ⟨k - 1, by omega⟩
      rcases Nat.eq_zero_or_pos j with hj | hj
      · subst hj
        simpa using le_trans hle.2 hb
      · have := ha j hj (by omega)
        have he : p + 1 + (j : Int) = p + ((j + 1 : Nat) : Int) := by push_cast; ring
        rwa [he] at this

/-- In front of the calls of `bci_get_point_extrema` the minimum and the
maximum are `start`. -/
theorem segment_recorded_extrema {e : Engine} (hs : Slots e) (st : Int → Int) (g : Segment)
    (hi : (e.sal .sal_segment_offset : Int) ≤ st (e.sal .sal_i)) :
    segment_recorded e st g (e.sal .sal_point_min) = g.start
    ∧ segment_recorded e st g (e.sal .sal_point_max) = g.start := by
  have h1 := hs.lt (show Sal.sal_i ≠ .sal_segment_offset by decide)
  have h2 := hs.lt (show Sal.sal_point_min ≠ .sal_segment_offset by decide)
  have h3 := hs.lt (show Sal.sal_point_max ≠ .sal_segment_offset by decide)
  have n1 := hs.ne (show Sal.sal_i ≠ .sal_point_min by decide)
  have n2 := hs.ne (show Sal.sal_i ≠ .sal_point_max by decide)
  have n3 := hs.ne (show Sal.sal_point_min ≠ .sal_point_max by decide)
  have hii : (e.sal .sal_i : Int) ≠ st (e.sal .sal_i) := by omega
  have hhead : segment_head e st g.start (e.sal .sal_i) = 1 + st (e.sal .sal_i) := by
    unfold segment_head
    rw [update_other _ _ _ n2, update_other _ _ _ n1, update_same, update_other _ _ _ hii]
  constructor
  · unfold segment_recorded
    rw [hhead, update_other _ _ _ (by omega)]
    unfold segment_head
    rw [update_other _ _ _ n3, update_same]
  · unfold segment_recorded
    rw [hhead, update_other _ _ _ (by omega)]
    unfold segment_head
    rw [update_same]

/-- The extrema that `bci_create_segment` computes: `sal_point_min` and
`sal_point_max` are points of `extrema_over`, and among these points they have
the least and the greatest original coordinate. -/
theorem segment_extrema_over {e : Engine} (hs : Slots e) (o st : Int → Int) (g : Segment)
    (hi : (e.sal .sal_segment_offset : Int) ≤ st (e.sal .sal_i)) :
    g.extrema_over (segment_extrema e o st g (e.sal .sal_point_min))
    ∧ g.extrema_over (segment_extrema e o st g (e.sal .sal_point_max))
    ∧ ∀ q : Int, g.extrema_over q →
        o (segment_extrema e o st g (e.sal .sal_point_min)) ≤ o q
        ∧ o q ≤ o (segment_extrema e o st g (e.sal .sal_point_max)) := by
  have hne := hs.ne (show Sal.sal_point_min ≠ .sal_point_max by decide)
  obtain ⟨hmin0, hmax0⟩ := segment_recorded_extrema hs st g hi
  unfold segment_extrema Segment.extrema_over Segment.recorded_last
  by_cases hw : g.end_ < g.start
  · simp only [if_pos hw]
    obtain ⟨am, ab, aa⟩ := extrema_min hne o (g.last - g.start).toNat g.start
      (segment_recorded e st g)
    obtain ⟨bm, bb, ba⟩ := extrema_min hne o (g.end_ - (g.first - 1)).toNat (g.first - 1)
      (extrema e o o (g.last - g.start).toNat g.start (segment_recorded e st g))
    obtain ⟨cm, cb, ca⟩ := extrema_max hne o (g.last - g.start).toNat g.start
      (segment_recorded e st g)
    obtain ⟨dm, db, da⟩ := extrema_max hne o (g.end_ - (g.first - 1)).toNat (g.first - 1)
      (extrema e o o (g.last - g.start).toNat g.start (segment_recorded e st g))
    rw [hmin0] at am ab
    rw [hmax0] at cm cb
    refine ⟨?_, ?_, ?_⟩
    · rcases bm with bm | ⟨k, k1, k2, hk⟩
      · rw [bm]
        rcases am with am | ⟨j, j1, j2, hj⟩
        · exact Or.inl am
        · exact Or.inr (Or.inl ⟨by omega, by omega⟩)
      · exact Or.inr (Or.inr ⟨hw, by omega, by omega⟩)
    · rcases dm with dm | ⟨k, k1, k2, hk⟩
      · rw [dm]
        rcases cm with cm | ⟨j, j1, j2, hj⟩
        · exact Or.inl cm
        · exact Or.inr (Or.inl ⟨by omega, by omega⟩)
      · exact Or.inr (Or.inr ⟨hw, by omega, by omega⟩)
    · intro q hq
      rcases hq with hq | ⟨q1, q2⟩ | ⟨-, q1, q2⟩
      · rw [hq]
        exact ⟨le_trans bb ab, le_trans cb db⟩
      · have hq : q = g.start + ((q - g.start).toNat : Nat) := by omega
        have r1 := aa (q - g.start).toNat (by omega) (by omega)
        have r2 := ca (q - g.start).toNat (by omega) (by omega)
        rw [← hq] at r1 r2
        exact ⟨le_trans bb r1, le_trans r2 db⟩
      · have hq : q = g.first - 1 + ((q - (g.first - 1)).toNat : Nat) := by omega
        have r1 := ba (q - (g.first - 1)).toNat (by omega) (by omega)
        have r2 := da (q - (g.first - 1)).toNat (by omega) (by omega)
        rw [← hq] at r1 r2
        exact ⟨r1, r2⟩
  · simp only [if_neg hw]
    obtain ⟨am, ab, aa⟩ := extrema_min hne o (g.end_ - g.start).toNat g.start
      (segment_recorded e st g)
    obtain ⟨cm, cb, ca⟩ := extrema_max hne o (g.end_ - g.start).toNat g.start
      (segment_recorded e st g)
    rw [hmin0] at am ab
    rw [hmax0] at cm cb
    refine ⟨?_, ?_, ?_⟩
    · rcases am with am | ⟨j, j1, j2, hj⟩
      · exact Or.inl am
      · exact Or.inr (Or.inl ⟨by omega, by omega⟩)
    · rcases cm with cm | ⟨j, j1, j2, hj⟩
      · exact Or.inl cm
      · exact Or.inr (Or.inl ⟨by omega, by omega⟩)
    · intro q hq
      rcases hq with hq | ⟨q1, q2⟩ | ⟨h, -, -⟩
      · rw [hq]
        exact ⟨ab, cb⟩
      · have hq : q = g.start + ((q - g.start).toNat : Nat) := by omega
        have r1 := aa (q - g.start).toNat (by omega) (by omega)
        have r2 := ca (q - g.start).toNat (by omega) (by omega)
        rw [← hq] at r1 r2
        exact ⟨r1, r2⟩
      · exact absurd h hw

/-- Claim C29, for the range that is stored.  Let `g` be segment `t` of the
segments that `bci_create_segments` was called for.  The invocation of
`bci_create_segment` for `g` leaves in `sal_point_min` and `sal_point_max`
points of `start`, ..., `end` (for a wrap-around segment of `start`, ...,
`last` and `first`, ..., `end`) with the least and the greatest original
coordinate among these points.  Run behind `bci_create_segments` with `t` on
top of the stack, `bci_align_segment` reaches its `ENDF` after `ALIGNRP` of
the points from `start` to the stored last point, in ascending order, and of
no other point.  For a segment with `start <= end` these are the points the
extrema were taken over; for a wrap-around segment they are `start`, ...,
`last` only: the points `first`, ..., `end` are among the points of the
extrema, but are not aligned. -/
theorem segment_range_aligned {e : Engine}
    (hl : e.fdefs (e.bci .bci_loop) = some fpgm_bci_loop)
    (hx : e.fdefs (e.bci .bci_get_point_extrema) = some fpgm_bci_get_point_extrema)
    (hc : e.fdefs (e.bci .bci_create_segment) = some fpgm_bci_create_segment)
    (hs : Slots e) (hbci : Function.Injective e.bci) (segs : List Segment) (s : List Int)
    (st cv : Int → Int) (gs : GS) (h0 : st (e.sal .sal_0x10000) ≠ 0)
    (t : Nat) (g : Segment) (hg : segs[t]? = some g) :
    (∀ frames : List GFrame,
      GReaches e
        (genter fpgm_bci_create_segments frames
          ⟨(segs.length : Int) :: (segments_args segs ++ s), st, cv⟩ gs)
        ⟨fpgm_bci_create_segments.dropLast.reverse, [Byte.ENDF], frames,
          ⟨s, (created_segments e st gs segs).1, cv⟩, (created_segments e st gs segs).2⟩)
    ∧ ((loop_step e
            ((segs.take t).foldl (loop_step e) (segments_start e st gs segs.length)) g).1
          (e.sal .sal_point_min)
        = segment_extrema e (gs.org 1)
            ((segs.take t).foldl (loop_step e) (segments_start e st gs segs.length)).1 g
            (e.sal .sal_point_min)
      ∧ (loop_step e
            ((segs.take t).foldl (loop_step e) (segments_start e st gs segs.length)) g).1
          (e.sal .sal_point_max)
        = segment_extrema e (gs.org 1)
            ((segs.take t).foldl (loop_step e) (segments_start e st gs segs.length)).1 g
            (e.sal .sal_point_max))
    ∧ (g.extrema_over
          (segment_extrema e (gs.org 1)
            ((segs.take t).foldl (loop_step e) (segments_start e st gs segs.length)).1 g
            (e.sal .sal_point_min))
      ∧ g.extrema_over
          (segment_extrema e (gs.org 1)
            ((segs.take t).foldl (loop_step e) (segments_start e st gs segs.length)).1 g
            (e.sal .sal_point_max))
      ∧ ∀ q : Int, g.extrema_over q →
          gs.org 1
              (segment_extrema e (gs.org 1)
                ((segs.take t).foldl (loop_step e) (segments_start e st gs segs.length)).1 g
                (e.sal .sal_point_min))
            ≤ gs.org 1 q
          ∧ gs.org 1 q
            ≤ gs.org 1
              (segment_extrema e (gs.org 1)
                ((segs.take t).foldl (loop_step e) (segments_start e st gs segs.length)).1 g
                (e.sal .sal_point_max)))
    ∧ (∀ (frames : List GFrame) (s1 : List Int) (cv1 : Int → Int) (gs1 : GS),
        GReaches e
          (genter fpgm_bci_align_segment frames
            ⟨(t : Int) :: s1, (created_segments e st gs segs).1, cv1⟩ gs1)
          ⟨(fpgm_bci_align_segment.take 38).reverse, [Byte.ENDF], frames,
            ⟨s1, (created_segments e st gs segs).1, cv1⟩,
            gs1.aligned g.start (if g.end_ < g.start then g.last else g.end_)⟩)
    ∧ (∀ gs1 : GS,
        (gs1.aligned g.start (if g.end_ < g.start then g.last else g.end_)).log.reverse
          = gs1.log.reverse
            ++ (List.range ((if g.end_ < g.start then g.last else g.end_) - g.start + 1).toNat).map
                (fun i => Event.ALIGNRP gs1.zp1 (g.start + i)))
    ∧ (∀ (gs1 : GS) (z q : Int),
        (gs1.aligned g.start (if g.end_ < g.start then g.last else g.end_)).cur z q
          = if z = gs1.zp1 ∧ g.start ≤ q ∧ q ≤ (if g.end_ < g.start then g.last else g.end_)
            then gs1.cur gs1.zp0 gs1.rp0 else gs1.cur z q)
    ∧ (¬ g.end_ < g.start → ∀ q : Int, g.extrema_over q ↔ (g.start ≤ q ∧ q ≤ g.end_))
    ∧ (g.end_ < g.start → ∀ q : Int, g.first ≤ q → q ≤ g.end_ →
        g.extrema_over q ∧ ¬ (g.start ≤ q ∧ q ≤ g.last)) := by
  obtain ⟨hrun, hinv⟩ := create_segments_run hl hx hc hs hbci segs s st cv gs h0
  have ht : t < segs.length := by
    by_contra hcon
    rw [List.getElem?_eq_none (by omega)] at hg
    exact absurd hg (by simp)
  have hpre := segments_inv_take hs hbci st gs segs t (by omega)
  have hlen : (segs.take t).length = t := by simp only [List.length_take]; omega
  have hi : (e.sal .sal_segment_offset : Int)
      ≤ ((segs.take t).foldl (loop_step e) (segments_start e st gs segs.length)).1
          (e.sal .sal_i) := by
    rw [hpre.sal_i]; omega
  have hover := segment_extrema_over hs (gs.org 1)
    ((segs.take t).foldl (loop_step e) (segments_start e st gs segs.length)).1 g hi
  obtain ⟨c1, c2⟩ := hinv.cells t g hg
  refine ⟨hrun, ⟨?_, ?_⟩, hover, ?_, ?_, fun _ _ _ => rfl, ?_, ?_⟩
  · simp only [loop_step, created_storage, hpre.org]
    rw [update_other _ _ _ (hs.ne (by decide)), update_other _ _ _ (hs.ne (by decide)),
      update_other _ _ _ (hs.ne (by decide))]
  · simp only [loop_step, created_storage, hpre.org]
    rw [update_other _ _ _ (hs.ne (by decide)), update_other _ _ _ (hs.ne (by decide)),
      update_other _ _ _ (hs.ne (by decide))]
  · intro frames s1 cv1 gs1
    have h := align_segment_body e frames (t : Int) s1 (created_segments e st gs segs).1 cv1 gs1
    have e1 : segment_first e (created_segments e st gs segs).1 (t : Int) = g.start := c1
    have e2 : segment_last e (created_segments e st gs segs).1 (t : Int)
        = if g.end_ < g.start then g.last else g.end_ := c2
    rw [e1, e2] at h
    exact h
  · intro gs1
    simp only [GS.aligned, List.reverse_append, alignrp_events_reverse]
  · intro hw q
    simp only [Segment.extrema_over, Segment.recorded_last, if_neg hw]
    constructor
    · rintro (h | ⟨h1, h2⟩ | ⟨h, -, -⟩)
      · omega
      · omega
      · exact absurd h hw
    · rintro ⟨h1, h2⟩
      rcases eq_or_lt_of_le h1 with h | h
      · exact Or.inl h.symm
      · exact Or.inr (Or.inl ⟨h, h2⟩)
  · intro hw q h1 h2
    exact ⟨Or.inr (Or.inr ⟨hw, h1, h2⟩), fun h => by omega⟩

set_option maxRecDepth 100000 in
/-- The claim C29 fails for a wrap-around segment.  In the sample glyph the
segment of the points 8, 9, 0, 1, 2 is created: the minimum is taken at
point 0, a point of the segment, and the cells of the segment hold 8 and 9.
`bci_align_segment`, run for this segment, executes `ALIGNRP` for the points
8 and 9 and ends: the points 0, 1 and 2 of the segment are not aligned and
stay where they were. -/
theorem wrap_around_points_not_aligned :
    (∃ K, ∀ fuel, K ≤ fuel →
      grun glyph_engine fuel
          (genter fpgm_bci_create_segments [] ⟨[1, 8, 2, 9, 0], glyph_storage, sample_cvt⟩
            glyph_gs)
        = some (⟨[], (created_segments glyph_engine glyph_storage glyph_gs
              [wrap_around_segment]).1, sample_cvt⟩,
            (created_segments glyph_engine glyph_storage glyph_gs [wrap_around_segment]).2))
    ∧ (created_segments glyph_engine glyph_storage glyph_gs [wrap_around_segment]).1
        (glyph_engine.sal .sal_point_min) = 0
    ∧ (∃ K, ∀ fuel, K ≤ fuel →
      grun glyph_engine fuel
          (genter fpgm_bci_align_segment []
            ⟨[0], (created_segments glyph_engine glyph_storage glyph_gs
              [wrap_around_segment]).1, sample_cvt⟩
            (created_segments glyph_engine glyph_storage glyph_gs [wrap_around_segment]).2)
        = some (⟨[], (created_segments glyph_engine glyph_storage glyph_gs
              [wrap_around_segment]).1, sample_cvt⟩,
            (created_segments glyph_engine glyph_storage glyph_gs
              [wrap_around_segment]).2.aligned 8 9))
    ∧ ((created_segments glyph_engine glyph_storage glyph_gs
          [wrap_around_segment]).2.aligned 8 9).log
        = .ALIGNRP 1 9 :: .ALIGNRP 1 8
          :: (created_segments glyph_engine glyph_storage glyph_gs [wrap_around_segment]).2.log
    ∧ (∀ q ∈ [(0 : Int), 1, 2], Event.ALIGNRP 1 q ∉ ((created_segments glyph_engine glyph_storage glyph_gs
          [wrap_around_segment]).2.aligned 8 9).log)
    ∧ [0, 1, 2].map (((created_segments glyph_engine glyph_storage glyph_gs
          [wrap_around_segment]).2.aligned 8 9).cur 1) = [0, 10, 20]
    ∧ [8, 9].map (((created_segments glyph_engine glyph_storage glyph_gs
          [wrap_around_segment]).2.aligned 8 9).cur 1) = [0, 0] :=
  ⟨grun_of_reaches
      ((create_segments_run glyph_engine_loop glyph_engine_get_point_extrema
        glyph_engine_create_segment glyph_engine_slots glyph_engine_bci_injective
        [wrap_around_segment] [] glyph_storage sample_cvt glyph_gs (by decide)).1 []) rfl,
    by decide,
    grun_of_reaches
      (align_segment_body glyph_engine [] 0 []
        (created_segments glyph_engine glyph_storage glyph_gs [wrap_around_segment]).1 sample_cvt
        (created_segments glyph_engine glyph_storage glyph_gs [wrap_around_segment]).2) rfl,
    by decide, by decide, by decide, by decide⟩

set_option maxRecDepth 100000 in
/-- The sample glyph with two segments, the points 3 to 5 and the wrap-around
segment of the points 8, 9, 0, 1, 2.  For the first segment the extrema are
the points 3 and 5 and `bci_align_segment` aligns the points 3, 4 and 5; for
the second the extrema are the points 0 and 9. -/
theorem segment_range_aligned_witness :
    (∀ (frames : List GFrame) (s1 : List Int) (cv1 : Int → Int) (gs1 : GS),
        GReaches glyph_engine
          (genter fpgm_bci_align_segment frames
            ⟨((0 : Nat) : Int) :: s1, (created_segments glyph_engine glyph_storage glyph_gs
                [plain_segment, wrap_around_segment]).1, cv1⟩ gs1)
          ⟨(fpgm_bci_align_segment.take 38).reverse, [Byte.ENDF], frames,
            ⟨s1, (created_segments glyph_engine glyph_storage glyph_gs
                [plain_segment, wrap_around_segment]).1, cv1⟩,
            gs1.aligned plain_segment.start
              (if plain_segment.end_ < plain_segment.start then plain_segment.last
                else plain_segment.end_)⟩)
    ∧ plain_segment.start = 3
    ∧ (if plain_segment.end_ < plain_segment.start then plain_segment.last
        else plain_segment.end_) = 5
    ∧ (glyph_gs.aligned 3 5).log = [.ALIGNRP 1 5, .ALIGNRP 1 4, .ALIGNRP 1 3]
    ∧ segment_extrema glyph_engine (glyph_gs.org 1)
        (segments_start glyph_engine glyph_storage glyph_gs 2).1 plain_segment
        (glyph_engine.sal .sal_point_min) = 3
    ∧ segment_extrema glyph_engine (glyph_gs.org 1)
        (segments_start glyph_engine glyph_storage glyph_gs 2).1 plain_segment
        (glyph_engine.sal .sal_point_max) = 5 :=
  ⟨(segment_range_aligned glyph_engine_loop glyph_engine_get_point_extrema
      glyph_engine_create_segment glyph_engine_slots glyph_engine_bci_injective
      [plain_segment, wrap_around_segment] [] glyph_storage sample_cvt glyph_gs
      (by decide) 0 plain_segment rfl).2.2.2.1,
    rfl, by decide, by decide, by decide, by decide⟩

/-! ## The offsets of the blocks -/

theorem block_bytes_cells (env : Env) (gstyles : List Nat) (i : Nat) :
    (block_bytes env gstyles i).length = 2 * written_cells env gstyles i := by
  unfold block_bytes written_cells
  cases TA_sfnt_compute_global_hints env gstyles i with
  | error e => rfl
  | ok m => simp only [encode_length, block_cells_length]

theorem blocks_below_cells (env : Env) (gstyles : List Nat) (n : Nat) :
    (blocks_below env gstyles n).length = 2 * sum_below (written_cells env gstyles) n := by
  induction n with
  | zero => rfl
  | succ n ih =>
    simp only [blocks_below, List.length_append, ih, block_bytes_cells, sum_below]
    omega

theorem sum_below_mono (f : Nat → Nat) {i k : Nat} (h : i ≤ k) :
    sum_below f i ≤ sum_below f k := by
  induction k with
  | zero =>
    have : i = 0 := by omega
    subst this
    exact le_refl _
  | succ k ih =>
    rcases Nat.lt_or_ge i (k + 1) with hlt | hge
    · exact le_trans (ih (by omega)) (by simp only [sum_below]; omega)
    · have : i = k + 1 := by omega
      subst this
      exact le_refl _

theorem sum_below_eq_of_zero (f : Nat → Nat) {i k : Nat} (h : i ≤ k)
    (hz : ∀ j, i ≤ j → j < k → f j = 0) : sum_below f k = sum_below f i := by
  induction k with
  | zero =>
    have : i = 0 := by omega
    subst this
    rfl
  | succ k ih =>
    rcases Nat.lt_or_ge i (k + 1) with hlt | hge
    · simp only [sum_below]
      rw [ih (by omega) (fun j h1 h2 => hz j h1 (by omega)), hz k (by omega) (by omega)]
      rfl
    · have : i = k + 1 := by omega
      subst this
      rfl

/-- Claim C31.  On success, for every style `i`, `cvt_offsets[i]` is the sum
over the styles `j < i` the second loop has written (its call returned
`FT_Err_Ok`) of `2 + hwidth_count + vwidth_count + 2 * blue_count`, the counts
being those the second loop uses.  So `cvt_offsets[0]` is 0, `cvt_offsets` does
not decrease, it grows by the size of the block, at least by 2, across a
written style, and a style that is not written records the same offset as the
next written style.  Every style is written or skipped for a missing glyph;
when the calls of the second loop have the results of the calls of the first
loop, the written styles are the used styles. -/
theorem cvt_offsets_sum (env : Env) (t : CvtTable) (h : TA_table_build_cvt env = .ok t) :
    (∀ i, i < env.TA_STYLE_MAX →
      t.data.cvt_offsets i = sum_below (written_cells env t.glyph_styles) i)
    ∧ (0 < env.TA_STYLE_MAX → t.data.cvt_offsets 0 = 0)
    ∧ (∀ i k, i ≤ k → k < env.TA_STYLE_MAX → t.data.cvt_offsets i ≤ t.data.cvt_offsets k)
    ∧ (∀ i m, i + 1 < env.TA_STYLE_MAX →
        TA_sfnt_compute_global_hints env t.glyph_styles i = .ok m →
        t.data.cvt_offsets (i + 1)
          = t.data.cvt_offsets i
            + (2 + (block_counts env m).1 + (block_counts env m).2.1
                + 2 * (block_counts env m).2.2)
        ∧ t.data.cvt_offsets i + 2 ≤ t.data.cvt_offsets (i + 1))
    ∧ (∀ i k, i ≤ k → k < env.TA_STYLE_MAX →
        (∀ j, i ≤ j → j < k →
          TA_sfnt_compute_global_hints env t.glyph_styles j = .error TA_Err_Missing_Glyph) →
        t.data.cvt_offsets k = t.data.cvt_offsets i)
    ∧ (∀ i, i < env.TA_STYLE_MAX →
        TA_sfnt_compute_global_hints env t.glyph_styles i = .error TA_Err_Missing_Glyph
        ∨ ∃ m, TA_sfnt_compute_global_hints env t.glyph_styles i = .ok m)
    ∧ ((∀ i, i < env.TA_STYLE_MAX → second_loop_hints env i = first_loop_hints env i) →
        ∀ i, i < env.TA_STYLE_MAX →
          (style_used env i = true
            ↔ ∃ m, TA_sfnt_compute_global_hints env t.glyph_styles i = .ok m)) := by
  obtain ⟨st1, st2, h1, -, -, h2, -, -, -, hg, -, -, hoff, -⟩ := build_ok h
  have inv2 := second_loop_inv env _ _ _ _ st2 h2
  have hstart : (second_loop_start env st1).bytes.length = runtime_bytes env st1 := by
    simp [second_loop_start]
  have hsum : ∀ i, i < env.TA_STYLE_MAX →
      t.data.cvt_offsets i = sum_below (written_cells env t.glyph_styles) i := by
    intro i hi
    rw [hoff, inv2.offsets i hi, hg, List.length_append, hstart, blocks_below_cells,
      Nat.shiftRight_eq_div_pow]
    omega
  refine ⟨hsum, ?_, ?_, ?_, ?_, ?_, ?_⟩
  · intro h0
    rw [hsum 0 h0]
    rfl
  · intro i k hik hk
    rw [hsum i (by omega), hsum k hk]
    exact sum_below_mono _ hik
  · intro i m hi hm
    have e1 : written_cells env t.glyph_styles i
        = 2 + (block_counts env m).1 + (block_counts env m).2.1
          + 2 * (block_counts env m).2.2 := by
      simp only [written_cells, hm]
    have e2 : sum_below (written_cells env t.glyph_styles) (i + 1)
        = sum_below (written_cells env t.glyph_styles) i
          + written_cells env t.glyph_styles i := rfl
    rw [hsum i (by omega), hsum (i + 1) hi, e2, e1]
    exact ⟨rfl, by omega⟩
  · intro i k hik hk hz
    rw [hsum i (by omega), hsum k hk]
    refine sum_below_eq_of_zero _ hik (fun j h1 h2 => ?_)
    simp only [written_cells, hz j h1 h2]
  · intro i hi
    rcases inv2.settled i hi with hm | ⟨m, hm, -⟩
    · exact Or.inl (by rw [hg]; exact hm)
    · exact Or.inr ⟨m, by rw [hg]; exact hm⟩
  · intro hsame i hi
    have hs := hsame i hi
    rw [second_loop_hints_of_ok i h1] at hs
    unfold style_used
    rw [← hs, hg]
    cases TA_sfnt_compute_global_hints env st1.gstyles i with
    | error e => simp
    | ok m => simp

/-- In `latin_font` style 0 is written with 2 horizontal widths, 1 vertical
width and 4 blue zones, and the styles 1 and 2 are skipped: the offsets are 0,
13 and 13. -/
theorem cvt_offsets_sum_witness :
    TA_table_build_cvt latin_font = .ok (the_table latin_font)
    ∧ [0, 1, 2].map (the_table latin_font).data.cvt_offsets = [0, 13, 13]
    ∧ [0, 1, 2].map (written_cells latin_font (the_table latin_font).glyph_styles) = [13, 0, 0]
    ∧ (the_table latin_font).data.cvt_offsets 1
        = sum_below (written_cells latin_font (the_table latin_font).glyph_styles) 1 :=
  ⟨rfl, by decide, by decide,
    (cvt_offsets_sum latin_font (the_table latin_font) rfl).1 1 (by decide)⟩

/-! ## The blue zone of the x height -/

/-- The value of lines 329 and 346-347 after `n` blue zones: the start value
when no zone carries the flag, and the greatest index of a flagged zone
otherwise. -/
theorem blue_adjustment_greatest (env : Env) (axis : TA_LatinAxisRec) (adj : Nat) :
    ∀ n : Nat,
      ((∀ j, j < n → (axis.blues j).flags &&& env.TA_LATIN_BLUE_ADJUSTMENT = 0) →
        blue_adjustment env axis n adj = adj)
      ∧ ∀ j, j < n → (axis.blues j).flags &&& env.TA_LATIN_BLUE_ADJUSTMENT ≠ 0 →
          blue_adjustment env axis n adj < n
          ∧ (axis.blues (blue_adjustment env axis n adj)).flags
              &&& env.TA_LATIN_BLUE_ADJUSTMENT ≠ 0
          ∧ j ≤ blue_adjustment env axis n adj := by
  intro n
  induction n with
  | zero => exact ⟨fun _ => rfl, fun j hj => absurd hj (Nat.not_lt_zero j)⟩
  | succ n ih =>
    by_cases hf : (axis.blues n).flags &&& env.TA_LATIN_BLUE_ADJUSTMENT ≠ 0
    · have hr : blue_adjustment env axis (n + 1) adj = n := by
        simp only [blue_adjustment, if_pos hf]
      rw [hr]
      exact ⟨fun h => absurd (h n (Nat.lt_succ_self n)) hf,
        fun j hj _ => ⟨Nat.lt_succ_self n, hf, Nat.lt_succ_iff.mp hj⟩⟩
    · have hr : blue_adjustment env axis (n + 1) adj = blue_adjustment env axis n adj := by
        simp only [blue_adjustment, if_neg hf]
      rw [hr]
      refine ⟨fun h => ih.1 (fun j hj => h j (Nat.lt_succ_of_lt hj)), fun j hj hjf => ?_⟩
      have hjn : j < n := by
        rcases Nat.lt_succ_iff_lt_or_eq.mp hj with h1 | h1
        · exact h1
        · subst h1
          exact absurd hjf hf
      obtain ⟨h1, h2, h3⟩ := ih.2 j hjn hjf
      exact ⟨Nat.lt_succ_of_lt h1, h2, h3⟩

/-- Claim C32.  On success, let `s` be a style the second loop has written,
with the metrics `m`, and let `n` be `cvt_blue_zone_sizes[s]`: 0 for metrics
of the class `none_dflt`, and `blue_count + 2` otherwise, the two artificial
zones included.  Then `cvt_blue_adjustment_offsets[s]` is `0xFFFF` when none
of the `n` blue zones carries the flag `TA_LATIN_BLUE_ADJUSTMENT`; otherwise it
is the greatest index of a flagged zone.  So it is `0xFFFF` or smaller than
`cvt_blue_zone_sizes[s]`. -/
theorem blue_adjustment_offset (env : Env) (t : CvtTable) (s : Nat) (m : TA_LatinMetricsRec)
    (h : TA_table_build_cvt env = .ok t) (hs : s < env.TA_STYLE_MAX)
    (hm : TA_sfnt_compute_global_hints env t.glyph_styles s = .ok m) :
    t.data.cvt_blue_zone_sizes s
      = (if m.style_class = env.TA_STYLE_NONE_DFLT then 0 else m.vaxis.blue_count + 2)
    ∧ ((∀ j, j < t.data.cvt_blue_zone_sizes s →
          (m.vaxis.blues j).flags &&& env.TA_LATIN_BLUE_ADJUSTMENT = 0) →
        t.data.cvt_blue_adjustment_offsets s = 0xFFFF)
    ∧ (∀ j, j < t.data.cvt_blue_zone_sizes s →
        (m.vaxis.blues j).flags &&& env.TA_LATIN_BLUE_ADJUSTMENT ≠ 0 →
        t.data.cvt_blue_adjustment_offsets s < t.data.cvt_blue_zone_sizes s
        ∧ (m.vaxis.blues (t.data.cvt_blue_adjustment_offsets s)).flags
            &&& env.TA_LATIN_BLUE_ADJUSTMENT ≠ 0
        ∧ j ≤ t.data.cvt_blue_adjustment_offsets s)
    ∧ (t.data.cvt_blue_adjustment_offsets s = 0xFFFF
        ∨ t.data.cvt_blue_adjustment_offsets s < t.data.cvt_blue_zone_sizes s) := by
  obtain ⟨st1, st2, h1, -, -, h2, -, -, -, hg, -, -, -, -, -, hb, ha⟩ := build_ok h
  have inv2 := second_loop_inv env _ _ _ _ st2 h2
  rw [hg] at hm
  have hsize : t.data.cvt_blue_zone_sizes s = (block_counts env m).2.2 := by
    rw [hb, inv2.bsizes s m hs hm]
  have hadj : t.data.cvt_blue_adjustment_offsets s
      = blue_adjustment env m.vaxis (block_counts env m).2.2 0xFFFF := by
    rw [ha, inv2.adjust s m hs hm]
  have hspec := blue_adjustment_greatest env m.vaxis 0xFFFF (block_counts env m).2.2
  rw [← hsize] at hadj hspec
  rw [← hadj] at hspec
  refine ⟨?_, hspec.1, hspec.2, ?_⟩
  · rw [hsize]
    unfold block_counts
    split_ifs <;> rfl
  · by_cases hall : ∀ j, j < t.data.cvt_blue_zone_sizes s →
        (m.vaxis.blues j).flags &&& env.TA_LATIN_BLUE_ADJUSTMENT = 0
    · exact Or.inl (hspec.1 hall)
    · push_neg at hall
      obtain ⟨j, hj, hjf⟩ := hall
      exact Or.inr (hspec.2 j hj hjf).1

/-- In `latin_font` the four blue zones of style 0 have the flags 0, 1, 0, 0:
zone 1 is the zone of the x height. -/
theorem blue_adjustment_offset_witness :
    TA_table_build_cvt latin_font = .ok (the_table latin_font)
    ∧ (the_table latin_font).data.cvt_blue_zone_sizes 0 = 4
    ∧ (the_table latin_font).data.cvt_blue_adjustment_offsets 0 = 1
    ∧ ((the_table latin_font).data.cvt_blue_adjustment_offsets 0 = 0xFFFF
        ∨ (the_table latin_font).data.cvt_blue_adjustment_offsets 0
          < (the_table latin_font).data.cvt_blue_zone_sizes 0) :=
  ⟨rfl, by decide, by decide,
    (blue_adjustment_offset latin_font (the_table latin_font) 0
      ⟨0, sample_haxis, sample_vaxis⟩ rfl (by decide) rfl).2.2.2⟩

/-! ## The padding of the tables -/

/-- The length allocated for the CVT table is the least multiple of four that
is not below `cvt_len`, the reported length; when the loops have stored at
most `cvt_len` bytes, the bytes from `cvt_len` on are the zeros of lines
233-236. -/
theorem cvt_padding (env : Env) (t : CvtTable) (h : TA_table_build_cvt env = .ok t) :
    t.len % 4 = 0
    ∧ t.cvt_len ≤ t.len
    ∧ t.len - t.cvt_len ≤ 3
    ∧ (∀ n, n % 4 = 0 → t.cvt_len ≤ n → t.len ≤ n)
    ∧ (t.cvt.length ≤ t.cvt_len →
        ∀ (junk : Nat → Nat) (k : Nat), t.cvt_len ≤ k → k < t.len → cvt_buffer t junk k = 0) := by
  obtain ⟨st1, st2, -, -, -, -, -, hlen, hcl, -⟩ := build_ok h
  rw [hlen, hcl]
  refine ⟨by omega, by omega, by omega, fun n h1 h2 => by omega, fun hle junk k h1 h2 => ?_⟩
  unfold cvt_buffer
  rw [if_neg (by omega), hlen, if_pos ⟨by omega, h2⟩]

/-- The length allocated for the font program is the least multiple of four
that is not below `fpgm_len`, the reported length; the two are equal, so no
byte lies behind the program. -/
theorem fpgm_padding (font : FONT) (t : FpgmTable) (h : TA_table_build_fpgm font = .ok t) :
    fpgm_padded_len % 4 = 0
    ∧ t.fpgm_len = fpgm_buf_len
    ∧ t.fpgm_len ≤ fpgm_padded_len
    ∧ fpgm_padded_len - t.fpgm_len ≤ 3
    ∧ t.fpgm.length = fpgm_padded_len
    ∧ ∀ k, t.fpgm_len ≤ k → k < fpgm_padded_len → t.fpgm[k]? = some (some (Byte.num 0)) := by
  have hm : font.malloc_fails fpgm_padded_len = false := by
    cases hc : font.malloc_fails fpgm_padded_len with
    | false => rfl
    | true =>
      rw [TA_table_build_fpgm, if_pos hc] at h
      cases h
  rw [TA_table_build_fpgm, if_neg (by rw [hm]; exact Bool.false_ne_true)] at h
  have ht := Except.ok.inj h
  obtain ⟨buf, len⟩ := t
  simp only [FpgmTable.mk.injEq] at ht
  have hl : len = fpgm_buf_len ∧ buf.length = fpgm_padded_len :=
    ⟨ht.2.symm, by rw [← ht.1, foldl_write_length, List.length_replicate]⟩
  show fpgm_padded_len % 4 = 0 ∧ len = fpgm_buf_len ∧ len ≤ fpgm_padded_len
    ∧ fpgm_padded_len - len ≤ 3 ∧ buf.length = fpgm_padded_len
    ∧ ∀ k, len ≤ k → k < fpgm_padded_len → buf[k]? = some (some (Byte.num 0))
  rw [hl.1, fpgm_padded_len_eq, fpgm_buf_len_eq]
  refine ⟨by decide, rfl, le_refl _, by decide, ?_, fun k h1 h2 => by omega⟩
  rw [hl.2, fpgm_padded_len_eq]

/-- The claim C33 fails for the CVT table of `late_fallback_font`.  The call
succeeds with `cvt_len` 26, and 28 bytes are allocated; the two zeros stored
at the bytes 26 and 27 are overwritten by the second loop, which stores 52
bytes: when the function returns, the bytes 26 and 27 hold 1 and 244, the
cell 500 of a blue zone. -/
theorem cvt_padding_overwritten :
    TA_table_build_cvt late_fallback_font = .ok (the_table late_fallback_font)
    ∧ (the_table late_fallback_font).cvt_len = 26
    ∧ (the_table late_fallback_font).len = 28
    ∧ (the_table late_fallback_font).cvt.length = 52
    ∧ (∀ junk : Nat → Nat, cvt_buffer (the_table late_fallback_font) junk 26 = 1)
    ∧ (∀ junk : Nat → Nat, cvt_buffer (the_table late_fallback_font) junk 27 = 244) :=
  ⟨rfl, by decide, by decide, by decide, fun _ => rfl, fun _ => rfl⟩

/-! ## The backward jumps -/

/-- Claim C35.  In `bci_loop` the only `JMPR` is byte 37, behind
`PUSHB_1, 22, NEG`; byte 15, which is 22 bytes in front of it, is the
`PUSHB_1` of `PUSHB_1, sal_i, RS, PUSHB_1, sal_limit, RS, LTEQ, IF`, the test
behind the label `start_loop`, and an instruction starts there.  In
`bci_align_segment` the only `JMPR` is byte 33, behind `PUSHB_1, 18, NEG`;
byte 15, which is 18 bytes in front of it, is the `PUSHB_1` of
`PUSHB_1, 2, CINDEX, PUSHB_1, 2, CINDEX, LTEQ, IF`, and an instruction starts
there.  From the `PUSHB_1` in front of the jump the machine reaches byte 15
with the stack, the storage area and the graphics state unchanged. -/
theorem jumps_land_on_loop_start :
    ((fpgm_bci_loop.drop 34).take 4 = [Byte.PUSHB_1, Byte.num 22, Byte.NEG, Byte.JMPR]
      ∧ fpgm_bci_loop.count Byte.JMPR = 1
      ∧ 37 - 22 = 15
      ∧ (fpgm_bci_loop.drop 15).take 8
          = [Byte.PUSHB_1, Byte.sal .sal_i, Byte.RS, Byte.PUSHB_1, Byte.sal .sal_limit, Byte.RS,
              Byte.LTEQ, Byte.IF]
      ∧ (fpgm_bci_loop.take 15).getLast? = some Byte.WS
      ∧ 15 ∈ instruction_starts fpgm_bci_loop
      ∧ 37 ∈ instruction_starts fpgm_bci_loop
      ∧ ∀ (e : Engine) (frames : List GFrame) (vm : VM) (gs : GS),
          GReaches e ⟨(fpgm_bci_loop.take 34).reverse, fpgm_bci_loop.drop 34, frames, vm, gs⟩
            ⟨(fpgm_bci_loop.take 15).reverse, fpgm_bci_loop.drop 15, frames, vm, gs⟩)
    ∧ ((fpgm_bci_align_segment.drop 30).take 4
          = [Byte.PUSHB_1, Byte.num 18, Byte.NEG, Byte.JMPR]
      ∧ fpgm_bci_align_segment.count Byte.JMPR = 1
      ∧ 33 - 18 = 15
      ∧ (fpgm_bci_align_segment.drop 15).take 8
          = [Byte.PUSHB_1, Byte.num 2, Byte.CINDEX, Byte.PUSHB_1, Byte.num 2, Byte.CINDEX,
              Byte.LTEQ, Byte.IF]
      ∧ (fpgm_bci_align_segment.take 15).getLast? = some Byte.RS
      ∧ 15 ∈ instruction_starts fpgm_bci_align_segment
      ∧ 33 ∈ instruction_starts fpgm_bci_align_segment
      ∧ ∀ (e : Engine) (frames : List GFrame) (vm : VM) (gs : GS),
          GReaches e
            ⟨(fpgm_bci_align_segment.take 30).reverse, fpgm_bci_align_segment.drop 30, frames,
              vm, gs⟩
            ⟨(fpgm_bci_align_segment.take 15).reverse, fpgm_bci_align_segment.drop 15, frames,
              vm, gs⟩) := by
  refine ⟨⟨by decide, by decide, by decide, by decide, by decide, by decide, by decide, ?_⟩,
    ⟨by decide, by decide, by decide, by decide, by decide, by decide, by decide, ?_⟩⟩
  · intro e frames vm gs
    rw [fpgm_bci_loop]
    iterate 3 (refine GReaches.step rfl ?_; dsimp only)
    exact (GReaches.refl _).of_eq rfl
  · intro e frames vm gs
    rw [fpgm_bci_align_segment]
    iterate 3 (refine GReaches.step rfl ?_; dsimp only)
    exact (GReaches.refl _).of_eq rfl

/-! ## The loop of `bci_loop` -/

/-- The loop of `bci_loop`, from the test of `sal_i` to the `ENDF`, when it
runs through in `n` rounds. -/
theorem loop_rounds_run {e : Engine} {f : Int} {body : List Byte} {F : VM × GS → VM × GS}
    (hf : e.fdefs f = some body) (frames : List GFrame) :
    ∀ (n : Nat) (state : VM × GS), loop_runs e f body F n state →
      GReaches e
        ⟨(fpgm_bci_loop.take 15).reverse, fpgm_bci_loop.drop 15, frames, state.1, state.2⟩
        ⟨fpgm_bci_loop.dropLast.reverse, [Byte.ENDF], frames,
          ((loop_round e f F)^[n] state).1, ((loop_round e f F)^[n] state).2⟩ := by
  intro n
  induction n with
  | zero =>
    intro state hok
    have hgt : ¬ state.1.storage (e.sal .sal_i) ≤ state.1.storage (e.sal .sal_limit) := hok
    rw [fpgm_bci_loop]
    iterate 5 (refine GReaches.step rfl ?_; dsimp only)
    refine GReaches.step (gstep_if_neg ((truth_eq_zero _).2 hgt) rfl) ?_
    exact (GReaches.refl _).of_eq rfl
  | succ n ih =>
    intro state hok
    obtain ⟨hle, hfn, hret, hnext⟩ := hok
    have h1 := ih _ hnext
    obtain ⟨bef, hb⟩ := hret
      (⟨(fpgm_bci_loop.take 27).reverse, fpgm_bci_loop.drop 27, f, 0⟩ :: frames)
    rw [Function.iterate_succ_apply]
    refine GReaches.chain (?_ : GReaches e _
      ⟨(fpgm_bci_loop.take 15).reverse, fpgm_bci_loop.drop 15, frames,
        (loop_round e f F state).1, (loop_round e f F state).2⟩) h1
    rw [fpgm_bci_loop] at hb ⊢
    iterate 5 (refine GReaches.step rfl ?_; dsimp only)
    refine GReaches.step (gstep_if_pos ((truth_ne_zero _).2 hle)) ?_
    iterate 2 (refine GReaches.step rfl ?_; dsimp only)
    rw [hfn]
    refine GReaches.step (by simp only [gstep, gexec, hf]; rfl) ?_
    refine (hb.of_eqs rfl rfl).chain ?_
    iterate 8 (refine GReaches.step rfl ?_; dsimp only)
    exact (GReaches.refl _).of_eq rfl

/-- The cells behind `k` rounds of the loop, for a function that adds `d` to
`sal_i`. -/
theorem loop_rounds_cells {e : Engine} (hs : Slots e) {f : Int} {body : List Byte}
    {F : VM × GS → VM × GS} {d : Int} {P : VM × GS → Prop} (hF : LoopFunction e f body F d P)
    (end_ start : Int) (s : List Int) (st cv : Int → Int) (gs : GS)
    (hP : P (loop_start e f end_ start s st cv gs)) :
    ∀ k : Nat,
      P ((loop_round e f F)^[k] (loop_start e f end_ start s st cv gs))
      ∧ ((loop_round e f F)^[k] (loop_start e f end_ start s st cv gs)).1.storage (e.sal .sal_i)
          = start + (d + 1) * k
      ∧ ((loop_round e f F)^[k] (loop_start e f end_ start s st cv gs)).1.storage
          (e.sal .sal_limit) = end_
      ∧ ((loop_round e f F)^[k] (loop_start e f end_ start s st cv gs)).1.storage
          (e.sal .sal_func) = f := by
  have n1 := hs.ne (show Sal.sal_limit ≠ .sal_i by decide)
  have n2 := hs.ne (show Sal.sal_func ≠ .sal_i by decide)
  have n3 := hs.ne (show Sal.sal_func ≠ .sal_limit by decide)
  intro k
  induction k with
  | zero =>
    refine ⟨hP, ?_, ?_, ?_⟩
    · simp only [Function.iterate_zero, id_eq, loop_start, update_same]
      simp
    · simp only [Function.iterate_zero, id_eq, loop_start]
      rw [update_other _ _ _ n1, update_same]
    · simp only [Function.iterate_zero, id_eq, loop_start]
      rw [update_other _ _ _ n2, update_other _ _ _ n3, update_same]
  | succ k ih =>
    obtain ⟨hp, hi, hl, hfn⟩ := ih
    rw [Function.iterate_succ_apply']
    refine ⟨hF.next _ hp, ?_, ?_, ?_⟩
    · simp only [loop_round, update_same]
      rw [hF.sal_i _ hp, hi]
      push_cast
      ring
    · simp only [loop_round]
      rw [update_other _ _ _ n1, hF.sal_limit _ hp, hl]
    · simp only [loop_round]
      rw [update_other _ _ _ n2, hF.sal_func _ hp, hfn]

/-- The log behind `k` rounds of the loop, for a function that does not call
itself: the function has been entered `k` times. -/
theorem loop_rounds_log {e : Engine} (hs : Slots e) {f : Int} {body : List Byte}
    {F : VM × GS → VM × GS} {d : Int} {P : VM × GS → Prop} (hF : LoopFunction e f body F d P)
    (end_ start : Int) (s : List Int) (st cv : Int → Int) (gs : GS)
    (hP : P (loop_start e f end_ start s st cv gs))
    (hlog : ∀ x, P x →
      ∃ new, (F (x.1, x.2.entered f)).2.log = new ++ .enter f :: x.2.log
        ∧ Event.enter f ∉ new) :
    ∀ k : Nat,
      ∃ new,
        ((loop_round e f F)^[k] (loop_start e f end_ start s st cv gs)).2.log = new ++ gs.log
        ∧ new.count (.enter f) = k := by
  intro k
  induction k with
  | zero => exact ⟨[], rfl, rfl⟩
  | succ k ih =>
    obtain ⟨new, hl, hcount⟩ := ih
    obtain ⟨hp, -⟩ := loop_rounds_cells hs hF end_ start s st cv gs hP k
    obtain ⟨new1, h1, h2⟩ := hlog _ hp
    rw [Function.iterate_succ_apply']
    refine ⟨new1 ++ .enter f :: new, ?_, ?_⟩
    · simp only [loop_round]
      rw [h1, hl]
      simp
    · rw [List.count_append, List.count_cons_self, hcount, List.count_eq_zero_of_not_mem h2]
      omega

/-- The loop runs through in `n` rounds when `n` is the number of values
`start + (d + 1) * k` that are not above `end`. -/
theorem loop_runs_of_cells {e : Engine} (hs : Slots e) {f : Int} {body : List Byte}
    {F : VM × GS → VM × GS} {d : Int} {P : VM × GS → Prop} (hF : LoopFunction e f body F d P)
    (end_ start : Int) (s : List Int) (st cv : Int → Int) (gs : GS)
    (hP : P (loop_start e f end_ start s st cv gs)) (n : Nat)
    (hn : end_ < start + (d + 1) * n) (hk : ∀ k : Nat, k < n → start + (d + 1) * k ≤ end_) :
    ∀ m k : Nat, k + m = n →
      loop_runs e f body F m ((loop_round e f F)^[k] (loop_start e f end_ start s st cv gs)) := by
  intro m
  induction m with
  | zero =>
    intro k hkn
    obtain ⟨-, hi, hl, -⟩ := loop_rounds_cells hs hF end_ start s st cv gs hP k
    have : k = n := by omega
    subst this
    show ¬ _ ≤ _
    rw [hi, hl]
    omega
  | succ m ih =>
    intro k hkn
    obtain ⟨hp, hi, hl, hfn⟩ := loop_rounds_cells hs hF end_ start s st cv gs hP k
    refine ⟨?_, hfn, hF.runs _ hp, ?_⟩
    · rw [hi, hl]
      exact hk k (by omega)
    · have := ih (k + 1) (by omega)
      rwa [Function.iterate_succ_apply'] at this

/-- Claim C34.  Let `bci_loop` be called with `func_num` on top of `end` and
`start`, for a function that runs to its `ENDF` in every state in front of a
round, adds `d >= 0` to `sal_i` and leaves `sal_limit` and `sal_func` as they
are; let `n` be the number of the values `start + (d + 1) * k` that are not
above `end`.  Then `bci_loop` stores
`start`, `end` and `func_num` in `sal_i`, `sal_limit` and `sal_func` and
reaches its `ENDF` (and ends the run when it is the outermost function) after
exactly `n` rounds, each of which calls the function once (when the function
does not call itself, the log holds `n` entries of it); in front of round `k`
the cell `sal_i` holds `start + (d + 1) * k`.  For a function that leaves
`sal_i` as it is (`d = 0`) this is `n = max(0, end - start + 1)` calls with
`sal_i = start, start + 1, ..., end`, and `sal_i = max(start, end + 1)` at the
end; for a function that adds 1 to `sal_i` (`d = 1`) and
`end = start + 2 * N - 1` it is `N` calls with `sal_i = start, start + 2, ...`. -/
theorem loop_calls {e : Engine} (hs : Slots e) {f : Int} {body : List Byte}
    {F : VM × GS → VM × GS} {d : Int} {P : VM × GS → Prop} (hf : e.fdefs f = some body)
    (hF : LoopFunction e f body F d P) (hd : 0 ≤ d)
    (end_ start : Int) (s : List Int) (st cv : Int → Int) (gs : GS)
    (hP : P (loop_start e f end_ start s st cv gs)) (n : Nat)
    (hn : end_ < start + (d + 1) * n) (hk : ∀ k : Nat, k < n → start + (d + 1) * k ≤ end_) :
    ((loop_start e f end_ start s st cv gs).1.storage (e.sal .sal_i) = start
      ∧ (loop_start e f end_ start s st cv gs).1.storage (e.sal .sal_limit) = end_
      ∧ (loop_start e f end_ start s st cv gs).1.storage (e.sal .sal_func) = f)
    ∧ (∀ frames : List GFrame,
        GReaches e (genter fpgm_bci_loop frames ⟨f :: end_ :: start :: s, st, cv⟩ gs)
          ⟨fpgm_bci_loop.dropLast.reverse, [Byte.ENDF], frames,
            ((loop_round e f F)^[n] (loop_start e f end_ start s st cv gs)).1,
            ((loop_round e f F)^[n] (loop_start e f end_ start s st cv gs)).2⟩)
    ∧ (∃ K, ∀ fuel, K ≤ fuel →
        grun e fuel (genter fpgm_bci_loop [] ⟨f :: end_ :: start :: s, st, cv⟩ gs)
          = some ((loop_round e f F)^[n] (loop_start e f end_ start s st cv gs)))
    ∧ (∀ k : Nat, k ≤ n →
        ((loop_round e f F)^[k] (loop_start e f end_ start s st cv gs)).1.storage
            (e.sal .sal_i) = start + (d + 1) * k
        ∧ ((loop_round e f F)^[k] (loop_start e f end_ start s st cv gs)).1.storage
            (e.sal .sal_limit) = end_
        ∧ ((loop_round e f F)^[k] (loop_start e f end_ start s st cv gs)).1.storage
            (e.sal .sal_func) = f)
    ∧ ((∀ x, P x →
          ∃ new, (F (x.1, x.2.entered f)).2.log = new ++ .enter f :: x.2.log
            ∧ Event.enter f ∉ new) →
        ∃ new,
          ((loop_round e f F)^[n] (loop_start e f end_ start s st cv gs)).2.log = new ++ gs.log
          ∧ new.count (.enter f) = n)
    ∧ (d = 0 →
        n = (end_ - start + 1).toNat
        ∧ ((loop_round e f F)^[n] (loop_start e f end_ start s st cv gs)).1.storage
            (e.sal .sal_i) = max start (end_ + 1))
    ∧ (d = 1 → ∀ N : Nat, end_ = start + 2 * N - 1 →
        n = N
        ∧ ((loop_round e f F)^[n] (loop_start e f end_ start s st cv gs)).1.storage
            (e.sal .sal_i) = start + 2 * N) := by
  have hcells := loop_rounds_cells hs hF end_ start s st cv gs hP
  have hruns := loop_runs_of_cells hs hF end_ start s st cv gs hP n hn hk n 0 (by omega)
  have hbody : ∀ frames : List GFrame,
      GReaches e (genter fpgm_bci_loop frames ⟨f :: end_ :: start :: s, st, cv⟩ gs)
        ⟨fpgm_bci_loop.dropLast.reverse, [Byte.ENDF], frames,
          ((loop_round e f F)^[n] (loop_start e f end_ start s st cv gs)).1,
          ((loop_round e f F)^[n] (loop_start e f end_ start s st cv gs)).2⟩ := by
    intro frames
    have h1 := loop_rounds_run hf frames n _ hruns
    refine GReaches.chain ?_ h1
    rw [fpgm_bci_loop, genter_cons]
    iterate 9 (refine GReaches.step rfl ?_; dsimp only)
    exact (GReaches.refl _).of_eq rfl
  have h0 := hcells 0
  simp only [Function.iterate_zero, id_eq, Nat.cast_zero, mul_zero, add_zero] at h0
  refine ⟨⟨h0.2.1, h0.2.2.1, h0.2.2.2⟩, hbody, ?_, fun k _ => ?_,
    fun hlog => loop_rounds_log hs hF end_ start s st cv gs hP hlog n, ?_, ?_⟩
  · obtain ⟨K, hK⟩ := grun_of_reaches (hbody []) rfl
    exact ⟨K, fun fuel hfu => hK fuel hfu⟩
  · exact ⟨(hcells k).2.1, (hcells k).2.2.1, (hcells k).2.2.2⟩
  · intro hd0
    subst hd0
    simp only [zero_add, one_mul] at hn hk
    have hnn : n = (end_ - start + 1).toNat := by
      rcases Nat.eq_zero_or_pos n with h | h
      · subst h
        simp only [Nat.cast_zero, add_zero] at hn
        omega
      · have := hk (n - 1) (by omega)
        omega
    refine ⟨hnn, ?_⟩
    rw [(hcells n).2.1]
    simp only [zero_add, one_mul]
    omega
  · intro hd1 N hN
    subst hd1
    have hnn : n = N := by
      rcases Nat.eq_zero_or_pos n with h | h
      · subst h
        simp only [Nat.cast_zero, mul_zero, add_zero] at hn
        omega
      · have := hk (n - 1) (by omega)
        have h2 : ((n - 1 : Nat) : Int) = (n : Int) - 1 := by omega
        rw [h2] at this
        omega
    refine ⟨hnn, ?_⟩
    rw [(hcells n).2.1, hnn]
    ring

/-- The function `bci_get_point_extrema` can be called by `bci_loop` in every
state with a point on the stack: it leaves `sal_i`, `sal_limit` and `sal_func`
as they are. -/
theorem extrema_loop_function {e : Engine} (hs : Slots e) :
    LoopFunction e (e.bci .bci_get_point_extrema) fpgm_bci_get_point_extrema (extrema_effect e) 0
      (fun x => x.1.stack ≠ []) := by
  have key : ∀ x : VM × GS, x.1.stack ≠ [] →
      ∃ p s, x.1.stack = p :: s
        ∧ extrema_effect e (x.1, x.2.entered (e.bci .bci_get_point_extrema))
          = (⟨(p + 1) :: s,
              extrema_step e (x.2.org x.2.zp0) (x.2.org x.2.zp1) x.1.storage (p + 1), x.1.cvt⟩,
            x.2.entered (e.bci .bci_get_point_extrema)) := by
    rintro ⟨⟨stack, st, cv⟩, gs⟩ hx
    cases stack with
    | nil => exact absurd rfl hx
    | cons p s => exact ⟨p, s, rfl, rfl⟩
  refine ⟨?_, ?_, ?_, ?_, ?_⟩
  · intro x hx frames
    obtain ⟨p, s, h1, h2⟩ := key x hx
    obtain ⟨⟨stack, st, cv⟩, gs⟩ := x
    have h1 : stack = p :: s := h1
    subst h1
    rw [h2]
    exact ⟨_, get_point_extrema_body e frames p s st cv _⟩
  · intro x hx
    obtain ⟨p, s, -, h2⟩ := key x hx
    rw [h2, add_zero]
    exact extrema_step_other e _ _ _ _ (hs.ne (by decide)) (hs.ne (by decide))
  · intro x hx
    obtain ⟨p, s, -, h2⟩ := key x hx
    rw [h2]
    exact extrema_step_other e _ _ _ _ (hs.ne (by decide)) (hs.ne (by decide))
  · intro x hx
    obtain ⟨p, s, -, h2⟩ := key x hx
    rw [h2]
    exact extrema_step_other e _ _ _ _ (hs.ne (by decide)) (hs.ne (by decide))
  · intro x hx
    obtain ⟨p, s, -, h2⟩ := key x hx
    show (loop_round e _ _ x).1.stack ≠ []
    simp only [loop_round, h2]
    exact List.cons_ne_nil _ _

set_option maxRecDepth 100000 in
/-- In the sample glyph `bci_loop` is run with `bci_get_point_extrema`,
`start` 0 and `end` 2, above the point 7: the function is called three times,
for the points 8, 9 and 10, and `sal_i` is 3 at the end. -/
theorem loop_calls_witness :
    (∃ K, ∀ fuel, K ≤ fuel →
      grun glyph_engine fuel
          (genter fpgm_bci_loop []
            ⟨(glyph_engine.bci .bci_get_point_extrema : Int) :: 2 :: 0 :: [7], glyph_storage,
              sample_cvt⟩ glyph_gs)
        = some ((loop_round glyph_engine (glyph_engine.bci .bci_get_point_extrema)
              (extrema_effect glyph_engine))^[3]
            (loop_start glyph_engine (glyph_engine.bci .bci_get_point_extrema) 2 0 [7]
              glyph_storage sample_cvt glyph_gs)))
    ∧ ((loop_round glyph_engine (glyph_engine.bci .bci_get_point_extrema)
              (extrema_effect glyph_engine))^[3]
            (loop_start glyph_engine (glyph_engine.bci .bci_get_point_extrema) 2 0 [7]
              glyph_storage sample_cvt glyph_gs)).1.stack = [10]
    ∧ ((loop_round glyph_engine (glyph_engine.bci .bci_get_point_extrema)
              (extrema_effect glyph_engine))^[3]
            (loop_start glyph_engine (glyph_engine.bci .bci_get_point_extrema) 2 0 [7]
              glyph_storage sample_cvt glyph_gs)).1.storage (glyph_engine.sal .sal_i) = 3
    ∧ ((loop_round glyph_engine (glyph_engine.bci .bci_get_point_extrema)
              (extrema_effect glyph_engine))^[3]
            (loop_start glyph_engine (glyph_engine.bci .bci_get_point_extrema) 2 0 [7]
              glyph_storage sample_cvt glyph_gs)).2.log
        = [.enter (glyph_engine.bci .bci_get_point_extrema),
            .enter (glyph_engine.bci .bci_get_point_extrema),
            .enter (glyph_engine.bci .bci_get_point_extrema)] :=
  ⟨(loop_calls glyph_engine_slots glyph_engine_get_point_extrema
      (extrema_loop_function glyph_engine_slots) (le_refl 0) 2 0 [7] glyph_storage sample_cvt
      glyph_gs (List.cons_ne_nil _ _) 3 (by decide)
      (fun k hk => by
        have h3 : (k : Int) < 3 := by exact_mod_cast hk
        simp only [zero_add, one_mul]
        omega)).2.2.1,
    by decide, by decide, by decide⟩

/-! ## The shifts of the serif links -/

theorem ldiff_31 (m : Nat) : Nat.ldiff m 31 = m / 32 * 32 := by
  apply Nat.eq_of_testBit_eq
  intro i
  have h31 : (31 : Nat) = 2 ^ 5 - 1 := by norm_num
  have h32 : (32 : Nat) = 2 ^ 5 := by norm_num
  rw [Nat.testBit_ldiff, h31, Nat.testBit_two_pow_sub_one, h32, ← Nat.shiftRight_eq_div_pow,
    ← Nat.shiftLeft_eq, Nat.testBit_shiftLeft, Nat.testBit_shiftRight]
  by_cases h : i < 5
  · simp [h]
  · have : 5 ≤ i := by omega
    simp [h, this]

theorem lor_31 (m : Nat) : m ||| 31 = m / 32 * 32 + 31 := by
  have h : m / 32 * 32 + 31 = 2 ^ 5 * (m >>> 5) ||| 31 := by
    rw [← Nat.mul_add_lt_is_or (by norm_num), Nat.shiftRight_eq_div_pow]
    ring
  rw [h]
  apply Nat.eq_of_testBit_eq
  intro i
  have h31 : (31 : Nat) = 2 ^ 5 - 1 := by norm_num
  rw [Nat.testBit_lor, Nat.testBit_lor, h31, Nat.testBit_two_pow_sub_one,
    Nat.mul_comm, ← Nat.shiftLeft_eq, Nat.testBit_shiftLeft, Nat.testBit_shiftRight]
  by_cases h : i < 5
  · simp [h]
  · have : 5 ≤ i := by omega
    simp [h, this]

/-- Clearing the five low bits of an integer in two's complement, `x & ~31`,
rounds it down to a multiple of 32, also when it is negative. -/
theorem land_lnot_31 (x : Int) : Int.land x (Int.lnot 31) = x / 32 * 32 := by
  have hn : Int.lnot 31 = Int.negSucc 31 := rfl
  rw [hn]
  cases x with
  | ofNat m =>
    show ((Nat.ldiff m 31 : Nat) : Int) = _
    rw [ldiff_31]
    push_cast
    rfl
  | negSucc m =>
    show Int.negSucc (m ||| 31) = _
    rw [lor_31]
    have : Int.negSucc m / 32 = -((m / 32 : Nat) : Int) - 1 := by
      rw [Int.negSucc_eq]
      omega
    rw [this, Int.negSucc_eq]
    push_cast
    ring

/-- Claim C36.  In `bci_action_serif_link2` and its three variants with
bounds, the computation of the position aligns the edge with the anchor and
then shifts it by `delta = DIV(FLOOR(2 * d + 32), 2 * 64)`, where `d` is the
position of the original point of the edge minus that of the original point
of the anchor: behind it the edge is at the position of the anchor plus
`delta`.  When quotients without remainder are exact, `delta` is
`2 * d + 32` rounded down to a multiple of 64 and halved, which for every
integer `d` is `(d + 16) & ~31` in two's complement, `d + 16` rounded down to
a multiple of 32; so `delta` is a multiple of 32 and
`-16 < delta - d <= 16`. -/
theorem serif_link2_shift_rounds (e : Engine) (b : Bounds) (frames : List GFrame) (edge : Int)
    (s : List Int) (st cv : Int → Int) (gs : GS) :
    GReaches e (genter (SerifAction.serif_link2.array b) frames ⟨edge :: s, st, cv⟩ gs)
      ⟨SerifAction.serif_link2.code.reverse
          ++ [Byte.FDEF, Byte.bci (SerifAction.serif_link2.fn b), Byte.PUSHB_1],
        b.checks ++ action_tail, frames, ⟨edge :: s, st, cv⟩,
        (((gs.szps 0).mdap (st (e.sal .sal_anchor))).alignrp edge).shpix edge
          (serif_link2_shift e st gs edge)⟩
    ∧ ((((gs.szps 0).mdap (st (e.sal .sal_anchor))).alignrp edge).shpix edge
          (serif_link2_shift e st gs edge)).cur 0 edge
        = gs.cur 0 (st (e.sal .sal_anchor)) + serif_link2_shift e st gs edge
    ∧ ((∀ x y : Int, y ≠ 0 → e.div (x * y) y = x) →
        serif_link2_shift e st gs edge
            = (2 * serif_link2_distance e st gs edge + 32) / 64 * 64 / 2
        ∧ serif_link2_shift e st gs edge
            = Int.land (serif_link2_distance e st gs edge + 16) (Int.lnot 31)
        ∧ serif_link2_shift e st gs edge = (serif_link2_distance e st gs edge + 16) / 32 * 32
        ∧ (32 : Int) ∣ serif_link2_shift e st gs edge
        ∧ -16 < serif_link2_shift e st gs edge - serif_link2_distance e st gs edge
        ∧ serif_link2_shift e st gs edge - serif_link2_distance e st gs edge ≤ 16) := by
  refine ⟨?_, ?_, ?_⟩
  · rw [serif_actions_shape]
    exact serif_link2_code_runs e _ _ frames edge s st cv gs
  · simp [GS.shpix, GS.alignrp, GS.mdap, GS.szps, move]
  · intro hex
    have hshift : serif_link2_shift e st gs edge
        = (serif_link2_distance e st gs edge + 16) / 32 * 32 := by
      unfold serif_link2_shift
      have h1 : (serif_link2_distance e st gs edge + serif_link2_distance e st gs edge + 32)
            / 64 * 64 * 64
          = (serif_link2_distance e st gs edge + 16) / 32 * 32 * 128 := by omega
      rw [h1]
      exact hex _ 128 (by decide)
    refine ⟨?_, ?_, hshift, ?_, ?_, ?_⟩
    · rw [hshift]
      omega
    · rw [hshift, land_lnot_31]
    · rw [hshift]
      exact Dvd.intro_left _ rfl
    · rw [hshift]
      omega
    · rw [hshift]
      omega

/-- In the sample glyph with the anchor 1, the original points of the edge 0
and of the anchor are at 100 and 150: the distance is -50 and the shift is
-64, which is `(-50 + 16) & ~31`.  The quotients of `glyph_engine` are
exact. -/
theorem serif_link2_shift_rounds_witness :
    serif_link2_distance glyph_engine (update glyph_storage 15 1) glyph_gs 0 = -50
    ∧ serif_link2_shift glyph_engine (update glyph_storage 15 1) glyph_gs 0 = -64
    ∧ serif_link2_shift glyph_engine (update glyph_storage 15 1) glyph_gs 0
        = Int.land (serif_link2_distance glyph_engine (update glyph_storage 15 1) glyph_gs 0 + 16)
            (Int.lnot 31) :=
  ⟨by decide, by decide,
    ((serif_link2_shift_rounds glyph_engine .unbounded [] 0 [] (update glyph_storage 15 1)
      sample_cvt glyph_gs).2.2 (fun x _ hy => Int.mul_tdiv_cancel x hy)).2.1⟩

/-- Claim C37.  Let quotients without remainder be exact, and let `c` be the
position of the original point of `after` minus that of `before`.  In
`bci_action_serif_link1` and its three variants with bounds the only `DIV`
in front of the last bytes is byte 77, between the `ELSE` (byte 30) and the
`EIF` (byte 88) of the `IF` in byte 24.  The run reaches this `IF` with the
result of `c = 0` on top of the three arguments.  For `c = 0` it goes through
the bytes 25 to 29, which align `edge` with `before`, to the `ELSE` and from
there behind the `EIF`: `DIV` is not executed.  For `c <> 0` it goes on behind
the `ELSE` and reaches the `DIV` with the divisor `c * 64`, which is not 0,
and from there the `EIF`.  Behind the `EIF`, in front of the checks of the
variant and the `MDAP_noround` of the last bytes, the stack holds `edge` on
top of the stack below the three arguments in both cases. -/
theorem serif_link1_div_guarded (e : Engine) (hex : ∀ x y : Int, y ≠ 0 → e.div (x * y) y = x)
    (b : Bounds) (frames : List GFrame) (before edge after : Int) (s : List Int)
    (st cv : Int → Int) (gs : GS) :
    ((SerifAction.serif_link1.array b)[24]? = some Byte.IF
      ∧ (SerifAction.serif_link1.array b)[30]? = some Byte.ELSE
      ∧ (SerifAction.serif_link1.array b)[77]? = some Byte.DIV
      ∧ (SerifAction.serif_link1.array b)[88]? = some Byte.EIF
      ∧ (SerifAction.serif_link1.array b).drop 89 = b.checks ++ action_tail
      ∧ action_tail.head? = some Byte.MDAP_noround
      ∧ ((SerifAction.serif_link1.array b).take 89).count Byte.DIV = 1)
    ∧ GReaches e
        (genter (SerifAction.serif_link1.array b) frames ⟨before :: edge :: after :: s, st, cv⟩
          gs)
        ⟨((SerifAction.serif_link1.array b).take 24).reverse,
          (SerifAction.serif_link1.array b).drop 24, frames,
          ⟨truth (serif_link1_distance e st gs before after = 0)
            :: before :: edge :: after :: s, st, cv⟩, gs.szps 0⟩
    ∧ (serif_link1_distance e st gs before after = 0 →
        GReaches e
          ⟨((SerifAction.serif_link1.array b).take 24).reverse,
            (SerifAction.serif_link1.array b).drop 24, frames,
            ⟨truth (serif_link1_distance e st gs before after = 0)
              :: before :: edge :: after :: s, st, cv⟩, gs.szps 0⟩
          ⟨((SerifAction.serif_link1.array b).take 30).reverse,
            (SerifAction.serif_link1.array b).drop 30, frames, ⟨edge :: s, st, cv⟩,
            ((gs.szps 0).mdap before).alignrp edge⟩
        ∧ gstep e
            ⟨((SerifAction.serif_link1.array b).take 30).reverse,
              (SerifAction.serif_link1.array b).drop 30, frames, ⟨edge :: s, st, cv⟩,
              ((gs.szps 0).mdap before).alignrp edge⟩
          = .next
            ⟨((SerifAction.serif_link1.array b).take 89).reverse,
              (SerifAction.serif_link1.array b).drop 89, frames, ⟨edge :: s, st, cv⟩,
              ((gs.szps 0).mdap before).alignrp edge⟩
        ∧ (((gs.szps 0).mdap before).alignrp edge).cur 0 edge = gs.cur 0 before)
    ∧ (serif_link1_distance e st gs before after ≠ 0 →
        serif_link1_divisor e st gs before after
          = serif_link1_distance e st gs before after * 64
        ∧ serif_link1_divisor e st gs before after ≠ 0
        ∧ GReaches e
          ⟨((SerifAction.serif_link1.array b).take 24).reverse,
            (SerifAction.serif_link1.array b).drop 24, frames,
            ⟨truth (serif_link1_distance e st gs before after = 0)
              :: before :: edge :: after :: s, st, cv⟩, gs.szps 0⟩
          ⟨((SerifAction.serif_link1.array b).take 77).reverse,
            (SerifAction.serif_link1.array b).drop 77, frames,
            ⟨serif_link1_divisor e st gs before after
              :: serif_link1_dividend e st gs before edge after
              :: before :: edge :: after :: s, st, cv⟩, gs.szps 0⟩
        ∧ gstep e
            ⟨((SerifAction.serif_link1.array b).take 77).reverse,
              (SerifAction.serif_link1.array b).drop 77, frames,
              ⟨serif_link1_divisor e st gs before after
                :: serif_link1_dividend e st gs before edge after
                :: before :: edge :: after :: s, st, cv⟩, gs.szps 0⟩
          = .next
            ⟨((SerifAction.serif_link1.array b).take 78).reverse,
              (SerifAction.serif_link1.array b).drop 78, frames,
              ⟨e.div (serif_link1_dividend e st gs before edge after * 64)
                  (serif_link1_divisor e st gs before after)
                :: before :: edge :: after :: s, st, cv⟩, gs.szps 0⟩
        ∧ GReaches e
          ⟨((SerifAction.serif_link1.array b).take 78).reverse,
            (SerifAction.serif_link1.array b).drop 78, frames,
            ⟨e.div (serif_link1_dividend e st gs before edge after * 64)
                (serif_link1_divisor e st gs before after)
              :: before :: edge :: after :: s, st, cv⟩, gs.szps 0⟩
          ⟨((SerifAction.serif_link1.array b).take 89).reverse,
            (SerifAction.serif_link1.array b).drop 89, frames, ⟨edge :: s, st, cv⟩,
            (((gs.szps 0).mdap before).alignrp edge).shpix edge
              (e.div (serif_link1_dividend e st gs before edge after * 64)
                (serif_link1_divisor e st gs before after))⟩) := by
  have hdiv : serif_link1_distance e st gs before after ≠ 0 →
      serif_link1_divisor e st gs before after
          = serif_link1_distance e st gs before after * 64
        ∧ serif_link1_divisor e st gs before after ≠ 0 := by
    intro hc
    have h1 : serif_link1_divisor e st gs before after
        = serif_link1_distance e st gs before after * 64 := by
      unfold serif_link1_divisor mul
      have : serif_link1_distance e st gs before after * 4096
          = serif_link1_distance e st gs before after * 64 * 64 := by ring
      rw [this]
      exact hex _ 64 (by decide)
    exact ⟨h1, by rw [h1]; omega⟩
  refine ⟨by cases b <;> decide, ?_, fun hc => ⟨?_, ?_, ?_⟩,
    fun hc => ⟨(hdiv hc).1, (hdiv hc).2, ?_, ?_, ?_⟩⟩
  · cases b <;>
    · simp only [SerifAction.array]
      first
        | rw [fpgm_bci_action_serif_link1]
        | rw [fpgm_bci_action_serif_link1_lower_bound]
        | rw [fpgm_bci_action_serif_link1_upper_bound]
        | rw [fpgm_bci_action_serif_link1_lower_upper_bound]
      rw [genter_cons]
      iterate 15 (refine GReaches.step rfl ?_; dsimp only)
      exact (GReaches.refl _).of_eq rfl
  · cases b <;>
    · simp only [SerifAction.array]
      first
        | rw [fpgm_bci_action_serif_link1]
        | rw [fpgm_bci_action_serif_link1_lower_bound]
        | rw [fpgm_bci_action_serif_link1_upper_bound]
        | rw [fpgm_bci_action_serif_link1_lower_upper_bound]
      refine GReaches.step (gstep_if_pos ((truth_ne_zero _).2 hc)) ?_
      iterate 5 (refine GReaches.step rfl ?_; dsimp only)
      exact (GReaches.refl _).of_eq rfl
  · cases b <;> rfl
  · simp [GS.alignrp, GS.mdap, GS.szps, move]
  · cases b <;>
    · simp only [SerifAction.array]
      first
        | rw [fpgm_bci_action_serif_link1]
        | rw [fpgm_bci_action_serif_link1_lower_bound]
        | rw [fpgm_bci_action_serif_link1_upper_bound]
        | rw [fpgm_bci_action_serif_link1_lower_upper_bound]
      refine GReaches.step (gstep_if_neg ((truth_eq_zero _).2 hc) rfl) ?_
      iterate 32 (refine GReaches.step rfl ?_; dsimp only)
      exact (GReaches.refl _).of_eq rfl
  · cases b <;>
    · simp only [SerifAction.array]
      first
        | rw [fpgm_bci_action_serif_link1]
        | rw [fpgm_bci_action_serif_link1_lower_bound]
        | rw [fpgm_bci_action_serif_link1_upper_bound]
        | rw [fpgm_bci_action_serif_link1_lower_upper_bound]
      exact gstep_div (hdiv hc).2
  · cases b <;>
    · simp only [SerifAction.array]
      first
        | rw [fpgm_bci_action_serif_link1]
        | rw [fpgm_bci_action_serif_link1_lower_bound]
        | rw [fpgm_bci_action_serif_link1_upper_bound]
        | rw [fpgm_bci_action_serif_link1_lower_upper_bound]
      iterate 11 (refine GReaches.step rfl ?_; dsimp only)
      exact (GReaches.refl _).of_eq rfl

/-- In the sample glyph the original points of the edges 0 and 2 are at 100
and 210: the distance is 110 and the divisor of the `DIV` is 7040. -/
theorem serif_link1_div_guarded_witness :
    serif_link1_distance glyph_engine glyph_storage glyph_gs 0 2 = 110
    ∧ serif_link1_divisor glyph_engine glyph_storage glyph_gs 0 2 = 7040
    ∧ serif_link1_divisor glyph_engine glyph_storage glyph_gs 0 2 ≠ 0 :=
  ⟨by decide, by decide,
    ((serif_link1_div_guarded glyph_engine (fun x _ hy => Int.mul_tdiv_cancel x hy) .unbounded
      [] 0 1 2 [] glyph_storage sample_cvt glyph_gs).2.2.2 (by decide)).2.1⟩

/-! ## The stretch factor -/

/-- Claim C38.  In `bci_ip_between_align_points` the `DIV` is byte 32 and no
`IF` stands in front of it: run with `after` on top of `before`, the function
reaches the `DIV` in every state, with the distance of the points `before` and
`after` below the divisor, the distance of their original twilight points.
When the divisor is not 0, `DIV` leaves the quotient; when it is 0, the
instruction fails.  With the named cells numbered apart the divisor is the
position of the original point of `before` minus that of `after`, so it is 0
exactly when the two original positions are equal; and when a quotient keeps
its value under a change of both signs, the quotient is that of
`after_pos - before_pos` and `after_orig_pos - before_orig_pos`. -/
theorem ip_between_div_unguarded (e : Engine) (frames : List GFrame) (after before : Int)
    (s : List Int) (st cv : Int → Int) (gs : GS) :
    (fpgm_bci_ip_between_align_points[32]? = some Byte.DIV
      ∧ (fpgm_bci_ip_between_align_points.take 32).count Byte.IF = 0
      ∧ fpgm_bci_ip_between_align_points.count Byte.DIV = 1)
    ∧ GReaches e
        (genter fpgm_bci_ip_between_align_points frames ⟨after :: before :: s, st, cv⟩ gs)
        ⟨(fpgm_bci_ip_between_align_points.take 32).reverse,
          fpgm_bci_ip_between_align_points.drop 32, frames,
          ⟨ip_between_divisor e st gs before after :: ip_between_dividend gs before after :: s,
            ip_between_storage e st gs before, cv⟩,
          (gs.szps 0).mdap before⟩
    ∧ (ip_between_divisor e st gs before after ≠ 0 →
        gstep e
            ⟨(fpgm_bci_ip_between_align_points.take 32).reverse,
              fpgm_bci_ip_between_align_points.drop 32, frames,
              ⟨ip_between_divisor e st gs before after
                :: ip_between_dividend gs before after :: s,
                ip_between_storage e st gs before, cv⟩,
              (gs.szps 0).mdap before⟩
          = .next
            ⟨(fpgm_bci_ip_between_align_points.take 33).reverse,
              fpgm_bci_ip_between_align_points.drop 33, frames,
              ⟨e.div (ip_between_dividend gs before after * 64)
                  (ip_between_divisor e st gs before after) :: s,
                ip_between_storage e st gs before, cv⟩,
              (gs.szps 0).mdap before⟩)
    ∧ (ip_between_divisor e st gs before after = 0 →
        gstep e
            ⟨(fpgm_bci_ip_between_align_points.take 32).reverse,
              fpgm_bci_ip_between_align_points.drop 32, frames,
              ⟨ip_between_divisor e st gs before after
                :: ip_between_dividend gs before after :: s,
                ip_between_storage e st gs before, cv⟩,
              (gs.szps 0).mdap before⟩
          = .fail)
    ∧ (Slots e →
        ip_between_divisor e st gs before after
            = gs.cur 0 (before + st (e.sal .sal_num_segments))
              - gs.cur 0 (after + st (e.sal .sal_num_segments))
        ∧ (ip_between_divisor e st gs before after = 0
            ↔ gs.cur 0 (after + st (e.sal .sal_num_segments))
              = gs.cur 0 (before + st (e.sal .sal_num_segments)))
        ∧ ((∀ x y : Int, e.div (-x) (-y) = e.div x y) →
            e.div (ip_between_dividend gs before after * 64)
                (ip_between_divisor e st gs before after)
              = e.div ((gs.cur 0 after - gs.cur 0 before) * 64)
                  (gs.cur 0 (after + st (e.sal .sal_num_segments))
                    - gs.cur 0 (before + st (e.sal .sal_num_segments))))) := by
  refine ⟨by decide, ?_, fun h => ?_, fun h => ?_, fun hs => ?_⟩
  · rw [fpgm_bci_ip_between_align_points, genter_cons]
    iterate 23 (refine GReaches.step rfl ?_; dsimp only)
    exact (GReaches.refl _).of_eq rfl
  · rw [fpgm_bci_ip_between_align_points]
    exact gstep_div h
  · rw [fpgm_bci_ip_between_align_points]
    simp [gstep, gexec, pure_op, exec_op, h]
  · have hd : ip_between_divisor e st gs before after
        = gs.cur 0 (before + st (e.sal .sal_num_segments))
          - gs.cur 0 (after + st (e.sal .sal_num_segments)) := by
      unfold ip_between_divisor ip_between_storage
      rw [update_other _ _ _ (hs.ne (by decide))]
    refine ⟨hd, ?_, fun hneg => ?_⟩
    · rw [hd]
      constructor <;> intro h <;> omega
    · rw [hd, ← hneg]
      unfold ip_between_dividend
      congr 1 <;> ring

/-! ## The least stem width -/

/-- The middle part of the reference code gives at least 48 for a distance of
at least 56, whatever the standard width is. -/
theorem spec_stem_fit_ge (std_width dist : Int) (h : 56 ≤ dist) :
    48 ≤ spec_stem_fit std_width dist := by
  unfold spec_stem_fit
  split_ifs
  · omega
  · omega
  · omega
  · omega
  · omega
  · omega
  · rw [spec_round_of_nonneg dist (by omega)]
    omega

/-- Claim C39.  When the function table holds `bci_round` and
`bci_compute_stem_width` does not return early (the slot `sal_is_extra_light`
is 0, and not both `stem_is_serif` is set and `|width| < 192`), the run ends
with a value `r` in place of the three arguments with `|r| >= 48`, for every
width and every value of the standard width in the CVT, also 0 or below; `r`
is the value of the reference code, `+-max(std_width, 48)` when the distance
snaps to the standard width. -/
theorem stem_width_at_least (e : Engine)
    (hround : e.fdefs (e.bci .bci_round) = some fpgm_bci_round) (font : FONT)
    (width stem_is_serif base_is_round : Int) (s : List Int) (st cv : Int → Int)
    (hx : st (e.sal .sal_is_extra_light) = 0)
    (hs : ¬ (stem_is_serif ≠ 0 ∧ |width| < 192)) :
    ∃ r : Int,
      (∃ K, ∀ fuel, K ≤ fuel →
        run e fuel (enter (stem_width_function font) []
            ⟨width :: stem_is_serif :: base_is_round :: s, st, cv⟩) = some ⟨r :: s, st, cv⟩)
      ∧ r = spec_stem_width width stem_is_serif base_is_round (st (e.sal .sal_is_extra_light))
          (cv ((unsigned_char font.CVT_VERT_WIDTHS_OFFSET : Nat) : Int))
      ∧ 48 ≤ |r|
      ∧ (|spec_stem_min base_is_round |width|
            - cv ((unsigned_char font.CVT_VERT_WIDTHS_OFFSET : Nat) : Int)| < 40 →
          |r| = max (cv ((unsigned_char font.CVT_VERT_WIDTHS_OFFSET : Nat) : Int)) 48) := by
  obtain ⟨bef, hb⟩ := stem_width_body hround font [] width stem_is_serif base_is_round s st cv
  refine ⟨_, run_of_reaches hb (step_endf_halt e bef _), rfl, ?_, ?_⟩
  · have h : ¬ ((stem_is_serif ≠ 0 ∧ |width| < 3 * 64)
        ∨ st (e.sal .sal_is_extra_light) ≠ 0) := by
      rintro (h1 | h1)
      · exact hs h1
      · exact h1 hx
    have hge := spec_stem_fit_ge (cv ((unsigned_char font.CVT_VERT_WIDTHS_OFFSET : Nat) : Int))
      (spec_stem_min base_is_round |width|) (spec_stem_min_ge _ _)
    rw [spec_stem_width, if_neg h]
    split_ifs
    · rw [abs_neg, abs_of_pos (by omega)]
      exact hge
    · rw [abs_of_pos (by omega)]
      exact hge
  · intro hsnap
    have h : ¬ ((stem_is_serif ≠ 0 ∧ |width| < 3 * 64)
        ∨ st (e.sal .sal_is_extra_light) ≠ 0) := by
      rintro (h1 | h1)
      · exact hs h1
      · exact h1 hx
    have hfit : spec_stem_fit (cv ((unsigned_char font.CVT_VERT_WIDTHS_OFFSET : Nat) : Int))
          (spec_stem_min base_is_round |width|)
        = max (cv ((unsigned_char font.CVT_VERT_WIDTHS_OFFSET : Nat) : Int)) 48 := by
      rw [spec_stem_fit, if_pos hsnap]
      split_ifs with h48
      · exact (max_eq_right (le_of_lt h48)).symm
      · exact (max_eq_left (not_lt.1 h48)).symm
    have hpos : (0 : Int) < max (cv ((unsigned_char font.CVT_VERT_WIDTHS_OFFSET : Nat) : Int)) 48 :=
      lt_of_lt_of_le (by decide) (le_max_right _ _)
    rw [spec_stem_width, if_neg h, hfit]
    split_ifs
    · rw [abs_neg, abs_of_pos hpos]
    · rw [abs_of_pos hpos]

/-- With `sample_engine` and `small_cvt_font`, for a standard width of 30 in
cell 12 of the CVT, the width -10 of a stem that is neither a serif nor round
becomes -48.  In the reference code the width 10 becomes 56 for the standard
width -20, and the width 100 becomes 118 for the standard width 0. -/
theorem stem_width_at_least_witness :
    (∃ r : Int,
      (∃ K, ∀ fuel, K ≤ fuel →
        run sample_engine fuel (enter (stem_width_function small_cvt_font) []
            ⟨[-10, 0, 0], sample_storage, update sample_cvt 12 30⟩)
          = some ⟨[r], sample_storage, update sample_cvt 12 30⟩)
      ∧ r = spec_stem_width (-10) 0 0 (sample_storage (sample_engine.sal .sal_is_extra_light))
          (update sample_cvt 12 30
            ((unsigned_char small_cvt_font.CVT_VERT_WIDTHS_OFFSET : Nat) : Int))
      ∧ 48 ≤ |r|
      ∧ (|spec_stem_min 0 |(-10 : Int)|
            - update sample_cvt 12 30
                ((unsigned_char small_cvt_font.CVT_VERT_WIDTHS_OFFSET : Nat) : Int)| < 40 →
          |r| = max (update sample_cvt 12 30
              ((unsigned_char small_cvt_font.CVT_VERT_WIDTHS_OFFSET : Nat) : Int)) 48))
    ∧ spec_stem_width (-10) 0 0 (sample_storage (sample_engine.sal .sal_is_extra_light))
          (update sample_cvt 12 30
            ((unsigned_char small_cvt_font.CVT_VERT_WIDTHS_OFFSET : Nat) : Int)) = -48
    ∧ spec_stem_width 10 0 0 0 (-20) = 56
    ∧ spec_stem_width 100 0 0 0 0 = 118 :=
  ⟨stem_width_at_least sample_engine sample_engine_round small_cvt_font (-10) 0 0 []
      sample_storage (update sample_cvt 12 30) (by decide) (by decide),
    by decide, by decide, by decide⟩

/-! ## The hinting range of the front end -/

theorem spin_value_range (v : Int) : 2 ≤ spin_value v ∧ spin_value v ≤ 10000 := by
  unfold spin_value
  split_ifs <;> constructor <;> omega

theorem spin_value_of_range (v : Int) (h1 : 2 ≤ v) (h2 : v ≤ 10000) : spin_value v = v := by
  unfold spin_value
  split_ifs <;> omega

/-- Claim C40.  Let the values of `min_box` and `max_box` lie in the range 2
to 10000, as they do after `create_layout`.  Then `check_min` returns, leaves
`min_box` as it is and sets `max_box` to the minimum exactly when the minimum
is above the maximum; `check_max` returns, leaves `max_box` as it is and sets
`min_box` to the maximum exactly when the maximum is below the minimum; no
other widget changes.  After either slot both values are in the range and
`min_box <= max_box`, and `Main_GUI::run` passes them to `TTF_autohint` as
`hinting-range-min` and `hinting-range-max`. -/
theorem range_stays_ordered (gui : Main_GUI) (fuel : Nat) (hr : gui.in_range) (hf : 2 ≤ fuel) :
    (∀ a b : Int, (create_spin_boxes a b).1 = spin_value a ∧ (create_spin_boxes a b).2 = spin_value b
      ∧ 2 ≤ (create_spin_boxes a b).1 ∧ (create_spin_boxes a b).1 ≤ 10000
      ∧ 2 ≤ (create_spin_boxes a b).2 ∧ (create_spin_boxes a b).2 ≤ 10000)
    ∧ check_min fuel gui
        = some { gui with
            max_box := if gui.min_box > gui.max_box then gui.min_box else gui.max_box }
    ∧ check_max fuel gui
        = some { gui with
            min_box := if gui.max_box < gui.min_box then gui.max_box else gui.min_box }
    ∧ (∀ g, check_min fuel gui = some g ∨ check_max fuel gui = some g →
        g.in_range ∧ g.min_box ≤ g.max_box
        ∧ (run_arguments g)[2]? = some (.integer g.min_box)
        ∧ (run_arguments g)[3]? = some (.integer g.max_box)
        ∧ 2 ≤ g.min_box ∧ g.min_box ≤ g.max_box) := by
  obtain ⟨h1, h2, h3, h4⟩ := hr
  obtain ⟨k, rfl⟩ : ∃ k, fuel = k + 2 := ⟨fuel - 2, by omega⟩
  have hmin : check_min (k + 2) gui
      = some { gui with
          max_box := if gui.min_box > gui.max_box then gui.min_box else gui.max_box } := by
    unfold check_min
    by_cases h : gui.min_box > gui.max_box
    · have hne : spin_value gui.min_box ≠ gui.max_box := by
        rw [spin_value_of_range _ h1 h2]
        omega
      rw [check_boxes, if_pos h, if_neg hne, spin_value_of_range _ h1 h2, check_boxes,
        if_neg (by simp), if_pos h]
    · rw [check_boxes, if_neg h, if_neg h]
  have hmax : check_max (k + 2) gui
      = some { gui with
          min_box := if gui.max_box < gui.min_box then gui.max_box else gui.min_box } := by
    unfold check_max
    by_cases h : gui.max_box < gui.min_box
    · have hne : spin_value gui.max_box ≠ gui.min_box := by
        rw [spin_value_of_range _ h3 h4]
        omega
      rw [check_boxes, if_pos h, if_neg hne, spin_value_of_range _ h3 h4, check_boxes,
        if_neg (by simp), if_pos h]
    · rw [check_boxes, if_neg h, if_neg h]
  refine ⟨fun a b => ⟨rfl, rfl, (spin_value_range a).1, (spin_value_range a).2,
    (spin_value_range b).1, (spin_value_range b).2⟩, hmin, hmax, ?_⟩
  intro g hg
  rcases hg with hg | hg
  · rw [hmin] at hg
    cases hg
    by_cases h : gui.min_box > gui.max_box
    · simp only [if_pos h]
      exact ⟨⟨h1, h2, h1, h2⟩, le_refl _, rfl, rfl, h1, le_refl _⟩
    · simp only [if_neg h]
      exact ⟨⟨h1, h2, h3, h4⟩, by omega, rfl, rfl, h1, by omega⟩
  · rw [hmax] at hg
    cases hg
    by_cases h : gui.max_box < gui.min_box
    · simp only [if_pos h]
      exact ⟨⟨h3, h4, h3, h4⟩, le_refl _, rfl, rfl, h3, le_refl _⟩
    · simp only [if_neg h]
      exact ⟨⟨h1, h2, h3, h4⟩, by omega, rfl, rfl, h1, by omega⟩

/-- The spin boxes created for the range 50 to 10: `check_min` raises the
maximum to 50, `check_max` lowers the minimum to 10. -/
theorem range_stays_ordered_witness :
    create_spin_boxes 50 10 = (50, 10)
    ∧ check_min 2 { sample_gui with min_box := 50, max_box := 10 }
        = some { sample_gui with min_box := 50, max_box := 50 }
    ∧ check_max 2 { sample_gui with min_box := 50, max_box := 10 }
        = some { sample_gui with min_box := 10, max_box := 10 } :=
  ⟨by decide,
    (range_stays_ordered { sample_gui with min_box := 50, max_box := 10 } 2
      ⟨by decide, by decide, by decide, by decide⟩ (le_refl 2)).2.1,
    (range_stays_ordered { sample_gui with min_box := 50, max_box := 10 } 2
      ⟨by decide, by decide, by decide, by decide⟩ (le_refl 2)).2.2.1⟩

end TTFAutohint
